import Mathlib

/-! NumCosmo: the sampling catalog (`ncm_mset_catalog.c`) and the distance engine
(`nc_distance.c`).

A shallow embedding of the identifier bookkeeping of `NcmMSetCatalog` and of its
synchronisation with the FITS table behind it, of the convergence diagnostics and
the estimators of the catalog, of the distance and time functions of
`NcDistance`, of `ncm_vector_set_from_variant` (`ncm_vector.c`) and of the free
parameters of a parameter set, followed by the properties proved about them.

Conventions of the embedding.

* Fatal exits (`g_error`, a failed `g_assert`, `NCM_FITS_ERROR` on a non-zero
  status) abort the process; they are the `Except.error` results below.
* The four identifiers are `gint`.  Signed overflow is undefined in C, so they are
  mathematical integers here; the places where the source converts an identifier
  to `guint` (`rows_to_add`, `offset`, `chain_id`) reduce modulo `2 ^ 32`.
* The generator strings (`rng_inis`, `rng_stat`) and the header cards that hold
  them are left out: no branch on identifiers or rows reads them.
* The doubles that the numerical code computes with are exact: a finite double is
  an element of an ordered field, next to NaN and the two infinities.  The
  functions of the C library, of GSL and of the other parts of the library that
  are not among the sources are parameters.
-/

namespace NumCosmo

/-! ## Values and vectors -/

/-- A `gdouble`: the two infinities `GSL_NEGINF` and `GSL_POSINF`, and the finite
values.  The catalog copies and compares values and never computes with them in
the code embedded here, so a finite value is stood for by an integer. -/
inductive GDouble where
  | neginf : GDouble
  | fin (v : Int) : GDouble
  | posinf : GDouble
deriving DecidableEq, Repr

/-- The comparison `a > b` of two `gdouble`s. -/
def GDouble.gt : GDouble → GDouble → Bool
  | .neginf, _ => false
  | .fin _, .neginf => true
  | .fin a, .fin b => decide (b < a)
  | .fin _, .posinf => false
  | .posinf, .posinf => false
  | .posinf, _ => true

/-- The macro `GSL_MAX (a, b)`, that is `((a) > (b) ? (a) : (b))`. -/
def GSL_MAX (a b : GDouble) : GDouble := if a.gt b then a else b

/-- The macro `GSL_MIN (a, b)`, that is `((a) < (b) ? (a) : (b))`. -/
def GSL_MIN (a b : GDouble) : GDouble := if b.gt a then a else b

/-- An `NcmVector`: the sequence of its components. -/
abbrev NcmVector := List GDouble

/-- The call `ncm_vector_set_all (v, val)`: every component becomes `val`, the
length stays. -/
def ncm_vector_set_all (v : NcmVector) (val : GDouble) : NcmVector :=
  List.replicate v.length val

/-- Conversion of a `gint` value to `guint`: reduction modulo `2 ^ 32`. -/
def toGuint (z : Int) : Nat := (z % 4294967296).toNat

/-- A `guint` read as a `gint` (a `guint` handed to the backend as `TINT`): the
values from `2 ^ 31` on are the negative ones. -/
def toGint (n : Nat) : Int :=
  if n % 4294967296 < 2147483648 then (n % 4294967296 : Nat) else (n % 4294967296 : Nat) - 4294967296

/-! ## Fatal exits -/

/-- The ways the embedded functions abort. -/
inductive Fatal where
  /-- The assertion `g_assert (mcat->fptr != NULL)` that opens `ncm_mset_catalog_sync`. -/
  | sync_fptr_null : Fatal
  /-- The assertion `g_assert_cmpstr (fptr_filename, ==, mcat->file)`. -/
  | sync_filename : Fatal
  /-- The exit `g_error ("... file data & catalog mismatch, they do not intersect ...")`. -/
  | sync_mismatch : Fatal
  /-- The exit `NCM_FITS_ERROR (status)`: the backend refused a row index. -/
  | fits_row : Fatal
  /-- A row index past the end of an accumulator's row buffer. -/
  | stats_vec_row : Fatal
  /-- The assertion `g_assert_cmpint (mcat->file_first_id, ==, mcat->first_id)` that
  closes the first block of `ncm_mset_catalog_sync`. -/
  | sync_first_id : Fatal
  /-- The exit `g_error ("... cannot change run type string in a non-empty catalog ...")`. -/
  | set_run_type_nonempty : Fatal
  /-- The exit `g_error ("... incompatible run type strings from catalog and file ...")`. -/
  | open_rtype : Fatal
  /-- The assertion `g_assert_cmpint (nchains, >, 0)` on the chain count of the file. -/
  | open_nchains_assert : Fatal
  /-- The exit `g_error ("... catalog has %d chains and file contains %d.")`. -/
  | open_nchains : Fatal
  /-- The exit `g_error ("... catalog has %d additional values and file contains %d.")`. -/
  | open_nadd_vals : Fatal
  /-- The exit `g_error ("... catalog %s weighted and file %s.")`. -/
  | open_weighted : Fatal
  /-- The exit `g_error ("... cannot create catalog file ... not found.")`. -/
  | constructed_no_file : Fatal
  /-- The assertion `g_assert_not_reached ()` in the flush-mode switch. -/
  | fmode_not_reached : Fatal
  /-- The assertion `g_assert_cmpint (mcat->file_first_id, ==, mcat->first_id)`. -/
  | set_first_id_file_first : Fatal
  /-- The assertion `g_assert_cmpint (mcat->file_cur_id, ==, mcat->cur_id)`. -/
  | set_first_id_file_cur : Fatal
  /-- The exit `g_error ("... cannot modify first_id to %d in a non-empty catalog ...")`. -/
  | set_first_id_nonempty : Fatal
  /-- The exit `g_error ("ncm_mset_catalog_get_shrink_factor[ncm_matrix_cholesky_decomp]: %d.")`. -/
  | shrink_cholesky_decomp : Fatal
  /-- The exit `g_error ("ncm_mset_catalog_get_shrink_factor[ncm_matrix_cholesky_inverse]: %d.")`. -/
  | shrink_cholesky_inverse : Fatal
  /-- The assertion `g_assert_not_reached ()` in the curvature switch of
  `nc_distance_transverse`. -/
  | transverse_not_reached : Fatal
  /-- The assertion `g_assert (ncm_model_impl (NCM_MODEL (cosmo)) & NC_HICOSMO_IMPL_bgp_cs2)`
  of `nc_distance_sound_horizon`. -/
  | sound_horizon_bgp_cs2 : Fatal
  /-- The exit `g_error ("ncm_vector_set_from_variant: Cannot convert ... variant to an array
  of doubles")`. -/
  | vector_variant_type : Fatal
  /-- The exit `g_error ("set_property: cannot set vector values, variant contains %zu childs
  but vector dimension is %u")`. -/
  | vector_variant_size : Fatal
  /-- A model id under which the parameter set holds no model. -/
  | mset_model_not_set : Fatal
  /-- A parameter id past the last parameter of a model. -/
  | mset_param_index : Fatal
  /-- A free-parameter index past the last free parameter of the parameter set. -/
  | mset_fparam_index : Fatal
  /-- The assertion `g_assert_cmpuint (p_val->len, >, 1)` of the two interval estimators. -/
  | calc_p_val_len : Fatal
  /-- The assertion `g_assert_cmpuint (burnin, <, ncm_mset_catalog_len (mcat))` of the
  estimators. -/
  | calc_burnin : Fatal
  /-- The assertion `g_assert_cmpuint (dim, ==, 1)` of `ncm_mset_catalog_calc_distrib`. -/
  | calc_distrib_dim : Fatal
  /-- The assertion that the parameter of `ncm_mset_catalog_calc_param_distrib` is free. -/
  | calc_param_not_free : Fatal
  /-- The assertion `g_assert_cmpuint (add_param, <, mcat->nadd_vals)`. -/
  | calc_add_param : Fatal
  /-- The assertion `g_assert_cmpfloat (p, >, 0.0)` on a p-value. -/
  | calc_p_low : Fatal
  /-- The assertion `g_assert_cmpfloat (p, <, 1.0)` on a p-value. -/
  | calc_p_high : Fatal
  /-- The row loop of an estimator got `NULL` from `ncm_mset_catalog_peek_row` and reads
  through it. -/
  | calc_row_null : Fatal
  /-- A store past the end of the workspace `mcat->quantile_ws`. -/
  | quantile_ws_offset : Fatal
  /-- The remainder `i % (cat_len / 100)` taken with `cat_len / 100 == 0`. -/
  | calc_progress_zero : Fatal
deriving DecidableEq, Repr

/-! ## The statistics accumulator (`NcmStatsVec`) -/

/-- Modelled from the spec: `NcmStatsVec` (`ncm_stats_vec.c` is not among the
sources).  The spec's Online Statistics Accumulator keeps running statistics,
which are functions of the rows absorbed, and a retained row buffer, into which
`update` pushes the working vector and `prepend` / `append` insert a historical
row at the beginning / end.  The buffer is there when the accumulator was
created with `save_x`, the third argument of `ncm_stats_vec_new`: the catalog
passes `TRUE` for its global accumulator, the only one whose rows it reads, and
`FALSE` for its chain accumulators and for `mean_pstats`.  `save_x` is that
flag; the buffer `saved_x` is kept in buffer order and stays empty in an
accumulator created without `save_x`; `absorbed` stands for the running
statistics: the vectors they have taken in since the last reset, in the order of
the updates; `wts` holds the weight each of these vectors came with (that of a
prepended vector first); and `x` is the working vector returned by
`ncm_stats_vec_peek_x`. -/
structure NcmStatsVec where
  save_x : Bool
  x : NcmVector
  saved_x : List NcmVector
  wts : List GDouble
  absorbed : List NcmVector
deriving DecidableEq, Repr

/-- Modelled from the spec: `ncm_stats_vec_new (len, t, save_x)`, an accumulator
for vectors of `len` components that has absorbed nothing, with a retained row
buffer when `save_x` is set. -/
def ncm_stats_vec_new (len : Nat) (save_x : Bool) : NcmStatsVec :=
  { save_x := save_x, x := List.replicate len (.fin 0), saved_x := [], wts := [],
    absorbed := [] }

/-- Modelled from the spec: the running count `nitens` of an accumulator, the
number of updates absorbed into its running statistics. -/
def NcmStatsVec.nitens (sv : NcmStatsVec) : Nat := sv.wts.length

/-- Modelled from the spec: `ncm_stats_vec_nrows (svec)`, the number of rows in
the retained row buffer. -/
def ncm_stats_vec_nrows (sv : NcmStatsVec) : Nat := sv.saved_x.length

/-- Modelled from the spec: `ncm_stats_vec_update_weight (svec, w)` absorbs the
working vector with weight `w`; an accumulator with `save_x` keeps it at the end
of the buffer. -/
def ncm_stats_vec_update_weight (sv : NcmStatsVec) (w : GDouble) : NcmStatsVec :=
  { sv with saved_x := if sv.save_x then sv.saved_x ++ [sv.x] else sv.saved_x,
            wts := sv.wts ++ [w], absorbed := sv.absorbed ++ [sv.x] }

/-- Modelled from the spec: `ncm_stats_vec_update (svec)`, the unweighted update,
absorbs the working vector with weight `1.0`. -/
def ncm_stats_vec_update (sv : NcmStatsVec) : NcmStatsVec :=
  ncm_stats_vec_update_weight sv (.fin 1)

/-- Modelled from the spec: `ncm_stats_vec_prepend (svec, x, dup)` absorbs the
historical row `x`; an accumulator with `save_x` inserts it at the beginning of
the retained row buffer. -/
def ncm_stats_vec_prepend (sv : NcmStatsVec) (x : NcmVector) : NcmStatsVec :=
  { sv with saved_x := if sv.save_x then x :: sv.saved_x else sv.saved_x,
            wts := .fin 1 :: sv.wts, absorbed := sv.absorbed ++ [x] }

/-- Modelled from the spec: `ncm_stats_vec_append (svec, x, dup)` absorbs the
historical row `x`; an accumulator with `save_x` inserts it at the end of the
retained row buffer. -/
def ncm_stats_vec_append (sv : NcmStatsVec) (x : NcmVector) : NcmStatsVec :=
  { sv with saved_x := if sv.save_x then sv.saved_x ++ [x] else sv.saved_x,
            wts := sv.wts ++ [.fin 1], absorbed := sv.absorbed ++ [x] }

/-- Modelled from the spec: `ncm_stats_vec_prepend_data (svec, data, dup)` absorbs
the rows of `data`; an accumulator with `save_x` inserts them at the beginning
of the retained row buffer "without perturbing identifier semantics": the block
keeps its order, so that the row of the smallest identifier comes first. -/
def ncm_stats_vec_prepend_data (sv : NcmStatsVec) (data : List NcmVector) : NcmStatsVec :=
  { sv with saved_x := if sv.save_x then data ++ sv.saved_x else sv.saved_x,
            wts := List.replicate data.length (.fin 1) ++ sv.wts,
            absorbed := sv.absorbed ++ data }

/-- Modelled from the spec: `ncm_stats_vec_append_data (svec, data, dup)` absorbs
the rows of `data`; an accumulator with `save_x` inserts them, in order, at the
end of the retained row buffer. -/
def ncm_stats_vec_append_data (sv : NcmStatsVec) (data : List NcmVector) : NcmStatsVec :=
  { sv with saved_x := if sv.save_x then sv.saved_x ++ data else sv.saved_x,
            wts := sv.wts ++ List.replicate data.length (.fin 1),
            absorbed := sv.absorbed ++ data }

/-- Modelled from the spec: `ncm_stats_vec_peek_row (svec, i)`, the row at 0-based
position `i` of the retained row buffer.  A position past the end is outside the
buffer: it is a fatal exit here. -/
def ncm_stats_vec_peek_row (sv : NcmStatsVec) (i : Nat) : Except Fatal NcmVector :=
  match sv.saved_x[i]? with
  | some row => .ok row
  | none => .error .stats_vec_row

/-- Modelled from the spec: `ncm_stats_vec_reset (svec, rm_saved)` zeroes the
running statistics, and with `rm_saved` also forgets the accumulated row
history; the working vector stays allocated. -/
def ncm_stats_vec_reset (sv : NcmStatsVec) ( rm_saved : Bool) : NcmStatsVec :=
  if rm_saved then { sv with saved_x := [], wts := [], absorbed := [] }
  else { sv with wts := [], absorbed := [] }

/-! ## The FITS table behind the catalog -/

/-- The binary table of an open FITS file, as the catalog uses it (the Persisted
Table Backend of the spec: rows read and written by 1-based index, rows inserted
and deleted by range, and header cards).  A table row is kept in the catalog's
column order: `porder` is a fixed renaming of the columns that
`_ncm_mset_catalog_write_row` and `_ncm_mset_catalog_read_row` both go through,
component `i` of a row living in column `porder[i]`. -/
structure FitsTable where
  /-- The name `fits_file_name` reports for the handle. -/
  filename : String
  /-- The number of columns of the table. -/
  ncols : Nat
  /-- The rows of the table; row `k` (1-based) is `rows[k - 1]`. -/
  rows : List NcmVector
  /-- The card `NCM_MSET_CATALOG_FIRST_ID_LABEL`. -/
  first_id_key : Int
  /-- The card `NCM_MSET_CATALOG_NROWS_LABEL`. -/
  nrows_key : Int
  /-- The card `NCM_MSET_CATALOG_RTYPE_LABEL`. -/
  rtype_key : String
  /-- The card `NCM_MSET_CATALOG_NCHAINS_LABEL`, an integer read as `TINT`. -/
  nchains_key : Int
  /-- The card `NCM_MSET_CATALOG_NADDVAL_LABEL`, an integer read as `TINT`. -/
  naddval_key : Int
  /-- The card `NCM_MSET_CATALOG_WEIGHTED_LABEL`. -/
  weighted_key : Bool
deriving DecidableEq, Repr

/-- The call `fits_insert_rows (fptr, 0, nrows, &status)`: `nrows` blank
(zero-filled) rows are inserted after row 0, that is at the head of the table. -/
def fits_insert_rows_head (t : FitsTable) (nrows : Nat) : FitsTable :=
  { t with rows := List.replicate nrows (List.replicate t.ncols (.fin 0)) ++ t.rows }

/-- The call `fits_delete_rows (fptr, 1, nrows, &status)`: the first `nrows` rows
are removed; the backend refuses to delete more rows than the table has. -/
def fits_delete_rows_head (t : FitsTable) (nrows : Nat) : Except Fatal FitsTable :=
  if nrows ≤ t.rows.length then .ok { t with rows := t.rows.drop nrows }
  else .error .fits_row

/-- The function `_ncm_mset_catalog_write_row (mcat, row, row_index)`: the
components of `row` are written to row `row_index` of the table (1-based).  An
index inside the table overwrites that row, the index right after the last row
appends one row (the table is append-only and grows by writing past its end),
and any other index is refused by the backend. -/
def _ncm_mset_catalog_write_row (t : FitsTable) (row : NcmVector) (row_index : Nat) :
    Except Fatal FitsTable :=
  if row_index = 0 then .error .fits_row
  else if row_index ≤ t.rows.length then .ok { t with rows := t.rows.set (row_index - 1) row }
  else if row_index = t.rows.length + 1 then .ok { t with rows := t.rows ++ [row] }
  else .error .fits_row

/-- The function `_ncm_mset_catalog_read_row (mcat, row, row_index)`: the
components of row `row_index` of the table (1-based) are read into `row`.  An
index outside `1 .. nrows` is refused by the backend. -/
def _ncm_mset_catalog_read_row (t : FitsTable) (row_index : Nat) : Except Fatal NcmVector :=
  if row_index = 0 then .error .fits_row
  else
    match t.rows[row_index - 1]? with
    | some row => .ok row
    | none => .error .fits_row

/-! ## The catalog -/

/-- The enumeration `NcmMSetCatalogFlush`; `len` is the end marker
`NCM_MSET_CATALOG_FLUSH_LEN` that `ncm_mset_catalog_init` starts from. -/
inductive NcmMSetCatalogFlush where
  | disable : NcmMSetCatalogFlush
  | auto : NcmMSetCatalogFlush
  | timed : NcmMSetCatalogFlush
  | len : NcmMSetCatalogFlush
deriving DecidableEq, Repr

/-- The fields of `NcmMSetCatalog` that the embedded functions read or write.
`fparams_len` is `ncm_mset_fparams_len (mcat->mset)`; `flush_due` stands for the
test `g_timer_elapsed (mcat->flush_timer, NULL) > mcat->flush_interval`; `fptr`
is the open handle, with the table it gives access to, or `none` for `NULL`. -/
structure NcmMSetCatalog where
  fparams_len : Nat
  nadd_vals : Nat
  weighted : Bool
  nchains : Nat
  rtype_str : Option String
  fmode : NcmMSetCatalogFlush
  flush_due : Bool
  pstats : NcmStatsVec
  chain_pstats : List NcmStatsVec
  mean_pstats : Option NcmStatsVec
  params_max : NcmVector
  params_min : NcmVector
  cur_id : Int
  first_id : Int
  file_cur_id : Int
  file_first_id : Int
  file : Option String
  fptr : Option FitsTable
deriving DecidableEq, Repr

/-- The function `_ncm_mset_catalog_flush_file`: the row count
`file_cur_id - file_first_id + 1` goes to the card `NROWS`. -/
def _ncm_mset_catalog_flush_file (mcat : NcmMSetCatalog) (t : FitsTable) : FitsTable :=
  { t with nrows_key := mcat.file_cur_id - mcat.file_first_id + 1 }

/-- The loops of `ncm_mset_catalog_sync` that copy rows from memory to the table:
`for (i = 0; i < rows_to_add; i++)` with the body
`row = ncm_stats_vec_peek_row (mcat->pstats, offset + i);`
`_ncm_mset_catalog_write_row (mcat, row, offset + i + 1);`.
The first argument counts the iterations left, `i` is the loop variable. -/
def sync_write_loop (sv : NcmStatsVec) (offset : Nat) :
    Nat → Nat → FitsTable → Except Fatal FitsTable
  | 0, _, t => .ok t
  | n + 1, i, t =>
    match ncm_stats_vec_peek_row sv (offset + i) with
    | .error e => .error e
    | .ok row =>
      match _ncm_mset_catalog_write_row t row (offset + i + 1) with
      | .error e => .error e
      | .ok t1 => sync_write_loop sv offset n (i + 1) t1

/-- The loops of `ncm_mset_catalog_sync` that copy rows from the table to the
array `rows`: `for (i = 0; i < rows_to_add; i++)` with the body
`_ncm_mset_catalog_read_row (mcat, row, offset + i + 1);`
`g_ptr_array_index (rows, i) = row;`. -/
def sync_read_loop (t : FitsTable) (offset : Nat) : Nat → Nat → Except Fatal (List NcmVector)
  | 0, _ => .ok []
  | n + 1, i =>
    match _ncm_mset_catalog_read_row t (offset + i + 1) with
    | .error e => .error e
    | .ok row =>
      match sync_read_loop t offset n (i + 1) with
      | .error e => .error e
      | .ok rest => .ok (row :: rest)

/-- The chain a row identifier belongs to, as all three sites compute it
(`(mcat->cur_id + 1) % mcat->nchains`, `(mcat->file_first_id + i) % mcat->nchains`
and `(mcat->cur_id + 1 + i) % mcat->nchains`): `nchains` is a `guint` (it is set
with `g_value_get_uint` and compared with the `guint` loop variables), so the
identifier is converted to `guint` before the remainder is taken. -/
def chain_id (id : Int) (nchains : Nat) : Nat := toGuint id % nchains

/-- The loop of `ncm_mset_catalog_sync` that hands the rows read from the head of
the table to the chain accumulators: for `i` from 0, row `i` of `rows` is
prepended to the accumulator of chain `(base + i) % nchains`. -/
def sync_chain_prepend (nchains : Nat) (base : Int) :
    List NcmVector → Nat → List NcmStatsVec → List NcmStatsVec
  | [], _, chains => chains
  | x :: rest, i, chains =>
    sync_chain_prepend nchains base rest (i + 1)
      (chains.modify (fun sv => ncm_stats_vec_prepend sv x) (chain_id (base + i) nchains))

/-- The loop of `ncm_mset_catalog_sync` that hands the rows read from the tail of
the table to the chain accumulators: for `i` from 0, row `i` of `rows` is
appended to the accumulator of chain `(base + i) % nchains`. -/
def sync_chain_append (nchains : Nat) (base : Int) :
    List NcmVector → Nat → List NcmStatsVec → List NcmStatsVec
  | [], _, chains => chains
  | x :: rest, i, chains =>
    sync_chain_append nchains base rest (i + 1)
      (chains.modify (fun sv => ncm_stats_vec_append sv x) (chain_id (base + i) nchains))

/-- The first block of `ncm_mset_catalog_sync` (`if (mcat->file_first_id !=
mcat->first_id)`), which reconciles the two first identifiers: when the table
starts later than the memory, blank rows are inserted at its head and filled
from the accumulator; when it starts earlier, the older rows are read and
prepended to the accumulator and, for `nchains > 1`, to the chain accumulators. -/
def sync_first (mcat : NcmMSetCatalog) (t : FitsTable) :
    Except Fatal (NcmMSetCatalog × FitsTable) :=
  if mcat.file_first_id ≠ mcat.first_id then
    if mcat.file_first_id > mcat.first_id then
      let rows_to_add := toGuint (mcat.file_first_id - mcat.first_id)
      match sync_write_loop mcat.pstats 0 rows_to_add 0 (fits_insert_rows_head t rows_to_add) with
      | .error e => .error e
      | .ok t1 =>
        .ok ({ mcat with file_first_id := mcat.first_id },
             { t1 with first_id_key := mcat.first_id })
    else if mcat.file_first_id < mcat.first_id then
      let rows_to_add := toGuint (mcat.first_id - mcat.file_first_id)
      match sync_read_loop t 0 rows_to_add 0 with
      | .error e => .error e
      | .ok rows =>
        .ok ({ mcat with
                 pstats := ncm_stats_vec_prepend_data mcat.pstats rows
                 chain_pstats :=
                   if mcat.nchains > 1 then
                     sync_chain_prepend mcat.nchains mcat.file_first_id rows 0 mcat.chain_pstats
                   else mcat.chain_pstats
                 first_id := mcat.file_first_id }, t)
    else .error .sync_first_id
  else .ok (mcat, t)

/-- The second block of `ncm_mset_catalog_sync` (`if (mcat->file_cur_id !=
mcat->cur_id)`), which reconciles the two current identifiers: when the table
ends earlier than the memory, the newer rows of the accumulator are written
after its last row; when it ends later, the extra rows are read and appended to
the accumulator and, for `nchains > 1`, to the chain accumulators. -/
def sync_cur (mcat : NcmMSetCatalog) (t : FitsTable) :
    Except Fatal (NcmMSetCatalog × FitsTable) :=
  if mcat.file_cur_id ≠ mcat.cur_id then
    if mcat.file_cur_id < mcat.cur_id then
      let rows_to_add := toGuint (mcat.cur_id - mcat.file_cur_id)
      let offset := toGuint (mcat.file_cur_id + 1 - mcat.file_first_id)
      match sync_write_loop mcat.pstats offset rows_to_add 0 t with
      | .error e => .error e
      | .ok t1 => .ok ({ mcat with file_cur_id := mcat.cur_id }, t1)
    else if mcat.file_cur_id > mcat.cur_id then
      let rows_to_add := toGuint (mcat.file_cur_id - mcat.cur_id)
      let offset := toGuint (mcat.cur_id + 1 - mcat.first_id)
      match sync_read_loop t offset rows_to_add 0 with
      | .error e => .error e
      | .ok rows =>
        .ok ({ mcat with
                 pstats := ncm_stats_vec_append_data mcat.pstats rows
                 chain_pstats :=
                   if mcat.nchains > 1 then
                     sync_chain_append mcat.nchains (mcat.cur_id + 1) rows 0 mcat.chain_pstats
                   else mcat.chain_pstats
                 cur_id := mcat.file_cur_id }, t)
    else .ok (mcat, t)
  else .ok (mcat, t)

/-- The closing `switch (mcat->fmode)` of `ncm_mset_catalog_sync`: the table as
the flush mode leaves it. -/
def sync_flush (mcat : NcmMSetCatalog) (t : FitsTable) : Except Fatal FitsTable :=
  match mcat.fmode with
  | .disable => .ok t
  | .auto => .ok (_ncm_mset_catalog_flush_file mcat t)
  | .timed => if mcat.flush_due then .ok (_ncm_mset_catalog_flush_file mcat t) else .ok t
  | .len => .error .fmode_not_reached

/-- The check of `ncm_mset_catalog_sync` under `if (check)`: the name of the open
file is the configured one, and neither range ends more than one identifier
before the other begins. -/
def sync_check (mcat : NcmMSetCatalog) (file : String) (t : FitsTable) : Except Fatal Unit :=
  if t.filename ≠ file then .error .sync_filename
  else if mcat.file_cur_id < mcat.first_id - 1 ∨ mcat.cur_id < mcat.file_first_id - 1 then
    .error .sync_mismatch
  else .ok ()

/-- The function `ncm_mset_catalog_sync (mcat, check)`. -/
def ncm_mset_catalog_sync (mcat : NcmMSetCatalog) (check : Bool) : Except Fatal NcmMSetCatalog :=
  match mcat.file with
  | none => .ok mcat
  | some file =>
    match mcat.fptr with
    | none => .error .sync_fptr_null
    | some t =>
      match (if check then sync_check mcat file t else .ok ()) with
      | .error e => .error e
      | .ok _ =>
        match sync_first mcat t with
        | .error e => .error e
        | .ok (mcat1, t1) =>
          match sync_cur mcat1 t1 with
          | .error e => .error e
          | .ok (mcat2, t2) =>
            match sync_flush mcat2 t2 with
            | .error e => .error e
            | .ok t3 => .ok { mcat2 with fptr := some t3 }

/-- The function `_ncm_mset_catalog_close_file`: an open handle is flushed and
closed, `fptr` becomes `NULL`. -/
def _ncm_mset_catalog_close_file (mcat : NcmMSetCatalog) : NcmMSetCatalog :=
  match mcat.fptr with
  | none => mcat
  | some _ => { mcat with fptr := none }

/-- The function `ncm_mset_catalog_erase_data`: with an open handle and a positive
row count `file_cur_id - file_first_id + 1`, that many rows are deleted from the
head of the table, `file_cur_id` goes back to `file_first_id - 1` and the file is
flushed; otherwise nothing changes. -/
def ncm_mset_catalog_erase_data (mcat : NcmMSetCatalog) : Except Fatal NcmMSetCatalog :=
  match mcat.fptr with
  | none => .ok mcat
  | some t =>
    let nrows := mcat.file_cur_id - mcat.file_first_id + 1
    if nrows > 0 then
      match fits_delete_rows_head t nrows.toNat with
      | .error e => .error e
      | .ok t1 =>
        let mcat1 := { mcat with file_cur_id := mcat.file_first_id - 1 }
        .ok { mcat1 with fptr := some (_ncm_mset_catalog_flush_file mcat1 t1) }
    else .ok mcat

/-- The function `ncm_mset_catalog_reset`: the rows of the file are erased, the
accumulators are reset with their row history, the extremes go back to
`GSL_NEGINF` / `GSL_POSINF`, `cur_id` becomes `first_id - 1` and the file is
closed. -/
def ncm_mset_catalog_reset (mcat : NcmMSetCatalog) : Except Fatal NcmMSetCatalog :=
  match ncm_mset_catalog_erase_data mcat with
  | .error e => .error e
  | .ok mcat1 =>
    .ok (_ncm_mset_catalog_close_file
      { mcat1 with
          pstats := ncm_stats_vec_reset mcat1.pstats true
          chain_pstats :=
            if mcat1.nchains > 1 then
              mcat1.chain_pstats.map (fun sv => ncm_stats_vec_reset sv true)
            else mcat1.chain_pstats
          mean_pstats :=
            if mcat1.nchains > 1 then
              mcat1.mean_pstats.map (fun sv => ncm_stats_vec_reset sv true)
            else mcat1.mean_pstats
          params_max := ncm_vector_set_all mcat1.params_max .neginf
          params_min := ncm_vector_set_all mcat1.params_min .posinf
          cur_id := mcat1.first_id - 1 })

/-- The function `ncm_mset_catalog_is_empty`. -/
def ncm_mset_catalog_is_empty (mcat : NcmMSetCatalog) : Bool :=
  decide (mcat.cur_id < mcat.first_id) && decide (mcat.file_cur_id < mcat.file_first_id)

/-- The function `ncm_mset_catalog_len`. -/
def ncm_mset_catalog_len (mcat : NcmMSetCatalog) : Nat := mcat.pstats.nitens

/-- The function `_ncm_mset_catalog_post_update`: the extremes absorb the working
vector `x` of the global accumulator; for `nchains > 1` the accumulator of chain
`(cur_id + 1) % nchains` receives a copy of `x` and is updated; the global
accumulator is updated (with the weight `x[nadd_vals - 1]` in a weighted
catalog); `cur_id` advances and the catalog is synchronised without check. -/
def _ncm_mset_catalog_post_update (mcat : NcmMSetCatalog) : Except Fatal NcmMSetCatalog :=
  let x := mcat.pstats.x
  let w := x.getD (mcat.nadd_vals - 1) (.fin 0)
  let upd := fun (sv : NcmStatsVec) =>
    if mcat.weighted then ncm_stats_vec_update_weight sv w else ncm_stats_vec_update sv
  ncm_mset_catalog_sync
    { mcat with
        params_max := List.zipWith GSL_MAX x mcat.params_max
        params_min := List.zipWith GSL_MIN x mcat.params_min
        chain_pstats :=
          if mcat.nchains > 1 then
            mcat.chain_pstats.modify (fun sv => upd { sv with x := x })
              (chain_id (mcat.cur_id + 1) mcat.nchains)
          else mcat.chain_pstats
        pstats := upd mcat.pstats
        cur_id := mcat.cur_id + 1 } false

/-- The function `ncm_mset_catalog_add_from_vector (mcat, vals)`: `vals` is copied
into the working vector of the global accumulator (the two have the same
length) and the catalog is updated. -/
def ncm_mset_catalog_add_from_vector (mcat : NcmMSetCatalog) (vals : NcmVector) :
    Except Fatal NcmMSetCatalog :=
  _ncm_mset_catalog_post_update { mcat with pstats := { mcat.pstats with x := vals } }

/-- The function `ncm_mset_catalog_set_first_id (mcat, first_id)`. -/
def ncm_mset_catalog_set_first_id (mcat : NcmMSetCatalog) (first_id : Int) :
    Except Fatal NcmMSetCatalog :=
  if first_id = mcat.first_id then .ok mcat
  else if mcat.file_first_id ≠ mcat.first_id then .error .set_first_id_file_first
  else if mcat.file_cur_id ≠ mcat.cur_id then .error .set_first_id_file_cur
  else if mcat.cur_id ≠ mcat.first_id - 1 then .error .set_first_id_nonempty
  else
    let mcat1 := { mcat with
      first_id := first_id, cur_id := first_id - 1,
      file_first_id := first_id, file_cur_id := first_id - 1 }
    match mcat1.fptr with
    | none => .ok mcat1
    | some t =>
      ncm_mset_catalog_sync { mcat1 with fptr := some { t with first_id_key := first_id } } true

/-! ## Construction and the backend file -/

/-- Modelled from the spec: the macro `NCM_MSET_CATALOG_RTYPE_UNDEFINED` (the
header `ncm_mset_catalog.h` is not among the sources), the run-type label of a
catalog that was given none. -/
def NCM_MSET_CATALOG_RTYPE_UNDEFINED : String := "undefined-run"

/-- The function `ncm_mset_catalog_init`, with the accumulators that are still
`NULL` shown as empty ones. -/
def ncm_mset_catalog_init : NcmMSetCatalog :=
  { fparams_len := 0, nadd_vals := 0, weighted := false, nchains := 0, rtype_str := none,
    fmode := .len, flush_due := false, pstats := ncm_stats_vec_new 0 true, chain_pstats := [],
    mean_pstats := none, params_max := [], params_min := [],
    cur_id := -1, first_id := 0, file_cur_id := -1, file_first_id := 0,
    file := none, fptr := none }

/-- The function `_ncm_mset_catalog_constructed_alloc_chains`: the accumulators and
the extremes are allocated for rows of
`total = free_params_len + nadd_vals + (weighted ? 1 : 0)` components.  The
global accumulator is created with `save_x = TRUE`, the chain accumulators and
`mean_pstats` with `save_x = FALSE`. -/
def _ncm_mset_catalog_constructed_alloc_chains (mcat : NcmMSetCatalog) : NcmMSetCatalog :=
  let total := mcat.fparams_len + mcat.nadd_vals + (if mcat.weighted then 1 else 0)
  { mcat with
      pstats := ncm_stats_vec_new total true
      params_max := ncm_vector_set_all (List.replicate total (.fin 0)) .neginf
      params_min := ncm_vector_set_all (List.replicate total (.fin 0)) .posinf
      chain_pstats :=
        if mcat.nchains > 1 then
          mcat.chain_pstats ++ List.replicate mcat.nchains (ncm_stats_vec_new total false)
        else mcat.chain_pstats
      mean_pstats :=
        if mcat.nchains > 1 then some (ncm_stats_vec_new mcat.fparams_len false)
        else mcat.mean_pstats }

/-- The function `ncm_mset_catalog_set_run_type (mcat, rtype_str)`. -/
def ncm_mset_catalog_set_run_type (mcat : NcmMSetCatalog) (rtype_str : String) :
    Except Fatal NcmMSetCatalog :=
  let set : NcmMSetCatalog :=
    { mcat with
        rtype_str := some rtype_str
        fptr := mcat.fptr.map (fun t => { t with rtype_key := rtype_str }) }
  match mcat.rtype_str with
  | none => .ok set
  | some cur =>
    if cur ≠ rtype_str then
      if mcat.cur_id + 1 ≠ mcat.first_id then .error .set_run_type_nonempty else .ok set
    else .ok mcat

/-- The branch of `_ncm_mset_catalog_constructed` for a catalog created from a
parameter set (`mcat->mset != NULL`): the accumulators are allocated with the
additional-value count as given, and a weighted catalog then counts its weight
column among the additional values (`mcat->nadd_vals++`). -/
def _ncm_mset_catalog_constructed_mset (mcat : NcmMSetCatalog) : NcmMSetCatalog :=
  let mcat1 := _ncm_mset_catalog_constructed_alloc_chains mcat
  if mcat1.weighted then { mcat1 with nadd_vals := mcat1.nadd_vals + 1 } else mcat1

/-- The function `ncm_mset_catalog_new (mset, nadd_vals, nchains, weighted, ...)`,
for a parameter set with `fparams_len` free parameters: the construct properties
are set on the initial object (flush mode `AUTO`, no file, the undefined run
type) and `_ncm_mset_catalog_constructed` runs. -/
def ncm_mset_catalog_new (fparams_len nadd_vals nchains : Nat) (weighted : Bool) :
    NcmMSetCatalog :=
  _ncm_mset_catalog_constructed_mset
    { ncm_mset_catalog_init with
        fparams_len := fparams_len, nadd_vals := nadd_vals, nchains := nchains,
        weighted := weighted, fmode := .auto,
        rtype_str := some NCM_MSET_CATALOG_RTYPE_UNDEFINED }

/-- The branch of `_ncm_mset_catalog_open_create_file` for a file that does not
exist yet: a table with one column per additional value and per free parameter
is created, the cards are written from the catalog, and the file range is empty
from identifier 0. -/
def open_create_new (mcat : NcmMSetCatalog) (file : String) : NcmMSetCatalog :=
  { mcat with
      file_first_id := 0
      file_cur_id := -1
      fptr := some
        { filename := file
          ncols := mcat.fparams_len + mcat.nadd_vals
          rows := []
          first_id_key := 0
          nrows_key := 0
          rtype_key := mcat.rtype_str.getD ""
          nchains_key := toGint mcat.nchains
          naddval_key := toGint mcat.nadd_vals
          weighted_key := mcat.weighted } }

/-- The four cards of an existing file that `_ncm_mset_catalog_open_create_file`
compares with the catalog, or takes over when `load_from_cat` is set: the run
type, the chain count (asserted positive), the additional-value count and the
weighted flag, in the order of the source.  The two counts are `gint` on the
file side and `guint` on the catalog side, so the comparison converts the file
side to `guint`. -/
def open_create_cards (mcat : NcmMSetCatalog) ( load_from_cat : Bool) (t : FitsTable) :
    Except Fatal NcmMSetCatalog :=
  match (if load_from_cat then ncm_mset_catalog_set_run_type mcat t.rtype_key
         else if mcat.rtype_str ≠ some t.rtype_key then .error .open_rtype
         else .ok mcat) with
  | .error e => .error e
  | .ok mcat1 =>
    if ¬ (t.nchains_key > 0) then .error .open_nchains_assert
    else
      match (if load_from_cat then .ok { mcat1 with nchains := toGuint t.nchains_key }
             else if toGuint t.nchains_key ≠ mcat1.nchains then .error .open_nchains
             else .ok mcat1 : Except Fatal NcmMSetCatalog) with
      | .error e => .error e
      | .ok mcat2 =>
        match (if load_from_cat then .ok { mcat2 with nadd_vals := toGuint t.naddval_key }
               else if toGuint t.naddval_key ≠ mcat2.nadd_vals then .error .open_nadd_vals
               else .ok mcat2 : Except Fatal NcmMSetCatalog) with
        | .error e => .error e
        | .ok mcat3 =>
          if load_from_cat then .ok { mcat3 with weighted := t.weighted_key }
          else if (t.weighted_key && !mcat3.weighted) || (!t.weighted_key && mcat3.weighted) then
            .error .open_weighted
          else .ok mcat3

/-- The identifier part of the existing-file branch of
`_ncm_mset_catalog_open_create_file`: an empty table takes the first identifier
of the catalog, an empty catalog that of the table, and the file range ends
`nrows` rows after its start. -/
def open_create_ids (mcat : NcmMSetCatalog) (t : FitsTable) : NcmMSetCatalog :=
  let nrows : Int := t.rows.length
  let mcat1 :=
    if mcat.file_first_id ≠ mcat.first_id then
      if nrows = 0 then { mcat with file_first_id := mcat.first_id }
      else if mcat.cur_id < mcat.first_id then
        { mcat with first_id := mcat.file_first_id, cur_id := mcat.file_first_id - 1 }
      else mcat
    else mcat
  { mcat1 with file_cur_id := mcat1.file_first_id + nrows - 1 }

/-- The function `_ncm_mset_catalog_open_create_file (mcat, load_from_cat)` for the
file name `file`; `disk` is the table found under that name, if the file
exists.  The column names are outside the embedding. -/
def _ncm_mset_catalog_open_create_file (mcat : NcmMSetCatalog) ( load_from_cat : Bool)
    (file : String) (disk : Option FitsTable) : Except Fatal NcmMSetCatalog :=
  match disk with
  | some t =>
    match open_create_cards { mcat with file_first_id := t.first_id_key } load_from_cat t with
    | .error e => .error e
    | .ok mcat1 =>
      let mcat2 := open_create_ids mcat1 t
      .ok { mcat2 with fptr := some { t with filename := file, first_id_key := mcat2.file_first_id } }
  | none => .ok (open_create_new mcat file)

/-- The function `ncm_mset_catalog_set_file (mcat, filename)` on a catalog that has
its parameter set, for a non-`NULL` `filename`: a file already open is closed,
the new one is opened or created, the catalog is synchronised with check, and
the file is flushed. -/
def ncm_mset_catalog_set_file (mcat : NcmMSetCatalog) (filename : String)
    (disk : Option FitsTable) : Except Fatal NcmMSetCatalog :=
  if mcat.file = some filename then .ok mcat
  else
    match _ncm_mset_catalog_open_create_file
        { _ncm_mset_catalog_close_file mcat with file := some filename } false filename disk with
    | .error e => .error e
    | .ok mcat1 =>
      match ncm_mset_catalog_sync mcat1 true with
      | .error e => .error e
      | .ok mcat2 =>
        .ok { mcat2 with fptr := mcat2.fptr.map (_ncm_mset_catalog_flush_file mcat2) }

/-- The function `ncm_mset_catalog_new_from_file (filename)`: the construct
properties take their defaults, and the branch `mcat->mset == NULL` of
`_ncm_mset_catalog_constructed` loads the parameter set (with `fparams_len` free
parameters) from the `.mset` file, opens the catalog file with `load_from_cat`
set, allocates the accumulators and synchronises. -/
def ncm_mset_catalog_new_from_file (filename : String) (fparams_len : Nat)
    (disk : Option FitsTable) : Except Fatal NcmMSetCatalog :=
  match disk with
  | none => .error .constructed_no_file
  | some t =>
    match _ncm_mset_catalog_open_create_file
        { ncm_mset_catalog_init with
            fparams_len := fparams_len, nadd_vals := 1, nchains := 1, weighted := false,
            fmode := .auto, rtype_str := some NCM_MSET_CATALOG_RTYPE_UNDEFINED,
            file := some filename } true filename (some t) with
    | .error e => .error e
    | .ok mcat1 =>
      match ncm_mset_catalog_sync (_ncm_mset_catalog_constructed_alloc_chains mcat1) true with
      | .error e => .error e
      | .ok mcat2 =>
        .ok { mcat2 with fptr := mcat2.fptr.map (_ncm_mset_catalog_flush_file mcat2) }

/-! ## Predicates on catalog states -/

/-- The fields of a catalog that synchronisation never writes. -/
def SameSetup (m1 m : NcmMSetCatalog) : Prop :=
  m1.fparams_len = m.fparams_len ∧ m1.nadd_vals = m.nadd_vals ∧ m1.weighted = m.weighted ∧
  m1.nchains = m.nchains ∧ m1.rtype_str = m.rtype_str ∧ m1.fmode = m.fmode ∧
  m1.flush_due = m.flush_due ∧ m1.file = m.file ∧ m1.mean_pstats = m.mean_pstats ∧
  m1.params_max = m.params_max ∧ m1.params_min = m.params_min

/-! ## Well-formed ranges -/

/-- A value in the range of `gint`. -/
def IsGint (z : Int) : Prop := -2147483648 ≤ z ∧ z ≤ 2147483647

instance (z : Int) : Decidable (IsGint z) := by
  unfold IsGint; infer_instance

/-- The four identifiers of the catalog are in the range of `gint`. -/
def GintIds (m : NcmMSetCatalog) : Prop :=
  IsGint m.first_id ∧ IsGint m.cur_id ∧ IsGint m.file_first_id ∧ IsGint m.file_cur_id

instance (m : NcmMSetCatalog) : Decidable (GintIds m) := by
  unfold GintIds; infer_instance

/-- The accumulator retains its rows and holds one row per identifier of the
in-memory range. -/
def MemRows (m : NcmMSetCatalog) : Prop :=
  m.pstats.save_x = true ∧ (m.pstats.saved_x.length : Int) = m.cur_id - m.first_id + 1

instance (m : NcmMSetCatalog) : Decidable (MemRows m) := by
  unfold MemRows; infer_instance

/-- The table holds one row per identifier of the on-disk range. -/
def TableRows (m : NcmMSetCatalog) (t : FitsTable) : Prop :=
  (t.rows.length : Int) = m.file_cur_id - m.file_first_id + 1

instance (m : NcmMSetCatalog) (t : FitsTable) : Decidable (TableRows m t) := by
  unfold TableRows; infer_instance

/-- The rows of the table and of the accumulator agree on every identifier that
both hold: position `i` of the accumulator and position `j` of the table are the
same row whenever they stand for the same identifier. -/
def RowsAgree (m : NcmMSetCatalog) (t : FitsTable) : Prop :=
  ∀ i j : Nat, i < m.pstats.saved_x.length → j < t.rows.length →
    m.first_id + i = m.file_first_id + j → t.rows[j]? = m.pstats.saved_x[i]?

/-- The two ranges overlap or are adjacent. -/
def RangesTouch (m : NcmMSetCatalog) : Prop :=
  m.file_cur_id ≥ m.first_id - 1 ∧ m.cur_id ≥ m.file_first_id - 1

instance (m : NcmMSetCatalog) : Decidable (RangesTouch m) := by
  unfold RangesTouch; infer_instance

/-- A file-backed catalog: a file name is configured and the handle `fptr` is open
on the table `t` of that file, the flush mode is one of the three modes, the
identifiers are `gint` values, and the accumulator and the table hold one row
per identifier of their range. -/
structure FileBacked (m : NcmMSetCatalog) (t : FitsTable) : Prop where
  file : m.file = some t.filename
  fptr : m.fptr = some t
  fmode : m.fmode ≠ .len
  gint : GintIds m
  mem : MemRows m
  table : TableRows m t

/-! ## Example states for synchronisation -/

/-- A row of two components used in the examples. -/
def exRow (n : Int) : NcmVector := [.fin n, .fin (n + 100)]

/-- An example table: the rows of the identifiers 0 to 3. -/
def exTable : FitsTable :=
  { filename := "cat.fits", ncols := 2, rows := [exRow 0, exRow 1, exRow 2, exRow 3],
    first_id_key := 0, nrows_key := 4, rtype_key := NCM_MSET_CATALOG_RTYPE_UNDEFINED,
    nchains_key := 1, naddval_key := 1, weighted_key := false }

/-- An example catalog on `exTable`: the memory holds the identifiers 2 to 4, the
file the identifiers 0 to 3. -/
def exCatalog : NcmMSetCatalog :=
  { ncm_mset_catalog_new 1 1 1 false with
      first_id := 2, cur_id := 4, file_first_id := 0, file_cur_id := 3,
      file := some "cat.fits", fptr := some exTable,
      pstats := { save_x := true, x := exRow 4, saved_x := [exRow 2, exRow 3, exRow 4],
                  wts := [.fin 1, .fin 1, .fin 1],
                  absorbed := [exRow 2, exRow 3, exRow 4] } }

/-! ## Reachable states -/

/-- The calls that lead from one state of a catalog to the next: `add` (here
`ncm_mset_catalog_add_from_vector`), `sync` and `reset`. -/
inductive CatalogOp where
  | add (vals : NcmVector) : CatalogOp
  | sync (check : Bool) : CatalogOp
  | reset : CatalogOp
deriving DecidableEq, Repr

/-- The effect of one call on a catalog. -/
def CatalogOp.run : CatalogOp → NcmMSetCatalog → Except Fatal NcmMSetCatalog
  | .add vals, m => ncm_mset_catalog_add_from_vector m vals
  | .sync check, m => ncm_mset_catalog_sync m check
  | .reset, m => ncm_mset_catalog_reset m

/-- The effect of a sequence of calls, which stops at the first fatal exit. -/
def runOps : List CatalogOp → NcmMSetCatalog → Except Fatal NcmMSetCatalog
  | [], m => .ok m
  | op :: ops, m =>
    match op.run m with
    | .error e => .error e
    | .ok m1 => runOps ops m1

/-- A freshly constructed catalog: the result of `ncm_mset_catalog_new`, as it is
or after `ncm_mset_catalog_set_file` gave it a backend file (one that is created,
`disk = none`, or one that exists already), or the result of
`ncm_mset_catalog_new_from_file`. -/
inductive Fresh : NcmMSetCatalog → Prop where
  | new (fparams_len nadd_vals nchains : Nat) (weighted : Bool) :
      Fresh (ncm_mset_catalog_new fparams_len nadd_vals nchains weighted)
  | new_file (fparams_len nadd_vals nchains : Nat) (weighted : Bool) (filename : String)
      (disk : Option FitsTable) (m : NcmMSetCatalog) :
      ncm_mset_catalog_set_file (ncm_mset_catalog_new fparams_len nadd_vals nchains weighted)
        filename disk = .ok m → Fresh m
  | from_file (filename : String) (fparams_len : Nat) (disk : Option FitsTable)
      (m : NcmMSetCatalog) :
      ncm_mset_catalog_new_from_file filename fparams_len disk = .ok m → Fresh m

/-- The states reached from a freshly constructed catalog by calls of `add`, `sync`
and `reset` that complete. -/
inductive Reachable : NcmMSetCatalog → Prop where
  | fresh (m : NcmMSetCatalog) : Fresh m → Reachable m
  | step (m m1 : NcmMSetCatalog) (op : CatalogOp) :
      Reachable m → op.run m = .ok m1 → Reachable m1

/-- The relation between the two ranges that holds in every reachable state: a
catalog without a file has no open handle and an empty file range; a catalog
with a file has its two ranges equal while the handle is open, and both empty
once `reset` has closed it. -/
def RangesTied (m : NcmMSetCatalog) : Prop :=
  (m.file = none → m.fptr = none ∧ m.file_cur_id < m.file_first_id) ∧
  (m.file ≠ none →
    (m.fptr ≠ none ∧ m.file_first_id = m.first_id ∧ m.file_cur_id = m.cur_id) ∨
    (m.fptr = none ∧ m.file_cur_id < m.file_first_id ∧ m.cur_id < m.first_id))

/-! ## Example reachable states -/

/-- An example of a reachable state: a catalog of two chains, without a file, after
one `add`. -/
def exAdded : NcmMSetCatalog :=
  match ncm_mset_catalog_add_from_vector (ncm_mset_catalog_new 1 1 2 false) (exRow 7) with
  | .ok m => m
  | .error _ => ncm_mset_catalog_init

/-- An example of a reachable state: a catalog on a newly created file after two
`add`s and a `reset`. -/
def exResetOps : List CatalogOp := [.add (exRow 0), .add (exRow 1), .reset]

/-- The catalog on a newly created file that `exResetOps` starts from. -/
def exOnFile : NcmMSetCatalog :=
  match ncm_mset_catalog_set_file (ncm_mset_catalog_new 1 1 1 false) "new.fits" none with
  | .ok m => m
  | .error _ => ncm_mset_catalog_init

/-- The state that `exResetOps` ends in. -/
def exAfterReset : NcmMSetCatalog :=
  match runOps exResetOps exOnFile with
  | .ok m => m
  | .error _ => ncm_mset_catalog_init

/-! ## The chain of a row -/

/-- The chain that the catalog's documentation assigns to a row: the identifier
modulo `nchains`, the non-negative remainder. -/
def chain_of_id (id : Int) (nchains : Nat) : Nat := (id % (nchains : Int)).toNat

/-- A catalog of three chains without a file whose first identifier was set to
`-3` while it was empty. -/
def exNegative : NcmMSetCatalog :=
  match ncm_mset_catalog_set_first_id (ncm_mset_catalog_new 1 1 3 false) (-3) with
  | .ok m => m
  | .error _ => ncm_mset_catalog_init

/-- The catalog `exNegative` after one `add`, of the row of identifier `-3`. -/
def exNegativeAdded : NcmMSetCatalog :=
  match ncm_mset_catalog_add_from_vector exNegative (exRow (-3)) with
  | .ok m => m
  | .error _ => ncm_mset_catalog_init

/-! ## Sound catalog states -/

/-- The bookkeeping of a catalog is sound: the flush mode is one of the three
modes, the identifiers are `gint` values, the accumulator holds one row per
identifier of the in-memory range, both ranges start at the same identifier,
without an open handle the file range is empty (and so is the memory when a
file is configured, which is the state `reset` leaves), and with an open handle
the handle is on the configured file, both ranges end at the same identifier
and the table holds one row per identifier. -/
structure Sound (m : NcmMSetCatalog) : Prop where
  fmode : m.fmode ≠ .len
  gint : GintIds m
  mem : MemRows m
  first : m.file_first_id = m.first_id
  closed : m.fptr = none →
    m.file_cur_id = m.file_first_id - 1 ∧ (m.file ≠ none → m.cur_id = m.first_id - 1)
  opened : ∀ t, m.fptr = some t →
    m.file = some t.filename ∧ m.file_cur_id = m.cur_id ∧ TableRows m t

/-- The state `reset` leaves a sound catalog in. -/
def reset_result (m : NcmMSetCatalog) : NcmMSetCatalog :=
  { m with
      pstats := ncm_stats_vec_reset m.pstats true
      chain_pstats :=
        if m.nchains > 1 then m.chain_pstats.map (fun sv => ncm_stats_vec_reset sv true)
        else m.chain_pstats
      mean_pstats :=
        if m.nchains > 1 then m.mean_pstats.map (fun sv => ncm_stats_vec_reset sv true)
        else m.mean_pstats
      params_max := ncm_vector_set_all m.params_max .neginf
      params_min := ncm_vector_set_all m.params_min .posinf
      cur_id := m.first_id - 1
      file_cur_id := m.file_first_id - 1
      fptr := none }

/-- An example of a sound state with rows in memory and in the file: the catalog on
a newly created file after two `add`s. -/
def exTwoRows : NcmMSetCatalog :=
  match ncm_mset_catalog_add_from_vector exOnFile (exRow 0) with
  | .error _ => ncm_mset_catalog_init
  | .ok m =>
    match ncm_mset_catalog_add_from_vector m (exRow 1) with
    | .error _ => ncm_mset_catalog_init
    | .ok m1 => m1

/-- The state between the two `add`s of `exTwoRows`. -/
def exOneRow : NcmMSetCatalog :=
  match ncm_mset_catalog_add_from_vector exOnFile (exRow 0) with
  | .error _ => ncm_mset_catalog_init
  | .ok m => m

/-! ## Example states for the range check -/

/-- An example table: the rows of the identifiers 0 and 1. -/
def exTableHead : FitsTable :=
  { filename := "cat.fits", ncols := 2, rows := [exRow 0, exRow 1],
    first_id_key := 0, nrows_key := 2, rtype_key := NCM_MSET_CATALOG_RTYPE_UNDEFINED,
    nchains_key := 1, naddval_key := 1, weighted_key := false }

/-- An example catalog on `exTableHead` whose two ranges are adjacent: the memory
holds the identifiers 2 to 4, the file the identifiers 0 and 1, and no
identifier is in both. -/
def exAdjacent : NcmMSetCatalog :=
  { ncm_mset_catalog_new 1 1 1 false with
      first_id := 2, cur_id := 4, file_first_id := 0, file_cur_id := 1,
      file := some "cat.fits", fptr := some exTableHead,
      pstats := { save_x := true, x := exRow 4, saved_x := [exRow 2, exRow 3, exRow 4],
                  wts := [.fin 1, .fin 1, .fin 1],
                  absorbed := [exRow 2, exRow 3, exRow 4] } }

/-- An example catalog whose two ranges leave a gap: the memory holds the
identifiers 3 and 4, the file the identifiers 0 and 1. -/
def exGap : NcmMSetCatalog :=
  { exAdjacent with
      first_id := 3
      pstats := { save_x := true, x := exRow 4, saved_x := [exRow 3, exRow 4],
                  wts := [.fin 1, .fin 1], absorbed := [exRow 3, exRow 4] } }

/-! ## Example states for attaching a file -/

/-- An example of a catalog made from a parameter set: one free parameter, one
additional value, two chains, unweighted. -/
def exFromMset : NcmMSetCatalog := ncm_mset_catalog_new 1 1 2 false

/-- An example table written by a catalog like `exFromMset`. -/
def exTableTwoChains : FitsTable :=
  { filename := "cat.fits", ncols := 2, rows := [],
    first_id_key := 0, nrows_key := 0, rtype_key := NCM_MSET_CATALOG_RTYPE_UNDEFINED,
    nchains_key := 2, naddval_key := 1, weighted_key := false }

/-! ## Example states for rebuilding a catalog -/

/-- A weighted catalog made from a parameter set with one free parameter, given one
additional value and one chain, on a newly created file: the writer. -/
def exWriter : NcmMSetCatalog :=
  match ncm_mset_catalog_set_file (ncm_mset_catalog_new 1 1 1 true) "w.fits" none with
  | .ok m => m
  | .error _ => ncm_mset_catalog_init

/-- The catalog rebuilt by `ncm_mset_catalog_new_from_file` from the file of
`exWriter`: the reader. -/
def exReader : NcmMSetCatalog :=
  match ncm_mset_catalog_new_from_file "w.fits" 1 exWriter.fptr with
  | .ok m => m
  | .error _ => ncm_mset_catalog_init

/-- The unweighted counterpart of `exWriter`. -/
def exWriterPlain : NcmMSetCatalog :=
  match ncm_mset_catalog_set_file (ncm_mset_catalog_new 1 1 1 false) "p.fits" none with
  | .ok m => m
  | .error _ => ncm_mset_catalog_init

/-- The catalog rebuilt from the file of `exWriterPlain`. -/
def exReaderPlain : NcmMSetCatalog :=
  match ncm_mset_catalog_new_from_file "p.fits" 1 exWriterPlain.fptr with
  | .ok m => m
  | .error _ => ncm_mset_catalog_init

/-! ## Doubles in the numerical code -/

/-- A `gdouble` as the numerical code tells its values apart: NaN, the two
infinities, or a finite value.  A finite value is an exact element of an ordered
field `α`: there is no rounding and no overflow, and the zero has no sign (it
divides like `+0.0`). -/
inductive Dbl (α : Type) where
  | nan : Dbl α
  | ninf : Dbl α
  | pinf : Dbl α
  | fin (v : α) : Dbl α
deriving DecidableEq, Repr

section DblOps

variable {α : Type} [LinearOrderedField α]

/-- The unary minus of C on doubles. -/
def Dbl.neg : Dbl α → Dbl α
  | .nan => .nan
  | .ninf => .pinf
  | .pinf => .ninf
  | .fin v => .fin (-v)

/-- The sum `a + b` of C on doubles: NaN is absorbing and the two infinities
cancel into NaN. -/
def Dbl.add : Dbl α → Dbl α → Dbl α
  | .nan, _ => .nan
  | .ninf, .nan => .nan
  | .ninf, .pinf => .nan
  | .ninf, _ => .ninf
  | .pinf, .nan => .nan
  | .pinf, .ninf => .nan
  | .pinf, _ => .pinf
  | .fin _, .nan => .nan
  | .fin _, .ninf => .ninf
  | .fin _, .pinf => .pinf
  | .fin a, .fin b => .fin (a + b)

/-- The difference `a - b` of C on doubles. -/
def Dbl.sub (a b : Dbl α) : Dbl α := a.add b.neg

/-- An infinity times the finite value `v`: NaN for zero, else the infinity of
the product's sign; `pos` tells whether the infinity is the positive one. -/
def Dbl.inf_mul ( pos : Bool) (v : α) : Dbl α :=
  if v = 0 then .nan else if (0 < v) = pos then .pinf else .ninf

/-- The product `a * b` of C on doubles. -/
def Dbl.mul : Dbl α → Dbl α → Dbl α
  | .nan, _ => .nan
  | .ninf, .nan => .nan
  | .ninf, .ninf => .pinf
  | .ninf, .pinf => .ninf
  | .ninf, .fin v => Dbl.inf_mul false v
  | .pinf, .nan => .nan
  | .pinf, .ninf => .ninf
  | .pinf, .pinf => .pinf
  | .pinf, .fin v => Dbl.inf_mul true v
  | .fin _, .nan => .nan
  | .fin v, .ninf => Dbl.inf_mul false v
  | .fin v, .pinf => Dbl.inf_mul true v
  | .fin a, .fin b => .fin (a * b)

/-- The quotient `a / b` of C on doubles: a finite value over an infinity is
zero, an infinity over an infinity and zero over zero are NaN, and a non-zero
value over zero is the infinity of its sign. -/
def Dbl.div : Dbl α → Dbl α → Dbl α
  | .nan, _ => .nan
  | .ninf, .fin v => if 0 ≤ v then .ninf else .pinf
  | .ninf, _ => .nan
  | .pinf, .fin v => if 0 ≤ v then .pinf else .ninf
  | .pinf, _ => .nan
  | .fin _, .nan => .nan
  | .fin _, .ninf => .fin 0
  | .fin _, .pinf => .fin 0
  | .fin a, .fin b =>
    if b = 0 then (if a = 0 then .nan else if 0 < a then .pinf else .ninf)
    else .fin (a / b)

instance : Neg (Dbl α) := ⟨Dbl.neg⟩

instance : Add (Dbl α) := ⟨Dbl.add⟩

instance : Sub (Dbl α) := ⟨Dbl.sub⟩

instance : Mul (Dbl α) := ⟨Dbl.mul⟩

instance : Div (Dbl α) := ⟨Dbl.div⟩

/-- The comparison `a < b` of C on doubles: false as soon as one side is NaN. -/
def Dbl.lt : Dbl α → Dbl α → Bool
  | .nan, _ => false
  | .ninf, .pinf => true
  | .ninf, .fin _ => true
  | .ninf, _ => false
  | .pinf, _ => false
  | .fin _, .pinf => true
  | .fin a, .fin b => decide (a < b)
  | .fin _, _ => false

/-- The comparison `a <= b` of C on doubles: false as soon as one side is NaN. -/
def Dbl.le : Dbl α → Dbl α → Bool
  | .nan, _ => false
  | .ninf, .nan => false
  | .ninf, _ => true
  | .pinf, .pinf => true
  | .pinf, _ => false
  | .fin _, .pinf => true
  | .fin a, .fin b => decide (a ≤ b)
  | .fin _, _ => false

/-- The comparison `a > b` of C on doubles. -/
def Dbl.gt (a b : Dbl α) : Bool := b.lt a

/-- The macro `GSL_MAX (a, b)`, that is `((a) > (b) ? (a) : (b))`, on doubles that
may be NaN: a NaN in `b` is returned, a NaN in `a` is dropped. -/
def Dbl.GSL_MAX (a b : Dbl α) : Dbl α := if a.gt b then a else b

/-- The function `gsl_finite (x)`: 1 for a finite value, 0 for NaN and the
infinities. -/
def gsl_finite : Dbl α → Bool
  | .fin _ => true
  | _ => false

/-- The function `gsl_isinf (x)`: `+1` for the positive infinity, `-1` for the
negative one, 0 for the rest. -/
def gsl_isinf : Dbl α → Int
  | .pinf => 1
  | .ninf => -1
  | _ => 0

/-- The function `fabs` of the C library. -/
def Dbl.fabs : Dbl α → Dbl α
  | .nan => .nan
  | .ninf => .pinf
  | .pinf => .pinf
  | .fin v => .fin |v|

/-- The functions of the C library on finite arguments, and the constant `M_PI`:
parameters of the embedding.  Their values outside the domain (`sqrt` of a
negative value, `log10` of a value that is not positive) are never read. -/
structure Libm (α : Type) where
  sqrt : α → α
  sin : α → α
  sinh : α → α
  log10 : α → α
  pi : α

/-- The function `sqrt` of the C library: NaN for a negative argument. -/
def Dbl.sqrt (sqrt : α → α) : Dbl α → Dbl α
  | .nan => .nan
  | .ninf => .nan
  | .pinf => .pinf
  | .fin v => if v < 0 then .nan else .fin (sqrt v)

/-- The function `sin` of the C library: NaN at the infinities. -/
def Dbl.sin (sin : α → α) : Dbl α → Dbl α
  | .fin v => .fin (sin v)
  | _ => .nan

/-- The function `sinh` of the C library: the infinities are fixed. -/
def Dbl.sinh (sinh : α → α) : Dbl α → Dbl α
  | .nan => .nan
  | .ninf => .ninf
  | .pinf => .pinf
  | .fin v => .fin (sinh v)

/-- The function `log10` of the C library: NaN for a negative argument, the
negative infinity at zero. -/
def Dbl.log10 (log10 : α → α) : Dbl α → Dbl α
  | .nan => .nan
  | .ninf => .nan
  | .pinf => .pinf
  | .fin v => if v < 0 then .nan else if v = 0 then .ninf else .fin (log10 v)

end DblOps

/-! ## The distance engine (`nc_distance.c`) -/

section Distance

variable {α : Type} [LinearOrderedField α]

/-- A cosmology as `nc_distance.c` reads it through `nc_hicosmo_*` and
`ncm_model_impl` (the class `NcHICosmo` is not among the sources): the three
implementation flags that the code tests, the density parameters, and the
methods `E2`, `Dc`, `z_lss` and `bgp_cs2`.  `pkey` is the stamp by which an
`NcmModelCtrl` tells that the model or its parameters changed. -/
structure NcHICosmo (α : Type) where
  pkey : Nat
  impl_Dc : Bool
  impl_z_lss : Bool
  impl_bgp_cs2 : Bool
  Omega_k0 : Dbl α
  Omega_m0 : Dbl α
  Omega_b0h2 : Dbl α
  Omega_m0h2 : Dbl α
  E2 : Dbl α → Dbl α
  Dc : Dbl α → Dbl α
  z_lss : Dbl α
  bgp_cs2 : Dbl α → Dbl α

/-- The numerical routines and constants that `nc_distance.c` takes from outside
(the C library, GSL, `ncm_integrate.c`, `ncm_ode_spline.c`, `ncm_cfg.h`):
parameters of the embedding.  `ode_spline f z_f` is the spline that
`ncm_ode_spline_prepare` builds for the derivative `f` from 0 to `z_f`, as the
function `ncm_spline_eval` evaluates; the integrals return their `result`. -/
structure NcDistanceNumerics (α : Type) where
  libm : Libm α
  pow : Dbl α → Dbl α → Dbl α
  NCM_ZERO_LIMIT : Dbl α
  ode_spline : (Dbl α → Dbl α) → Dbl α → Dbl α → Dbl α
  integral_cached_0_x : (Dbl α → Dbl α) → Dbl α → Dbl α
  integral_locked_a_b : (Dbl α → Dbl α) → Dbl α → Dbl α → Dbl α
  integral_cached_x_inf : (Dbl α → Dbl α) → Dbl α → Dbl α
  integral_locked_a_inf : (Dbl α → Dbl α) → Dbl α → Dbl α

/-- The calls to the spline and quadrature routines that the distance functions
make. -/
inductive NcDistanceCall where
  /-- The call `ncm_ode_spline_prepare (dist->comoving_distance_spline, cosmo)`. -/
  | ode_spline_prepare : NcDistanceCall
  /-- The call `ncm_spline_eval (dist->comoving_distance_spline->s, z)`. -/
  | spline_eval : NcDistanceCall
  /-- The call `ncm_integral_cached_0_x (dist->comoving_distance_cache, ...)`. -/
  | comoving_cached_0_x : NcDistanceCall
  /-- The call `ncm_integral_locked_a_b` of `nc_distance_comoving`. -/
  | comoving_locked_a_b : NcDistanceCall
  /-- The call `ncm_integral_cached_x_inf (dist->sound_horizon_cache, ...)`. -/
  | sound_horizon_cached_x_inf : NcDistanceCall
  /-- The call `ncm_integral_locked_a_inf` of `nc_distance_sound_horizon`. -/
  | sound_horizon_locked_a_inf : NcDistanceCall
  /-- The call `ncm_integral_cached_x_inf (dist->time_cache, ...)`. -/
  | time_cached_x_inf : NcDistanceCall
  /-- The call `ncm_integral_locked_a_inf` of `nc_distance_cosmic_time`. -/
  | time_locked_a_inf : NcDistanceCall
  /-- The call `ncm_integral_cached_0_x (dist->lookback_time_cache, ...)`. -/
  | lookback_time_cached_0_x : NcDistanceCall
  /-- The call `ncm_integral_locked_a_b` of `nc_distance_lookback_time`. -/
  | lookback_time_locked_a_b : NcDistanceCall
  /-- The call `ncm_integral_cached_x_inf (dist->conformal_time_cache, ...)`. -/
  | conformal_time_cached_x_inf : NcDistanceCall
  /-- The call `ncm_integral_locked_a_inf` of `nc_distance_conformal_time`. -/
  | conformal_time_locked_a_inf : NcDistanceCall
deriving DecidableEq, Repr

/-- The fields of `NcDistance` that the embedded functions read or write.
`prepared` joins `dist->ctrl` and `dist->comoving_distance_spline`: `none` after
`nc_distance_init` (no model seen, the spline `NULL`), else the stamp of the model
the object was last prepared for with the spline built then.  `caches_clear` is
the flag `clear` of the function caches.  `calls` is not a field of the C object:
it records, oldest first, the calls made to the spline and quadrature routines,
so that a property can say which of them a function makes. -/
structure NcDistance (α : Type) where
  z_f : Dbl α
  use_cache : Bool
  prepared : Option (Nat × (Dbl α → Dbl α))
  caches_clear : Bool
  calls : List NcDistanceCall

/-- The function `nc_distance_init`, followed by the construct property `zf`. -/
def nc_distance_new (z_f : Dbl α) : NcDistance α :=
  { z_f := z_f, use_cache := true, prepared := none, caches_clear := false, calls := [] }

/-- The derivative `dcddz` handed to the ODE spline: `1.0 / sqrt (E2)`. -/
def dcddz (N : NcDistanceNumerics α) (cosmo : NcHICosmo α) (z : Dbl α) : Dbl α :=
  Dbl.fin 1 / Dbl.sqrt N.libm.sqrt (cosmo.E2 z)

/-- The macro `GSL_SIGN (x)`, that is `((x) >= 0.0 ? 1 : -1)`. -/
def GSL_SIGN (x : Dbl α) : Int := if (Dbl.fin 0).le x then 1 else -1

/-- The function `comoving_distance_integral_argument`. -/
def comoving_distance_integral_argument (N : NcDistanceNumerics α) (cosmo : NcHICosmo α)
    (z : Dbl α) : Dbl α :=
  let E2 := cosmo.E2 z
  if GSL_SIGN E2 = -1 then .pinf else Dbl.fin 1 / Dbl.sqrt N.libm.sqrt E2

/-- The function `nc_distance_prepare`: the caches are marked for clearing, the
spline is built for `cosmo` up to `z_f`, and the control object takes the stamp
of `cosmo`. -/
def nc_distance_prepare (N : NcDistanceNumerics α) (dist : NcDistance α) (cosmo : NcHICosmo α) :
    NcDistance α :=
  { dist with
      caches_clear := true
      prepared := some (cosmo.pkey, N.ode_spline (dcddz N cosmo) dist.z_f)
      calls := dist.calls ++ [.ode_spline_prepare] }

/-- Modelled from the spec: `nc_distance_prepare_if_needed` (defined in
`nc_distance.h`, which is not among the sources).  The spline is built once per
cosmology generation: the object is prepared when its control object has not
seen this stamp of `cosmo`. -/
def nc_distance_prepare_if_needed (N : NcDistanceNumerics α) (dist : NcDistance α)
    (cosmo : NcHICosmo α) : NcDistance α :=
  match dist.prepared with
  | some (key, _) => if key = cosmo.pkey then dist else nc_distance_prepare N dist cosmo
  | none => nc_distance_prepare N dist cosmo

/-- The function `nc_distance_comoving`, with the object it leaves: the closed
form of the cosmology when it has one, else the spline for `z <= z_f`, else the
cached or the locked quadrature from 0 to `z`.  After
`nc_distance_prepare_if_needed` the spline is there; the case `none` stands for
the `NULL` that the code would dereference. -/
def nc_distance_comoving (N : NcDistanceNumerics α) (dist : NcDistance α) (cosmo : NcHICosmo α)
    (z : Dbl α) : Dbl α × NcDistance α :=
  let dist1 := nc_distance_prepare_if_needed N dist cosmo
  if cosmo.impl_Dc then (cosmo.Dc z, dist1)
  else if z.le dist1.z_f then
    match dist1.prepared with
    | some (_, s) => (s z, { dist1 with calls := dist1.calls ++ [.spline_eval] })
    | none => (.nan, dist1)
  else if dist1.use_cache then
    (N.integral_cached_0_x (comoving_distance_integral_argument N cosmo) z,
      { dist1 with calls := dist1.calls ++ [.comoving_cached_0_x] })
  else
    (N.integral_locked_a_b (comoving_distance_integral_argument N cosmo) (.fin 0) z,
      { dist1 with calls := dist1.calls ++ [.comoving_locked_a_b] })

/-- The curvature index `k` of `nc_distance_transverse`:
`fabs (Omega_k0) < NCM_ZERO_LIMIT ? 0 : (Omega_k0 > 0.0 ? -1 : 1)`. -/
def curvature_k (N : NcDistanceNumerics α) (Omega_k0 : Dbl α) : Int :=
  if (Dbl.fabs Omega_k0).lt N.NCM_ZERO_LIMIT then 0
  else if Omega_k0.gt (.fin 0) then -1 else 1

/-- The function `nc_distance_transverse`, with the object it leaves. -/
def nc_distance_transverse (N : NcDistanceNumerics α) (dist : NcDistance α)
    (cosmo : NcHICosmo α) (z : Dbl α) : Except Fatal (Dbl α × NcDistance α) :=
  let Omega_k0 := cosmo.Omega_k0
  let sqrt_Omega_k0 := Dbl.sqrt N.libm.sqrt (Dbl.fabs Omega_k0)
  let r := nc_distance_comoving N dist cosmo z
  let comoving_dist := r.1
  let k := curvature_k N Omega_k0
  if gsl_isinf comoving_dist ≠ 0 then .ok (comoving_dist, r.2)
  else if k = 0 then .ok (comoving_dist, r.2)
  else if k = -1 then
    .ok (Dbl.sinh N.libm.sinh (sqrt_Omega_k0 * comoving_dist) / sqrt_Omega_k0, r.2)
  else if k = 1 then
    .ok (Dbl.fabs (Dbl.sin N.libm.sin (sqrt_Omega_k0 * comoving_dist) / sqrt_Omega_k0), r.2)
  else .error .transverse_not_reached

/-- The function `nc_distance_luminosity`: `Dl = (1.0 + z) * Dt`. -/
def nc_distance_luminosity (N : NcDistanceNumerics α) (dist : NcDistance α)
    (cosmo : NcHICosmo α) (z : Dbl α) : Except Fatal (Dbl α × NcDistance α) :=
  match nc_distance_transverse N dist cosmo z with
  | .error e => .error e
  | .ok (Dt, dist1) => .ok ((Dbl.fin 1 + z) * Dt, dist1)

/-- The function `nc_distance_dmodulus`. -/
def nc_distance_dmodulus (N : NcDistanceNumerics α) (dist : NcDistance α)
    (cosmo : NcHICosmo α) (z : Dbl α) : Except Fatal (Dbl α × NcDistance α) :=
  match nc_distance_luminosity N dist cosmo z with
  | .error e => .error e
  | .ok (Dl, dist1) =>
    if !gsl_finite Dl then .ok (Dl, dist1)
    else .ok (Dbl.fin 5 * Dbl.log10 N.libm.log10 Dl + Dbl.fin 25, dist1)

/-- The function `nc_distance_decoupling_redshift`: the closed form of the
cosmology when it has one, else the fitting formula of Hu and Sugiyama. -/
def nc_distance_decoupling_redshift (N : NcDistanceNumerics α) (cosmo : NcHICosmo α) : Dbl α :=
  if cosmo.impl_z_lss then cosmo.z_lss
  else
    let omega_b_h2 := cosmo.Omega_b0h2
    let omega_m_h2 := cosmo.Omega_m0h2
    let g1 := Dbl.fin 0.0783 * N.pow omega_b_h2 (.fin (-0.238)) /
      (Dbl.fin 1 + Dbl.fin 39.5 * N.pow omega_b_h2 (.fin 0.763))
    let g2 := Dbl.fin 0.560 / (Dbl.fin 1 + Dbl.fin 21.1 * N.pow omega_b_h2 (.fin 1.81))
    Dbl.fin 1048 * (Dbl.fin 1 + Dbl.fin 1.24e-3 * N.pow omega_b_h2 (.fin (-0.738))) *
      (Dbl.fin 1 + g1 * N.pow omega_m_h2 g2)

/-- The function `sound_horizon_integral_argument`: `sqrt (bgp_cs2 / E2)`. -/
def sound_horizon_integral_argument (N : NcDistanceNumerics α) (cosmo : NcHICosmo α)
    (z : Dbl α) : Dbl α :=
  Dbl.sqrt N.libm.sqrt (cosmo.bgp_cs2 z / cosmo.E2 z)

/-- The function `nc_distance_sound_horizon`, with the object it leaves: the
cached or the locked quadrature from `z` to infinity, for a cosmology that
implements `bgp_cs2`. -/
def nc_distance_sound_horizon (N : NcDistanceNumerics α) (dist : NcDistance α)
    (cosmo : NcHICosmo α) (z : Dbl α) : Except Fatal (Dbl α × NcDistance α) :=
  if !cosmo.impl_bgp_cs2 then .error .sound_horizon_bgp_cs2
  else if dist.use_cache then
    .ok (N.integral_cached_x_inf (sound_horizon_integral_argument N cosmo) z,
      { dist with calls := dist.calls ++ [.sound_horizon_cached_x_inf] })
  else
    .ok (N.integral_locked_a_inf (sound_horizon_integral_argument N cosmo) z,
      { dist with calls := dist.calls ++ [.sound_horizon_locked_a_inf] })

/-- The function `nc_distance_angular_diameter_curvature_scale`. -/
def nc_distance_angular_diameter_curvature_scale (N : NcDistanceNumerics α)
    (dist : NcDistance α) (cosmo : NcHICosmo α) : Except Fatal (Dbl α × NcDistance α) :=
  let z_star := nc_distance_decoupling_redshift N cosmo
  if gsl_finite z_star then
    match nc_distance_transverse N dist cosmo z_star with
    | .error e => .error e
    | .ok (Dt, dist1) =>
      .ok (Dbl.sqrt N.libm.sqrt (cosmo.E2 z_star) * Dt / (Dbl.fin 1 + z_star), dist1)
  else .ok (.nan, dist)

/-- The function `nc_distance_shift_parameter_lss`. -/
def nc_distance_shift_parameter_lss (N : NcDistanceNumerics α) (dist : NcDistance α)
    (cosmo : NcHICosmo α) : Except Fatal (Dbl α × NcDistance α) :=
  let sqrt_mod_Omega_m0 := Dbl.sqrt N.libm.sqrt (Dbl.fabs cosmo.Omega_m0)
  let z_star := nc_distance_decoupling_redshift N cosmo
  if gsl_finite z_star then
    match nc_distance_transverse N dist cosmo z_star with
    | .error e => .error e
    | .ok (transverse, dist1) => .ok (sqrt_mod_Omega_m0 * transverse, dist1)
  else .ok (.nan, dist)

/-- The function `nc_distance_comoving_lss`. -/
def nc_distance_comoving_lss (N : NcDistanceNumerics α) (dist : NcDistance α)
    (cosmo : NcHICosmo α) : Except Fatal (Dbl α × NcDistance α) :=
  let z_star := nc_distance_decoupling_redshift N cosmo
  if gsl_finite z_star then .ok (nc_distance_comoving N dist cosmo z_star)
  else .ok (.nan, dist)

/-- The function `nc_distance_acoustic_scale`:
`M_PI * transverse (z) / sound_horizon (z)`.  C leaves the order of the two calls
open; they are taken from left to right, and neither reads what the other
writes. -/
def nc_distance_acoustic_scale (N : NcDistanceNumerics α) (dist : NcDistance α)
    (cosmo : NcHICosmo α) : Except Fatal (Dbl α × NcDistance α) :=
  let z := nc_distance_decoupling_redshift N cosmo
  if gsl_finite z then
    match nc_distance_transverse N dist cosmo z with
    | .error e => .error e
    | .ok (Dt, dist1) =>
      match nc_distance_sound_horizon N dist1 cosmo z with
      | .error e => .error e
      | .ok (rs, dist2) => .ok (Dbl.fin N.libm.pi * Dt / rs, dist2)
  else .ok (.nan, dist)

/-- The function `nc_distance_theta100CMB`:
`100.0 * sound_horizon (z) / transverse (z)`, the two calls taken from left to
right. -/
def nc_distance_theta100CMB (N : NcDistanceNumerics α) (dist : NcDistance α)
    (cosmo : NcHICosmo α) : Except Fatal (Dbl α × NcDistance α) :=
  let z := nc_distance_decoupling_redshift N cosmo
  if gsl_finite z then
    match nc_distance_sound_horizon N dist cosmo z with
    | .error e => .error e
    | .ok (rs, dist1) =>
      match nc_distance_transverse N dist1 cosmo z with
      | .error e => .error e
      | .ok (Dt, dist2) => .ok (Dbl.fin 100 * rs / Dt, dist2)
  else .ok (.nan, dist)

end Distance

/-! ## Example cosmologies -/

section DistanceExamples

variable {α : Type} [LinearOrderedField α]

/-- Numerical routines for a cosmology that brings its own closed forms: the
zero limit is `1e-13`, and the power function, the spline and the quadratures,
which such a cosmology never reaches, give NaN. -/
def exNumerics (L : Libm α) : NcDistanceNumerics α :=
  { libm := L, pow := fun _ _ => .nan, NCM_ZERO_LIMIT := .fin 1e-13,
    ode_spline := fun _ _ _ => .nan,
    integral_cached_0_x := fun _ _ => .nan, integral_locked_a_b := fun _ _ _ => .nan,
    integral_cached_x_inf := fun _ _ => .nan, integral_locked_a_inf := fun _ _ => .nan }

/-- A cosmology with curvature density `Omega_k0` whose closed forms give the
comoving distance `Dc` at every redshift and the decoupling redshift `z_lss`; it
implements the sound speed of the baryon-photon plasma when `cs2` says so. -/
def exCosmo (Omega_k0 : Dbl α) (Dc : Dbl α) (z_lss : Dbl α) (cs2 : Bool) : NcHICosmo α :=
  { pkey := 1, impl_Dc := true, impl_z_lss := true, impl_bgp_cs2 := cs2,
    Omega_k0 := Omega_k0, Omega_m0 := .fin 0.3, Omega_b0h2 := .fin 0.022,
    Omega_m0h2 := .fin 0.147, E2 := fun _ => .fin 1, Dc := fun _ => Dc, z_lss := z_lss,
    bgp_cs2 := fun _ => .fin 0.25 }

end DistanceExamples

/-! ## The running moments of an accumulator -/

section Moments

variable {α : Type} [LinearOrderedField α]

/-- Modelled from the spec: the running statistics of an `NcmStatsVec`
(`ncm_stats_vec.c` is not among the sources), the part of the accumulator that
the row buffer above leaves out.  `nitens` is the running count and `acc` holds,
for each coordinate, the running mean and the running sum `M2` of the spec's
recurrence. -/
structure NcmStatsVecMoments (α : Type) where
  nitens : Nat
  acc : List (α × α)

/-- Modelled from the spec: the running statistics of a new accumulator for
vectors of `len` components, all zero. -/
def ncm_stats_vec_moments_new (len : Nat) : NcmStatsVecMoments α :=
  { nitens := 0, acc := List.replicate len (0, 0) }

/-- Modelled from the spec: the recurrence of `update` on one coordinate, with `n`
the count that includes the new value: `delta = x - mean; mean += delta / n;
M2 += delta * (x - mean)`. -/
def welford_step (n : Nat) (p : α × α) (x : α) : α × α :=
  let delta := x - p.1
  let mean := p.1 + delta / (n : α)
  (mean, p.2 + delta * (x - mean))

/-- Modelled from the spec: `update (vector)`, the unweighted incremental update
of the running statistics: the count goes up by one and every coordinate takes a
step of the recurrence. -/
def ncm_stats_vec_moments_update (s : NcmStatsVecMoments α) (x : List α) :
    NcmStatsVecMoments α :=
  { nitens := s.nitens + 1, acc := List.zipWith (welford_step (s.nitens + 1)) s.acc x }

/-- Modelled from the spec: `mean (i)`, the running mean of coordinate `i`. -/
def ncm_stats_vec_moments_mean (s : NcmStatsVecMoments α) (i : Nat) : α :=
  (s.acc.getD i (0, 0)).1

/-- Modelled from the spec: `var (i)`, the running variance of coordinate `i`, the
sum `M2` over `n - 1`. -/
def ncm_stats_vec_moments_var (s : NcmStatsVecMoments α) (i : Nat) : α :=
  (s.acc.getD i (0, 0)).2 / ((s.nitens : α) - 1)

/-- The recurrence on one coordinate run over a sequence of values, from the
count `n`. -/
def welford_fold : Nat → α × α → List α → α × α
  | _, p, [] => p
  | n, p, x :: xs => welford_fold (n + 1) (welford_step (n + 1) p x) xs

/-- The arithmetic mean of a sequence of values. -/
def arithmetic_mean (c : List α) : α := c.sum / (c.length : α)

/-- The sample variance of a sequence of values: the squared deviations from the
arithmetic mean, summed, over the length less one. -/
def sample_variance (c : List α) : α :=
  (c.map (fun x => (x - arithmetic_mean c) ^ 2)).sum / ((c.length : α) - 1)

end Moments

/-! ## The convergence diagnostics of the catalog -/

section Diagnostics

variable {α : Type} [LinearOrderedField α]

/-- An `NcmMatrix` of doubles, row by row (`ncm_matrix.h` is not among the
sources). -/
abbrev NcmMatrix (α : Type) := List (List (Dbl α))

/-- Modelled from the spec: `ncm_matrix_get (m, i, j)` (`ncm_matrix.h` is not among
the sources), the entry of row `i` and column `j`. -/
def ncm_matrix_get (m : NcmMatrix α) (i j : Nat) : Dbl α := (m.getD i []).getD j .nan

/-- The getters of `NcmStatsVec` that the diagnostics call (`ncm_stats_vec.c` is
not among the sources): parameters of the embedding.  `cov_matrix_of_updates vs`
is the matrix that `ncm_stats_vec_peek_cov_matrix (svec, 0)` gives for an
accumulator that was reset and then updated with the vectors `vs` in turn. -/
structure NcmStatsVecGetters (α : Type) where
  get_weight : NcmStatsVec → Dbl α
  get_mean : NcmStatsVec → Nat → Dbl α
  get_var : NcmStatsVec → Nat → Dbl α
  get_sd : NcmStatsVec → Nat → Dbl α
  peek_cov_matrix : NcmStatsVec → Nat → NcmMatrix α
  cov_matrix_of_updates : List (List (Dbl α)) → NcmMatrix α

/-- The routines of linear algebra that `ncm_mset_catalog_get_shrink_factor` calls
(LAPACK behind `ncm_matrix_cholesky_decomp` and `ncm_matrix_cholesky_inverse`,
BLAS behind `ncm_matrix_dsymm`, and `gsl_eigen_nonsymm`): parameters of the
embedding.  The two Cholesky routines give their return code and the matrix they
leave; `dsymm A B` is the product `1.0 * A * B`; `eigen_nonsymm` gives the
eigenvalues, real part and imaginary part. -/
structure NcmLinAlg (α : Type) where
  cholesky_decomp : NcmMatrix α → Int × NcmMatrix α
  cholesky_inverse : NcmMatrix α → Int × NcmMatrix α
  dsymm : NcmMatrix α → NcmMatrix α → NcmMatrix α
  eigen_nonsymm : NcmMatrix α → List (Dbl α × Dbl α)

/-- Modelled from the spec: `ncm_matrix_add_mul (cm, a, m)` (`ncm_matrix.h` is not
among the sources).  The spec has the chain covariances summed into their
average: `cm` becomes `cm + a * m`, entry by entry. -/
def ncm_matrix_add_mul (cm : NcmMatrix α) (a : Dbl α) (m : NcmMatrix α) : NcmMatrix α :=
  List.zipWith (List.zipWith (fun c x => c + a * x)) cm m

/-- Modelled from the spec: `ncm_matrix_scale (cm, val)` (`ncm_matrix.h` is not
among the sources), the division of the sum by the number of chains that makes
the spec's average: every entry is multiplied by `val`. -/
def ncm_matrix_scale (cm : NcmMatrix α) (val : Dbl α) : NcmMatrix α :=
  cm.map (List.map (fun c => c * val))

/-- The function `gsl_stats_mean` of GSL in exact arithmetic: the sum of the data
over their number. -/
def gsl_stats_mean (data : List (Dbl α)) : Dbl α :=
  data.foldl (fun s x => s + x) (.fin 0) / .fin (data.length : α)

/-- The function `gsl_stats_variance` of GSL in exact arithmetic: the squared
deviations from the mean, summed, over the number of data less one. -/
def gsl_stats_variance (data : List (Dbl α)) : Dbl α :=
  data.foldl (fun s x => s + (x - gsl_stats_mean data) * (x - gsl_stats_mean data)) (.fin 0)
    / .fin ((data.length : α) - 1)

/-- The accumulators `g_ptr_array_index (mcat->chain_pstats, i)` for
`i < nchains`, in turn. -/
def chain_pstats_list (mcat : NcmMSetCatalog) : List NcmStatsVec :=
  (List.range mcat.nchains).map (fun i => mcat.chain_pstats.getD i (ncm_stats_vec_new 0 false))

/-- The function `ncm_mset_catalog_get_param_shrink_factor (mcat, p)`; the warning
for chains of unequal sizes does not change the result.  The property `nchains`
of the catalog ranges from 1, so that `n % nchains` and `n / nchains` are
defined. -/
def ncm_mset_catalog_get_param_shrink_factor (sqrt : α → α) (G : NcmStatsVecGetters α)
    (mcat : NcmMSetCatalog) (p : Nat) : Dbl α :=
  let n := mcat.pstats.nitens
  if mcat.nchains = 1 then .fin 1
  else
    let n := n / mcat.nchains
    let chain_means := (chain_pstats_list mcat).map (fun pstats => G.get_mean pstats p)
    let chain_vars := (chain_pstats_list mcat).map (fun pstats => G.get_var pstats p)
    let W := gsl_stats_mean chain_vars
    let B_n := gsl_stats_variance chain_means
    Dbl.sqrt sqrt ((Dbl.fin (n : α) - Dbl.fin 1) / (Dbl.fin 1 * Dbl.fin (n : α)) + B_n / W)

/-- The largest real part found by the loop
`lev = GSL_MAX (lev, GSL_VECTOR_REAL (mcat->chain_sM_ev, i))` over
`i < free_params_len`, from `lev = 0.0`. -/
def shrink_lev (ev : List (Dbl α × Dbl α)) (free_params_len : Nat) : Dbl α :=
  (List.range free_params_len).foldl
    (fun lev i => Dbl.GSL_MAX lev (ev.getD i (.nan, .nan)).1) (.fin 0)

/-- The function `ncm_mset_catalog_get_shrink_factor`.  The scratch objects
`mean_pstats`, `chain_cov`, `chain_sM` and `chain_sM_ev`, which every call
overwrites before it reads them, are local; the warnings (chains of unequal
sizes, a complex eigenvalue) do not change the result. -/
def ncm_mset_catalog_get_shrink_factor (sqrt : α → α) (G : NcmStatsVecGetters α)
    (LA : NcmLinAlg α) (mcat : NcmMSetCatalog) : Except Fatal (Dbl α) :=
  let n := mcat.pstats.nitens
  let free_params_len := mcat.pstats.x.length - mcat.nadd_vals
  if mcat.nchains = 1 then .ok (.fin 1)
  else
    let chain_mean_vectors := (chain_pstats_list mcat).map (fun pstats =>
      (List.range free_params_len).map (fun p => G.get_mean pstats (p + mcat.nadd_vals)))
    let chain_cov := (chain_pstats_list mcat).foldl
      (fun cm pstats => ncm_matrix_add_mul cm (.fin 1) (G.peek_cov_matrix pstats mcat.nadd_vals))
      (List.replicate free_params_len (List.replicate free_params_len (.fin 0)))
    let chain_cov := ncm_matrix_scale chain_cov (Dbl.fin 1 / (Dbl.fin 1 * Dbl.fin (mcat.nchains : α)))
    let cov := G.cov_matrix_of_updates chain_mean_vectors
    if gsl_finite (ncm_matrix_get chain_cov 0 0) then
      let d := LA.cholesky_decomp chain_cov
      if d.1 ≠ 0 then .error .shrink_cholesky_decomp
      else
        let v := LA.cholesky_inverse d.2
        if v.1 ≠ 0 then .error .shrink_cholesky_inverse
        else
          let chain_sM := LA.dsymm v.2 cov
          let lev := shrink_lev (LA.eigen_nonsymm chain_sM) free_params_len
          .ok (Dbl.sqrt sqrt ((Dbl.fin (n : α) - Dbl.fin 1) / (Dbl.fin 1 * Dbl.fin (n : α))
            + (Dbl.fin (mcat.nchains : α) + Dbl.fin 1) * lev
              / (Dbl.fin (mcat.nchains : α) * Dbl.fin 1)))
    else .ok (.fin 1.0e10)

/-- The conversion of a double to `guint`, as in `guint lerror_i_truc = lerror_i`:
the value is truncated towards zero.  C leaves the conversion undefined when the
truncated value is not a `guint` (NaN, the infinities, a value of `2 ^ 32` or
more, a value of `-1` or less): `none`. -/
def Dbl.to_guint [FloorRing α] : Dbl α → Option Nat
  | .fin v => if -1 < v ∧ v < 4294967296 then some (Nat.floor v) else none
  | _ => none

/-- The relative error `fabs (sd / (mu * sqrt_n))` of column `i` in
`ncm_mset_catalog_largest_error`. -/
def largest_error_rel (sqrt : α → α) (G : NcmStatsVecGetters α) (mcat : NcmMSetCatalog)
    (i : Nat) : Dbl α :=
  let sqrt_n := Dbl.sqrt sqrt (G.get_weight mcat.pstats)
  let mu := G.get_mean mcat.pstats i
  let sd := G.get_sd mcat.pstats i
  Dbl.fabs (sd / (mu * sqrt_n))

/-- The body of the loop of `ncm_mset_catalog_largest_error` for `n < 10`. -/
def largest_error_step_small (sqrt : α → α) (G : NcmStatsVecGetters α) (mcat : NcmMSetCatalog)
    (tau : List (Dbl α)) (lerror : Dbl α) (i : Nat) : Dbl α :=
  let lerror_i := largest_error_rel sqrt G mcat i
  let lerror_i := lerror_i * Dbl.sqrt sqrt (tau.getD (i - mcat.nadd_vals) .nan)
  Dbl.GSL_MAX lerror lerror_i

/-- The body of the loop of `ncm_mset_catalog_largest_error` in the other branch:
when the relative error truncates to 1 it is replaced by `fabs (sd / sqrt_n)`.
An undefined truncation counts as different from 1. -/
def largest_error_step [FloorRing α] (sqrt : α → α) (G : NcmStatsVecGetters α)
    (mcat : NcmMSetCatalog) (tau : List (Dbl α)) (lerror : Dbl α) (i : Nat) : Dbl α :=
  let sqrt_n := Dbl.sqrt sqrt (G.get_weight mcat.pstats)
  let sd := G.get_sd mcat.pstats i
  let lerror_i := largest_error_rel sqrt G mcat i
  let lerror_i_truc := Dbl.to_guint lerror_i
  let lerror_i := if lerror_i_truc = some 1 then Dbl.fabs (sd / sqrt_n) else lerror_i
  let lerror_i := lerror_i * Dbl.sqrt sqrt (tau.getD (i - mcat.nadd_vals) .nan)
  Dbl.GSL_MAX lerror lerror_i

/-- The function `ncm_mset_catalog_largest_error`; `tau` is the vector
`mcat->tau` of autocorrelation times, one per free parameter.  The columns run
from `fpi = nadd_vals` to `fpf = free_params_len + nadd_vals`, the last left
out. -/
def ncm_mset_catalog_largest_error [FloorRing α] (sqrt : α → α) (G : NcmStatsVecGetters α)
    (mcat : NcmMSetCatalog) (tau : List (Dbl α)) : Dbl α :=
  let free_params_len := mcat.fparams_len
  let n := G.get_weight mcat.pstats
  let fpi := mcat.nadd_vals
  if n.lt (.fin 10) then
    (List.range' fpi free_params_len).foldl (largest_error_step_small sqrt G mcat tau) (.fin 0)
  else
    (List.range' fpi free_params_len).foldl (largest_error_step sqrt G mcat tau) (.fin 0)

end Diagnostics

/-! ## Example catalogs for the diagnostics -/

section DiagnosticsExamples

variable {α : Type} [LinearOrderedField α]

/-- A value kept in a row of the catalog, read as a double of the numerical
code. -/
def Dbl.ofGDouble : GDouble → Dbl α
  | .neginf => .ninf
  | .fin v => .fin (v : α)
  | .posinf => .pinf

/-- The values of column `i` in the rows that an accumulator has absorbed. -/
def stats_column (sv : NcmStatsVec) (i : Nat) : List (Dbl α) :=
  sv.absorbed.map (fun row => Dbl.ofGDouble (row.getD i (.fin 0)))

/-- The sample covariance of two sequences of data of the same length: the
products of the deviations from the two means, summed, over the number of data
less one. -/
def sample_covariance (d1 d2 : List (Dbl α)) : Dbl α :=
  (List.zipWith (fun x y => (x - gsl_stats_mean d1) * (y - gsl_stats_mean d2)) d1 d2).foldl
    (fun s x => s + x) (.fin 0) / .fin ((d1.length : α) - 1)

/-- Modelled from the spec: the getters of `NcmStatsVec` (`ncm_stats_vec.c` is not
among the sources) on an unweighted accumulator.  By the spec's invariant the
weight is the count of the rows absorbed and the mean, the variance and the
covariance are the exact sample statistics of these rows; the standard deviation
is the square root of the variance. -/
def exGetters (sqrt : α → α) : NcmStatsVecGetters α :=
  { get_weight := fun sv => .fin (sv.nitens : α)
    get_mean := fun sv i => gsl_stats_mean (stats_column sv i)
    get_var := fun sv i => gsl_stats_variance (stats_column sv i)
    get_sd := fun sv i => Dbl.sqrt sqrt (gsl_stats_variance (stats_column sv i))
    peek_cov_matrix := fun sv off =>
      (List.range (sv.x.length - off)).map (fun i =>
        (List.range (sv.x.length - off)).map (fun j =>
          sample_covariance (stats_column sv (i + off)) (stats_column sv (j + off))))
    cov_matrix_of_updates := fun vs =>
      (List.range (vs.headD []).length).map (fun i =>
        (List.range (vs.headD []).length).map (fun j =>
          sample_covariance (vs.map (fun v => v.getD i .nan)) (vs.map (fun v => v.getD j .nan)))) }

/-- The routines of linear algebra on matrices of one row and one column with a
finite entry: the Cholesky factor of `(w)` is `(sqrt w)` for `w > 0` (return code
0, else 1), the inverse from the factor `(u)` is `(1 / (u * u))` (return code 0
for `u` not zero, else 1), the product is the product of the entries, and the
eigenvalue is the entry.  Other matrices are refused with the return code
`-1`. -/
def exLinAlg (sqrt : α → α) : NcmLinAlg α :=
  { cholesky_decomp := fun m =>
      match m with
      | [[.fin w]] => if 0 < w then (0, [[.fin (sqrt w)]]) else (1, m)
      | _ => (-1, m)
    cholesky_inverse := fun m =>
      match m with
      | [[.fin u]] => if u ≠ 0 then (0, [[.fin (1 / (u * u))]]) else (1, m)
      | _ => (-1, m)
    dsymm := fun a b => [[ncm_matrix_get a 0 0 * ncm_matrix_get b 0 0]]
    eigen_nonsymm := fun m => [(ncm_matrix_get m 0 0, .fin 0)] }

/-- A catalog of two chains for one free parameter, without additional values
and without a file, after the rows 0, 2, 2, 4: the accumulator of chain 0 has
absorbed 0 and 2, that of chain 1 has absorbed 2 and 4. -/
def exShrink : NcmMSetCatalog :=
  match runOps [.add [.fin 0], .add [.fin 2], .add [.fin 2], .add [.fin 4]]
      (ncm_mset_catalog_new 1 0 2 false) with
  | .ok m => m
  | .error _ => ncm_mset_catalog_init

/-- A catalog of one chain for one free parameter, without additional values and
without a file, after ten rows: 11 and -7, five times each.  The mean is 2 and the
sample variance is 90. -/
def exTenRows : NcmMSetCatalog :=
  match runOps [.add [.fin 11], .add [.fin (-7)], .add [.fin 11], .add [.fin (-7)],
      .add [.fin 11], .add [.fin (-7)], .add [.fin 11], .add [.fin (-7)],
      .add [.fin 11], .add [.fin (-7)]] (ncm_mset_catalog_new 1 0 1 false) with
  | .ok m => m
  | .error _ => ncm_mset_catalog_init

end DiagnosticsExamples

/-! ## Reading the rows of the catalog -/

/-- The function `ncm_mset_catalog_peek_row (mcat, i)`: `NULL` (here `none`) for an
index from `ncm_stats_vec_nrows (mcat->pstats)` on, else the row at position `i`
of the global accumulator. -/
def ncm_mset_catalog_peek_row (mcat : NcmMSetCatalog) (i : Nat) :
    Except Fatal (Option NcmVector) :=
  let nrows := ncm_stats_vec_nrows mcat.pstats
  if i ≥ nrows then .ok none
  else
    match ncm_stats_vec_peek_row mcat.pstats i with
    | .error e => .error e
    | .ok row => .ok (some row)

/-- The function `ncm_mset_catalog_peek_current_row (mcat)`: `NULL` (here `none`)
when the running count `nitens` of the global accumulator is zero, else the row
at position `nitens - 1`. -/
def ncm_mset_catalog_peek_current_row (mcat : NcmMSetCatalog) :
    Except Fatal (Option NcmVector) :=
  if mcat.pstats.nitens = 0 then .ok none
  else
    match ncm_stats_vec_peek_row mcat.pstats (mcat.pstats.nitens - 1) with
    | .error e => .error e
    | .ok row => .ok (some row)

/-- The running count of the global accumulator is the number of rows it holds,
and that number is the count `cur_id - first_id + 1` of the identifiers of the
in-memory range, up to the multiples of `2 ^ 32` that a conversion of a row
count to `guint` drops. -/
def RowsCounted (m : NcmMSetCatalog) : Prop :=
  m.pstats.save_x = true ∧ m.pstats.wts.length = m.pstats.saved_x.length ∧
  ∃ k : Nat, m.cur_id - m.first_id + 1 = (m.pstats.saved_x.length : Int) + 4294967296 * (k : Int)

/-! ## Example states for the rows pulled from a file -/

/-- An example table of a catalog of two chains: the rows of the identifiers 0
to 5. -/
def exTableSix : FitsTable :=
  { filename := "cat.fits", ncols := 2,
    rows := [exRow 0, exRow 1, exRow 2, exRow 3, exRow 4, exRow 5],
    first_id_key := 0, nrows_key := 6, rtype_key := NCM_MSET_CATALOG_RTYPE_UNDEFINED,
    nchains_key := 2, naddval_key := 1, weighted_key := false }

/-- A catalog of two chains without a file whose first identifier was set to 4
while it was empty, after the `add`s of the rows of the identifiers 4 and 5. -/
def exLateStart : NcmMSetCatalog :=
  match ncm_mset_catalog_set_first_id (ncm_mset_catalog_new 1 1 2 false) 4 with
  | .error _ => ncm_mset_catalog_init
  | .ok m =>
    match ncm_mset_catalog_add_from_vector m (exRow 4) with
    | .error _ => ncm_mset_catalog_init
    | .ok m1 =>
      match ncm_mset_catalog_add_from_vector m1 (exRow 5) with
      | .error _ => ncm_mset_catalog_init
      | .ok m2 => m2

/-- The catalog `exLateStart` after `ncm_mset_catalog_set_file` attached the file
of `exTableSix` to it: the synchronisation pulled the rows of the identifiers 0
to 3 from the file. -/
def exPulled : NcmMSetCatalog :=
  match ncm_mset_catalog_set_file exLateStart "cat.fits" (some exTableSix) with
  | .error _ => ncm_mset_catalog_init
  | .ok m => m

/-! ## Vectors from variants (`ncm_vector.c`) -/

/-- A `GVariant` as `ncm_vector_set_from_variant` reads it: an array of doubles
(type string `ad`) with its children in order, or a value of another type, with
its type string. -/
inductive GVariant where
  | ad (children : List GDouble) : GVariant
  | other (ty : String) : GVariant
deriving DecidableEq, Repr

/-- The loop `for (i = 0; i < n; i++)` of `ncm_vector_set_from_variant` with the
body `g_variant_get_child (var, i, "d", &val); ncm_vector_set (cv, i, val);`.
The first argument counts the iterations left, `i` is the loop variable. -/
def set_from_variant_loop (children : List GDouble) : Nat → Nat → NcmVector → NcmVector
  | 0, _, cv => cv
  | k + 1, i, cv =>
    set_from_variant_loop children k (i + 1) (cv.set i (children.getD i (.fin 0)))

/-- The function `ncm_vector_set_from_variant (cv, var)`, with the vector it
leaves.  A vector of length 0 is given fresh storage for `n` components, shown
here as zeros, which the loop then overwrites; `gsl_vector_view_array (d, n)` of
GSL is taken to give the view of `n` components for every `n`. -/
def ncm_vector_set_from_variant (cv : NcmVector) (var : GVariant) : Except Fatal NcmVector :=
  match var with
  | .other _ => .error .vector_variant_type
  | .ad children =>
    let n := children.length
    if cv.length = 0 then
      .ok (set_from_variant_loop children n 0 (List.replicate n (.fin 0)))
    else if n ≠ cv.length then .error .vector_variant_size
    else .ok (set_from_variant_loop children n 0 cv)

/-! ## The parameter set (`NcmMSet`) -/

/-- Modelled from the spec: the enumeration `NcmParamType` (`ncm_model.h` is not
among the sources), of which the test of the parameter set uses
`NCM_PARAM_TYPE_FREE` and `NCM_PARAM_TYPE_FIXED`. -/
inductive NcmParamType where
  | FREE : NcmParamType
  | FIXED : NcmParamType
deriving DecidableEq, Repr

/-- Modelled from the spec: an `NcmModel` as the parameter set reads it
(`ncm_model.c` is not among the sources): the values of its parameters and, for
each parameter id, whether the parameter is free or fixed. -/
structure NcmModel where
  params : List GDouble
  ftypes : List NcmParamType
deriving DecidableEq, Repr

/-- Modelled from the spec: `NcmMSetPIndex`, the stable address of a parameter:
the model id `mid` and the parameter id `pid`. -/
structure NcmMSetPIndex where
  mid : Nat
  pid : Nat
deriving DecidableEq, Repr

/-- Modelled from the spec: `NcmMSet` (`ncm_mset.c` is not among the sources).
The spec's parameter-set object holds models and makes each free parameter
addressable by a stable (model-id, parameter-id) pair.  `models` are the model
objects that the set holds, and `model_of` says, for each model id `mid`, which
of these objects is filed under it, if any: the test `test_ncm_mset_fparams`
files one object under several ids and reads from all of them the value that it
wrote through one. -/
structure NcmMSet where
  models : List NcmModel
  model_of : List (Option Nat)
deriving DecidableEq, Repr

/-- Modelled from the spec: `ncm_mset_peek (mset, mid)`, the model filed under
`mid`, or `NULL` (here `none`). -/
def ncm_mset_peek (mset : NcmMSet) (mid : Nat) : Option NcmModel :=
  match mset.model_of.getD mid none with
  | none => none
  | some o => mset.models[o]?

/-- Modelled from the spec: `ncm_mset_param_get (mset, mid, pid)`, the value of
parameter `pid` of the model filed under `mid`. -/
def ncm_mset_param_get (mset : NcmMSet) (mid pid : Nat) : Except Fatal GDouble :=
  match ncm_mset_peek mset mid with
  | none => .error .mset_model_not_set
  | some model =>
    match model.params[pid]? with
    | none => .error .mset_param_index
    | some x => .ok x

/-- Modelled from the spec: `ncm_mset_param_set (mset, mid, pid, x)`: parameter
`pid` of the model filed under `mid` takes the value `x`. -/
def ncm_mset_param_set (mset : NcmMSet) (mid pid : Nat) (x : GDouble) : Except Fatal NcmMSet :=
  match mset.model_of.getD mid none with
  | none => .error .mset_model_not_set
  | some o =>
    match mset.models[o]? with
    | none => .error .mset_model_not_set
    | some model =>
      if pid < model.params.length then
        .ok { mset with models := mset.models.set o { model with params := model.params.set pid x } }
      else .error .mset_param_index

/-- Modelled from the spec: the free parameters that the model filed under `mid`
brings to the free-parameter map.  A model object filed under several ids is
listed once, under the smallest of them (in the test the object filed under the
positions 1, 2, 4 and 10 gives one free parameter, with the id of position 1);
of its parameters those of type `NCM_PARAM_TYPE_FREE` are listed, in the order
of their ids. -/
def fparam_map_of_mid (mset : NcmMSet) (mid : Nat) : List NcmMSetPIndex :=
  match mset.model_of.getD mid none with
  | none => []
  | some o =>
    if (List.range mid).any (fun mid1 => mset.model_of.getD mid1 none == some o) then []
    else
      match mset.models[o]? with
      | none => []
      | some model =>
        ((List.range model.params.length).filter
          (fun pid => model.ftypes.getD pid .FIXED == .FREE)).map (fun pid => ⟨mid, pid⟩)

/-- Modelled from the spec: the free-parameter map that
`ncm_mset_prepare_fparam_map (mset)` builds: the addresses of the free
parameters, model id by model id. -/
def ncm_mset_prepare_fparam_map (mset : NcmMSet) : List NcmMSetPIndex :=
  (List.range mset.model_of.length).flatMap (fparam_map_of_mid mset)

/-- Modelled from the spec: `ncm_mset_fparam_len (mset)`, the spec's
`free_parameter_count ()`. -/
def ncm_mset_fparam_len (mset : NcmMSet) : Nat := (ncm_mset_prepare_fparam_map mset).length

/-- Modelled from the spec: `ncm_mset_fparam_get_pi (mset, n)`, the address of the
free parameter of index `n`. -/
def ncm_mset_fparam_get_pi (mset : NcmMSet) (n : Nat) : Option NcmMSetPIndex :=
  (ncm_mset_prepare_fparam_map mset)[n]?

/-- Modelled from the spec: `ncm_mset_fparam_set (mset, n, x)`: the free parameter
of index `n` takes the value `x`, through its address. -/
def ncm_mset_fparam_set (mset : NcmMSet) (n : Nat) (x : GDouble) : Except Fatal NcmMSet :=
  match ncm_mset_fparam_get_pi mset n with
  | none => .error .mset_fparam_index
  | some pi => ncm_mset_param_set mset pi.mid pi.pid x

/-- Modelled from the spec: `ncm_mset_fparam_get (mset, n)`, the value of the free
parameter of index `n`, through its address. -/
def ncm_mset_fparam_get (mset : NcmMSet) (n : Nat) : Except Fatal GDouble :=
  match ncm_mset_fparam_get_pi mset n with
  | none => .error .mset_fparam_index
  | some pi => ncm_mset_param_get mset pi.mid pi.pid

/-- An example of a parameter set in the state the test reaches before it writes a
free parameter: the first object (two parameters, the first one free) is filed
under the ids 1, 2, 4 and 10, the second (all fixed) under the ids 0 and 3. -/
def exMSet : NcmMSet :=
  { models := [{ params := [.fin 5, .fin 6], ftypes := [.FREE, .FIXED] },
               { params := [.fin 7], ftypes := [.FIXED] }],
    model_of := [some 1, some 0, some 0, some 1, some 0, none, none, none, none, none, some 0] }

/-! ## The estimators of the catalog -/

section Estimators

variable {α : Type} [LinearOrderedField α] {M : Type}

/-- The calls on the parameter set `mcat->mset` that the estimators make
(`ncm_mset.c` is not among the sources): parameters of the embedding.  `M` is the
type of the states of the parameter set.  `fparams_get_vector mset` is the
vector that `ncm_mset_fparams_get_vector (mset, x)` leaves in `x`;
`fparams_set_vector mset x` and `fparams_set_vector_offset mset x offset` are
the states that the two calls of these names leave. -/
structure NcmMSetCalls (M : Type) where
  fparams_get_vector : M → NcmVector
  fparams_set_vector : M → NcmVector → M
  fparams_set_vector_offset : M → NcmVector → Nat → M
  param_get_ftype : M → Nat → Nat → NcmParamType
  fparam_get_fpi : M → Nat → Nat → Nat

/-- An `NcmMSetFunc` (`ncm_mset_func.c` is not among the sources): its dimension
`ncm_mset_func_get_dim (func)` and its values; `eval mset x j` is component `j`
of what `ncm_mset_func_eval_direct (func, mset, x, res)` writes to `res`. -/
structure NcmMSetFunc (α : Type) (M : Type) where
  dim : Nat
  eval : M → List (Dbl α) → Nat → Dbl α

/-- The call `ncm_mset_func_eval0 (func, mset)`: the value of a function without
argument. -/
def ncm_mset_func_eval0 (func : NcmMSetFunc α M) (mset : M) : Dbl α := func.eval mset [] 0

/-- The getters of `NcmStatsDist1dEPDF` that the estimators call
(`ncm_stats_dist1d_epdf.c` is not among the sources): parameters of the
embedding.  An empirical distribution is stood for by the observations that
`ncm_stats_dist1d_epdf_add_obs` gave it, oldest first. -/
structure NcmStatsDist1dEPDFCalls (α : Type) where
  get_obs_mean : List (Dbl α) → Dbl α
  eval_inv_pdf : List (Dbl α) → Dbl α → Dbl α

/-- The test `i % (cat_len / 100) == 0` of the progress display, on `guint`s.  The
remainder by zero is undefined in C; it is a fatal exit here. -/
def calc_progress_mark (cat_len i : Nat) : Except Fatal Bool :=
  if cat_len / 100 = 0 then .error .calc_progress_zero
  else .ok (decide (i % (cat_len / 100) = 0))

/-- The loop `for (i = 0; i < burnin; i++) if (i % (cat_len / 100) == 0) ...` over
the rows left out, which runs under `mtype > NCM_FIT_RUN_MSGS_NONE`.  The first
argument counts the iterations left, `i` is the loop variable. -/
def calc_burnin_marks (cat_len : Nat) : Nat → Nat → Except Fatal Unit
  | 0, _ => .ok ()
  | n + 1, i =>
    match calc_progress_mark cat_len i with
    | .error e => .error e
    | .ok _ => calc_burnin_marks cat_len n (i + 1)

/-- The row loop `for (i = burnin; i < cat_len; i++)` of the four estimators that
show their progress: `row = ncm_mset_catalog_peek_row (mcat, i)`, then the part
of the body that reads the row (`body`), then the test
`if (i % (cat_len / 100) == 0)`, which is made whatever the message level.  A
`NULL` row is read through by `body`.  The first argument counts the iterations
left, `i` is the loop variable. -/
def calc_rows {S : Type} (mcat : NcmMSetCatalog) (cat_len : Nat) (body : NcmVector → S → S) :
    Nat → Nat → S → Except Fatal S
  | 0, _, s => .ok s
  | n + 1, i, s =>
    match ncm_mset_catalog_peek_row mcat i with
    | .error e => .error e
    | .ok none => .error .calc_row_null
    | .ok (some row) =>
      match calc_progress_mark cat_len i with
      | .error e => .error e
      | .ok _ => calc_rows mcat cat_len body n (i + 1) (body row s)

/-- The three loops that `ncm_mset_catalog_calc_ci_interp`,
`ncm_mset_catalog_calc_distrib`, `ncm_mset_catalog_calc_param_distrib` and
`ncm_mset_catalog_calc_add_param_distrib` have in common, word for word: under
`msgs` (the test `mtype > NCM_FIT_RUN_MSGS_NONE`) the loop over the rows left
out, then the row loop, then under `msgs` the test `i % (cat_len / 100) != 0`
with `i == cat_len`.  The messages themselves are left out. -/
def calc_with_progress {S : Type} (mcat : NcmMSetCatalog) (burnin : Nat) (msgs : Bool)
    (body : NcmVector → S → S) (s0 : S) : Except Fatal S :=
  let cat_len := ncm_mset_catalog_len mcat
  match (if msgs then calc_burnin_marks cat_len burnin 0 else .ok ()) with
  | .error e => .error e
  | .ok _ =>
    match calc_rows mcat cat_len body (cat_len - burnin) burnin s0 with
    | .error e => .error e
    | .ok s =>
      match (if msgs then calc_progress_mark cat_len cat_len else .ok true) with
      | .error e => .error e
      | .ok _ => .ok s

/-- The assertions `g_assert_cmpfloat (p, >, 0.0)` and `g_assert_cmpfloat (p, <, 1.0)`
on the p-values, in turn. -/
def calc_check_p : List (Dbl α) → Except Fatal Unit
  | [] => .ok ()
  | p :: rest =>
    if !p.gt (.fin 0) then .error .calc_p_low
    else if !p.lt (.fin 1) then .error .calc_p_high
    else calc_check_p rest

/-- The row of the result matrix that `ncm_mset_catalog_calc_ci_interp` fills for
one component: the mean of the observations, then for each p-value the lower
bound at `(1.0 - p) / 2.0` and the upper bound at `(1.0 + p) / 2.0`. -/
def calc_ci_interp_row (E : NcmStatsDist1dEPDFCalls α) (epdf : List (Dbl α))
    (p_val : List (Dbl α)) : List (Dbl α) :=
  E.get_obs_mean epdf :: p_val.flatMap (fun p =>
    [E.eval_inv_pdf epdf ((Dbl.fin 1 - p) / Dbl.fin 2),
     E.eval_inv_pdf epdf ((Dbl.fin 1 + p) / Dbl.fin 2)])

/-- The function `ncm_mset_catalog_calc_ci_interp (mcat, burnin, func, x, p_val,
nodes, mtype)`, with the state it leaves the parameter set `mset` in; `nodes` is
not read.  Each row is loaded into the parameter set, the function is
evaluated, and component `j` of its value is added to the `j`-th empirical
distribution.  The assertions on a p-value stand in the loop over the
components, so that they are not made for a function of dimension 0. -/
def ncm_mset_catalog_calc_ci_interp (P : NcmMSetCalls M) (E : NcmStatsDist1dEPDFCalls α)
    (mcat : NcmMSetCatalog) (mset : M) (burnin : Nat) (func : NcmMSetFunc α M)
    (x : List (Dbl α)) (p_val : List (Dbl α)) (msgs : Bool) : Except Fatal (NcmMatrix α × M) :=
  let dim := func.dim
  if ¬ (p_val.length > 1) then .error .calc_p_val_len
  else if ¬ (burnin < ncm_mset_catalog_len mcat) then .error .calc_burnin
  else
    let save_params := P.fparams_get_vector mset
    match calc_with_progress mcat burnin msgs
        (fun row (s : M × List (List (Dbl α))) =>
          let mset1 := P.fparams_set_vector_offset s.1 row mcat.nadd_vals
          (mset1, (List.range dim).map (fun j => s.2.getD j [] ++ [func.eval mset1 x j])))
        (mset, List.replicate dim []) with
    | .error e => .error e
    | .ok (mset1, epdf_a) =>
      match (if dim = 0 then .ok () else calc_check_p p_val) with
      | .error e => .error e
      | .ok _ =>
        .ok ((List.range dim).map (fun i => calc_ci_interp_row E (epdf_a.getD i []) p_val),
          P.fparams_set_vector mset1 save_params)

/-- The function `ncm_mset_catalog_calc_distrib (mcat, burnin, func, mtype)`, with
the empirical distribution it returns and the state it leaves the parameter set
in. -/
def ncm_mset_catalog_calc_distrib (P : NcmMSetCalls M) (mcat : NcmMSetCatalog) (mset : M)
    (burnin : Nat) (func : NcmMSetFunc α M) (msgs : Bool) : Except Fatal (List (Dbl α) × M) :=
  if func.dim ≠ 1 then .error .calc_distrib_dim
  else if ¬ (burnin < ncm_mset_catalog_len mcat) then .error .calc_burnin
  else
    let save_params := P.fparams_get_vector mset
    match calc_with_progress mcat burnin msgs
        (fun row (s : M × List (Dbl α)) =>
          let mset1 := P.fparams_set_vector_offset s.1 row mcat.nadd_vals
          (mset1, s.2 ++ [ncm_mset_func_eval0 func mset1]))
        (mset, []) with
    | .error e => .error e
    | .ok (mset1, epdf1d) => .ok (epdf1d, P.fparams_set_vector mset1 save_params)

/-- The function `ncm_mset_catalog_calc_param_distrib (mcat, burnin, pi, mtype)`:
the observations are read from column `nadd_vals + fpi` of the rows (a component
past the end of a row is shown as 0); the parameter set is read, and written
once, at the end. -/
def ncm_mset_catalog_calc_param_distrib (P : NcmMSetCalls M) (mcat : NcmMSetCatalog) (mset : M)
    (burnin : Nat) (pi : NcmMSetPIndex) (msgs : Bool) : Except Fatal (List (Dbl α) × M) :=
  if ¬ (burnin < ncm_mset_catalog_len mcat) then .error .calc_burnin
  else
    let save_params := P.fparams_get_vector mset
    if P.param_get_ftype mset pi.mid pi.pid ≠ .FREE then .error .calc_param_not_free
    else
      match calc_with_progress mcat burnin msgs
          (fun row (s : List (Dbl α)) =>
            let fpi := P.fparam_get_fpi mset pi.mid pi.pid
            s ++ [Dbl.ofGDouble (row.getD (mcat.nadd_vals + fpi) (.fin 0))])
          [] with
      | .error e => .error e
      | .ok epdf1d => .ok (epdf1d, P.fparams_set_vector mset save_params)

/-- The function `ncm_mset_catalog_calc_add_param_distrib (mcat, burnin, add_param,
mtype)`: the observations are read from column `add_param` of the rows. -/
def ncm_mset_catalog_calc_add_param_distrib (P : NcmMSetCalls M) (mcat : NcmMSetCatalog)
    (mset : M) (burnin : Nat) (add_param : Nat) (msgs : Bool) :
    Except Fatal (List (Dbl α) × M) :=
  if ¬ (burnin < ncm_mset_catalog_len mcat) then .error .calc_burnin
  else
    let save_params := P.fparams_get_vector mset
    if ¬ (add_param < mcat.nadd_vals) then .error .calc_add_param
    else
      match calc_with_progress mcat burnin msgs
          (fun row (s : List (Dbl α)) => s ++ [Dbl.ofGDouble (row.getD add_param (.fin 0))])
          [] with
      | .error e => .error e
      | .ok epdf1d => .ok (epdf1d, P.fparams_set_vector mset save_params)

/-- The stores that `ncm_mset_func_eval_direct (func, mcat->mset, x, ncm_vector_ptr
(mcat->quantile_ws, base))` makes: component `j` of the value goes to entry
`base + j` of the workspace, for `j < dim`.  A store past the end of the
workspace is outside the allocated block; it is a fatal exit here.  The first
argument counts the components left, `j` is the component. -/
def eval_direct_store (func : NcmMSetFunc α M) (mset : M) (x : List (Dbl α)) (base : Nat) :
    Nat → Nat → List (Dbl α) → Except Fatal (List (Dbl α))
  | 0, _, ws => .ok ws
  | n + 1, j, ws =>
    if base + j < ws.length then
      eval_direct_store func mset x base n (j + 1) (ws.set (base + j) (func.eval mset x j))
    else .error .quantile_ws_offset

/-- The row loop `for (i = burnin; i < cat_len; i++)` of
`ncm_mset_catalog_calc_ci_direct`: row `i` is loaded into the parameter set and
the value of the function is stored from entry `i * dim` of the workspace on,
the product being one of `guint`s.  The first argument counts the iterations
left, `i` is the loop variable. -/
def ci_direct_rows (P : NcmMSetCalls M) (func : NcmMSetFunc α M) (mcat : NcmMSetCatalog)
    (x : List (Dbl α)) : Nat → Nat → M × List (Dbl α) → Except Fatal (M × List (Dbl α))
  | 0, _, s => .ok s
  | n + 1, i, (mset, ws) =>
    match ncm_mset_catalog_peek_row mcat i with
    | .error e => .error e
    | .ok none => .error .calc_row_null
    | .ok (some row) =>
      let mset1 := P.fparams_set_vector_offset mset row mcat.nadd_vals
      match eval_direct_store func mset1 x ((i * func.dim) % 4294967296) func.dim 0 ws with
      | .error e => .error e
      | .ok ws1 => ci_direct_rows P func mcat x n (i + 1) (mset1, ws1)

/-- The function `gsl_sort` of GSL in exact arithmetic: the data in ascending
order.  On data without NaN every sorting routine gives this arrangement; how
the heapsort of GSL arranges data with NaN among them is not modelled. -/
def gsl_sort (data : List (Dbl α)) : List (Dbl α) :=
  data.insertionSort (fun a b => a.le b = true)

/-- The function `gsl_stats_quantile_from_sorted_data` of GSL in exact
arithmetic, on the data taken out of their stride: with `index = f * (n - 1)`,
`lhs = (int) index` and `delta = index - lhs`, the value is `sorted_data[lhs]`
when `lhs == n - 1` and
`(1 - delta) * sorted_data[lhs] + delta * sorted_data[lhs + 1]` otherwise, and
`0.0` for `n == 0`.  The callers assert `0 < f < 1`, which makes the index
finite and not negative; for another index the conversion to `int` is not
modelled and the value is shown as NaN. -/
def gsl_stats_quantile_from_sorted_data [FloorRing α] (sorted_data : List (Dbl α))
    (f : Dbl α) : Dbl α :=
  let n := sorted_data.length
  if n = 0 then .fin 0
  else
    match f * Dbl.fin ((n : α) - 1) with
    | .fin index =>
      if index < 0 then .nan
      else
        let lhs := Nat.floor index
        let delta := index - (lhs : α)
        if lhs = n - 1 then sorted_data.getD lhs .nan
        else (Dbl.fin 1 - Dbl.fin delta) * sorted_data.getD lhs .nan
          + Dbl.fin delta * sorted_data.getD (lhs + 1) .nan
    | _ => .nan

/-- The data `ret_i[0], ret_i[dim], ...` that `ncm_mset_catalog_calc_ci_direct`
sorts for component `i`: the `acat_len` entries of the workspace from entry `i`
on, `dim` entries apart. -/
def quantile_ws_strided (ws : List (Dbl α)) (i dim acat_len : Nat) : List (Dbl α) :=
  (List.range acat_len).map (fun k => ws.getD (i + k * dim) .nan)

/-- The row of the result matrix that `ncm_mset_catalog_calc_ci_direct` fills for
one component from its sorted data: the mean, then for each p-value the
quantiles at `(1.0 - p) / 2.0` and at `(1.0 + p) / 2.0`. -/
def calc_ci_direct_row [FloorRing α] (ret_i : List (Dbl α)) (p_val : List (Dbl α)) :
    List (Dbl α) :=
  gsl_stats_mean ret_i :: p_val.flatMap (fun p =>
    [gsl_stats_quantile_from_sorted_data ret_i ((Dbl.fin 1 - p) / Dbl.fin 2),
     gsl_stats_quantile_from_sorted_data ret_i ((Dbl.fin 1 + p) / Dbl.fin 2)])

/-- The function `ncm_mset_catalog_calc_ci_direct (mcat, burnin, func, x, p_val)`,
with the state it leaves the parameter set `mset` in.  The workspace
`mcat->quantile_ws` is allocated for `acat_len * dim` entries, a product of
`guint`s; its fresh entries are shown as NaN.  The data of each component are
sorted in place; the sorted data are kept by component here, since no entry
belongs to two components. -/
def ncm_mset_catalog_calc_ci_direct [FloorRing α] (P : NcmMSetCalls M) (mcat : NcmMSetCatalog)
    (mset : M) (burnin : Nat) (func : NcmMSetFunc α M) (x : List (Dbl α))
    (p_val : List (Dbl α)) : Except Fatal (NcmMatrix α × M) :=
  let dim := func.dim
  if ¬ (p_val.length > 1) then .error .calc_p_val_len
  else if ¬ (burnin < ncm_mset_catalog_len mcat) then .error .calc_burnin
  else
    let cat_len := ncm_mset_catalog_len mcat
    let acat_len := cat_len - burnin
    let save_params := P.fparams_get_vector mset
    let quantile_ws : List (Dbl α) := List.replicate ((acat_len * dim) % 4294967296) .nan
    match ci_direct_rows P func mcat x (cat_len - burnin) burnin (mset, quantile_ws) with
    | .error e => .error e
    | .ok (mset1, ws) =>
      match calc_check_p p_val with
      | .error e => .error e
      | .ok _ =>
        .ok ((List.range dim).map (fun i =>
            calc_ci_direct_row (gsl_sort (quantile_ws_strided ws i dim acat_len)) p_val),
          P.fparams_set_vector mset1 save_params)

/-- The state of the parameter set once the `n` rows from row `i` on have been
loaded into it in turn. -/
def calc_load_rows (P : NcmMSetCalls M) (mcat : NcmMSetCatalog) (mset : M) (i n : Nat) : M :=
  (List.range' i n).foldl
    (fun m k => P.fparams_set_vector_offset m (mcat.pstats.saved_x.getD k []) mcat.nadd_vals) mset

/-- The state of the parameter set in a row loop that starts at row `burnin`, once
row `i` has been loaded into it: the rows from `burnin` to `i` have been loaded
in turn. -/
def calc_mset_at (P : NcmMSetCalls M) (mcat : NcmMSetCatalog) (mset : M) (burnin i : Nat) : M :=
  calc_load_rows P mcat mset burnin (i + 1 - burnin)

/-- The values of component `c` of a function over the rows of the catalog from
row `burnin` to the end, each taken with its row loaded into the parameter
set. -/
def calc_func_values (P : NcmMSetCalls M) (mcat : NcmMSetCatalog) (mset : M)
    (func : NcmMSetFunc α M) (x : List (Dbl α)) (burnin c : Nat) : List (Dbl α) :=
  (List.range' burnin (ncm_mset_catalog_len mcat - burnin)).map
    (fun i => func.eval (calc_mset_at P mcat mset burnin i) x c)

end Estimators

/-! ## Example inputs of the estimators -/

section EstimatorExamples

variable {α : Type} [LinearOrderedField α]

/-- A parameter set of which every parameter is free, with the free-parameter
vector for its state: a row is loaded by copying its components from `offset`
on, as many as the vector has. -/
def exMSetCalls : NcmMSetCalls NcmVector :=
  { fparams_get_vector := fun m => m
    fparams_set_vector := fun _ x => x
    fparams_set_vector_offset := fun m x offset =>
      (List.range m.length).map (fun i => x.getD (offset + i) (.fin 0))
    param_get_ftype := fun _ _ _ => .FREE
    fparam_get_fpi := fun _ _ pid => pid }

/-- A function of dimension 1 of that parameter set: the value of its first
parameter. -/
def exFunc : NcmMSetFunc α NcmVector :=
  { dim := 1, eval := fun m _ _ => Dbl.ofGDouble (m.getD 0 (.fin 0)) }

/-- An empirical distribution read in the simplest way: the mean of the
observations, and the first observation for every quantile. -/
def exEPDFCalls : NcmStatsDist1dEPDFCalls α :=
  { get_obs_mean := gsl_stats_mean, eval_inv_pdf := fun obs _ => obs.getD 0 .nan }

/-- A catalog of one chain without a file after four `add`s: the rows of the
identifiers 0 to 3, with the parameter values 103, 101, 102 and 100. -/
def exFourRows : NcmMSetCatalog :=
  match runOps [.add (exRow 3), .add (exRow 1), .add (exRow 2), .add (exRow 0)]
      (ncm_mset_catalog_new 1 1 1 false) with
  | .ok m => m
  | .error _ => ncm_mset_catalog_init

/-- A catalog of one chain without a file that holds a hundred rows. -/
def exHundredRows : NcmMSetCatalog :=
  { ncm_mset_catalog_new 1 1 1 false with
      cur_id := 99
      pstats := { save_x := true, x := exRow 0, saved_x := List.replicate 100 (exRow 0),
                  wts := List.replicate 100 (.fin 1),
                  absorbed := List.replicate 100 (exRow 0) } }

end EstimatorExamples

/-! ## The time functions of the distance engine -/

section DistanceTime

variable {α : Type} [LinearOrderedField α]

/-- The functions `log1p` and `expm1` of the C library and the constant
`GSL_LOG_DBL_MAX` of GSL, which the conformal time takes from outside:
parameters of the embedding. -/
structure NcDistanceTimeNumerics (α : Type) where
  log1p : Dbl α → Dbl α
  expm1 : Dbl α → Dbl α
  GSL_LOG_DBL_MAX : Dbl α

/-- The function `_nc_time_integrand`: `1.0 / (x * E)` with `x = 1.0 + z` and
`E = sqrt (E2)`. -/
def _nc_time_integrand (N : NcDistanceNumerics α) (cosmo : NcHICosmo α) (z : Dbl α) : Dbl α :=
  let x := Dbl.fin 1 + z
  let E := Dbl.sqrt N.libm.sqrt (cosmo.E2 z)
  Dbl.fin 1 / (x * E)

/-- The function `nc_distance_cosmic_time`, with the object it leaves: the cached
or the locked quadrature of the time integrand from `z` to infinity. -/
def nc_distance_cosmic_time (N : NcDistanceNumerics α) (dist : NcDistance α)
    (cosmo : NcHICosmo α) (z : Dbl α) : Dbl α × NcDistance α :=
  if dist.use_cache then
    (N.integral_cached_x_inf (_nc_time_integrand N cosmo) z,
      { dist with calls := dist.calls ++ [.time_cached_x_inf] })
  else
    (N.integral_locked_a_inf (_nc_time_integrand N cosmo) z,
      { dist with calls := dist.calls ++ [.time_locked_a_inf] })

/-- The function `nc_distance_lookback_time`, with the object it leaves: the
cached or the locked quadrature of the time integrand from 0 to `z`. -/
def nc_distance_lookback_time (N : NcDistanceNumerics α) (dist : NcDistance α)
    (cosmo : NcHICosmo α) (z : Dbl α) : Dbl α × NcDistance α :=
  if dist.use_cache then
    (N.integral_cached_0_x (_nc_time_integrand N cosmo) z,
      { dist with calls := dist.calls ++ [.lookback_time_cached_0_x] })
  else
    (N.integral_locked_a_b (_nc_time_integrand N cosmo) (.fin 0) z,
      { dist with calls := dist.calls ++ [.lookback_time_locked_a_b] })

/-- The function `nc_distance_conformal_lookback_time`: the comoving distance. -/
def nc_distance_conformal_lookback_time (N : NcDistanceNumerics α) (dist : NcDistance α)
    (cosmo : NcHICosmo α) (z : Dbl α) : Dbl α × NcDistance α :=
  nc_distance_comoving N dist cosmo z

/-- The function `nc_conformal_time_integrand`. -/
def nc_conformal_time_integrand (N : NcDistanceNumerics α) (T : NcDistanceTimeNumerics α)
    (cosmo : NcHICosmo α) (logx : Dbl α) : Dbl α :=
  if logx.gt T.GSL_LOG_DBL_MAX then .fin 0
  else
    let z := T.expm1 logx
    let x := Dbl.fin 1 + z
    let E := Dbl.sqrt N.libm.sqrt (cosmo.E2 z)
    if !gsl_finite E then .fin 0 else x / E

/-- The function `nc_distance_conformal_time`, with the object it leaves: the
cached or the locked quadrature of the conformal-time integrand from
`log1p (z)` to infinity. -/
def nc_distance_conformal_time (N : NcDistanceNumerics α) (T : NcDistanceTimeNumerics α)
    (dist : NcDistance α) (cosmo : NcHICosmo α) (z : Dbl α) : Dbl α × NcDistance α :=
  if dist.use_cache then
    (N.integral_cached_x_inf (nc_conformal_time_integrand N T cosmo) (T.log1p z),
      { dist with calls := dist.calls ++ [.conformal_time_cached_x_inf] })
  else
    (N.integral_locked_a_inf (nc_conformal_time_integrand N T cosmo) (T.log1p z),
      { dist with calls := dist.calls ++ [.conformal_time_locked_a_inf] })

/-- The stamp of the cosmology that a distance object was last prepared for, if it
was prepared. -/
def NcDistance.prepared_for (dist : NcDistance α) : Option Nat :=
  dist.prepared.map (fun p => p.1)

/-- Numerical routines for the time functions of the examples: all of them give
NaN. -/
def exTimeNumerics : NcDistanceTimeNumerics α :=
  { log1p := fun _ => .nan, expm1 := fun _ => .nan, GSL_LOG_DBL_MAX := .nan }

/-- The cosmology `exCosmo` of the examples, flat and with the sound speed of the
plasma, as it is first: stamp 1. -/
def exFirstCosmo : NcHICosmo α := exCosmo (.fin 0) (.fin 1) (.fin 1090) true

/-- The same cosmology after its parameters changed: stamp 2. -/
def exChangedCosmo : NcHICosmo α := { (exFirstCosmo : NcHICosmo α) with pkey := 2 }

/-- A distance object that was prepared for `exFirstCosmo`. -/
def exStaleDist (L : Libm α) : NcDistance α :=
  nc_distance_prepare (exNumerics L) (nc_distance_new (.fin 2)) exFirstCosmo

end DistanceTime

/-! ## The rows that a pull hands to a chain -/

/-- The rows of `rows` that fall in chain `c`, in the order of `rows`: the row at
position `j` has the identifier `base + (i + j)`, and its chain is `chain_id` of
that identifier, as in the two loops of `ncm_mset_catalog_sync`. -/
def chain_rows (nchains : Nat) (base : Int) (c : Nat) : List NcmVector → Nat → List NcmVector
  | [], _ => []
  | x :: rest, i =>
    if chain_id (base + i) nchains = c then x :: chain_rows nchains base c rest (i + 1)
    else chain_rows nchains base c rest (i + 1)

/-- The chain accumulators are as `_ncm_mset_catalog_constructed_alloc_chains`
makes them: one per chain, each created with `save_x = FALSE` and so without a
row in its buffer. -/
def ChainsUnsaved (m : NcmMSetCatalog) : Prop :=
  m.chain_pstats.length = m.nchains ∧
  ∀ sv ∈ m.chain_pstats, sv.save_x = false ∧ sv.saved_x = []

instance (m : NcmMSetCatalog) : Decidable (ChainsUnsaved m) := by
  unfold ChainsUnsaved; infer_instance

/-- The catalog `exLateStart` as `ncm_mset_catalog_set_file` has it when it has
opened the file of `exTableSix` and is about to synchronise: the memory holds
the identifiers 4 and 5, the file the identifiers 0 to 5. -/
def exLateOpened : NcmMSetCatalog :=
  match _ncm_mset_catalog_open_create_file
      { _ncm_mset_catalog_close_file exLateStart with file := some "cat.fits" } false "cat.fits"
      (some exTableSix) with
  | .ok m => m
  | .error _ => ncm_mset_catalog_init

/-! ## Lemmas on the conversions and the row loops -/

theorem toGuint_of_range (z : Int) (h0 : 0 ≤ z) (h1 : z < 4294967296) :
    toGuint z = z.toNat := by
  unfold toGuint
  rw [Int.emod_eq_of_lt h0 h1]

theorem toGuint_natCast (n : Nat) (h : n < 4294967296) : toGuint (n : Int) = n := by
  rw [toGuint_of_range _ (by omega) (by omega)]
  simp

theorem write_row_in_table (t : FitsTable) (row : NcmVector) (k : Nat) (h : k < t.rows.length) :
    _ncm_mset_catalog_write_row t row (k + 1) = .ok { t with rows := t.rows.set k row } := by
  unfold _ncm_mset_catalog_write_row
  have h1 : k + 1 ≤ t.rows.length := h
  simp [h1]

theorem write_row_append (t : FitsTable) (row : NcmVector) :
    _ncm_mset_catalog_write_row t row (t.rows.length + 1) =
      .ok { t with rows := t.rows ++ [row] } := by
  unfold _ncm_mset_catalog_write_row
  simp

theorem write_row_ok_length (t t1 : FitsTable) (row : NcmVector) (k : Nat)
    (h : _ncm_mset_catalog_write_row t row k = .ok t1) :
    0 < k ∧ k ≤ t.rows.length + 1 ∧ t1.rows.length = max t.rows.length k ∧
      t1 = { t with rows := t1.rows } := by
  unfold _ncm_mset_catalog_write_row at h
  split at h
  · cases h
  · split at h
    · cases h
      refine ⟨by omega, by omega, ?_, rfl⟩
      simp
      omega
    · split at h
      · cases h
        refine ⟨by omega, by omega, ?_, rfl⟩
        simp
        omega
      · cases h

theorem read_row_in_table (t : FitsTable) (k : Nat) (h : k < t.rows.length) :
    _ncm_mset_catalog_read_row t (k + 1) = .ok (t.rows[k]) := by
  unfold _ncm_mset_catalog_read_row
  simp [h]

theorem read_row_ok (t : FitsTable) (k : Nat) (row : NcmVector)
    (h : _ncm_mset_catalog_read_row t k = .ok row) :
    0 < k ∧ k ≤ t.rows.length ∧ t.rows[k - 1]? = some row := by
  unfold _ncm_mset_catalog_read_row at h
  split at h
  · cases h
  · split at h
    · rename_i r hr
      cases h
      have := (List.getElem?_eq_some_iff.mp hr).1
      exact ⟨by omega, by omega, hr⟩
    · cases h

theorem peek_row_in_buffer (sv : NcmStatsVec) (i : Nat) (h : i < sv.saved_x.length) :
    ncm_stats_vec_peek_row sv i = .ok (sv.saved_x[i]) := by
  unfold ncm_stats_vec_peek_row
  simp [h]

/-- The write loop succeeds when the accumulator holds the rows it copies and the
first row written is inside the table or right after it; the table then holds the
copied rows at the copied positions and is unchanged elsewhere. -/
theorem sync_write_loop_spec (sv : NcmStatsVec) (offset : Nat) :
    ∀ (n i : Nat) (t : FitsTable),
      offset + i + n ≤ sv.saved_x.length → offset + i ≤ t.rows.length →
      ∃ t1, sync_write_loop sv offset n i t = .ok t1 ∧
        t1.rows.length = max t.rows.length (offset + i + n) ∧
        (∀ k, t1.rows[k]? =
          if offset + i ≤ k ∧ k < offset + i + n then sv.saved_x[k]? else t.rows[k]?) ∧
        t1 = { t with rows := t1.rows } := by
  intro n
  induction n with
  | zero =>
    intro i t _ h2
    refine ⟨t, rfl, by simp; omega, ?_, rfl⟩
    intro k
    have : ¬ (offset + i ≤ k ∧ k < offset + i) := by omega
    simp [this]
  | succ n ih =>
    intro i t h1 h2
    have hp : offset + i < sv.saved_x.length := by omega
    by_cases hin : offset + i < t.rows.length
    · obtain ⟨t1, e1, l1, g1, f1⟩ := ih (i + 1) { t with rows := t.rows.set (offset + i) sv.saved_x[offset + i] }
        (by omega) (by simp; omega)
      refine ⟨t1, ?_, ?_, ?_, ?_⟩
      · simp only [sync_write_loop, peek_row_in_buffer sv _ hp, write_row_in_table t _ _ hin]
        exact e1
      · rw [l1]; simp; omega
      · intro k
        rw [g1 k]
        by_cases hk : k = offset + i
        · subst hk
          have a1 : ¬ (offset + (i + 1) ≤ offset + i ∧ offset + i < offset + (i + 1) + n) := by omega
          have a2 : (offset + i ≤ offset + i ∧ offset + i < offset + i + (n + 1)) := by omega
          simp [a1, a2, hin, hp]
        · by_cases hr : offset + (i + 1) ≤ k ∧ k < offset + (i + 1) + n
          · have a2 : (offset + i ≤ k ∧ k < offset + i + (n + 1)) := by omega
            simp [hr, a2]
          · have a2 : ¬ (offset + i ≤ k ∧ k < offset + i + (n + 1)) := by omega
            have hk2 : offset + i ≠ k := fun h => hk h.symm
            simp [hr, a2, List.getElem?_set, hk2]
      · exact f1
    · have hlen : t.rows.length = offset + i := by omega
      obtain ⟨t1, e1, l1, g1, f1⟩ := ih (i + 1) { t with rows := t.rows ++ [sv.saved_x[offset + i]] }
        (by omega) (by simp; omega)
      refine ⟨t1, ?_, ?_, ?_, ?_⟩
      · have hw := write_row_append t (sv.saved_x[offset + i])
        rw [hlen] at hw
        simp only [sync_write_loop, peek_row_in_buffer sv _ hp, hw]
        exact e1
      · rw [l1]; simp; omega
      · intro k
        rw [g1 k]
        by_cases hk : k = offset + i
        · subst hk
          have a1 : ¬ (offset + (i + 1) ≤ offset + i ∧ offset + i < offset + (i + 1) + n) := by omega
          have a2 : (offset + i ≤ offset + i ∧ offset + i < offset + i + (n + 1)) := by omega
          simp [a1, a2, hp, List.getElem?_append_right, hlen]
        · by_cases hr : offset + (i + 1) ≤ k ∧ k < offset + (i + 1) + n
          · have a2 : (offset + i ≤ k ∧ k < offset + i + (n + 1)) := by omega
            simp [hr, a2]
          · have a2 : ¬ (offset + i ≤ k ∧ k < offset + i + (n + 1)) := by omega
            simp only [hr, a2, if_false]
            by_cases hlt : k < t.rows.length
            · rw [List.getElem?_append_left hlt]
            · rw [List.getElem?_eq_none (by simp; omega), List.getElem?_eq_none (by omega)]
      · exact f1

/-- A write loop that succeeds leaves a table whose length is that of the table it
started from or the position after the last row written, whichever is larger,
and changes nothing but rows. -/
theorem sync_write_loop_ok (sv : NcmStatsVec) (offset : Nat) :
    ∀ (n i : Nat) (t t1 : FitsTable),
      sync_write_loop sv offset n i t = .ok t1 →
      t1.rows.length = (if n = 0 then t.rows.length else max t.rows.length (offset + i + n)) ∧
        t1 = { t with rows := t1.rows } := by
  intro n
  induction n with
  | zero =>
    intro i t t1 h
    simp only [sync_write_loop] at h
    cases h
    simp
  | succ n ih =>
    intro i t t1 h
    simp only [sync_write_loop] at h
    cases hp : ncm_stats_vec_peek_row sv (offset + i) with
    | error e => simp [hp] at h
    | ok row =>
      simp only [hp] at h
      cases hw : _ncm_mset_catalog_write_row t row (offset + i + 1) with
      | error e => simp [hw] at h
      | ok t2 =>
        simp only [hw] at h
        have h' : sync_write_loop sv offset n (i + 1) t2 = .ok t1 := h
        obtain ⟨l1, f1⟩ := ih (i + 1) t2 t1 h'
        obtain ⟨_, _, l2, f2⟩ := write_row_ok_length t t2 row _ hw
        refine ⟨?_, ?_⟩
        · rw [l1]
          by_cases hn : n = 0
          · simp [hn, l2]
          · simp [hn, l2]; omega
        · rw [f2] at f1; exact f1

/-- The read loop succeeds when the rows it reads are inside the table, and it
returns them in table order. -/
theorem sync_read_loop_spec (t : FitsTable) (offset : Nat) :
    ∀ (n i : Nat), offset + i + n ≤ t.rows.length →
      sync_read_loop t offset n i = .ok ((t.rows.drop (offset + i)).take n) := by
  intro n
  induction n with
  | zero => intro i _; simp [sync_read_loop]
  | succ n ih =>
    intro i h
    have hp : offset + i < t.rows.length := by omega
    have e := ih (i + 1) (by omega)
    simp only [sync_read_loop, read_row_in_table t _ hp]
    have e' : sync_read_loop t offset n (i + 1) = .ok ((t.rows.drop (offset + i + 1)).take n) := e
    rw [e']
    rw [List.drop_eq_getElem_cons hp]
    rfl

/-! ## What a synchronisation that completes does to the identifiers -/

/-- A read loop that succeeds returns as many rows as it was asked for. -/
theorem sync_read_loop_ok (t : FitsTable) (offset : Nat) :
    ∀ (n i : Nat) (rows : List NcmVector),
      sync_read_loop t offset n i = .ok rows → rows.length = n := by
  intro n
  induction n with
  | zero => intro i rows h; simp only [sync_read_loop] at h; cases h; rfl
  | succ n ih =>
    intro i rows h
    simp only [sync_read_loop] at h
    cases hr : _ncm_mset_catalog_read_row t (offset + i + 1) with
    | error e => simp [hr] at h
    | ok row =>
      simp only [hr] at h
      cases hl : sync_read_loop t offset n (i + 1) with
      | error e => simp [hl] at h
      | ok rest =>
        simp only [hl] at h
        cases h
        simp [ih (i + 1) rest hl]

theorem SameSetup.refl (m : NcmMSetCatalog) : SameSetup m m :=
  ⟨rfl, rfl, rfl, rfl, rfl, rfl, rfl, rfl, rfl, rfl, rfl⟩

theorem SameSetup.trans {m2 m1 m : NcmMSetCatalog} (h2 : SameSetup m2 m1) (h1 : SameSetup m1 m) :
    SameSetup m2 m := by
  obtain ⟨a1, a2, a3, a4, a5, a6, a7, a8, a9, a10, a11⟩ := h2
  obtain ⟨b1, b2, b3, b4, b5, b6, b7, b8, b9, b10, b11⟩ := h1
  exact ⟨a1.trans b1, a2.trans b2, a3.trans b3, a4.trans b4, a5.trans b5, a6.trans b6,
    a7.trans b7, a8.trans b8, a9.trans b9, a10.trans b10, a11.trans b11⟩

theorem sync_first_eq_gt (m : NcmMSetCatalog) (t : FitsTable)
    (h : m.first_id < m.file_first_id) :
    sync_first m t =
      match sync_write_loop m.pstats 0 (toGuint (m.file_first_id - m.first_id)) 0
          (fits_insert_rows_head t (toGuint (m.file_first_id - m.first_id))) with
      | .error e => .error e
      | .ok t1 =>
        .ok ({ m with file_first_id := m.first_id }, { t1 with first_id_key := m.first_id }) := by
  unfold sync_first
  rw [if_pos (by omega), if_pos (by omega)]

theorem sync_first_eq_lt (m : NcmMSetCatalog) (t : FitsTable)
    (h : m.file_first_id < m.first_id) :
    sync_first m t =
      match sync_read_loop t 0 (toGuint (m.first_id - m.file_first_id)) 0 with
      | .error e => .error e
      | .ok rows =>
        .ok ({ m with
                 pstats := ncm_stats_vec_prepend_data m.pstats rows
                 chain_pstats :=
                   if m.nchains > 1 then
                     sync_chain_prepend m.nchains m.file_first_id rows 0 m.chain_pstats
                   else m.chain_pstats
                 first_id := m.file_first_id }, t) := by
  unfold sync_first
  rw [if_pos (by omega), if_neg (by omega), if_pos h]

theorem sync_first_eq_same (m : NcmMSetCatalog) (t : FitsTable)
    (h : m.file_first_id = m.first_id) : sync_first m t = .ok (m, t) := by
  unfold sync_first
  rw [if_neg (by simp [h])]

theorem sync_cur_eq_lt (m : NcmMSetCatalog) (t : FitsTable)
    (h : m.file_cur_id < m.cur_id) :
    sync_cur m t =
      match sync_write_loop m.pstats (toGuint (m.file_cur_id + 1 - m.file_first_id))
          (toGuint (m.cur_id - m.file_cur_id)) 0 t with
      | .error e => .error e
      | .ok t1 => .ok ({ m with file_cur_id := m.cur_id }, t1) := by
  unfold sync_cur
  rw [if_pos (by omega), if_pos h]

theorem sync_cur_eq_gt (m : NcmMSetCatalog) (t : FitsTable)
    (h : m.cur_id < m.file_cur_id) :
    sync_cur m t =
      match sync_read_loop t (toGuint (m.cur_id + 1 - m.first_id))
          (toGuint (m.file_cur_id - m.cur_id)) 0 with
      | .error e => .error e
      | .ok rows =>
        .ok ({ m with
                 pstats := ncm_stats_vec_append_data m.pstats rows
                 chain_pstats :=
                   if m.nchains > 1 then
                     sync_chain_append m.nchains (m.cur_id + 1) rows 0 m.chain_pstats
                   else m.chain_pstats
                 cur_id := m.file_cur_id }, t) := by
  unfold sync_cur
  rw [if_pos (by omega), if_neg (by omega), if_pos (by omega)]

theorem sync_cur_eq_same (m : NcmMSetCatalog) (t : FitsTable)
    (h : m.file_cur_id = m.cur_id) : sync_cur m t = .ok (m, t) := by
  unfold sync_cur
  rw [if_neg (by simp [h])]

theorem sync_first_ok (m m1 : NcmMSetCatalog) (t t1 : FitsTable)
    (h : sync_first m t = .ok (m1, t1)) :
    m1.first_id = min m.first_id m.file_first_id ∧
    m1.file_first_id = min m.first_id m.file_first_id ∧
    m1.cur_id = m.cur_id ∧ m1.file_cur_id = m.file_cur_id ∧ SameSetup m1 m ∧
    t1.filename = t.filename := by
  rcases lt_trichotomy m.first_id m.file_first_id with hlt | heq | hgt
  · rw [sync_first_eq_gt m t hlt] at h
    cases hw : sync_write_loop m.pstats 0 (toGuint (m.file_first_id - m.first_id)) 0
        (fits_insert_rows_head t (toGuint (m.file_first_id - m.first_id))) with
    | error e => simp [hw] at h
    | ok t2 =>
      simp only [hw, Except.ok.injEq, Prod.mk.injEq] at h
      obtain ⟨rfl, rfl⟩ := h
      obtain ⟨_, f⟩ := sync_write_loop_ok _ _ _ _ _ _ hw
      refine ⟨?_, ?_, rfl, rfl, SameSetup.refl _, ?_⟩
      · simp only; omega
      · simp only; omega
      · rw [f]; rfl
  · rw [sync_first_eq_same m t heq.symm] at h
    simp only [Except.ok.injEq, Prod.mk.injEq] at h
    obtain ⟨rfl, rfl⟩ := h
    refine ⟨?_, ?_, rfl, rfl, SameSetup.refl _, rfl⟩ <;> omega
  · rw [sync_first_eq_lt m t hgt] at h
    cases hr : sync_read_loop t 0 (toGuint (m.first_id - m.file_first_id)) 0 with
    | error e => simp [hr] at h
    | ok rows =>
      simp only [hr, Except.ok.injEq, Prod.mk.injEq] at h
      obtain ⟨rfl, rfl⟩ := h
      refine ⟨?_, ?_, rfl, rfl, SameSetup.refl _, rfl⟩
      · simp only; omega
      · simp only; omega

theorem sync_cur_ok (m m1 : NcmMSetCatalog) (t t1 : FitsTable)
    (h : sync_cur m t = .ok (m1, t1)) :
    m1.cur_id = max m.cur_id m.file_cur_id ∧
    m1.file_cur_id = max m.cur_id m.file_cur_id ∧
    m1.first_id = m.first_id ∧ m1.file_first_id = m.file_first_id ∧ SameSetup m1 m ∧
    t1.filename = t.filename := by
  rcases lt_trichotomy m.file_cur_id m.cur_id with hlt | heq | hgt
  · rw [sync_cur_eq_lt m t hlt] at h
    cases hw : sync_write_loop m.pstats (toGuint (m.file_cur_id + 1 - m.file_first_id))
        (toGuint (m.cur_id - m.file_cur_id)) 0 t with
    | error e => simp [hw] at h
    | ok t2 =>
      simp only [hw, Except.ok.injEq, Prod.mk.injEq] at h
      obtain ⟨rfl, rfl⟩ := h
      obtain ⟨_, f⟩ := sync_write_loop_ok _ _ _ _ _ _ hw
      refine ⟨?_, ?_, rfl, rfl, SameSetup.refl _, ?_⟩
      · simp only; omega
      · simp only; omega
      · rw [f]
  · rw [sync_cur_eq_same m t heq] at h
    simp only [Except.ok.injEq, Prod.mk.injEq] at h
    obtain ⟨rfl, rfl⟩ := h
    refine ⟨?_, ?_, rfl, rfl, SameSetup.refl _, rfl⟩ <;> omega
  · rw [sync_cur_eq_gt m t hgt] at h
    cases hr : sync_read_loop t (toGuint (m.cur_id + 1 - m.first_id))
        (toGuint (m.file_cur_id - m.cur_id)) 0 with
    | error e => simp [hr] at h
    | ok rows =>
      simp only [hr, Except.ok.injEq, Prod.mk.injEq] at h
      obtain ⟨rfl, rfl⟩ := h
      refine ⟨?_, ?_, rfl, rfl, SameSetup.refl _, rfl⟩
      · simp only; omega
      · simp only; omega

theorem sync_flush_ok (m : NcmMSetCatalog) (t t1 : FitsTable) (h : sync_flush m t = .ok t1) :
    t1.rows = t.rows ∧ t1.filename = t.filename := by
  unfold sync_flush at h
  split at h
  · cases h; exact ⟨rfl, rfl⟩
  · cases h; exact ⟨rfl, rfl⟩
  · split at h <;> cases h <;> exact ⟨rfl, rfl⟩
  · cases h

/-! ## Synchronisation of two ranges that touch -/

/-- A synchronisation that completes on a catalog without a file changes nothing;
on a catalog with a file it leaves the handle open and the two ranges equal, the
first identifiers at the smaller of the two before and the current identifiers
at the larger. -/
theorem sync_ok (m m1 : NcmMSetCatalog) (check : Bool)
    (h : ncm_mset_catalog_sync m check = .ok m1) :
    (m.file = none → m1 = m) ∧
    (m.file ≠ none →
      (∃ t, m.fptr = some t) ∧ (∃ t1, m1.fptr = some t1) ∧
      m1.first_id = min m.first_id m.file_first_id ∧
      m1.file_first_id = min m.first_id m.file_first_id ∧
      m1.cur_id = max m.cur_id m.file_cur_id ∧
      m1.file_cur_id = max m.cur_id m.file_cur_id) ∧
    SameSetup m1 m := by
  unfold ncm_mset_catalog_sync at h
  split at h
  · rename_i hfile
    cases h
    exact ⟨fun _ => rfl, fun hc => absurd hfile hc, SameSetup.refl _⟩
  · rename_i file hfile
    split at h
    · cases h
    · rename_i t hfptr
      split at h
      · cases h
      · split at h
        · cases h
        · rename_i ma ta hfirst
          split at h
          · cases h
          · rename_i mb tb hcur
            split at h
            · cases h
            · rename_i tc hflush
              cases h
              obtain ⟨a1, a2, a3, a4, a5, _⟩ := sync_first_ok _ _ _ _ hfirst
              obtain ⟨b1, b2, b3, b4, b5, _⟩ := sync_cur_ok _ _ _ _ hcur
              refine ⟨fun hc => ?_, fun _ => ⟨⟨t, hfptr⟩, ⟨tc, rfl⟩, ?_, ?_, ?_, ?_⟩, ?_⟩
              · rw [hfile] at hc; cases hc
              · simp only; rw [b3, a1]
              · simp only; rw [b4, a2]
              · simp only; rw [b1, a3, a4]
              · simp only; rw [b2, a3, a4]
              · exact SameSetup.trans
                  (show SameSetup _ mb from ⟨rfl, rfl, rfl, rfl, rfl, rfl, rfl, rfl, rfl, rfl, rfl⟩)
                  (SameSetup.trans b5 a5)

theorem sync_first_spec (m : NcmMSetCatalog) (t : FitsTable)
    (hg : GintIds m) (hm : MemRows m) (ht : TableRows m t) (hadj : RangesTouch m) :
    ∃ m1 t1, sync_first m t = .ok (m1, t1) ∧ MemRows m1 ∧ TableRows m1 t1 ∧
      (RowsAgree m t → ∀ k, k < m1.pstats.saved_x.length → k < t1.rows.length →
        t1.rows[k]? = m1.pstats.saved_x[k]?) := by
  obtain ⟨⟨g1, g2⟩, ⟨g3, g4⟩, ⟨g5, g6⟩, ⟨g7, g8⟩⟩ := hg
  obtain ⟨adj1, adj2⟩ := hadj
  have hmr := hm
  unfold MemRows at hm
  obtain ⟨hsv, hm⟩ := hm
  unfold TableRows at ht
  rcases lt_trichotomy m.first_id m.file_first_id with hlt | heq | hgt
  · -- the table starts later: rows are inserted at its head
    obtain ⟨k, hk⟩ := Int.eq_ofNat_of_zero_le (show 0 ≤ m.file_first_id - m.first_id by omega)
    have hkg : toGuint (m.file_first_id - m.first_id) = k := by
      rw [hk]; exact toGuint_natCast k (by omega)
    obtain ⟨t2, e2, l2, r2, _⟩ := sync_write_loop_spec m.pstats 0 k 0 (fits_insert_rows_head t k)
      (by omega) (by omega)
    have l2' : t2.rows.length = k + t.rows.length := by
      rw [l2]; simp [fits_insert_rows_head]
    refine ⟨{ m with file_first_id := m.first_id }, { t2 with first_id_key := m.first_id },
      ?_, ?_, ?_, ?_⟩
    · rw [sync_first_eq_gt m t hlt, hkg, e2]
    · exact hmr
    · unfold TableRows; simp only; omega
    · intro hag j hj1 hj2
      simp only at hj1 hj2 ⊢
      rw [r2 j]
      by_cases hjk : j < k
      · have : 0 + 0 ≤ j ∧ j < 0 + 0 + k := by omega
        rw [if_pos this]
      · have : ¬ (0 + 0 ≤ j ∧ j < 0 + 0 + k) := by omega
        rw [if_neg this]
        simp only [fits_insert_rows_head]
        rw [List.getElem?_append_right (by simp; omega)]
        simp only [List.length_replicate]
        exact hag j (j - k) hj1 (by omega) (by omega)
  · -- the two ranges start together
    refine ⟨m, t, sync_first_eq_same m t heq.symm, hmr, ht, ?_⟩
    intro hag j hj1 hj2
    exact hag j j hj1 hj2 (by omega)
  · -- the table starts earlier: its head is read
    obtain ⟨k, hk⟩ := Int.eq_ofNat_of_zero_le (show 0 ≤ m.first_id - m.file_first_id by omega)
    have hkg : toGuint (m.first_id - m.file_first_id) = k := by
      rw [hk]; exact toGuint_natCast k (by omega)
    have e2 : sync_read_loop t 0 k 0 = .ok (t.rows.take k) := by
      have e := sync_read_loop_spec t 0 k 0 (by omega)
      simpa using e
    refine ⟨{ m with
                pstats := ncm_stats_vec_prepend_data m.pstats (t.rows.take k)
                chain_pstats :=
                  if m.nchains > 1 then
                    sync_chain_prepend m.nchains m.file_first_id (t.rows.take k) 0
                      m.chain_pstats
                  else m.chain_pstats
                first_id := m.file_first_id }, t, ?_, ?_, ?_, ?_⟩
    · rw [sync_first_eq_lt m t hgt, hkg, e2]
    · unfold MemRows
      simp only [ncm_stats_vec_prepend_data, hsv, if_true, List.length_append,
        List.length_take]
      exact ⟨trivial, by omega⟩
    · unfold TableRows; exact ht
    · intro hag j hj1 hj2
      simp only [ncm_stats_vec_prepend_data, hsv, if_true, List.length_append,
        List.length_take] at hj1 ⊢
      by_cases hjk : j < k
      · rw [List.getElem?_append_left (by simp; omega), List.getElem?_take_of_lt hjk]
      · rw [List.getElem?_append_right (by simp; omega)]
        simp only [List.length_take]
        have hmin : min k t.rows.length = k := by omega
        rw [hmin]
        exact hag (j - k) j (by omega) hj2 (by omega)

theorem sync_cur_spec (m : NcmMSetCatalog) (t : FitsTable)
    (hg : GintIds m) (hf : m.file_first_id = m.first_id)
    (hm : MemRows m) (ht : TableRows m t) :
    ∃ m1 t1, sync_cur m t = .ok (m1, t1) ∧ MemRows m1 ∧ TableRows m1 t1 ∧
      ((∀ k, k < m.pstats.saved_x.length → k < t.rows.length →
        t.rows[k]? = m.pstats.saved_x[k]?) → t1.rows = m1.pstats.saved_x) := by
  obtain ⟨⟨g1, g2⟩, ⟨g3, g4⟩, ⟨g5, g6⟩, ⟨g7, g8⟩⟩ := hg
  have hmr := hm
  unfold MemRows at hm
  obtain ⟨hsv, hm⟩ := hm
  unfold TableRows at ht
  rcases lt_trichotomy m.file_cur_id m.cur_id with hlt | heq | hgt
  · -- the table ends earlier: the newer rows are written after its last row
    obtain ⟨k, hk⟩ := Int.eq_ofNat_of_zero_le (show 0 ≤ m.cur_id - m.file_cur_id by omega)
    have hkg : toGuint (m.cur_id - m.file_cur_id) = k := by
      rw [hk]; exact toGuint_natCast k (by omega)
    have hog : toGuint (m.file_cur_id + 1 - m.file_first_id) = t.rows.length := by
      have e : m.file_cur_id + 1 - m.file_first_id = (t.rows.length : Int) := by omega
      rw [e]; exact toGuint_natCast _ (by omega)
    obtain ⟨t2, e2, l2, r2, _⟩ := sync_write_loop_spec m.pstats t.rows.length k 0 t
      (by omega) (by omega)
    refine ⟨{ m with file_cur_id := m.cur_id }, t2, ?_, ?_, ?_, ?_⟩
    · rw [sync_cur_eq_lt m t hlt, hkg, hog, e2]
    · exact hmr
    · unfold TableRows; simp only; omega
    · intro hag
      simp only
      apply List.ext_getElem?
      intro j
      rw [r2 j]
      by_cases hin : t.rows.length + 0 ≤ j ∧ j < t.rows.length + 0 + k
      · rw [if_pos hin]
      · rw [if_neg hin]
        by_cases hj : j < t.rows.length
        · exact hag j (by omega) hj
        · rw [List.getElem?_eq_none (by omega), List.getElem?_eq_none (by omega)]
  · -- the two ranges end together
    refine ⟨m, t, sync_cur_eq_same m t heq, hmr, ht, ?_⟩
    intro hag
    apply List.ext_getElem?
    intro j
    by_cases hj : j < t.rows.length
    · exact hag j (by omega) hj
    · rw [List.getElem?_eq_none (by omega), List.getElem?_eq_none (by omega)]
  · -- the table ends later: its tail is read
    obtain ⟨k, hk⟩ := Int.eq_ofNat_of_zero_le (show 0 ≤ m.file_cur_id - m.cur_id by omega)
    have hkg : toGuint (m.file_cur_id - m.cur_id) = k := by
      rw [hk]; exact toGuint_natCast k (by omega)
    have hog : toGuint (m.cur_id + 1 - m.first_id) = m.pstats.saved_x.length := by
      have e : m.cur_id + 1 - m.first_id = (m.pstats.saved_x.length : Int) := by omega
      rw [e]; exact toGuint_natCast _ (by omega)
    have e2 : sync_read_loop t m.pstats.saved_x.length k 0 =
        .ok ((t.rows.drop m.pstats.saved_x.length).take k) := by
      have e := sync_read_loop_spec t m.pstats.saved_x.length k 0 (by omega)
      simpa using e
    refine ⟨{ m with
                pstats := ncm_stats_vec_append_data m.pstats
                  ((t.rows.drop m.pstats.saved_x.length).take k)
                chain_pstats :=
                  if m.nchains > 1 then
                    sync_chain_append m.nchains (m.cur_id + 1)
                      ((t.rows.drop m.pstats.saved_x.length).take k) 0 m.chain_pstats
                  else m.chain_pstats
                cur_id := m.file_cur_id }, t, ?_, ?_, ?_, ?_⟩
    · rw [sync_cur_eq_gt m t hgt, hkg, hog, e2]
    · unfold MemRows
      simp only [ncm_stats_vec_append_data, hsv, if_true, List.length_append, List.length_take,
        List.length_drop]
      exact ⟨trivial, by omega⟩
    · unfold TableRows; simp only; omega
    · intro hag
      simp only [ncm_stats_vec_append_data, hsv, if_true]
      apply List.ext_getElem?
      intro j
      by_cases hj : j < m.pstats.saved_x.length
      · rw [List.getElem?_append_left hj]
        exact hag j hj (by omega)
      · rw [List.getElem?_append_right (by omega)]
        by_cases hj2 : j < t.rows.length
        · rw [List.getElem?_take_of_lt (by omega), List.getElem?_drop]
          congr 1
          omega
        · rw [List.getElem?_eq_none (by omega), List.getElem?_eq_none (by simp; omega)]

theorem sync_flush_total (m : NcmMSetCatalog) (t : FitsTable) (h : m.fmode ≠ .len) :
    ∃ t1, sync_flush m t = .ok t1 ∧ t1.rows = t.rows := by
  unfold sync_flush
  cases hf : m.fmode with
  | disable => exact ⟨t, rfl, rfl⟩
  | auto => exact ⟨_, rfl, rfl⟩
  | timed =>
    by_cases hd : m.flush_due
    · exact ⟨_ncm_mset_catalog_flush_file m t, by simp [hd], rfl⟩
    · exact ⟨t, by simp [hd], rfl⟩
  | len => exact absurd hf h

/-! ## Claims C1 and C2: synchronisation -/

/-- Synchronising a file-backed catalog whose ranges touch completes; both ranges
become the union of the two, the accumulator and the table keep one row per
identifier, and when they agreed on the identifiers they shared they now hold
the same rows in the same order. -/
theorem sync_spec (m : NcmMSetCatalog) (t : FitsTable) (check : Bool)
    (hb : FileBacked m t) (hadj : RangesTouch m) :
    ∃ m1 t1, ncm_mset_catalog_sync m check = .ok m1 ∧ m1.fptr = some t1 ∧
      m1.first_id = min m.first_id m.file_first_id ∧
      m1.file_first_id = min m.first_id m.file_first_id ∧
      m1.cur_id = max m.cur_id m.file_cur_id ∧
      m1.file_cur_id = max m.cur_id m.file_cur_id ∧
      MemRows m1 ∧ TableRows m1 t1 ∧
      (RowsAgree m t → t1.rows = m1.pstats.saved_x) ∧
      SameSetup m1 m ∧ t1.filename = t.filename := by
  obtain ⟨hfile, hfptr, hmode, hg, hm, ht⟩ := hb
  obtain ⟨ma, ta, ea, ma_mem, ma_tab, ma_ag⟩ := sync_first_spec m t hg hm ht hadj
  obtain ⟨a1, a2, a3, a4, a5, a6⟩ := sync_first_ok _ _ _ _ ea
  have hga : GintIds ma := by
    obtain ⟨⟨g1, g2⟩, ⟨g3, g4⟩, ⟨g5, g6⟩, ⟨g7, g8⟩⟩ := hg
    refine ⟨⟨?_, ?_⟩, ⟨?_, ?_⟩, ⟨?_, ?_⟩, ⟨?_, ?_⟩⟩ <;> omega
  obtain ⟨mb, tb, eb, mb_mem, mb_tab, mb_ag⟩ :=
    sync_cur_spec ma ta hga (by rw [a1, a2]) ma_mem ma_tab
  obtain ⟨b1, b2, b3, b4, b5, b6⟩ := sync_cur_ok _ _ _ _ eb
  have hmodeb : mb.fmode ≠ .len := by
    rw [b5.2.2.2.2.2.1, a5.2.2.2.2.2.1]; exact hmode
  obtain ⟨tc, ec, rc⟩ := sync_flush_total mb tb hmodeb
  obtain ⟨_, c6⟩ := sync_flush_ok _ _ _ ec
  have hcheck : (if check then sync_check m t.filename t else .ok ()) = .ok () := by
    cases check
    · rfl
    · obtain ⟨adj1, adj2⟩ := hadj
      have : ¬ (m.file_cur_id < m.first_id - 1 ∨ m.cur_id < m.file_first_id - 1) := by omega
      simp [sync_check, this]
  refine ⟨{ mb with fptr := some tc }, tc, ?_, rfl, ?_, ?_, ?_, ?_, mb_mem, ?_, ?_,
    SameSetup.trans
      (show SameSetup _ mb from ⟨rfl, rfl, rfl, rfl, rfl, rfl, rfl, rfl, rfl, rfl, rfl⟩)
      (SameSetup.trans b5 a5),
    by rw [c6, b6, a6]⟩
  · unfold ncm_mset_catalog_sync
    simp only [hfile, hfptr, hcheck, ea, eb, ec]
  · simp only; rw [b3, a1]
  · simp only; rw [b4, a2]
  · simp only; rw [b1, a3, a4]
  · simp only; rw [b2, a3, a4]
  · unfold TableRows at mb_tab ⊢
    simp only; rw [rc]; exact mb_tab
  · intro hag
    simp only; rw [rc]
    exact mb_ag (ma_ag hag)

theorem exCatalog_fileBacked : FileBacked exCatalog exTable where
  file := rfl
  fptr := rfl
  fmode := by decide
  gint := by unfold GintIds IsGint; decide
  mem := by unfold MemRows; decide
  table := by unfold TableRows; decide

theorem exCatalog_touch : RangesTouch exCatalog := by
  unfold RangesTouch; decide

theorem exCatalog_agree : RowsAgree exCatalog exTable := by
  intro i j hi hj h
  have hi' : i < 3 := hi
  have hj' : j < 4 := hj
  have h' : (2 : Int) + i = 0 + j := h
  have hji : j = i + 2 := by omega
  have hi2 : i < 2 := by omega
  subst hji
  interval_cases i <;> rfl

/-- C1: for a file-backed catalog whose in-memory range and on-disk range overlap
or are adjacent, `sync` completes and leaves both ranges equal to their union:
both first identifiers are the smaller of the two previous ones and both
current identifiers the larger of the two previous ones. -/
theorem sync_ranges_become_union (m : NcmMSetCatalog) (t : FitsTable) (check : Bool)
    (hb : FileBacked m t) (hadj : RangesTouch m) :
    ∃ m1, ncm_mset_catalog_sync m check = .ok m1 ∧
      m1.first_id = min m.first_id m.file_first_id ∧
      m1.file_first_id = min m.first_id m.file_first_id ∧
      m1.cur_id = max m.cur_id m.file_cur_id ∧
      m1.file_cur_id = max m.cur_id m.file_cur_id := by
  obtain ⟨m1, _, e, _, h1, h2, h3, h4, _⟩ := sync_spec m t check hb hadj
  exact ⟨m1, e, h1, h2, h3, h4⟩

theorem sync_ranges_become_union_witness :
    FileBacked exCatalog exTable ∧ RangesTouch exCatalog ∧
    ∃ m1, ncm_mset_catalog_sync exCatalog true = .ok m1 ∧
      m1.first_id = min exCatalog.first_id exCatalog.file_first_id ∧
      m1.file_first_id = min exCatalog.first_id exCatalog.file_first_id ∧
      m1.cur_id = max exCatalog.cur_id exCatalog.file_cur_id ∧
      m1.file_cur_id = max exCatalog.cur_id exCatalog.file_cur_id :=
  ⟨exCatalog_fileBacked, exCatalog_touch,
    sync_ranges_become_union exCatalog exTable true exCatalog_fileBacked exCatalog_touch⟩

/-- C2: for a file-backed catalog whose two ranges overlap or are adjacent and
whose on-disk and in-memory rows agree on every identifier both hold, `sync`
completes, so that no row index it reads or writes is refused by the table or
the accumulator, and afterwards the table and the row buffer hold the same rows
in the same order: for every identifier `id` of `[first_id, cur_id]` the table
row of 1-based index `id - first_id + 1` is the buffer row of 0-based index
`id - first_id`. -/
theorem sync_rows_agree (m : NcmMSetCatalog) (t : FitsTable) (check : Bool)
    (hb : FileBacked m t) (hadj : RangesTouch m) (hag : RowsAgree m t) :
    ∃ m1 t1, ncm_mset_catalog_sync m check = .ok m1 ∧ m1.fptr = some t1 ∧
      t1.rows = m1.pstats.saved_x ∧
      ∀ id : Int, m1.first_id ≤ id → id ≤ m1.cur_id →
        ∃ row, _ncm_mset_catalog_read_row t1 (id - m1.first_id + 1).toNat = .ok row ∧
          ncm_stats_vec_peek_row m1.pstats (id - m1.first_id).toNat = .ok row := by
  obtain ⟨m1, t1, e, hf, _, _, _, _, hm, _, hr, _⟩ := sync_spec m t check hb hadj
  have hrows := hr hag
  refine ⟨m1, t1, e, hf, hrows, ?_⟩
  intro id h1 h2
  unfold MemRows at hm
  obtain ⟨_, hm⟩ := hm
  obtain ⟨k, hk⟩ := Int.eq_ofNat_of_zero_le (show 0 ≤ id - m1.first_id by omega)
  have hk1 : (id - m1.first_id).toNat = k := by rw [hk]; simp
  have hk2 : (id - m1.first_id + 1).toNat = k + 1 := by rw [hk]; omega
  have hlt : k < m1.pstats.saved_x.length := by omega
  have hlt' : k < t1.rows.length := by rw [hrows]; exact hlt
  refine ⟨m1.pstats.saved_x[k], ?_, ?_⟩
  · rw [hk2, read_row_in_table t1 k hlt']
    simp only [hrows]
  · rw [hk1, peek_row_in_buffer m1.pstats k hlt]

theorem sync_rows_agree_witness :
    FileBacked exCatalog exTable ∧ RangesTouch exCatalog ∧ RowsAgree exCatalog exTable ∧
    ∃ m1 t1, ncm_mset_catalog_sync exCatalog false = .ok m1 ∧ m1.fptr = some t1 ∧
      t1.rows = m1.pstats.saved_x ∧
      ∀ id : Int, m1.first_id ≤ id → id ≤ m1.cur_id →
        ∃ row, _ncm_mset_catalog_read_row t1 (id - m1.first_id + 1).toNat = .ok row ∧
          ncm_stats_vec_peek_row m1.pstats (id - m1.first_id).toNat = .ok row :=
  ⟨exCatalog_fileBacked, exCatalog_touch, exCatalog_agree,
    sync_rows_agree exCatalog exTable false exCatalog_fileBacked exCatalog_touch exCatalog_agree⟩

/-! ## Invariants of the reachable states -/

theorem new_ids (fparams_len nadd_vals nchains : Nat) (weighted : Bool) :
    let m := ncm_mset_catalog_new fparams_len nadd_vals nchains weighted
    m.first_id = 0 ∧ m.cur_id = -1 ∧ m.file_first_id = 0 ∧ m.file_cur_id = -1 ∧
      m.file = none ∧ m.fptr = none ∧ m.fmode = .auto ∧ m.pstats.saved_x = [] := by
  cases weighted <;>
    simp [ncm_mset_catalog_new, _ncm_mset_catalog_constructed_mset,
      _ncm_mset_catalog_constructed_alloc_chains, ncm_mset_catalog_init, ncm_stats_vec_new]

/-- The global accumulator of a new catalog is created with `save_x = TRUE`. -/
theorem new_save_x (fparams_len nadd_vals nchains : Nat) (weighted : Bool) :
    (ncm_mset_catalog_new fparams_len nadd_vals nchains weighted).pstats.save_x = true := by
  cases weighted <;>
    simp [ncm_mset_catalog_new, _ncm_mset_catalog_constructed_mset,
      _ncm_mset_catalog_constructed_alloc_chains, ncm_mset_catalog_init, ncm_stats_vec_new]

theorem set_run_type_ok (m m1 : NcmMSetCatalog) (s : String)
    (h : ncm_mset_catalog_set_run_type m s = .ok m1) :
    m1.first_id = m.first_id ∧ m1.cur_id = m.cur_id ∧ m1.file_first_id = m.file_first_id ∧
    m1.file_cur_id = m.file_cur_id ∧ m1.file = m.file ∧ m1.fmode = m.fmode ∧
    m1.pstats = m.pstats := by
  unfold ncm_mset_catalog_set_run_type at h
  split at h
  · cases h; exact ⟨rfl, rfl, rfl, rfl, rfl, rfl, rfl⟩
  · split at h
    · split at h
      · cases h
      · cases h; exact ⟨rfl, rfl, rfl, rfl, rfl, rfl, rfl⟩
    · cases h; exact ⟨rfl, rfl, rfl, rfl, rfl, rfl, rfl⟩

theorem open_create_cards_ok (m m1 : NcmMSetCatalog) (l : Bool) (t : FitsTable)
    (h : open_create_cards m l t = .ok m1) :
    m1.first_id = m.first_id ∧ m1.cur_id = m.cur_id ∧ m1.file_first_id = m.file_first_id ∧
    m1.file_cur_id = m.file_cur_id ∧ m1.file = m.file ∧ m1.fmode = m.fmode ∧
    m1.pstats = m.pstats := by
  unfold open_create_cards at h
  cases l
  · simp only [Bool.false_eq_true, if_false] at h
    split at h
    · cases h
    · rename_i ma ha
      have hma : ma = m := by
        split at ha
        · cases ha
        · cases ha; rfl
      subst hma
      split at h
      · cases h
      · split at h
        · cases h
        · rename_i mb hb
          have hmb : mb = ma := by
            split at hb
            · cases hb
            · cases hb; rfl
          subst hmb
          split at h
          · cases h
          · rename_i mc hc
            have hmc : mc = mb := by
              split at hc
              · cases hc
              · cases hc; rfl
            subst hmc
            split at h
            · cases h
            · cases h; exact ⟨rfl, rfl, rfl, rfl, rfl, rfl, rfl⟩
  · simp only [if_true] at h
    split at h
    · cases h
    · rename_i ma ha
      obtain ⟨a1, a2, a3, a4, a5, a6, a7⟩ := set_run_type_ok _ _ _ ha
      split at h
      · cases h
      · cases h
        exact ⟨a1, a2, a3, a4, a5, a6, a7⟩

theorem open_create_ids_props (m : NcmMSetCatalog) (t : FitsTable)
    (h : m.cur_id = m.first_id - 1) :
    (open_create_ids m t).cur_id = (open_create_ids m t).first_id - 1 ∧
      (open_create_ids m t).file = m.file := by
  simp only [open_create_ids]
  by_cases h1 : m.file_first_id ≠ m.first_id
  · by_cases h2 : (t.rows.length : Int) = 0
    · rw [if_pos h1, if_pos h2]
      exact ⟨h, rfl⟩
    · by_cases h3 : m.cur_id < m.first_id
      · rw [if_pos h1, if_neg h2, if_pos h3]
        exact ⟨rfl, rfl⟩
      · rw [if_pos h1, if_neg h2, if_neg h3]
        exact ⟨h, rfl⟩
  · rw [if_neg h1]
    exact ⟨h, rfl⟩

theorem open_create_file_ok (m m1 : NcmMSetCatalog) (l : Bool) (file : String)
    (disk : Option FitsTable)
    (h : _ncm_mset_catalog_open_create_file m l file disk = .ok m1)
    (hempty : m.cur_id = m.first_id - 1) :
    m1.cur_id = m1.first_id - 1 ∧ m1.file = m.file ∧ ∃ t, m1.fptr = some t := by
  unfold _ncm_mset_catalog_open_create_file at h
  cases disk with
  | none =>
    simp only at h
    cases h
    exact ⟨hempty, rfl, _, rfl⟩
  | some t =>
    simp only at h
    split at h
    · cases h
    · rename_i ma ha
      cases h
      obtain ⟨a1, a2, a3, a4, a5, _⟩ := open_create_cards_ok _ _ _ _ ha
      simp only at a1 a2 a3 a4 a5
      obtain ⟨p1, p2⟩ := open_create_ids_props ma t (by rw [a1, a2]; exact hempty)
      exact ⟨p1, p2.trans a5, _, rfl⟩

theorem set_file_ok (m m1 : NcmMSetCatalog) (filename : String) (disk : Option FitsTable)
    (h : ncm_mset_catalog_set_file m filename disk = .ok m1)
    (hfile : m.file = none) (hempty : m.cur_id = m.first_id - 1) :
    m1.file = some filename ∧ (∃ t, m1.fptr = some t) ∧
    m1.file_first_id = m1.first_id ∧ m1.file_cur_id = m1.cur_id ∧
    m1.cur_id ≥ m1.first_id - 1 := by
  unfold ncm_mset_catalog_set_file at h
  rw [if_neg (by rw [hfile]; simp)] at h
  split at h
  · cases h
  · rename_i ma ha
    split at h
    · cases h
    · rename_i mb hb
      cases h
      have hc : (_ncm_mset_catalog_close_file m).cur_id =
          (_ncm_mset_catalog_close_file m).first_id - 1 := by
        unfold _ncm_mset_catalog_close_file
        split <;> exact hempty
      obtain ⟨a1, a2, a3⟩ := open_create_file_ok _ _ _ _ _ ha hc
      simp only at a2
      obtain ⟨_, b2, b3⟩ := sync_ok _ _ _ hb
      obtain ⟨_, ⟨tb, htb⟩, c1, c2, c3, c4⟩ := b2 (by rw [a2]; simp)
      refine ⟨?_, ?_, ?_, ?_, ?_⟩
      · simp only; rw [b3.2.2.2.2.2.2.2.1, a2]
      · exact ⟨_ncm_mset_catalog_flush_file mb tb, by simp only [htb, Option.map_some']⟩
      · simp only; rw [c1, c2]
      · simp only; rw [c3, c4]
      · simp only; rw [c1, c3]; omega

theorem new_from_file_ok (m1 : NcmMSetCatalog) (filename : String) (fparams_len : Nat)
    (disk : Option FitsTable)
    (h : ncm_mset_catalog_new_from_file filename fparams_len disk = .ok m1) :
    m1.file = some filename ∧ (∃ t, m1.fptr = some t) ∧
    m1.file_first_id = m1.first_id ∧ m1.file_cur_id = m1.cur_id ∧
    m1.cur_id ≥ m1.first_id - 1 := by
  unfold ncm_mset_catalog_new_from_file at h
  cases disk with
  | none => simp at h
  | some t =>
    simp only at h
    split at h
    · cases h
    · rename_i ma ha
      split at h
      · cases h
      · rename_i mb hb
        cases h
        obtain ⟨a1, a2, a3⟩ := open_create_file_ok _ _ _ _ _ ha rfl
        simp only at a2
        obtain ⟨_, b2, b3⟩ := sync_ok _ _ _ hb
        have hfile : (_ncm_mset_catalog_constructed_alloc_chains ma).file = some filename := a2
        obtain ⟨_, ⟨tb, htb⟩, c1, c2, c3, c4⟩ := b2 (by rw [hfile]; simp)
        have d1 : (_ncm_mset_catalog_constructed_alloc_chains ma).first_id = ma.first_id := rfl
        have d2 : (_ncm_mset_catalog_constructed_alloc_chains ma).cur_id = ma.cur_id := rfl
        refine ⟨?_, ?_, ?_, ?_, ?_⟩
        · simp only; rw [b3.2.2.2.2.2.2.2.1, hfile]
        · exact ⟨_ncm_mset_catalog_flush_file mb tb, by simp only [htb, Option.map_some']⟩
        · simp only; rw [c1, c2]
        · simp only; rw [c3, c4]
        · simp only; rw [c1, c3, d1, d2]; omega

theorem fresh_props (m : NcmMSetCatalog) (h : Fresh m) :
    m.cur_id ≥ m.first_id - 1 ∧ RangesTied m := by
  cases h with
  | new fp na nc w =>
    obtain ⟨h1, h2, h3, h4, h5, h6, _⟩ := new_ids fp na nc w
    refine ⟨by rw [h1, h2]; decide, ?_, ?_⟩
    · intro _; exact ⟨h6, by rw [h3, h4]; decide⟩
    · intro hc; exact absurd h5 hc
  | new_file fp na nc w filename disk m hs =>
    obtain ⟨h1, h2, _, _, h5, _⟩ := new_ids fp na nc w
    obtain ⟨a1, ⟨t, a2⟩, a3, a4, a5⟩ := set_file_ok _ _ _ _ hs h5 (by rw [h1, h2]; decide)
    refine ⟨a5, ?_, ?_⟩
    · intro hc; rw [a1] at hc; cases hc
    · intro _; exact Or.inl ⟨by rw [a2]; simp, a3, a4⟩
  | from_file filename fp disk m hs =>
    obtain ⟨a1, ⟨t, a2⟩, a3, a4, a5⟩ := new_from_file_ok _ _ _ _ hs
    refine ⟨a5, ?_, ?_⟩
    · intro hc; rw [a1] at hc; cases hc
    · intro _; exact Or.inl ⟨by rw [a2]; simp, a3, a4⟩

theorem erase_data_ok (m m1 : NcmMSetCatalog) (h : ncm_mset_catalog_erase_data m = .ok m1) :
    m1.first_id = m.first_id ∧ m1.cur_id = m.cur_id ∧ m1.file_first_id = m.file_first_id ∧
    m1.file = m.file ∧ (m.fptr = none → m1.fptr = none) ∧
    m1.file_cur_id =
      (if m.fptr ≠ none ∧ m.file_cur_id - m.file_first_id + 1 > 0 then m.file_first_id - 1
       else m.file_cur_id) ∧
    m1.nchains = m.nchains ∧ m1.nadd_vals = m.nadd_vals ∧ m1.weighted = m.weighted ∧
    m1.rtype_str = m.rtype_str ∧ m1.pstats = m.pstats ∧ m1.chain_pstats = m.chain_pstats ∧
    m1.params_max = m.params_max ∧ m1.params_min = m.params_min := by
  unfold ncm_mset_catalog_erase_data at h
  cases hf : m.fptr with
  | none =>
    simp only [hf] at h
    cases h
    simp [hf]
  | some t =>
    simp only [hf] at h
    by_cases hn : m.file_cur_id - m.file_first_id + 1 > 0
    · simp only [hn, if_true] at h
      cases hd : fits_delete_rows_head t (m.file_cur_id - m.file_first_id + 1).toNat with
      | error e => simp [hd] at h
      | ok t1 =>
        simp only [hd] at h
        cases h
        simp [hf, hn]
    · simp only [hn, if_false] at h
      cases h
      simp [hf, hn]

theorem reset_ok (m m1 : NcmMSetCatalog) (h : ncm_mset_catalog_reset m = .ok m1) :
    m1.first_id = m.first_id ∧ m1.cur_id = m.first_id - 1 ∧
    m1.file_first_id = m.file_first_id ∧ m1.file = m.file ∧ m1.fptr = none ∧
    m1.file_cur_id =
      (if m.fptr ≠ none ∧ m.file_cur_id - m.file_first_id + 1 > 0 then m.file_first_id - 1
       else m.file_cur_id) := by
  unfold ncm_mset_catalog_reset at h
  split at h
  · cases h
  · rename_i ma ha
    cases h
    obtain ⟨a1, a2, a3, a4, a5, a6, _⟩ := erase_data_ok _ _ ha
    unfold _ncm_mset_catalog_close_file
    split
    · rename_i hf
      simp only at hf
      refine ⟨a1, ?_, a3, a4, hf, a6⟩
      simp only; rw [a1]
    · refine ⟨a1, ?_, a3, a4, rfl, a6⟩
      simp only; rw [a1]

theorem add_eq_sync (m : NcmMSetCatalog) (vals : NcmVector) :
    ∃ m0, ncm_mset_catalog_add_from_vector m vals = ncm_mset_catalog_sync m0 false ∧
      m0.first_id = m.first_id ∧ m0.cur_id = m.cur_id + 1 ∧
      m0.file_first_id = m.file_first_id ∧ m0.file_cur_id = m.file_cur_id ∧
      m0.file = m.file ∧ m0.fptr = m.fptr :=
  ⟨_, rfl, rfl, rfl, rfl, rfl, rfl, rfl⟩

/-- Every call that completes keeps `cur_id ≥ first_id - 1`. -/
theorem step_cur_ge (m m1 : NcmMSetCatalog) (op : CatalogOp) (h : op.run m = .ok m1)
    (hp : m.cur_id ≥ m.first_id - 1) : m1.cur_id ≥ m1.first_id - 1 := by
  cases op with
  | add vals =>
    obtain ⟨m0, e, a1, a2, a3, a4, a5, a6⟩ := add_eq_sync m vals
    have h' : ncm_mset_catalog_sync m0 false = .ok m1 := by rw [← e]; exact h
    obtain ⟨s1, s2, _⟩ := sync_ok _ _ _ h'
    by_cases hf : m0.file = none
    · rw [s1 hf]; omega
    · obtain ⟨_, _, c1, _, c3, _⟩ := s2 hf
      rw [c1, c3]; omega
  | sync check =>
    have h' : ncm_mset_catalog_sync m check = .ok m1 := h
    obtain ⟨s1, s2, _⟩ := sync_ok _ _ _ h'
    by_cases hf : m.file = none
    · rw [s1 hf]; exact hp
    · obtain ⟨_, _, c1, _, c3, _⟩ := s2 hf
      rw [c1, c3]; omega
  | reset =>
    have h' : ncm_mset_catalog_reset m = .ok m1 := h
    obtain ⟨r1, r2, _⟩ := reset_ok _ _ h'
    omega

/-- Every call that completes keeps the two ranges tied. -/
theorem step_tied (m m1 : NcmMSetCatalog) (op : CatalogOp) (h : op.run m = .ok m1)
    (hp : m.cur_id ≥ m.first_id - 1) (hk : RangesTied m) : RangesTied m1 := by
  obtain ⟨k1, k2⟩ := hk
  have sync_case : ∀ (m0 : NcmMSetCatalog) (check : Bool),
      ncm_mset_catalog_sync m0 check = .ok m1 → m0.file = m.file → m0.fptr = m.fptr →
      m0.file_first_id = m.file_first_id → m0.file_cur_id = m.file_cur_id → RangesTied m1 := by
    intro m0 check h' a5 a6 a3 a4
    obtain ⟨s1, s2, s3⟩ := sync_ok _ _ _ h'
    by_cases hf : m0.file = none
    · have e := s1 hf
      subst e
      obtain ⟨k11, k12⟩ := k1 (by rw [← a5]; exact hf)
      refine ⟨fun _ => ⟨by rw [a6]; exact k11, by rw [a3, a4]; exact k12⟩, fun hc => absurd hf hc⟩
    · obtain ⟨_, ⟨t1, ht1⟩, c1, c2, c3, c4⟩ := s2 hf
      have hfile : m1.file = m0.file := s3.2.2.2.2.2.2.2.1
      refine ⟨fun hc => absurd (hfile ▸ hc) hf, fun _ => Or.inl ⟨by rw [ht1]; simp, ?_, ?_⟩⟩
      · rw [c1, c2]
      · rw [c3, c4]
  cases op with
  | add vals =>
    obtain ⟨m0, e, a1, a2, a3, a4, a5, a6⟩ := add_eq_sync m vals
    have h' : ncm_mset_catalog_sync m0 false = .ok m1 := by rw [← e]; exact h
    exact sync_case m0 false h' a5 a6 a3 a4
  | sync check => exact sync_case m check h rfl rfl rfl rfl
  | reset =>
    have h' : ncm_mset_catalog_reset m = .ok m1 := h
    obtain ⟨r1, r2, r3, r4, r5, r6⟩ := reset_ok _ _ h'
    have hcur : m1.file_cur_id < m1.file_first_id := by
      rw [r6, r3]
      by_cases hf : m.file = none
      · obtain ⟨k11, k12⟩ := k1 hf
        rw [if_neg (by simp [k11])]; exact k12
      · rcases k2 hf with ⟨q1, q2, q3⟩ | ⟨q1, q2, q3⟩
        · split
          · omega
          · rename_i hc
            have : ¬ (m.file_cur_id - m.file_first_id + 1 > 0) := fun hh => hc ⟨q1, hh⟩
            omega
        · rw [if_neg (by simp [q1])]; exact q2
    refine ⟨fun _ => ⟨r5, hcur⟩, fun _ => Or.inr ⟨r5, hcur, by rw [r1, r2]; omega⟩⟩

theorem reachable_props (m : NcmMSetCatalog) (h : Reachable m) :
    m.cur_id ≥ m.first_id - 1 ∧ RangesTied m := by
  induction h with
  | fresh m hf => exact fresh_props m hf
  | step m m1 op _ hrun ih =>
    exact ⟨step_cur_ge m m1 op hrun ih.1, step_tied m m1 op hrun ih.1 ih.2⟩

/-! ## Claims C3 and C4: reachable states -/

theorem exAdded_reachable : Reachable exAdded :=
  Reachable.step _ _ (.add (exRow 7)) (Reachable.fresh _ (Fresh.new 1 1 2 false)) rfl

theorem runOps_reachable (ops : List CatalogOp) :
    ∀ (m0 m : NcmMSetCatalog), Reachable m0 → runOps ops m0 = .ok m → Reachable m := by
  induction ops with
  | nil =>
    intro m0 m h0 h
    simp only [runOps] at h
    cases h
    exact h0
  | cons op ops ih =>
    intro m0 m h0 h
    simp only [runOps] at h
    cases hr : op.run m0 with
    | error e => simp [hr] at h
    | ok m1 =>
      simp only [hr] at h
      exact ih m1 m (Reachable.step m0 m1 op h0 hr) h

theorem exOnFile_fresh : Fresh exOnFile :=
  Fresh.new_file 1 1 1 false "new.fits" none exOnFile rfl

theorem exAfterReset_reachable : Reachable exAfterReset :=
  runOps_reachable exResetOps exOnFile exAfterReset (Reachable.fresh _ exOnFile_fresh) rfl

/-- C3: in every state reached from a freshly constructed catalog by a finite
sequence of `add`, `sync` and `reset` calls that complete without a fatal
error, `cur_id ≥ first_id - 1`. -/
theorem reachable_cur_id_ge (m : NcmMSetCatalog) (h : Reachable m) :
    m.cur_id ≥ m.first_id - 1 :=
  (reachable_props m h).1

theorem reachable_cur_id_ge_witness :
    Reachable exAfterReset ∧ exAfterReset.cur_id ≥ exAfterReset.first_id - 1 :=
  ⟨exAfterReset_reachable, reachable_cur_id_ge exAfterReset exAfterReset_reachable⟩

/-- C4: in every state reached from a freshly constructed catalog by `add`, `sync`
and `reset` calls, `is_empty ()` returns true if and only if
`cur_id < first_id`. -/
theorem reachable_is_empty_iff (m : NcmMSetCatalog) (h : Reachable m) :
    ncm_mset_catalog_is_empty m = true ↔ m.cur_id < m.first_id := by
  obtain ⟨_, k1, k2⟩ := reachable_props m h
  unfold ncm_mset_catalog_is_empty
  simp only [Bool.and_eq_true, decide_eq_true_eq]
  constructor
  · intro hc; exact hc.1
  · intro hc
    refine ⟨hc, ?_⟩
    by_cases hf : m.file = none
    · exact (k1 hf).2
    · rcases k2 hf with ⟨_, q2, q3⟩ | ⟨_, q2, _⟩
      · omega
      · exact q2

theorem reachable_is_empty_iff_witness :
    Reachable exAdded ∧
      (ncm_mset_catalog_is_empty exAdded = true ↔ exAdded.cur_id < exAdded.first_id) :=
  ⟨exAdded_reachable, reachable_is_empty_iff exAdded exAdded_reachable⟩

/-! ## Claim C5: the chain of a row -/

/-- For identifiers that are not negative, the chain computed by the catalog is
the identifier modulo `nchains`. -/
theorem chain_id_nonneg (id : Int) (nchains : Nat) (h0 : 0 ≤ id) (h1 : id ≤ 2147483647) :
    chain_id id nchains = chain_of_id id nchains := by
  unfold chain_id chain_of_id
  obtain ⟨k, hk⟩ := Int.eq_ofNat_of_zero_le h0
  subst hk
  rw [toGuint_natCast k (by omega)]
  have : ((k : Int) % (nchains : Int)) = ((k % nchains : Nat) : Int) := by
    simp
  rw [this]
  exact (Int.toNat_ofNat _).symm

/-! ## Claims C6 and C8: `reset` and `set_first_id` -/

/-- C5 (the code at the failing input): in a catalog of three chains whose first
identifier is `-3`, the first `add` stores the row of identifier `-3`, advances
`cur_id` by one and keeps `first_id`, but the chain accumulator it updates is
the one of index 1, not the one of index `-3 mod 3 = 0`; the next identifiers
`-2`, `-1`, `0` go to the chains 2, 0, 0, so two consecutive rows share a
chain. -/
theorem add_negative_id_wrong_chain :
    exNegative.first_id = -3 ∧ exNegative.cur_id = -4 ∧ exNegative.nchains = 3 ∧
    exNegativeAdded.cur_id = exNegative.cur_id + 1 ∧
    exNegativeAdded.first_id = exNegative.first_id ∧
    exNegativeAdded.pstats.saved_x = [exRow (-3)] ∧
    exNegativeAdded.chain_pstats.map (fun sv => sv.absorbed) = [[], [exRow (-3)], []] ∧
    chain_of_id (-3) 3 = 0 ∧ chain_id (-3) 3 = 1 ∧
    chain_id (-2) 3 = 2 ∧ chain_id (-1) 3 = 0 ∧ chain_id 0 3 = 0 := by
  refine ⟨rfl, rfl, rfl, rfl, rfl, rfl, rfl, rfl, rfl, rfl, rfl, rfl⟩

theorem reset_eq (m : NcmMSetCatalog) (hs : Sound m) :
    ncm_mset_catalog_reset m = .ok (reset_result m) := by
  unfold ncm_mset_catalog_reset ncm_mset_catalog_erase_data reset_result
  cases hf : m.fptr with
  | none =>
    have hc := (hs.closed hf).1
    simp only [_ncm_mset_catalog_close_file, hf, hc]
  | some t =>
    obtain ⟨_, _, ht⟩ := hs.opened t hf
    unfold TableRows at ht
    by_cases hn : m.file_cur_id - m.file_first_id + 1 > 0
    · have hd : fits_delete_rows_head t (m.file_cur_id - m.file_first_id + 1).toNat =
          .ok { t with rows := t.rows.drop (m.file_cur_id - m.file_first_id + 1).toNat } := by
        unfold fits_delete_rows_head
        rw [if_pos (by omega)]
      simp only [hn, if_true, hd, _ncm_mset_catalog_close_file]
    · have hc : m.file_cur_id = m.file_first_id - 1 := by omega
      simp only [hn, if_false]
      simp only [_ncm_mset_catalog_close_file, hf, hc]

/-- C6 (the code at the failing inputs): on a sound catalog with an open file
handle `reset` completes and empties the catalog as the claim has it: the rows
of the file are erased (the table that `ncm_mset_catalog_erase_data`, its first
step, leaves behind the handle has no row), no row is left in the global
accumulator and its count is zero, in a catalog of two chains or more every
chain accumulator has its statistics back at zero, `cur_id = first_id - 1` and
`file_cur_id = file_first_id - 1` with `first_id` and `file_first_id`
unchanged, every per-column maximum is `-infinity` and every per-column minimum
`+infinity`, `is_empty ()` is true, and `nchains`, the additional-value count,
the weighted flag, the run-type string, the count of free parameters, the flush
mode and the file name are the same as before.  But `reset` does change
something else: the file handle, open before the call, is `NULL` after it. -/
theorem reset_empties_and_closes (m : NcmMSetCatalog) (hs : Sound m) (hf : m.fptr ≠ none) :
    ∃ m1, ncm_mset_catalog_reset m = .ok m1 ∧
      (∃ me t1, ncm_mset_catalog_erase_data m = .ok me ∧ me.fptr = some t1 ∧ t1.rows = []) ∧
      m1.pstats.saved_x = [] ∧ ncm_mset_catalog_len m1 = 0 ∧
      (1 < m.nchains → ∀ sv ∈ m1.chain_pstats, sv.nitens = 0 ∧ sv.absorbed = []) ∧
      m1.cur_id = m1.first_id - 1 ∧ m1.file_cur_id = m1.file_first_id - 1 ∧
      m1.first_id = m.first_id ∧ m1.file_first_id = m.file_first_id ∧
      m1.params_max = List.replicate m.params_max.length .neginf ∧
      m1.params_min = List.replicate m.params_min.length .posinf ∧
      ncm_mset_catalog_is_empty m1 = true ∧
      m1.nchains = m.nchains ∧ m1.nadd_vals = m.nadd_vals ∧ m1.weighted = m.weighted ∧
      m1.rtype_str = m.rtype_str ∧ m1.fparams_len = m.fparams_len ∧ m1.fmode = m.fmode ∧
      m1.flush_due = m.flush_due ∧ m1.file = m.file ∧
      m1.fptr = none ∧ m1.fptr ≠ m.fptr := by
  refine ⟨reset_result m, reset_eq m hs, ?_, ?_, ?_, ?_, rfl, rfl, rfl, rfl, rfl, rfl, ?_, rfl,
    rfl, rfl, rfl, rfl, rfl, rfl, rfl, rfl, fun h => hf h.symm⟩
  · cases hfp : m.fptr with
    | none => exact absurd hfp hf
    | some t =>
      obtain ⟨_, _, ht⟩ := hs.opened t hfp
      unfold TableRows at ht
      unfold ncm_mset_catalog_erase_data
      by_cases hn : m.file_cur_id - m.file_first_id + 1 > 0
      · have hd : fits_delete_rows_head t (m.file_cur_id - m.file_first_id + 1).toNat =
            .ok { t with rows := t.rows.drop (m.file_cur_id - m.file_first_id + 1).toNat } := by
          unfold fits_delete_rows_head
          rw [if_pos (by omega)]
        simp only [hfp, hn, if_true, hd]
        refine ⟨_, _, rfl, rfl, ?_⟩
        simp only [_ncm_mset_catalog_flush_file]
        exact List.drop_eq_nil_of_le (by omega)
      · simp only [hfp, hn, if_false]
        refine ⟨m, t, rfl, hfp, ?_⟩
        exact List.length_eq_zero.mp (by omega)
  · simp [reset_result, ncm_stats_vec_reset]
  · simp [ncm_mset_catalog_len, NcmStatsVec.nitens, reset_result, ncm_stats_vec_reset]
  · intro hn sv hsv
    simp only [reset_result, hn, if_true] at hsv
    obtain ⟨sv0, _, rfl⟩ := List.mem_map.mp hsv
    simp [NcmStatsVec.nitens, ncm_stats_vec_reset]
  · simp only [ncm_mset_catalog_is_empty, reset_result, Bool.and_eq_true, decide_eq_true_eq]
    constructor <;> omega

/-- Synchronising a catalog whose two ranges are already equal completes and
changes nothing but, through the flush, the table behind the handle. -/
theorem sync_synced (m : NcmMSetCatalog) (t : FitsTable) (check : Bool)
    (hfile : m.file = some t.filename) (hfptr : m.fptr = some t) (hmode : m.fmode ≠ .len)
    (h1 : m.file_first_id = m.first_id) (h2 : m.file_cur_id = m.cur_id)
    (h3 : m.cur_id ≥ m.first_id - 1) :
    ∃ tc, ncm_mset_catalog_sync m check = .ok { m with fptr := some tc } ∧
      tc.rows = t.rows ∧ tc.filename = t.filename := by
  obtain ⟨tc, ec, rc⟩ := sync_flush_total m t hmode
  obtain ⟨_, fc⟩ := sync_flush_ok _ _ _ ec
  have hcheck : (if check then sync_check m t.filename t else .ok ()) = .ok () := by
    cases check
    · rfl
    · have : ¬ (m.file_cur_id < m.first_id - 1 ∨ m.cur_id < m.file_first_id - 1) := by omega
      simp [sync_check, this]
  refine ⟨tc, ?_, rc, fc⟩
  unfold ncm_mset_catalog_sync
  simp only [hfile, hfptr, hcheck, sync_first_eq_same m t h1, sync_cur_eq_same m t h2, ec]

/-- C8: `set_first_id (v)` changes nothing when `v` is the current `first_id`;
otherwise it fails fatally when the catalog is not empty (`cur_id ≠ first_id -
1`), and on an empty catalog it completes with `first_id = file_first_id = v`
and `cur_id = file_cur_id = v - 1`, so that the catalog is still empty. -/
theorem set_first_id_spec (m : NcmMSetCatalog) (v : Int) (hs : Sound m) :
    (v = m.first_id → ncm_mset_catalog_set_first_id m v = .ok m) ∧
    (v ≠ m.first_id → m.cur_id ≠ m.first_id - 1 →
      ∃ e, ncm_mset_catalog_set_first_id m v = .error e) ∧
    (v ≠ m.first_id → m.cur_id = m.first_id - 1 →
      ∃ m1, ncm_mset_catalog_set_first_id m v = .ok m1 ∧
        m1.first_id = v ∧ m1.file_first_id = v ∧ m1.cur_id = v - 1 ∧
        m1.file_cur_id = v - 1 ∧ ncm_mset_catalog_is_empty m1 = true) := by
  refine ⟨?_, ?_, ?_⟩
  · intro hv
    unfold ncm_mset_catalog_set_first_id
    rw [if_pos hv]
  · intro hv hne
    unfold ncm_mset_catalog_set_first_id
    rw [if_neg hv]
    by_cases h1 : m.file_first_id ≠ m.first_id
    · rw [if_pos h1]; exact ⟨_, rfl⟩
    · rw [if_neg h1]
      by_cases h2 : m.file_cur_id ≠ m.cur_id
      · rw [if_pos h2]; exact ⟨_, rfl⟩
      · rw [if_neg h2, if_pos hne]; exact ⟨_, rfl⟩
  · intro hv hempty
    have h1 : ¬ (m.file_first_id ≠ m.first_id) := by simp [hs.first]
    have h2 : ¬ (m.file_cur_id ≠ m.cur_id) := by
      cases hf : m.fptr with
      | none =>
        have := (hs.closed hf).1
        have := hs.first
        simp only [ne_eq, not_not]; omega
      | some t =>
        have := (hs.opened t hf).2.1
        simp only [ne_eq, not_not]; exact this
    have h3 : ¬ (m.cur_id ≠ m.first_id - 1) := by simp [hempty]
    unfold ncm_mset_catalog_set_first_id
    rw [if_neg hv, if_neg h1, if_neg h2, if_neg h3]
    cases hf : m.fptr with
    | none =>
      refine ⟨{ m with first_id := v, cur_id := v - 1, file_first_id := v,
                       file_cur_id := v - 1 }, by simp only [hf], rfl, rfl, rfl, rfl, ?_⟩
      simp only [ncm_mset_catalog_is_empty, Bool.and_eq_true, decide_eq_true_eq]
      constructor <;> omega
    | some t =>
      obtain ⟨hfile, _, _⟩ := hs.opened t hf
      obtain ⟨tc, ec, _⟩ := sync_synced
        { m with first_id := v, cur_id := v - 1, file_first_id := v, file_cur_id := v - 1,
                 fptr := some { t with first_id_key := v } }
        { t with first_id_key := v } true hfile rfl hs.fmode rfl rfl (le_refl _)
      refine ⟨{ m with first_id := v, cur_id := v - 1, file_first_id := v, file_cur_id := v - 1,
                       fptr := some tc }, ?_, rfl, rfl, rfl, rfl, ?_⟩
      · simp only [hf]
        exact ec
      · simp only [ncm_mset_catalog_is_empty, Bool.and_eq_true, decide_eq_true_eq]
        constructor <;> omega

/-! ## Soundness is kept by the calls -/

theorem sound_new (fparams_len nadd_vals nchains : Nat) (weighted : Bool) :
    Sound (ncm_mset_catalog_new fparams_len nadd_vals nchains weighted) := by
  obtain ⟨h1, h2, h3, h4, h5, h6, h7, h8⟩ := new_ids fparams_len nadd_vals nchains weighted
  refine ⟨by rw [h7]; decide, ?_, ?_, by rw [h1, h3], ?_, ?_⟩
  · unfold GintIds IsGint; rw [h1, h2, h3, h4]; decide
  · unfold MemRows; rw [h1, h2, h8]
    exact ⟨new_save_x fparams_len nadd_vals nchains weighted, by decide⟩
  · intro _; exact ⟨by rw [h3, h4]; decide, fun hc => absurd h5 hc⟩
  · intro t ht; rw [h6] at ht; cases ht

theorem sound_sync (m m1 : NcmMSetCatalog) (check : Bool) (hs : Sound m)
    (h : ncm_mset_catalog_sync m check = .ok m1) : Sound m1 := by
  cases hf : m.fptr with
  | none =>
    cases hfile : m.file with
    | none =>
      have e : m1 = m := (sync_ok _ _ _ h).1 hfile
      rw [e]; exact hs
    | some f =>
      unfold ncm_mset_catalog_sync at h
      simp [hfile, hf] at h
  | some t =>
    obtain ⟨hfile, hcur, ht⟩ := hs.opened t hf
    have hge : m.cur_id ≥ m.first_id - 1 := by
      have := hs.mem; unfold MemRows at this; omega
    obtain ⟨tc, ec, rc, fc⟩ := sync_synced m t check hfile hf hs.fmode hs.first hcur hge
    rw [ec] at h
    cases h
    refine ⟨hs.fmode, hs.gint, hs.mem, hs.first, ?_, ?_⟩
    · intro hc; cases hc
    · intro t' ht'
      simp only [Option.some.injEq] at ht'
      subst ht'
      refine ⟨by simp only; rw [fc]; exact hfile, hcur, ?_⟩
      unfold TableRows at ht ⊢
      simp only; rw [rc]; exact ht

theorem sound_add (m m1 : NcmMSetCatalog) (vals : NcmVector) (hs : Sound m)
    (hg : m.cur_id + 1 ≤ 2147483647)
    (h : ncm_mset_catalog_add_from_vector m vals = .ok m1) : Sound m1 := by
  obtain ⟨⟨g1, g2⟩, ⟨g3, g4⟩, ⟨g5, g6⟩, ⟨g7, g8⟩⟩ := hs.gint
  have hmem := hs.mem
  unfold MemRows at hmem
  obtain ⟨hsv, hmem⟩ := hmem
  unfold ncm_mset_catalog_add_from_vector _ncm_mset_catalog_post_update at h
  simp only at h
  generalize hm0 : ({ m with
      params_max := List.zipWith GSL_MAX vals m.params_max
      params_min := List.zipWith GSL_MIN vals m.params_min
      chain_pstats :=
        if m.nchains > 1 then
          m.chain_pstats.modify
            (fun sv =>
              if m.weighted = true then
                ncm_stats_vec_update_weight { sv with x := vals }
                  (vals.getD (m.nadd_vals - 1) (.fin 0))
              else ncm_stats_vec_update { sv with x := vals })
            (chain_id (m.cur_id + 1) m.nchains)
        else m.chain_pstats
      pstats :=
        if m.weighted = true then
          ncm_stats_vec_update_weight { m.pstats with x := vals }
            (vals.getD (m.nadd_vals - 1) (.fin 0))
        else ncm_stats_vec_update { m.pstats with x := vals }
      cur_id := m.cur_id + 1 } : NcmMSetCatalog) = m0 at h
  have e1 : m0.first_id = m.first_id := by rw [← hm0]
  have e2 : m0.cur_id = m.cur_id + 1 := by rw [← hm0]
  have e3 : m0.file_first_id = m.file_first_id := by rw [← hm0]
  have e4 : m0.file_cur_id = m.file_cur_id := by rw [← hm0]
  have e5 : m0.file = m.file := by rw [← hm0]
  have e6 : m0.fptr = m.fptr := by rw [← hm0]
  have e7 : m0.fmode = m.fmode := by rw [← hm0]
  have e8 : m0.pstats.saved_x.length = m.pstats.saved_x.length + 1 := by
    rw [← hm0]
    simp only
    split <;> simp [ncm_stats_vec_update, ncm_stats_vec_update_weight, hsv]
  have e8s : m0.pstats.save_x = true := by
    rw [← hm0]
    simp only
    split <;> simp [ncm_stats_vec_update, ncm_stats_vec_update_weight, hsv]
  have hg0 : GintIds m0 := by
    unfold GintIds IsGint
    rw [e1, e2, e3, e4]
    refine ⟨⟨g1, g2⟩, ⟨by omega, hg⟩, ⟨g5, g6⟩, ⟨g7, g8⟩⟩
  have hmem0 : MemRows m0 := by
    unfold MemRows; rw [e1, e2, e8]; exact ⟨e8s, by push_cast; omega⟩
  cases hf : m.fptr with
  | none =>
    cases hfile : m.file with
    | none =>
      have e : m1 = m0 := (sync_ok _ _ _ h).1 (by rw [e5]; exact hfile)
      rw [e]
      refine ⟨by rw [e7]; exact hs.fmode, hg0, hmem0, by rw [e1, e3]; exact hs.first, ?_, ?_⟩
      · intro _
        exact ⟨by rw [e3, e4]; exact (hs.closed hf).1, fun hc => absurd (e5.trans hfile) hc⟩
      · intro t ht; rw [e6, hf] at ht; cases ht
    | some f =>
      unfold ncm_mset_catalog_sync at h
      simp [e5, e6, hfile, hf] at h
  | some t =>
    obtain ⟨hfile, hcur, ht⟩ := hs.opened t hf
    have hb : FileBacked m0 t :=
      ⟨e5.trans hfile, e6.trans hf, by rw [e7]; exact hs.fmode, hg0, hmem0,
        by unfold TableRows at ht ⊢; rw [e3, e4]; exact ht⟩
    have hfirst := hs.first
    have htouch : RangesTouch m0 := by
      unfold RangesTouch; rw [e1, e2, e3, e4]; omega
    obtain ⟨m1', t1, ec, s1, s2, s3, s4, s5, s6, s7, _, s9, s10⟩ :=
      sync_spec m0 t false hb htouch
    rw [ec] at h
    cases h
    refine ⟨by rw [s9.2.2.2.2.2.1, e7]; exact hs.fmode, ?_, s6, by rw [s2, s3], ?_, ?_⟩
    · unfold GintIds IsGint
      rw [s2, s3, s4, s5, e1, e2, e3, e4]
      refine ⟨⟨?_, ?_⟩, ⟨?_, ?_⟩, ⟨?_, ?_⟩, ⟨?_, ?_⟩⟩ <;> omega
    · intro hc; rw [s1] at hc; cases hc
    · intro t' ht'
      rw [s1] at ht'
      simp only [Option.some.injEq] at ht'
      subst ht'
      exact ⟨by rw [s9.2.2.2.2.2.2.2.1, s10, e5, hfile], by rw [s4, s5], s7⟩

theorem sound_reset (m m1 : NcmMSetCatalog) (hs : Sound m) (hg : -2147483648 ≤ m.first_id - 1)
    (h : ncm_mset_catalog_reset m = .ok m1) : Sound m1 := by
  rw [reset_eq m hs] at h
  cases h
  obtain ⟨⟨g1, g2⟩, ⟨g3, g4⟩, ⟨g5, g6⟩, ⟨g7, g8⟩⟩ := hs.gint
  have hfirst := hs.first
  refine ⟨hs.fmode, ?_, ?_, hs.first, ?_, ?_⟩
  · unfold GintIds IsGint
    simp only [reset_result]
    refine ⟨⟨g1, g2⟩, ⟨?_, ?_⟩, ⟨g5, g6⟩, ⟨?_, ?_⟩⟩ <;> omega
  · have hsv := hs.mem.1
    unfold MemRows
    simp [reset_result, ncm_stats_vec_reset, hsv]
  · intro _; exact ⟨rfl, fun _ => rfl⟩
  · intro t ht; cases ht

/-- Every call of `add`, `sync` or `reset` that completes on a sound catalog leaves
a sound catalog, as long as the identifiers it produces are still `gint`
values. -/
theorem sound_step (m m1 : NcmMSetCatalog) (op : CatalogOp) (hs : Sound m)
    (hhi : m.cur_id + 1 ≤ 2147483647) (hlo : -2147483648 ≤ m.first_id - 1)
    (h : op.run m = .ok m1) : Sound m1 := by
  cases op with
  | add vals => exact sound_add m m1 vals hs hhi h
  | sync check => exact sound_sync m m1 check hs h
  | reset => exact sound_reset m m1 hs hlo h

theorem close_file_eq (m : NcmMSetCatalog) :
    _ncm_mset_catalog_close_file m = { m with fptr := none } := by
  unfold _ncm_mset_catalog_close_file
  cases hx : m.fptr with
  | none => cases m; simp only at hx; subst hx; rfl
  | some _ => rfl

theorem sound_new_file (fparams_len nadd_vals nchains : Nat) (weighted : Bool)
    (filename : String) (m : NcmMSetCatalog)
    (h : ncm_mset_catalog_set_file (ncm_mset_catalog_new fparams_len nadd_vals nchains weighted)
      filename none = .ok m) : Sound m := by
  obtain ⟨h1, h2, h3, h4, h5, h6, h7, h8⟩ := new_ids fparams_len nadd_vals nchains weighted
  have h9 := new_save_x fparams_len nadd_vals nchains weighted
  generalize ncm_mset_catalog_new fparams_len nadd_vals nchains weighted = n
    at h h1 h2 h3 h4 h5 h6 h7 h8 h9
  unfold ncm_mset_catalog_set_file at h
  rw [if_neg (by rw [h5]; simp), close_file_eq] at h
  simp only [_ncm_mset_catalog_open_create_file] at h
  obtain ⟨tc, ec, rc, fc⟩ := sync_synced
    (open_create_new { n with fptr := none, file := some filename } filename)
    { filename := filename, ncols := n.fparams_len + n.nadd_vals, rows := [],
      first_id_key := 0, nrows_key := 0, rtype_key := n.rtype_str.getD "",
      nchains_key := toGint n.nchains, naddval_key := toGint n.nadd_vals,
      weighted_key := n.weighted }
    true rfl rfl (by simp only [open_create_new]; rw [h7]; decide)
    (by simp only [open_create_new]; rw [h1])
    (by simp only [open_create_new]; rw [h2])
    (by simp only [open_create_new]; rw [h1, h2]; decide)
  rw [ec] at h
  simp only [Option.map_some', Except.ok.injEq] at h
  subst h
  refine ⟨by simp only [open_create_new]; rw [h7]; decide, ?_, ?_, ?_, ?_, ?_⟩
  · unfold GintIds IsGint
    simp only [open_create_new]
    rw [h1, h2]; decide
  · unfold MemRows
    simp only [open_create_new]
    rw [h1, h2, h8]
    exact ⟨h9, by decide⟩
  · simp only [open_create_new]; rw [h1]
  · intro hc; simp only at hc; cases hc
  · intro t ht
    simp only [Option.some.injEq] at ht
    subst ht
    refine ⟨?_, ?_, ?_⟩
    · simp only [open_create_new, _ncm_mset_catalog_flush_file]; rw [fc]
    · simp only [open_create_new]; rw [h2]
    · unfold TableRows
      simp only [open_create_new, _ncm_mset_catalog_flush_file]
      rw [rc]
      simp

theorem exOnFile_sound : Sound exOnFile :=
  sound_new_file 1 1 1 false "new.fits" exOnFile rfl

theorem exOneRow_sound : Sound exOneRow :=
  sound_add exOnFile exOneRow (exRow 0) exOnFile_sound (by decide) rfl

theorem exTwoRows_sound : Sound exTwoRows :=
  sound_add exOneRow exTwoRows (exRow 1) exOneRow_sound (by decide) rfl

theorem reset_empties_and_closes_witness :
    Sound exTwoRows ∧ exTwoRows.fptr ≠ none ∧
    ∃ m1, ncm_mset_catalog_reset exTwoRows = .ok m1 ∧
      (∃ me t1, ncm_mset_catalog_erase_data exTwoRows = .ok me ∧ me.fptr = some t1 ∧
        t1.rows = []) ∧
      m1.pstats.saved_x = [] ∧ ncm_mset_catalog_len m1 = 0 ∧
      (1 < exTwoRows.nchains → ∀ sv ∈ m1.chain_pstats, sv.nitens = 0 ∧ sv.absorbed = []) ∧
      m1.cur_id = m1.first_id - 1 ∧ m1.file_cur_id = m1.file_first_id - 1 ∧
      m1.first_id = exTwoRows.first_id ∧ m1.file_first_id = exTwoRows.file_first_id ∧
      m1.params_max = List.replicate exTwoRows.params_max.length .neginf ∧
      m1.params_min = List.replicate exTwoRows.params_min.length .posinf ∧
      ncm_mset_catalog_is_empty m1 = true ∧
      m1.nchains = exTwoRows.nchains ∧ m1.nadd_vals = exTwoRows.nadd_vals ∧
      m1.weighted = exTwoRows.weighted ∧ m1.rtype_str = exTwoRows.rtype_str ∧
      m1.fparams_len = exTwoRows.fparams_len ∧ m1.fmode = exTwoRows.fmode ∧
      m1.flush_due = exTwoRows.flush_due ∧ m1.file = exTwoRows.file ∧
      m1.fptr = none ∧ m1.fptr ≠ exTwoRows.fptr :=
  ⟨exTwoRows_sound, by decide, reset_empties_and_closes exTwoRows exTwoRows_sound (by decide)⟩

/-- The example at hand: before `reset` the handle of `exTwoRows` is open on a
table of two rows; after it the handle is `NULL` and the file name is still
`new.fits`. -/
theorem exTwoRows_reset :
    (exTwoRows.fptr.map (fun t => t.rows)) = some [exRow 0, exRow 1] ∧
    exTwoRows.file = some "new.fits" ∧
    ncm_mset_catalog_reset exTwoRows = .ok exAfterReset ∧
    exAfterReset.fptr = none ∧ exAfterReset.file = some "new.fits" := by
  refine ⟨by decide, by decide, rfl, by decide, by decide⟩

theorem set_first_id_spec_witness :
    Sound exOnFile ∧
    ((5 : Int) = exOnFile.first_id → ncm_mset_catalog_set_first_id exOnFile 5 = .ok exOnFile) ∧
    ((5 : Int) ≠ exOnFile.first_id → exOnFile.cur_id ≠ exOnFile.first_id - 1 →
      ∃ e, ncm_mset_catalog_set_first_id exOnFile 5 = .error e) ∧
    ((5 : Int) ≠ exOnFile.first_id → exOnFile.cur_id = exOnFile.first_id - 1 →
      ∃ m1, ncm_mset_catalog_set_first_id exOnFile 5 = .ok m1 ∧
        m1.first_id = 5 ∧ m1.file_first_id = 5 ∧ m1.cur_id = 5 - 1 ∧
        m1.file_cur_id = 5 - 1 ∧ ncm_mset_catalog_is_empty m1 = true) :=
  ⟨exOnFile_sound, set_first_id_spec exOnFile 5 exOnFile_sound⟩

/-! ## Claim C7: the range check of `sync` -/

theorem exGap_fileBacked : FileBacked exGap exTableHead where
  file := rfl
  fptr := rfl
  fmode := by decide
  gint := by unfold GintIds IsGint; decide
  mem := by unfold MemRows; decide
  table := by unfold TableRows; decide

/-- C7 (counterexample): the two ranges of `exAdjacent`, `[2, 4]` in memory and
`[0, 1]` on disk, have no identifier in common, and `sync` with `check = true`
completes all the same; so the check does not fail exactly when the ranges do
not intersect. -/
theorem sync_check_disjoint_counterexample :
    ¬ ((∃ e, ncm_mset_catalog_sync exAdjacent true = .error e) ↔
        ¬ ∃ id : Int, exAdjacent.first_id ≤ id ∧ id ≤ exAdjacent.cur_id ∧
          exAdjacent.file_first_id ≤ id ∧ id ≤ exAdjacent.file_cur_id) := by
  intro h
  have hno : ¬ ∃ id : Int, exAdjacent.first_id ≤ id ∧ id ≤ exAdjacent.cur_id ∧
      exAdjacent.file_first_id ≤ id ∧ id ≤ exAdjacent.file_cur_id := by
    rintro ⟨id, h1, _, _, h4⟩
    have h1' : (2 : Int) ≤ id := h1
    have h4' : id ≤ (1 : Int) := h4
    omega
  obtain ⟨e, he⟩ := h.mpr hno
  have hok : ∃ m1, ncm_mset_catalog_sync exAdjacent true = .ok m1 := ⟨_, rfl⟩
  obtain ⟨m1, hm1⟩ := hok
  rw [he] at hm1
  cases hm1

/-- C7 (amended): on a file-backed catalog, `sync` with `check = true` fails
fatally if and only if one range ends more than one identifier before the other
begins (`file_cur_id < first_id - 1` or `cur_id < file_first_id - 1`), and the
exit is then the one of the range check; in particular it completes whenever
the two ranges have an identifier in common. -/
theorem sync_check_fails_iff_gap (m : NcmMSetCatalog) (t : FitsTable) (hb : FileBacked m t) :
    ((∃ e, ncm_mset_catalog_sync m true = .error e) ↔
      (m.file_cur_id < m.first_id - 1 ∨ m.cur_id < m.file_first_id - 1)) ∧
    ((m.file_cur_id < m.first_id - 1 ∨ m.cur_id < m.file_first_id - 1) →
      ncm_mset_catalog_sync m true = .error .sync_mismatch) ∧
    ((∃ id : Int, m.first_id ≤ id ∧ id ≤ m.cur_id ∧ m.file_first_id ≤ id ∧
        id ≤ m.file_cur_id) → ∃ m1, ncm_mset_catalog_sync m true = .ok m1) := by
  have hgap : (m.file_cur_id < m.first_id - 1 ∨ m.cur_id < m.file_first_id - 1) →
      ncm_mset_catalog_sync m true = .error .sync_mismatch := by
    intro hg
    unfold ncm_mset_catalog_sync
    simp only [hb.file, hb.fptr, if_true, sync_check, ne_eq, not_true_eq_false, if_false,
      hg]
  have htouch : ¬ (m.file_cur_id < m.first_id - 1 ∨ m.cur_id < m.file_first_id - 1) →
      ∃ m1, ncm_mset_catalog_sync m true = .ok m1 := by
    intro hg
    obtain ⟨m1, _, e, _⟩ := sync_spec m t true hb ⟨by omega, by omega⟩
    exact ⟨m1, e⟩
  refine ⟨⟨?_, ?_⟩, hgap, ?_⟩
  · rintro ⟨e, he⟩
    by_contra hg
    obtain ⟨m1, hm1⟩ := htouch hg
    rw [he] at hm1
    cases hm1
  · intro hg
    exact ⟨_, hgap hg⟩
  · rintro ⟨id, h1, h2, h3, h4⟩
    exact htouch (by omega)

theorem sync_check_fails_iff_gap_witness :
    FileBacked exGap exTableHead ∧
    ((∃ e, ncm_mset_catalog_sync exGap true = .error e) ↔
      (exGap.file_cur_id < exGap.first_id - 1 ∨ exGap.cur_id < exGap.file_first_id - 1)) ∧
    ((exGap.file_cur_id < exGap.first_id - 1 ∨ exGap.cur_id < exGap.file_first_id - 1) →
      ncm_mset_catalog_sync exGap true = .error .sync_mismatch) ∧
    ((∃ id : Int, exGap.first_id ≤ id ∧ id ≤ exGap.cur_id ∧ exGap.file_first_id ≤ id ∧
        id ≤ exGap.file_cur_id) → ∃ m1, ncm_mset_catalog_sync exGap true = .ok m1) :=
  ⟨exGap_fileBacked, sync_check_fails_iff_gap exGap exTableHead exGap_fileBacked⟩

/-! ## Claim C10: attaching an existing file -/

/-- C10: attaching an existing file to a catalog made from a parameter set
(`load_from_cat = FALSE`) fails fatally whenever the run-type string, the chain
count, the additional-value count or the weighted flag stored in the file
differs from the catalog's, and the four checks all pass when the four agree.
The stored counts are what a `TINT` card can hold, the stored additional-value
count is not negative, and the catalog has at least one chain. -/
theorem open_existing_checks (m : NcmMSetCatalog) (t : FitsTable) (file : String)
    (hk : IsGint t.nchains_key) (ha : IsGint t.naddval_key) (ha0 : 0 ≤ t.naddval_key)
    (hn : 1 ≤ m.nchains) :
    ((m.rtype_str ≠ some t.rtype_key ∨ t.nchains_key ≠ (m.nchains : Int) ∨
        t.naddval_key ≠ (m.nadd_vals : Int) ∨ t.weighted_key ≠ m.weighted) →
      ∃ e, _ncm_mset_catalog_open_create_file m false file (some t) = .error e) ∧
    ((m.rtype_str = some t.rtype_key ∧ t.nchains_key = (m.nchains : Int) ∧
        t.naddval_key = (m.nadd_vals : Int) ∧ t.weighted_key = m.weighted) →
      open_create_cards { m with file_first_id := t.first_id_key } false t =
        .ok { m with file_first_id := t.first_id_key }) := by
  obtain ⟨k1, k2⟩ := hk
  obtain ⟨a1, a2⟩ := ha
  have hnadd : toGuint t.naddval_key = t.naddval_key.toNat :=
    toGuint_of_range _ ha0 (by omega)
  constructor
  · intro hd
    have hcards : ∃ e, open_create_cards { m with file_first_id := t.first_id_key } false t =
        .error e := by
      unfold open_create_cards
      simp only [Bool.false_eq_true, if_false]
      by_cases h1 : m.rtype_str ≠ some t.rtype_key
      · rw [if_pos h1]; exact ⟨_, rfl⟩
      · rw [if_neg h1]
        simp only
        by_cases h2 : ¬ (t.nchains_key > 0)
        · rw [if_pos h2]; exact ⟨_, rfl⟩
        · rw [if_neg h2]
          have hnch : toGuint t.nchains_key = t.nchains_key.toNat :=
            toGuint_of_range _ (by omega) (by omega)
          by_cases h3 : toGuint t.nchains_key ≠ m.nchains
          · rw [if_pos h3]; exact ⟨_, rfl⟩
          · rw [if_neg h3]
            simp only
            by_cases h4 : toGuint t.naddval_key ≠ m.nadd_vals
            · rw [if_pos h4]; exact ⟨_, rfl⟩
            · rw [if_neg h4]
              simp only
              have h1' : m.rtype_str = some t.rtype_key := not_not.mp h1
              have h3' : t.nchains_key = (m.nchains : Int) := by
                have := not_not.mp h3
                rw [hnch] at this
                omega
              have h4' : t.naddval_key = (m.nadd_vals : Int) := by
                have := not_not.mp h4
                rw [hnadd] at this
                omega
              have h5 : t.weighted_key ≠ m.weighted := by
                rcases hd with hd | hd | hd | hd
                · exact absurd h1' hd
                · exact absurd h3' hd
                · exact absurd h4' hd
                · exact hd
              have h5' : ((t.weighted_key && !m.weighted) || (!t.weighted_key && m.weighted)) =
                  true := by
                cases hw : t.weighted_key <;> cases hm : m.weighted <;> simp_all
              rw [if_pos h5']; exact ⟨_, rfl⟩
    obtain ⟨e, he⟩ := hcards
    refine ⟨e, ?_⟩
    unfold _ncm_mset_catalog_open_create_file
    simp only [he]
  · rintro ⟨h1, h2, h3, h4⟩
    have hnch : toGuint t.nchains_key = m.nchains := by
      rw [h2]; exact toGuint_natCast _ (by omega)
    have hnad : toGuint t.naddval_key = m.nadd_vals := by
      rw [h3]; exact toGuint_natCast _ (by omega)
    have hpos : t.nchains_key > 0 := by omega
    have hw : ((t.weighted_key && !m.weighted) || (!t.weighted_key && m.weighted)) = false := by
      rw [h4]; cases m.weighted <;> rfl
    unfold open_create_cards
    simp only [Bool.false_eq_true, if_false, h1, ne_eq, not_true_eq_false, hpos, hnch, hnad, hw]

theorem open_existing_checks_witness :
    IsGint exTableTwoChains.nchains_key ∧ IsGint exTableTwoChains.naddval_key ∧
    0 ≤ exTableTwoChains.naddval_key ∧ 1 ≤ exFromMset.nchains ∧
    ((exFromMset.rtype_str ≠ some exTableTwoChains.rtype_key ∨
        exTableTwoChains.nchains_key ≠ (exFromMset.nchains : Int) ∨
        exTableTwoChains.naddval_key ≠ (exFromMset.nadd_vals : Int) ∨
        exTableTwoChains.weighted_key ≠ exFromMset.weighted) →
      ∃ e, _ncm_mset_catalog_open_create_file exFromMset false "cat.fits"
        (some exTableTwoChains) = .error e) ∧
    ((exFromMset.rtype_str = some exTableTwoChains.rtype_key ∧
        exTableTwoChains.nchains_key = (exFromMset.nchains : Int) ∧
        exTableTwoChains.naddval_key = (exFromMset.nadd_vals : Int) ∧
        exTableTwoChains.weighted_key = exFromMset.weighted) →
      open_create_cards { exFromMset with file_first_id := exTableTwoChains.first_id_key }
          false exTableTwoChains =
        .ok { exFromMset with file_first_id := exTableTwoChains.first_id_key }) :=
  ⟨by unfold IsGint; decide, by unfold IsGint; decide, by decide, by decide,
    open_existing_checks exFromMset exTableTwoChains "cat.fits"
      (by unfold IsGint; decide) (by unfold IsGint; decide) (by decide) (by decide)⟩

/-! ## Claim C9: rebuilding a catalog from its file -/

/-- C9 (the code at the failing input): a weighted catalog with one free parameter
and one additional value works on rows of 3 components and writes a table of 3
columns whose card `NADDVAL` is 2; the catalog rebuilt from that table recovers
the chain count, the additional-value count 2 and the weighted flag, but
allocates rows of 4 components, the weight column being counted once in the
stored count and once more through the weighted flag.  For the unweighted
counterpart both catalogs work on rows of 2 components. -/
theorem reader_row_length_weighted :
    ncm_mset_catalog_set_file (ncm_mset_catalog_new 1 1 1 true) "w.fits" none = .ok exWriter ∧
    ncm_mset_catalog_new_from_file "w.fits" 1 exWriter.fptr = .ok exReader ∧
    exWriter.pstats.x.length = 3 ∧
    exWriter.fptr.map (fun t => (t.ncols, t.naddval_key)) = some (3, 2) ∧
    exReader.nchains = exWriter.nchains ∧ exReader.nadd_vals = exWriter.nadd_vals ∧
    exReader.weighted = exWriter.weighted ∧
    exReader.pstats.x.length = 4 ∧
    exWriterPlain.pstats.x.length = 2 ∧ exReaderPlain.pstats.x.length = 2 := by
  refine ⟨rfl, rfl, rfl, rfl, rfl, rfl, rfl, rfl, rfl, rfl⟩

theorem toGuint_toGint (n : Nat) (h : n < 2147483648) : toGuint (toGint n) = n := by
  unfold toGint
  have e : n % 4294967296 = n := Nat.mod_eq_of_lt (by omega)
  rw [e, if_pos h]
  exact toGuint_natCast n (by omega)

/-- The rows a catalog made from a parameter set works on have one component per
free parameter, per additional value given, and one more when it is weighted;
its additional-value count, once constructed, includes the weight column. -/
theorem constructed_mset_lengths (m : NcmMSetCatalog) :
    (_ncm_mset_catalog_constructed_mset m).pstats.x.length =
      m.fparams_len + m.nadd_vals + (if m.weighted then 1 else 0) ∧
    (_ncm_mset_catalog_constructed_mset m).nadd_vals =
      m.nadd_vals + (if m.weighted then 1 else 0) ∧
    (_ncm_mset_catalog_constructed_mset m).fparams_len = m.fparams_len ∧
    (_ncm_mset_catalog_constructed_mset m).weighted = m.weighted := by
  unfold _ncm_mset_catalog_constructed_mset _ncm_mset_catalog_constructed_alloc_chains
  cases hw : m.weighted <;> simp [hw, ncm_stats_vec_new]

/-- The rows a catalog rebuilt from a table works on: `open_create_cards` takes
the additional-value count and the weighted flag over from the cards, and the
allocation that follows adds one component for the weighted flag to that
count. -/
theorem load_then_alloc_lengths (r mr : NcmMSetCatalog) (t : FitsTable)
    (h : open_create_cards r true t = .ok mr) :
    mr.nadd_vals = toGuint t.naddval_key ∧ mr.weighted = t.weighted_key ∧
    mr.nchains = toGuint t.nchains_key ∧ mr.fparams_len = r.fparams_len ∧
    (_ncm_mset_catalog_constructed_alloc_chains mr).pstats.x.length =
      r.fparams_len + toGuint t.naddval_key + (if t.weighted_key then 1 else 0) := by
  unfold open_create_cards at h
  simp only [if_true] at h
  cases hs : ncm_mset_catalog_set_run_type r t.rtype_key with
  | error e => simp [hs] at h
  | ok ma =>
    have hfp : ma.fparams_len = r.fparams_len := by
      unfold ncm_mset_catalog_set_run_type at hs
      split at hs
      · cases hs; rfl
      · split at hs
        · split at hs
          · cases hs
          · cases hs; rfl
        · cases hs; rfl
    simp only [hs] at h
    split at h
    · cases h
    · cases h
      refine ⟨rfl, rfl, rfl, hfp, ?_⟩
      simp only [_ncm_mset_catalog_constructed_alloc_chains, ncm_stats_vec_new,
        List.length_replicate, hfp]

/-- The lengths on the two sides of a file: a catalog rebuilt from the table that a
catalog made from a parameter set created works on rows of the writer's length
when the writer is unweighted, and on rows one component longer when it is
weighted. -/
theorem rebuilt_row_length (m r mr : NcmMSetCatalog) (file : String)
    (hsmall : m.nadd_vals + 1 < 2147483648) (hfp : r.fparams_len = m.fparams_len)
    (t : FitsTable)
    (ht : (open_create_new (_ncm_mset_catalog_constructed_mset m) file).fptr = some t)
    (h : open_create_cards r true t = .ok mr) :
    t.ncols = (_ncm_mset_catalog_constructed_mset m).pstats.x.length ∧
    mr.nadd_vals = (_ncm_mset_catalog_constructed_mset m).nadd_vals ∧
    mr.weighted = (_ncm_mset_catalog_constructed_mset m).weighted ∧
    (_ncm_mset_catalog_constructed_alloc_chains mr).pstats.x.length =
      (_ncm_mset_catalog_constructed_mset m).pstats.x.length +
        (if m.weighted then 1 else 0) := by
  obtain ⟨w1, w2, w3, w4⟩ := constructed_mset_lengths m
  obtain ⟨l1, l2, _, _, l5⟩ := load_then_alloc_lengths r mr t h
  simp only [open_create_new, Option.some.injEq] at ht
  subst ht
  simp only at l1 l2 l5 ⊢
  have hn : toGuint (toGint (_ncm_mset_catalog_constructed_mset m).nadd_vals) =
      (_ncm_mset_catalog_constructed_mset m).nadd_vals :=
    toGuint_toGint _ (by rw [w2]; split <;> omega)
  rw [hn] at l1 l5
  refine ⟨by rw [w1, w3, w2]; omega, l1, l2, ?_⟩
  rw [l5, w1, w2, w4, hfp]
  omega

/-! ## What `add` does to a sound catalog -/

/-- Synchronising a file-backed catalog whose file range is an initial part of the
in-memory range only writes: the accumulators are left as they are, and the file
range is extended to the in-memory one. -/
theorem sync_push (m : NcmMSetCatalog) (t : FitsTable) (check : Bool)
    (hb : FileBacked m t) (h1 : m.file_first_id = m.first_id)
    (h2 : m.file_cur_id ≤ m.cur_id) (h3 : m.file_cur_id ≥ m.first_id - 1) :
    ∃ t1, ncm_mset_catalog_sync m check =
      .ok { m with file_cur_id := m.cur_id, fptr := some t1 } := by
  obtain ⟨hfile, hfptr, hmode, hg, hm, ht⟩ := hb
  obtain ⟨⟨g1, g2⟩, ⟨g3, g4⟩, ⟨g5, g6⟩, ⟨g7, g8⟩⟩ := hg
  unfold MemRows at hm
  unfold TableRows at ht
  have hcheck : (if check then sync_check m t.filename t else .ok ()) = .ok () := by
    cases check
    · rfl
    · have : ¬ (m.file_cur_id < m.first_id - 1 ∨ m.cur_id < m.file_first_id - 1) := by omega
      simp [sync_check, this]
  rcases lt_or_eq_of_le h2 with hlt | heq
  · obtain ⟨k, hk⟩ := Int.eq_ofNat_of_zero_le (show 0 ≤ m.cur_id - m.file_cur_id by omega)
    have hkg : toGuint (m.cur_id - m.file_cur_id) = k := by
      rw [hk]; exact toGuint_natCast k (by omega)
    have hog : toGuint (m.file_cur_id + 1 - m.file_first_id) = t.rows.length := by
      have e : m.file_cur_id + 1 - m.file_first_id = (t.rows.length : Int) := by omega
      rw [e]; exact toGuint_natCast _ (by omega)
    obtain ⟨t2, e2, _⟩ := sync_write_loop_spec m.pstats t.rows.length k 0 t
      (by omega) (by omega)
    obtain ⟨tc, ec, _⟩ := sync_flush_total { m with file_cur_id := m.cur_id } t2 hmode
    simp only [hfile, hfptr] at ec
    refine ⟨tc, ?_⟩
    unfold ncm_mset_catalog_sync
    simp only [hfile, hfptr, hcheck, sync_first_eq_same m t h1, sync_cur_eq_lt m t hlt, hkg,
      hog, e2, ec]
  · obtain ⟨tc, ec, _⟩ := sync_flush_total m t hmode
    refine ⟨tc, ?_⟩
    unfold ncm_mset_catalog_sync
    simp only [hfile, hfptr, hcheck, sync_first_eq_same m t h1, sync_cur_eq_same m t heq, ec]
    rw [heq]

/-- On a sound catalog whose next identifier is still a `gint`, `add` completes
unless a configured file was closed by `reset`; it advances `cur_id` by one,
keeps `first_id`, appends the row to the global accumulator, and for
`nchains > 1` updates the accumulator of the one chain `chain_id (cur_id + 1)
nchains` and no other. -/
theorem add_spec (m m1 : NcmMSetCatalog) (vals : NcmVector) (hs : Sound m)
    (hg : m.cur_id + 1 ≤ 2147483647)
    (h : ncm_mset_catalog_add_from_vector m vals = .ok m1) :
    m1.cur_id = m.cur_id + 1 ∧ m1.first_id = m.first_id ∧
    m1.pstats.saved_x = m.pstats.saved_x ++ [vals] ∧
    m1.chain_pstats =
      (if m.nchains > 1 then
        m.chain_pstats.modify
          (fun sv =>
            if m.weighted = true then
              ncm_stats_vec_update_weight { sv with x := vals }
                (vals.getD (m.nadd_vals - 1) (.fin 0))
            else ncm_stats_vec_update { sv with x := vals })
          (chain_id (m.cur_id + 1) m.nchains)
       else m.chain_pstats) := by
  obtain ⟨⟨g1, g2⟩, ⟨g3, g4⟩, ⟨g5, g6⟩, ⟨g7, g8⟩⟩ := hs.gint
  have hmem := hs.mem
  unfold MemRows at hmem
  obtain ⟨hsv, hmem⟩ := hmem
  unfold ncm_mset_catalog_add_from_vector _ncm_mset_catalog_post_update at h
  simp only at h
  generalize hm0 : ({ m with
      params_max := List.zipWith GSL_MAX vals m.params_max
      params_min := List.zipWith GSL_MIN vals m.params_min
      chain_pstats :=
        if m.nchains > 1 then
          m.chain_pstats.modify
            (fun sv =>
              if m.weighted = true then
                ncm_stats_vec_update_weight { sv with x := vals }
                  (vals.getD (m.nadd_vals - 1) (.fin 0))
              else ncm_stats_vec_update { sv with x := vals })
            (chain_id (m.cur_id + 1) m.nchains)
        else m.chain_pstats
      pstats :=
        if m.weighted = true then
          ncm_stats_vec_update_weight { m.pstats with x := vals }
            (vals.getD (m.nadd_vals - 1) (.fin 0))
        else ncm_stats_vec_update { m.pstats with x := vals }
      cur_id := m.cur_id + 1 } : NcmMSetCatalog) = m0 at h
  have e1 : m0.first_id = m.first_id := by rw [← hm0]
  have e2 : m0.cur_id = m.cur_id + 1 := by rw [← hm0]
  have e3 : m0.file_first_id = m.file_first_id := by rw [← hm0]
  have e4 : m0.file_cur_id = m.file_cur_id := by rw [← hm0]
  have e5 : m0.file = m.file := by rw [← hm0]
  have e6 : m0.fptr = m.fptr := by rw [← hm0]
  have e7 : m0.fmode = m.fmode := by rw [← hm0]
  have e8 : m0.pstats.saved_x = m.pstats.saved_x ++ [vals] := by
    rw [← hm0]
    simp only
    split <;> simp [ncm_stats_vec_update, ncm_stats_vec_update_weight, hsv]
  have e8s : m0.pstats.save_x = true := by
    rw [← hm0]
    simp only
    split <;> simp [ncm_stats_vec_update, ncm_stats_vec_update_weight, hsv]
  have e9 : m0.chain_pstats =
      (if m.nchains > 1 then
        m.chain_pstats.modify
          (fun sv =>
            if m.weighted = true then
              ncm_stats_vec_update_weight { sv with x := vals }
                (vals.getD (m.nadd_vals - 1) (.fin 0))
            else ncm_stats_vec_update { sv with x := vals })
          (chain_id (m.cur_id + 1) m.nchains)
       else m.chain_pstats) := by rw [← hm0]
  cases hf : m.fptr with
  | none =>
    cases hfile : m.file with
    | none =>
      have e : m1 = m0 := (sync_ok _ _ _ h).1 (by rw [e5]; exact hfile)
      rw [e]
      exact ⟨e2, e1, e8, e9⟩
    | some f =>
      unfold ncm_mset_catalog_sync at h
      simp [e5, e6, hfile, hf] at h
  | some t =>
    obtain ⟨hfile, hcur, ht⟩ := hs.opened t hf
    have hfirst := hs.first
    have hb : FileBacked m0 t :=
      ⟨e5.trans hfile, e6.trans hf, by rw [e7]; exact hs.fmode,
        by
          unfold GintIds IsGint
          rw [e1, e2, e3, e4]
          exact ⟨⟨g1, g2⟩, ⟨by omega, hg⟩, ⟨g5, g6⟩, ⟨g7, g8⟩⟩,
        by unfold MemRows; rw [e1, e2, e8]; simp only [List.length_append,
             List.length_singleton]; exact ⟨e8s, by push_cast; omega⟩,
        by unfold TableRows at ht ⊢; rw [e3, e4]; exact ht⟩
    obtain ⟨t1, ec⟩ := sync_push m0 t false hb (by rw [e1, e3]; exact hfirst)
      (by rw [e2, e4]; omega) (by rw [e1, e4]; omega)
    rw [ec] at h
    cases h
    exact ⟨e2, e1, e8, e9⟩

/-- A row that `sync` reads back from the tail of the table goes to the chain that
`add` chose for its identifier: both take `chain_id` of the identifier. -/
theorem sync_chain_append_single (nchains : Nat) (id : Int) (x : NcmVector)
    (chains : List NcmStatsVec) :
    sync_chain_append nchains id [x] 0 chains =
      chains.modify (fun sv => ncm_stats_vec_append sv x) (chain_id id nchains) := by
  simp [sync_chain_append]

/-! ## The curvature mapping of the transverse distance -/

section DistanceProps

variable {α : Type} [LinearOrderedField α]

theorem Dbl.mul_fin (a b : α) : (Dbl.fin a * Dbl.fin b : Dbl α) = Dbl.fin (a * b) := rfl

theorem Dbl.add_fin (a b : α) : (Dbl.fin a + Dbl.fin b : Dbl α) = Dbl.fin (a + b) := rfl

theorem Dbl.sub_fin (a b : α) : (Dbl.fin a - Dbl.fin b : Dbl α) = Dbl.fin (a - b) := by
  show Dbl.fin (a + -b) = Dbl.fin (a - b)
  rw [sub_eq_add_neg]

theorem Dbl.div_fin (a b : α) (hb : b ≠ 0) : (Dbl.fin a / Dbl.fin b : Dbl α) = Dbl.fin (a / b) := by
  show Dbl.div (Dbl.fin a) (Dbl.fin b) = Dbl.fin (a / b)
  simp [Dbl.div, hb]

theorem Dbl.div_fin_eq (a b : α) :
    (Dbl.fin a / Dbl.fin b : Dbl α)
      = if b = 0 then (if a = 0 then Dbl.nan else if 0 < a then Dbl.pinf else Dbl.ninf)
        else Dbl.fin (a / b) := rfl

theorem Dbl.sqrt_fin (s : α → α) (v : α) (hv : 0 ≤ v) :
    Dbl.sqrt s (Dbl.fin v) = Dbl.fin (s v) := by
  simp [Dbl.sqrt, not_lt.mpr hv]

theorem curvature_k_cases (N : NcDistanceNumerics α) (w : Dbl α) :
    curvature_k N w = 0 ∨ curvature_k N w = -1 ∨ curvature_k N w = 1 := by
  unfold curvature_k
  split
  · exact Or.inl rfl
  · split
    · exact Or.inr (Or.inl rfl)
    · exact Or.inr (Or.inr rfl)

/-- The transverse distance never stops on its assertion, and leaves the object
as the comoving distance leaves it. -/
theorem transverse_ok (N : NcDistanceNumerics α) (dist : NcDistance α) (cosmo : NcHICosmo α)
    (z : Dbl α) :
    ∃ Dt, nc_distance_transverse N dist cosmo z
      = .ok (Dt, (nc_distance_comoving N dist cosmo z).2) := by
  unfold nc_distance_transverse
  simp only []
  by_cases hinf : gsl_isinf (nc_distance_comoving N dist cosmo z).1 ≠ 0
  · exact ⟨_, if_pos hinf⟩
  · rw [if_neg hinf]
    rcases curvature_k_cases N cosmo.Omega_k0 with h | h | h
    · rw [if_pos h]; exact ⟨_, rfl⟩
    · rw [if_neg (by rw [h]; decide), if_pos h]; exact ⟨_, rfl⟩
    · rw [if_neg (by rw [h]; decide), if_neg (by rw [h]; decide), if_pos h]; exact ⟨_, rfl⟩

/-- The values of the transverse distance, branch by branch, for a comoving
distance that is not infinite. -/
theorem transverse_curved (N : NcDistanceNumerics α) (dist : NcDistance α) (cosmo : NcHICosmo α)
    (z : Dbl α) (hinf : gsl_isinf (nc_distance_comoving N dist cosmo z).1 = 0) :
    (curvature_k N cosmo.Omega_k0 = -1 →
      nc_distance_transverse N dist cosmo z
        = .ok (Dbl.sinh N.libm.sinh (Dbl.sqrt N.libm.sqrt (Dbl.fabs cosmo.Omega_k0)
            * (nc_distance_comoving N dist cosmo z).1)
            / Dbl.sqrt N.libm.sqrt (Dbl.fabs cosmo.Omega_k0),
          (nc_distance_comoving N dist cosmo z).2)) ∧
    (curvature_k N cosmo.Omega_k0 = 1 →
      nc_distance_transverse N dist cosmo z
        = .ok (Dbl.fabs (Dbl.sin N.libm.sin (Dbl.sqrt N.libm.sqrt (Dbl.fabs cosmo.Omega_k0)
            * (nc_distance_comoving N dist cosmo z).1)
            / Dbl.sqrt N.libm.sqrt (Dbl.fabs cosmo.Omega_k0)),
          (nc_distance_comoving N dist cosmo z).2)) := by
  constructor
  · intro h
    unfold nc_distance_transverse
    simp only []
    rw [if_neg (by rw [hinf]; decide), if_neg (by rw [h]; decide), if_pos h]
  · intro h
    unfold nc_distance_transverse
    simp only []
    rw [if_neg (by rw [hinf]; decide), if_neg (by rw [h]; decide), if_neg (by rw [h]; decide),
      if_pos h]

/-- C17: when `|Omega_k0|` is below the zero limit (a zero curvature density is
below any positive limit), `nc_distance_transverse` returns, at every redshift,
exactly what `nc_distance_comoving` returns, value and object. -/
theorem transverse_flat_is_comoving (N : NcDistanceNumerics α) (dist : NcDistance α)
    (cosmo : NcHICosmo α) (z : Dbl α)
    (h : (Dbl.fabs cosmo.Omega_k0).lt N.NCM_ZERO_LIMIT = true) :
    nc_distance_transverse N dist cosmo z = .ok (nc_distance_comoving N dist cosmo z) := by
  have hk : curvature_k N cosmo.Omega_k0 = 0 := by
    unfold curvature_k
    rw [if_pos h]
  unfold nc_distance_transverse
  simp only []
  by_cases hinf : gsl_isinf (nc_distance_comoving N dist cosmo z).1 ≠ 0
  · rw [if_pos hinf]
  · rw [if_neg hinf, if_pos hk]

end DistanceProps

section DistanceCurved

variable {α : Type} [LinearOrderedField α]

theorem curvature_k_pos (N : NcDistanceNumerics α) (w : α)
    (hlim : (Dbl.fabs (Dbl.fin w)).lt N.NCM_ZERO_LIMIT = false) (hw : 0 < w) :
    curvature_k N (Dbl.fin w) = -1 := by
  unfold curvature_k
  rw [if_neg (by rw [hlim]; decide), if_pos (by simp [Dbl.gt, Dbl.lt, hw])]

theorem curvature_k_neg (N : NcDistanceNumerics α) (w : α)
    (hlim : (Dbl.fabs (Dbl.fin w)).lt N.NCM_ZERO_LIMIT = false) (hw : w < 0) :
    curvature_k N (Dbl.fin w) = 1 := by
  unfold curvature_k
  rw [if_neg (by rw [hlim]; decide), if_neg (by simp [Dbl.gt, Dbl.lt, le_of_lt hw])]

/-- The value of the transverse distance for a positive curvature density and a
finite comoving distance `d`: the hyperbolic sine. -/
theorem transverse_open_value (N : NcDistanceNumerics α) (dist : NcDistance α)
    (cosmo : NcHICosmo α) (z : Dbl α) (w d : α)
    (hk : cosmo.Omega_k0 = Dbl.fin w)
    (hlim : (Dbl.fabs cosmo.Omega_k0).lt N.NCM_ZERO_LIMIT = false)
    (hd : (nc_distance_comoving N dist cosmo z).1 = Dbl.fin d)
    (hsqrt : N.libm.sqrt (abs w) ≠ 0) (hw : 0 < w) :
    nc_distance_transverse N dist cosmo z
      = .ok (Dbl.fin (N.libm.sinh (N.libm.sqrt (abs w) * d) / N.libm.sqrt (abs w)),
          (nc_distance_comoving N dist cosmo z).2) := by
  have hinf : gsl_isinf (nc_distance_comoving N dist cosmo z).1 = 0 := by rw [hd]; rfl
  rw [hk] at hlim
  have h := (transverse_curved N dist cosmo z hinf).1 (by rw [hk]; exact curvature_k_pos N w hlim hw)
  rw [h, hk, hd]
  have h1 : Dbl.sqrt N.libm.sqrt (Dbl.fabs (Dbl.fin w)) = Dbl.fin (N.libm.sqrt (abs w)) :=
    Dbl.sqrt_fin _ _ (abs_nonneg w)
  rw [h1, Dbl.mul_fin]
  show Except.ok (Dbl.fin (N.libm.sinh (N.libm.sqrt (abs w) * d)) / Dbl.fin (N.libm.sqrt (abs w)), _) = _
  rw [Dbl.div_fin _ _ hsqrt]

/-- The value of the transverse distance for a negative curvature density and a
finite comoving distance `d`: the absolute value of the sine. -/
theorem transverse_closed_value (N : NcDistanceNumerics α) (dist : NcDistance α)
    (cosmo : NcHICosmo α) (z : Dbl α) (w d : α)
    (hk : cosmo.Omega_k0 = Dbl.fin w)
    (hlim : (Dbl.fabs cosmo.Omega_k0).lt N.NCM_ZERO_LIMIT = false)
    (hd : (nc_distance_comoving N dist cosmo z).1 = Dbl.fin d)
    (hsqrt : N.libm.sqrt (abs w) ≠ 0) (hw : w < 0) :
    nc_distance_transverse N dist cosmo z
      = .ok (Dbl.fin (abs (N.libm.sin (N.libm.sqrt (abs w) * d) / N.libm.sqrt (abs w))),
          (nc_distance_comoving N dist cosmo z).2) := by
  have hinf : gsl_isinf (nc_distance_comoving N dist cosmo z).1 = 0 := by rw [hd]; rfl
  rw [hk] at hlim
  have h := (transverse_curved N dist cosmo z hinf).2 (by rw [hk]; exact curvature_k_neg N w hlim hw)
  rw [h, hk, hd]
  have h1 : Dbl.sqrt N.libm.sqrt (Dbl.fabs (Dbl.fin w)) = Dbl.fin (N.libm.sqrt (abs w)) :=
    Dbl.sqrt_fin _ _ (abs_nonneg w)
  rw [h1, Dbl.mul_fin]
  show Except.ok (Dbl.fabs (Dbl.fin (N.libm.sin (N.libm.sqrt (abs w) * d)) / Dbl.fin (N.libm.sqrt (abs w))), _)
    = _
  rw [Dbl.div_fin _ _ hsqrt]
  rfl

theorem exCosmo_comoving (L : Libm α) (k Dc zl z : Dbl α) (cs2 : Bool) (dist : NcDistance α) :
    (nc_distance_comoving (exNumerics L) dist (exCosmo k Dc zl cs2) z).1 = Dc := by
  unfold nc_distance_comoving
  simp [exCosmo]

/-- C18 (counterexample): for the curvature density `-1` and the comoving
distance 1 the claim gives `sinh (1)`, and the code returns `|sin (1)|`, which is
smaller. -/
theorem transverse_negative_curvature_counterexample :
    (Dbl.fabs (exCosmo (Dbl.fin (-1)) (Dbl.fin 1) (Dbl.fin 1090) true : NcHICosmo ℝ).Omega_k0).lt
        (exNumerics (Libm.mk Real.sqrt Real.sin Real.sinh (Real.logb 10) Real.pi)).NCM_ZERO_LIMIT
      = false ∧
    (nc_distance_comoving (exNumerics (Libm.mk Real.sqrt Real.sin Real.sinh (Real.logb 10) Real.pi))
        (nc_distance_new (Dbl.fin 2))
        (exCosmo (Dbl.fin (-1)) (Dbl.fin 1) (Dbl.fin 1090) true) (Dbl.fin 1)).1 = Dbl.fin 1 ∧
    ¬ ∃ dist1,
      nc_distance_transverse (exNumerics (Libm.mk Real.sqrt Real.sin Real.sinh (Real.logb 10) Real.pi))
        (nc_distance_new (Dbl.fin 2))
        (exCosmo (Dbl.fin (-1)) (Dbl.fin 1) (Dbl.fin 1090) true) (Dbl.fin 1)
      = .ok (Dbl.fin (Real.sinh (Real.sqrt (abs (-1 : ℝ)) * 1) / Real.sqrt (abs (-1 : ℝ))), dist1) := by
  have hlim : (Dbl.fabs (exCosmo (Dbl.fin (-1)) (Dbl.fin 1) (Dbl.fin 1090) true
      : NcHICosmo ℝ).Omega_k0).lt
        (exNumerics (Libm.mk Real.sqrt Real.sin Real.sinh (Real.logb 10) Real.pi)).NCM_ZERO_LIMIT
      = false := by
    simp [exCosmo, exNumerics, Dbl.fabs, Dbl.lt]
    norm_num
  refine ⟨hlim, exCosmo_comoving _ _ _ _ _ _ _, ?_⟩
  rintro ⟨dist1, h⟩
  rw [transverse_closed_value _ _ _ _ (-1) 1 rfl hlim (exCosmo_comoving _ _ _ _ _ _ _)
    (by simp [exNumerics]) (by norm_num)] at h
  have h2 := (Prod.mk.inj (Except.ok.inj h)).1
  have h3 : abs (Real.sin (Real.sqrt (abs (-1 : ℝ)) * 1) / Real.sqrt (abs (-1 : ℝ)))
      = Real.sinh (Real.sqrt (abs (-1 : ℝ)) * 1) / Real.sqrt (abs (-1 : ℝ)) := Dbl.fin.inj h2
  simp at h3
  have h4 : Real.sin 1 < 1 := Real.sin_lt one_pos
  have h5 : (1 : ℝ) < Real.sinh 1 := Real.self_lt_sinh_iff.mpr one_pos
  have h6 : |Real.sin 1| ≤ 1 := abs_le.mpr ⟨by linarith [Real.neg_one_le_sin 1], le_of_lt h4⟩
  linarith

/-- C18 (amended): for `|Omega_k0|` not below the zero limit and a finite comoving
distance `d` the code returns `sinh (sqrt |Omega_k0| * d) / sqrt |Omega_k0|` when
`Omega_k0 > 0`, and `|sin (sqrt |Omega_k0| * d) / sqrt |Omega_k0||` when
`Omega_k0 < 0`, which is `sin (sqrt |Omega_k0| * d) / sqrt |Omega_k0|` for
`0 <= sqrt |Omega_k0| * d <= pi`.  The square root is positive on positive values
and the sine is not negative between 0 and `pi`. -/
theorem transverse_curvature_branches (N : NcDistanceNumerics α) (dist : NcDistance α)
    (cosmo : NcHICosmo α) (z : Dbl α) (w d : α)
    (hk : cosmo.Omega_k0 = Dbl.fin w)
    (hlim : (Dbl.fabs cosmo.Omega_k0).lt N.NCM_ZERO_LIMIT = false)
    (hd : (nc_distance_comoving N dist cosmo z).1 = Dbl.fin d)
    (hsqrt : ∀ x, 0 < x → 0 < N.libm.sqrt x)
    (hsin : ∀ x, 0 ≤ x → x ≤ N.libm.pi → 0 ≤ N.libm.sin x) :
    (0 < w →
      nc_distance_transverse N dist cosmo z
        = .ok (Dbl.fin (N.libm.sinh (N.libm.sqrt (abs w) * d) / N.libm.sqrt (abs w)),
            (nc_distance_comoving N dist cosmo z).2)) ∧
    (w < 0 →
      nc_distance_transverse N dist cosmo z
        = .ok (Dbl.fin (abs (N.libm.sin (N.libm.sqrt (abs w) * d) / N.libm.sqrt (abs w))),
            (nc_distance_comoving N dist cosmo z).2) ∧
      (0 ≤ N.libm.sqrt (abs w) * d → N.libm.sqrt (abs w) * d ≤ N.libm.pi →
        nc_distance_transverse N dist cosmo z
          = .ok (Dbl.fin (N.libm.sin (N.libm.sqrt (abs w) * d) / N.libm.sqrt (abs w)),
              (nc_distance_comoving N dist cosmo z).2))) := by
  refine ⟨fun hw => ?_, fun hw => ?_⟩
  · exact transverse_open_value N dist cosmo z w d hk hlim hd
      (ne_of_gt (hsqrt _ (abs_pos.mpr (ne_of_gt hw)))) hw
  · have hs : 0 < N.libm.sqrt (abs w) := hsqrt _ (abs_pos.mpr (ne_of_lt hw))
    have hv := transverse_closed_value N dist cosmo z w d hk hlim hd (ne_of_gt hs) hw
    refine ⟨hv, fun h0 hpi => ?_⟩
    rw [hv, abs_of_nonneg (div_nonneg (hsin _ h0 hpi) (le_of_lt hs))]

/-- C18 (amended) at the real functions, for the curvature density `-1` and the
comoving distance 1: the code returns `sin (1)`. -/
theorem transverse_curvature_branches_witness :
    nc_distance_transverse (exNumerics (Libm.mk Real.sqrt Real.sin Real.sinh (Real.logb 10) Real.pi))
        (nc_distance_new (Dbl.fin 2))
        (exCosmo (Dbl.fin (-1)) (Dbl.fin 1) (Dbl.fin 1090) true) (Dbl.fin 1)
      = .ok (Dbl.fin (Real.sin (Real.sqrt (abs (-1 : ℝ)) * 1) / Real.sqrt (abs (-1 : ℝ))),
          (nc_distance_comoving
            (exNumerics (Libm.mk Real.sqrt Real.sin Real.sinh (Real.logb 10) Real.pi))
            (nc_distance_new (Dbl.fin 2))
            (exCosmo (Dbl.fin (-1)) (Dbl.fin 1) (Dbl.fin 1090) true) (Dbl.fin 1)).2) :=
  ((transverse_curvature_branches
      (exNumerics (Libm.mk Real.sqrt Real.sin Real.sinh (Real.logb 10) Real.pi))
      (nc_distance_new (Dbl.fin 2))
      (exCosmo (Dbl.fin (-1)) (Dbl.fin 1) (Dbl.fin 1090) true) (Dbl.fin 1) (-1) 1 rfl
      (by simp [exCosmo, exNumerics, Dbl.fabs, Dbl.lt]; norm_num)
      (exCosmo_comoving _ _ _ _ _ _ _)
      (fun x hx => Real.sqrt_pos.mpr hx)
      (fun x h0 hpi => Real.sin_nonneg_of_nonneg_of_le_pi h0 hpi)).2 (by norm_num)).2
    (by simp [exNumerics]) (by simp [exNumerics]; linarith [Real.pi_gt_three])

/-- C17 at the real functions: a zero curvature density is below the limit
`1e-13`. -/
theorem transverse_flat_is_comoving_witness :
    (Dbl.fabs (exCosmo (Dbl.fin 0) (Dbl.fin 1) (Dbl.fin 1090) true : NcHICosmo ℝ).Omega_k0).lt
        (exNumerics (Libm.mk Real.sqrt Real.sin Real.sinh (Real.logb 10) Real.pi)).NCM_ZERO_LIMIT
      = true ∧
    nc_distance_transverse (exNumerics (Libm.mk Real.sqrt Real.sin Real.sinh (Real.logb 10) Real.pi))
        (nc_distance_new (Dbl.fin 2))
        (exCosmo (Dbl.fin 0) (Dbl.fin 1) (Dbl.fin 1090) true) (Dbl.fin 1)
      = .ok (nc_distance_comoving
          (exNumerics (Libm.mk Real.sqrt Real.sin Real.sinh (Real.logb 10) Real.pi))
          (nc_distance_new (Dbl.fin 2))
          (exCosmo (Dbl.fin 0) (Dbl.fin 1) (Dbl.fin 1090) true) (Dbl.fin 1)) :=
  ⟨by simp [exCosmo, exNumerics, Dbl.fabs, Dbl.lt]; norm_num,
    transverse_flat_is_comoving _ _ _ _ (by simp [exCosmo, exNumerics, Dbl.fabs, Dbl.lt]; norm_num)⟩

end DistanceCurved

/-! ## The distance modulus and the functions at the decoupling redshift -/

section DistanceComposite

variable {α : Type} [LinearOrderedField α]

theorem Dbl.log10_fin (l : α → α) (v : α) (hv : 0 < v) :
    Dbl.log10 l (Dbl.fin v) = Dbl.fin (l v) := by
  simp [Dbl.log10, not_lt.mpr (le_of_lt hv), ne_of_gt hv]

theorem luminosity_eq (N : NcDistanceNumerics α) (dist dist1 : NcDistance α) (cosmo : NcHICosmo α)
    (z Dt : Dbl α) (h : nc_distance_transverse N dist cosmo z = .ok (Dt, dist1)) :
    nc_distance_luminosity N dist cosmo z = .ok ((Dbl.fin 1 + z) * Dt, dist1) := by
  unfold nc_distance_luminosity
  rw [h]

theorem dmodulus_eq (N : NcDistanceNumerics α) (dist dist1 : NcDistance α) (cosmo : NcHICosmo α)
    (z Dt : Dbl α) (h : nc_distance_transverse N dist cosmo z = .ok (Dt, dist1)) :
    nc_distance_dmodulus N dist cosmo z
      = .ok (if gsl_finite ((Dbl.fin 1 + z) * Dt) then
          Dbl.fin 5 * Dbl.log10 N.libm.log10 ((Dbl.fin 1 + z) * Dt) + Dbl.fin 25
        else (Dbl.fin 1 + z) * Dt, dist1) := by
  unfold nc_distance_dmodulus
  rw [luminosity_eq N dist dist1 cosmo z Dt h]
  simp only []
  cases gsl_finite ((Dbl.fin 1 + z) * Dt) <;> rfl

/-- C19: `nc_distance_dmodulus` never fails.  With `Dt` the transverse distance
at `z`, it returns `5 * log10 ((1 + z) * Dt) + 25` when the luminosity distance
`(1 + z) * Dt` is finite, which for a positive finite value `v` is the finite
value `5 * log10 (v) + 25`, and it returns the luminosity distance itself when
that is not finite. -/
theorem dmodulus_formula_or_luminosity (N : NcDistanceNumerics α) (dist : NcDistance α)
    (cosmo : NcHICosmo α) (z : Dbl α) :
    ∃ Dt dist1,
      nc_distance_transverse N dist cosmo z = .ok (Dt, dist1) ∧
      nc_distance_luminosity N dist cosmo z = .ok ((Dbl.fin 1 + z) * Dt, dist1) ∧
      (gsl_finite ((Dbl.fin 1 + z) * Dt) = true →
        nc_distance_dmodulus N dist cosmo z
          = .ok (Dbl.fin 5 * Dbl.log10 N.libm.log10 ((Dbl.fin 1 + z) * Dt) + Dbl.fin 25, dist1)) ∧
      (∀ v : α, (Dbl.fin 1 + z) * Dt = Dbl.fin v → 0 < v →
        nc_distance_dmodulus N dist cosmo z
          = .ok (Dbl.fin (5 * N.libm.log10 v + 25), dist1)) ∧
      (gsl_finite ((Dbl.fin 1 + z) * Dt) = false →
        nc_distance_dmodulus N dist cosmo z = .ok ((Dbl.fin 1 + z) * Dt, dist1)) := by
  obtain ⟨Dt, h⟩ := transverse_ok N dist cosmo z
  refine ⟨Dt, _, h, luminosity_eq N dist _ cosmo z Dt h, ?_, ?_, ?_⟩
  · intro hf
    rw [dmodulus_eq N dist _ cosmo z Dt h, hf]
    rfl
  · intro v hv hpos
    rw [dmodulus_eq N dist _ cosmo z Dt h, hv]
    simp only [gsl_finite, if_true]
    rw [Dbl.log10_fin _ _ hpos, Dbl.mul_fin, Dbl.add_fin]
  · intro hf
    rw [dmodulus_eq N dist _ cosmo z Dt h, hf]
    rfl

/-- The sound horizon of a cosmology that implements the sound speed of the
baryon-photon plasma returns. -/
theorem sound_horizon_ok (N : NcDistanceNumerics α) (dist : NcDistance α) (cosmo : NcHICosmo α)
    (z : Dbl α) (hcs : cosmo.impl_bgp_cs2 = true) :
    ∃ rs dist1, nc_distance_sound_horizon N dist cosmo z = .ok (rs, dist1) := by
  unfold nc_distance_sound_horizon
  cases hu : dist.use_cache <;> simp [hcs]

/-- With a decoupling redshift that is not finite the five functions return NaN
and leave the object as it was. -/
theorem decoupling_nan_returns (N : NcDistanceNumerics α) (dist : NcDistance α) (cosmo : NcHICosmo α)
    (h : gsl_finite (nc_distance_decoupling_redshift N cosmo) = false) :
    nc_distance_acoustic_scale N dist cosmo = .ok (.nan, dist) ∧
    nc_distance_theta100CMB N dist cosmo = .ok (.nan, dist) ∧
    nc_distance_shift_parameter_lss N dist cosmo = .ok (.nan, dist) ∧
    nc_distance_comoving_lss N dist cosmo = .ok (.nan, dist) ∧
    nc_distance_angular_diameter_curvature_scale N dist cosmo = .ok (.nan, dist) := by
  refine ⟨?_, ?_, ?_, ?_, ?_⟩
  · unfold nc_distance_acoustic_scale
    simp only [h]
    rfl
  · unfold nc_distance_theta100CMB
    simp only [h]
    rfl
  · unfold nc_distance_shift_parameter_lss
    simp only [h]
    rfl
  · unfold nc_distance_comoving_lss
    simp only [h]
    rfl
  · unfold nc_distance_angular_diameter_curvature_scale
    simp only [h]
    rfl

/-- With a finite decoupling redshift and a cosmology that does not implement the
sound speed of the baryon-photon plasma, the acoustic scale and the angle
`100 theta_CMB` stop on the assertion of `nc_distance_sound_horizon`. -/
theorem lss_no_bgp_cs2 (N : NcDistanceNumerics α) (dist : NcDistance α) (cosmo : NcHICosmo α)
    (h : gsl_finite (nc_distance_decoupling_redshift N cosmo) = true)
    (hcs : cosmo.impl_bgp_cs2 = false) :
    nc_distance_acoustic_scale N dist cosmo = .error .sound_horizon_bgp_cs2 ∧
    nc_distance_theta100CMB N dist cosmo = .error .sound_horizon_bgp_cs2 := by
  constructor
  · obtain ⟨Dt, ht⟩ := transverse_ok N dist cosmo (nc_distance_decoupling_redshift N cosmo)
    unfold nc_distance_acoustic_scale
    simp only [h, if_true, ht]
    unfold nc_distance_sound_horizon
    simp [hcs]
  · unfold nc_distance_theta100CMB
    simp only [h, if_true]
    unfold nc_distance_sound_horizon
    simp [hcs]

/-- C20 (counterexample): a cosmology with the finite decoupling redshift 1090
that does not implement the sound speed of the baryon-photon plasma makes
`nc_distance_acoustic_scale` stop on an assertion instead of returning its
formula. -/
theorem acoustic_scale_finite_counterexample :
    nc_distance_decoupling_redshift
        (exNumerics (Libm.mk Real.sqrt Real.sin Real.sinh (Real.logb 10) Real.pi))
        (exCosmo (Dbl.fin 0) (Dbl.fin 1) (Dbl.fin 1090) false) = Dbl.fin 1090 ∧
    nc_distance_acoustic_scale
        (exNumerics (Libm.mk Real.sqrt Real.sin Real.sinh (Real.logb 10) Real.pi))
        (nc_distance_new (Dbl.fin 2))
        (exCosmo (Dbl.fin 0) (Dbl.fin 1) (Dbl.fin 1090) false)
      = .error .sound_horizon_bgp_cs2 :=
  ⟨rfl, (lss_no_bgp_cs2 _ _ _ (by rfl) (by rfl)).1⟩

/-- C20 (amended): with a decoupling redshift `z` that is not finite the five
functions return NaN and leave the object as it was, its record of spline and
quadrature calls included.  With a finite one, `shift_parameter_lss`,
`comoving_lss` and `angular_diameter_curvature_scale` return their formulas at
`z`, and for a cosmology that implements the sound speed of the baryon-photon
plasma so do `acoustic_scale` and `theta100CMB`. -/
theorem lss_nan_or_formula (N : NcDistanceNumerics α) (dist : NcDistance α)
    (cosmo : NcHICosmo α) :
    (gsl_finite (nc_distance_decoupling_redshift N cosmo) = false →
      nc_distance_acoustic_scale N dist cosmo = .ok (.nan, dist) ∧
      nc_distance_theta100CMB N dist cosmo = .ok (.nan, dist) ∧
      nc_distance_shift_parameter_lss N dist cosmo = .ok (.nan, dist) ∧
      nc_distance_comoving_lss N dist cosmo = .ok (.nan, dist) ∧
      nc_distance_angular_diameter_curvature_scale N dist cosmo = .ok (.nan, dist)) ∧
    (gsl_finite (nc_distance_decoupling_redshift N cosmo) = true →
      ∃ Dt dist1,
        nc_distance_transverse N dist cosmo (nc_distance_decoupling_redshift N cosmo)
          = .ok (Dt, dist1) ∧
        nc_distance_shift_parameter_lss N dist cosmo
          = .ok (Dbl.sqrt N.libm.sqrt (Dbl.fabs cosmo.Omega_m0) * Dt, dist1) ∧
        nc_distance_comoving_lss N dist cosmo
          = .ok (nc_distance_comoving N dist cosmo (nc_distance_decoupling_redshift N cosmo)) ∧
        nc_distance_angular_diameter_curvature_scale N dist cosmo
          = .ok (Dbl.sqrt N.libm.sqrt (cosmo.E2 (nc_distance_decoupling_redshift N cosmo)) * Dt
              / (Dbl.fin 1 + nc_distance_decoupling_redshift N cosmo), dist1) ∧
        (cosmo.impl_bgp_cs2 = true →
          ∃ rs dist2 rs3 dist3 Dt3 dist4,
            nc_distance_sound_horizon N dist1 cosmo (nc_distance_decoupling_redshift N cosmo)
              = .ok (rs, dist2) ∧
            nc_distance_acoustic_scale N dist cosmo
              = .ok (Dbl.fin N.libm.pi * Dt / rs, dist2) ∧
            nc_distance_sound_horizon N dist cosmo (nc_distance_decoupling_redshift N cosmo)
              = .ok (rs3, dist3) ∧
            nc_distance_transverse N dist3 cosmo (nc_distance_decoupling_redshift N cosmo)
              = .ok (Dt3, dist4) ∧
            nc_distance_theta100CMB N dist cosmo = .ok (Dbl.fin 100 * rs3 / Dt3, dist4))) := by
  refine ⟨decoupling_nan_returns N dist cosmo, fun h => ?_⟩
  obtain ⟨Dt, ht⟩ := transverse_ok N dist cosmo (nc_distance_decoupling_redshift N cosmo)
  refine ⟨Dt, _, ht, ?_, ?_, ?_, fun hcs => ?_⟩
  · unfold nc_distance_shift_parameter_lss
    simp only [h, if_true, ht]
  · unfold nc_distance_comoving_lss
    simp only [h, if_true]
  · unfold nc_distance_angular_diameter_curvature_scale
    simp only [h, if_true, ht]
  · obtain ⟨rs, dist2, hs⟩ := sound_horizon_ok N _ cosmo (nc_distance_decoupling_redshift N cosmo) hcs
    obtain ⟨rs3, dist3, hs3⟩ :=
      sound_horizon_ok N dist cosmo (nc_distance_decoupling_redshift N cosmo) hcs
    obtain ⟨Dt3, ht3⟩ := transverse_ok N dist3 cosmo (nc_distance_decoupling_redshift N cosmo)
    refine ⟨rs, dist2, rs3, dist3, Dt3, _, hs, ?_, hs3, ht3, ?_⟩
    · unfold nc_distance_acoustic_scale
      simp only [h, if_true, ht, hs]
    · unfold nc_distance_theta100CMB
      simp only [h, if_true, ht3, hs3]

/-- C20 (amended) at a cosmology whose decoupling redshift is NaN, and at one
with the decoupling redshift 1090 that implements the sound speed. -/
theorem lss_nan_or_formula_witness :
    (nc_distance_acoustic_scale
        (exNumerics (Libm.mk Real.sqrt Real.sin Real.sinh (Real.logb 10) Real.pi))
        (nc_distance_new (Dbl.fin 2)) (exCosmo (Dbl.fin 0) (Dbl.fin 1) Dbl.nan true)
      = .ok (Dbl.nan, nc_distance_new (Dbl.fin 2))) ∧
    (∃ Dt dist1,
      nc_distance_transverse
          (exNumerics (Libm.mk Real.sqrt Real.sin Real.sinh (Real.logb 10) Real.pi))
          (nc_distance_new (Dbl.fin 2)) (exCosmo (Dbl.fin 0) (Dbl.fin 1) (Dbl.fin 1090) true)
          (Dbl.fin 1090) = .ok (Dt, dist1) ∧
      nc_distance_shift_parameter_lss
          (exNumerics (Libm.mk Real.sqrt Real.sin Real.sinh (Real.logb 10) Real.pi))
          (nc_distance_new (Dbl.fin 2)) (exCosmo (Dbl.fin 0) (Dbl.fin 1) (Dbl.fin 1090) true)
        = .ok (Dbl.sqrt Real.sqrt (Dbl.fabs (Dbl.fin 0.3)) * Dt, dist1)) := by
  constructor
  · exact ((lss_nan_or_formula
      (exNumerics (Libm.mk Real.sqrt Real.sin Real.sinh (Real.logb 10) Real.pi))
      (nc_distance_new (Dbl.fin 2)) (exCosmo (Dbl.fin 0) (Dbl.fin 1) Dbl.nan true)).1 (by rfl)).1
  · obtain ⟨Dt, dist1, h1, h2, _⟩ := (lss_nan_or_formula
      (exNumerics (Libm.mk Real.sqrt Real.sin Real.sinh (Real.logb 10) Real.pi))
      (nc_distance_new (Dbl.fin 2))
      (exCosmo (Dbl.fin 0) (Dbl.fin 1) (Dbl.fin 1090) true)).2 (by rfl)
    exact ⟨Dt, dist1, h1, h2⟩

end DistanceComposite

/-! ## The recurrence of the running statistics -/

section MomentsProps

variable {α : Type} [LinearOrderedField α]

/-- One step of the recurrence keeps the two sums: the count times the mean is the
sum of the values, and `M2` is the sum of the squares less the count times the
square of the mean. -/
theorem welford_step_sums (n : Nat) (p : α × α) (x S1 S2 : α)
    (h1 : (n : α) * p.1 = S1) (h2 : p.2 = S2 - (n : α) * p.1 ^ 2) :
    ((n + 1 : Nat) : α) * (welford_step (n + 1) p x).1 = S1 + x ∧
    (welford_step (n + 1) p x).2
      = S2 + x ^ 2 - ((n + 1 : Nat) : α) * (welford_step (n + 1) p x).1 ^ 2 := by
  have hn : ((n + 1 : Nat) : α) ≠ 0 := Nat.cast_ne_zero.mpr (Nat.succ_ne_zero n)
  have hcast : ((n + 1 : Nat) : α) = (n : α) + 1 := by push_cast; ring
  have hm : ((n + 1 : Nat) : α) * (welford_step (n + 1) p x).1 = S1 + x := by
    simp only [welford_step]
    rw [mul_add, mul_div_cancel₀ _ hn, hcast, ← h1]
    ring
  refine ⟨hm, ?_⟩
  have hm2 : ((n + 1 : Nat) : α) * (welford_step (n + 1) p x).1 ^ 2
      = (S1 + x) * (welford_step (n + 1) p x).1 := by
    rw [← hm]; ring
  rw [hm2]
  have hstep : (welford_step (n + 1) p x).2
      = p.2 + (x - p.1) * (x - (welford_step (n + 1) p x).1) := rfl
  rw [hstep, h2, ← h1]
  have hm3 : (n : α) * (welford_step (n + 1) p x).1
      = (n : α) * p.1 + x - (welford_step (n + 1) p x).1 := by
    have := hm
    rw [hcast, ← h1] at this
    linear_combination this
  linear_combination (p.1) * hm3

theorem welford_fold_sums (c : List α) :
    ∀ (n : Nat) (p : α × α) (S1 S2 : α),
      (n : α) * p.1 = S1 → p.2 = S2 - (n : α) * p.1 ^ 2 →
      ((n + c.length : Nat) : α) * (welford_fold n p c).1 = S1 + c.sum ∧
      (welford_fold n p c).2
        = S2 + (c.map (fun x => x ^ 2)).sum
          - ((n + c.length : Nat) : α) * (welford_fold n p c).1 ^ 2 := by
  induction c with
  | nil =>
    intro n p S1 S2 h1 h2
    simp [welford_fold, h1, h2]
  | cons x xs ih =>
    intro n p S1 S2 h1 h2
    obtain ⟨g1, g2⟩ := welford_step_sums n p x S1 S2 h1 h2
    obtain ⟨k1, k2⟩ := ih (n + 1) (welford_step (n + 1) p x) (S1 + x) (S2 + x ^ 2) g1 g2
    have hlen : n + (x :: xs).length = n + 1 + xs.length := by simp; omega
    rw [hlen]
    simp only [welford_fold, List.sum_cons, List.map_cons]
    refine ⟨by rw [k1]; ring, by rw [k2]; ring⟩

theorem sum_sq_dev (c : List α) (m : α) :
    (c.map (fun x => (x - m) ^ 2)).sum
      = (c.map (fun x => x ^ 2)).sum - 2 * m * c.sum + (c.length : α) * m ^ 2 := by
  induction c with
  | nil => simp
  | cons x xs ih =>
    simp only [List.map_cons, List.sum_cons, List.length_cons, ih]
    push_cast
    ring

/-- The recurrence run from nothing over a non-empty sequence gives its arithmetic
mean and the sum of its squared deviations from that mean. -/
theorem welford_fold_exact (c : List α) (hc : c ≠ []) :
    (welford_fold 0 (0, 0) c).1 = arithmetic_mean c ∧
    (welford_fold 0 (0, 0) c).2 = (c.map (fun x => (x - arithmetic_mean c) ^ 2)).sum := by
  obtain ⟨h1, h2⟩ := welford_fold_sums c 0 (0, 0) 0 0 (by simp) (by simp)
  have hlen : ((c.length : Nat) : α) ≠ 0 :=
    Nat.cast_ne_zero.mpr (fun h => hc (List.length_eq_zero.mp h))
  simp only [Nat.zero_add, zero_add] at h1 h2
  have hmean : (welford_fold 0 (0, 0) c).1 = arithmetic_mean c := by
    unfold arithmetic_mean
    rw [eq_div_iff hlen, mul_comm]
    exact h1
  refine ⟨hmean, ?_⟩
  rw [sum_sq_dev, h2, ← hmean]
  linear_combination (-2 * (welford_fold 0 (0, 0) c).1) * h1

/-- Coordinate `i` of the running statistics after a sequence of updates is the
recurrence run over the values of coordinate `i`. -/
theorem moments_update_coord (i : Nat) (xs : List (List α)) :
    ∀ (s : NcmStatsVecMoments α), i < s.acc.length → (∀ x ∈ xs, i < x.length) →
      (xs.foldl ncm_stats_vec_moments_update s).nitens = s.nitens + xs.length ∧
      (xs.foldl ncm_stats_vec_moments_update s).acc.getD i (0, 0)
        = welford_fold s.nitens (s.acc.getD i (0, 0)) (xs.map (fun x => x.getD i 0)) := by
  induction xs with
  | nil =>
    intro s _ _
    simp [welford_fold]
  | cons x xs ih =>
    intro s hs hx
    have hxi : i < x.length := hx x (List.mem_cons_self _ _)
    have hacc : i < (ncm_stats_vec_moments_update s x).acc.length := by
      simp [ncm_stats_vec_moments_update, hs, hxi]
    obtain ⟨k1, k2⟩ := ih (ncm_stats_vec_moments_update s x) hacc
      (fun y hy => hx y (List.mem_cons_of_mem _ hy))
    simp only [List.foldl_cons, List.map_cons, welford_fold]
    refine ⟨by rw [k1]; simp [ncm_stats_vec_moments_update]; omega, ?_⟩
    rw [k2]
    have hstep : (ncm_stats_vec_moments_update s x).acc.getD i (0, 0)
        = welford_step (s.nitens + 1) (s.acc.getD i (0, 0)) (x.getD i 0) := by
      simp [ncm_stats_vec_moments_update, List.getD_eq_getElem?_getD, List.getElem?_zipWith, hs, hxi]
    rw [hstep]
    rfl

/-- C16: after the vectors of a non-empty sequence `xs`, all of `len` components,
have been pushed one at a time into a new accumulator by the recurrence, the
count is the number of vectors and, for every coordinate `i`, the running mean
is the arithmetic mean of the values of coordinate `i` and the running variance
is their sample variance, in exact arithmetic. -/
theorem welford_mean_and_variance (len : Nat) (xs : List (List α)) (i : Nat)
    (hne : xs ≠ []) (hlen : ∀ x ∈ xs, x.length = len) (hi : i < len) :
    (xs.foldl ncm_stats_vec_moments_update (ncm_stats_vec_moments_new len)).nitens = xs.length ∧
    ncm_stats_vec_moments_mean
        (xs.foldl ncm_stats_vec_moments_update (ncm_stats_vec_moments_new len)) i
      = arithmetic_mean (xs.map (fun x => x.getD i 0)) ∧
    ncm_stats_vec_moments_var
        (xs.foldl ncm_stats_vec_moments_update (ncm_stats_vec_moments_new len)) i
      = sample_variance (xs.map (fun x => x.getD i 0)) := by
  obtain ⟨k1, k2⟩ := moments_update_coord i xs (ncm_stats_vec_moments_new len)
    (by simp [ncm_stats_vec_moments_new, hi]) (fun x hx => by rw [hlen x hx]; exact hi)
  have h0 : (ncm_stats_vec_moments_new len : NcmStatsVecMoments α).acc.getD i (0, 0) = (0, 0) := by
    simp [ncm_stats_vec_moments_new, List.getD_eq_getElem?_getD, hi]
  have hn0 : (ncm_stats_vec_moments_new len : NcmStatsVecMoments α).nitens = 0 := rfl
  rw [h0, hn0] at k2
  rw [hn0, Nat.zero_add] at k1
  obtain ⟨e1, e2⟩ := welford_fold_exact (xs.map (fun x => x.getD i 0)) (by simpa using hne)
  refine ⟨k1, ?_, ?_⟩
  · unfold ncm_stats_vec_moments_mean
    rw [k2, e1]
  · unfold ncm_stats_vec_moments_var sample_variance
    rw [k2, e2, k1, List.length_map]

/-- C16 on the three vectors `(1, 10)`, `(2, 20)`, `(6, 30)`: the first coordinate
has the mean 3 and the sample variance 7. -/
theorem welford_mean_and_variance_witness :
    ([[1, 10], [2, 20], [6, 30]] : List (List ℚ)) ≠ [] ∧
    ncm_stats_vec_moments_mean
        (([[1, 10], [2, 20], [6, 30]] : List (List ℚ)).foldl ncm_stats_vec_moments_update
          (ncm_stats_vec_moments_new 2)) 0
      = arithmetic_mean (([[1, 10], [2, 20], [6, 30]] : List (List ℚ)).map (fun x => x.getD 0 0)) ∧
    arithmetic_mean (([[1, 10], [2, 20], [6, 30]] : List (List ℚ)).map (fun x => x.getD 0 0)) = 3 ∧
    sample_variance (([[1, 10], [2, 20], [6, 30]] : List (List ℚ)).map (fun x => x.getD 0 0)) = 7 :=
  ⟨by simp,
    (welford_mean_and_variance 2 [[1, 10], [2, 20], [6, 30]] 0 (by simp)
      (by intro x hx; simp at hx; rcases hx with h | h | h <;> rw [h] <;> rfl) (by decide)).2.1,
    by norm_num [arithmetic_mean], by norm_num [sample_variance, arithmetic_mean]⟩

end MomentsProps

/-! ## The shrink factors -/

section Shrink

variable {α : Type} [LinearOrderedField α]

/-- The multivariate shrink factor of a catalog of several chains whose averaged
covariance has a finite first entry and passes the two Cholesky routines: the
count `n` under the square root is the count of all the rows of the catalog. -/
theorem shrink_factor_eq (sqrt : α → α) (G : NcmStatsVecGetters α) (LA : NcmLinAlg α)
    (mcat : NcmMSetCatalog) (W cov : NcmMatrix α)
    (hm : mcat.nchains ≠ 1)
    (hW : ncm_matrix_scale ((chain_pstats_list mcat).foldl
        (fun cm pstats => ncm_matrix_add_mul cm (.fin 1) (G.peek_cov_matrix pstats mcat.nadd_vals))
        (List.replicate (mcat.pstats.x.length - mcat.nadd_vals)
          (List.replicate (mcat.pstats.x.length - mcat.nadd_vals) (.fin 0))))
      (Dbl.fin 1 / (Dbl.fin 1 * Dbl.fin (mcat.nchains : α))) = W)
    (hcov : G.cov_matrix_of_updates ((chain_pstats_list mcat).map (fun pstats =>
        (List.range (mcat.pstats.x.length - mcat.nadd_vals)).map
          (fun p => G.get_mean pstats (p + mcat.nadd_vals)))) = cov)
    (hfin : gsl_finite (ncm_matrix_get W 0 0) = true)
    (hd : (LA.cholesky_decomp W).1 = 0)
    (hv : (LA.cholesky_inverse (LA.cholesky_decomp W).2).1 = 0) :
    ncm_mset_catalog_get_shrink_factor sqrt G LA mcat
      = .ok (Dbl.sqrt sqrt ((Dbl.fin (mcat.pstats.nitens : α) - Dbl.fin 1)
          / (Dbl.fin 1 * Dbl.fin (mcat.pstats.nitens : α))
        + (Dbl.fin (mcat.nchains : α) + Dbl.fin 1)
          * shrink_lev (LA.eigen_nonsymm
              (LA.dsymm (LA.cholesky_inverse (LA.cholesky_decomp W).2).2 cov))
              (mcat.pstats.x.length - mcat.nadd_vals)
          / (Dbl.fin (mcat.nchains : α) * Dbl.fin 1))) := by
  unfold ncm_mset_catalog_get_shrink_factor
  simp only []
  rw [if_neg hm, hW, hcov, if_pos hfin, if_neg (by rw [hd]; decide), if_neg (by rw [hv]; decide)]

theorem exShrink_eq : exShrink =
    { ncm_mset_catalog_new 1 0 2 false with
      pstats := { save_x := true, x := [.fin 4],
                  saved_x := [[.fin 0], [.fin 2], [.fin 2], [.fin 4]],
                  wts := [.fin 1, .fin 1, .fin 1, .fin 1],
                  absorbed := [[.fin 0], [.fin 2], [.fin 2], [.fin 4]] }
      chain_pstats := [{ save_x := false, x := [.fin 2], saved_x := [], wts := [.fin 1, .fin 1],
                         absorbed := [[.fin 0], [.fin 2]] },
                       { save_x := false, x := [.fin 4], saved_x := [], wts := [.fin 1, .fin 1],
                         absorbed := [[.fin 2], [.fin 4]] }]
      params_max := [.fin 4], params_min := [.fin 0], cur_id := 3 } := by
  decide

theorem exShrink_chains : chain_pstats_list exShrink =
    [{ save_x := false, x := [.fin 2], saved_x := [], wts := [.fin 1, .fin 1],
       absorbed := [[.fin 0], [.fin 2]] },
     { save_x := false, x := [.fin 4], saved_x := [], wts := [.fin 1, .fin 1],
       absorbed := [[.fin 2], [.fin 4]] }] := by
  decide

theorem exShrink_counts : exShrink.nchains = 2 ∧ exShrink.pstats.nitens = 4 ∧
    exShrink.pstats.x.length = 1 ∧ exShrink.nadd_vals = 0 := by
  decide

theorem exShrink_means :
    (chain_pstats_list exShrink).map (fun pstats => (exGetters Real.sqrt).get_mean pstats 0)
      = [Dbl.fin 1, Dbl.fin 3] := by
  rw [exShrink_chains]
  simp [exGetters, gsl_stats_mean, stats_column, Dbl.ofGDouble, Dbl.add_fin, Dbl.div_fin_eq]
  norm_num

theorem exShrink_vars :
    (chain_pstats_list exShrink).map (fun pstats => (exGetters Real.sqrt).get_var pstats 0)
      = [Dbl.fin 2, Dbl.fin 2] := by
  rw [exShrink_chains]
  simp [exGetters, gsl_stats_variance, gsl_stats_mean, stats_column, Dbl.ofGDouble, Dbl.add_fin,
    Dbl.sub_fin, Dbl.mul_fin, Dbl.div_fin_eq]
  norm_num

theorem exShrink_W :
    ncm_matrix_scale ((chain_pstats_list exShrink).foldl
        (fun cm pstats => ncm_matrix_add_mul cm (.fin 1)
          ((exGetters Real.sqrt).peek_cov_matrix pstats exShrink.nadd_vals))
        (List.replicate (exShrink.pstats.x.length - exShrink.nadd_vals)
          (List.replicate (exShrink.pstats.x.length - exShrink.nadd_vals) (.fin 0))))
      (Dbl.fin 1 / (Dbl.fin 1 * Dbl.fin (exShrink.nchains : ℝ))) = [[Dbl.fin 2]] := by
  rw [exShrink_chains, exShrink_counts.1, exShrink_counts.2.2.1, exShrink_counts.2.2.2]
  have hr1 : List.range 1 = [0] := rfl
  simp [hr1, exGetters, sample_covariance, gsl_stats_mean, stats_column, Dbl.ofGDouble, Dbl.add_fin,
    Dbl.sub_fin, Dbl.mul_fin, Dbl.div_fin_eq, ncm_matrix_scale, ncm_matrix_add_mul]
  norm_num
  simp only [Dbl.add_fin, Dbl.mul_fin]
  norm_num

theorem exShrink_cov :
    (exGetters Real.sqrt).cov_matrix_of_updates ((chain_pstats_list exShrink).map (fun pstats =>
        (List.range (exShrink.pstats.x.length - exShrink.nadd_vals)).map
          (fun p => (exGetters Real.sqrt).get_mean pstats (p + exShrink.nadd_vals))))
      = [[Dbl.fin 2]] := by
  rw [exShrink_chains, exShrink_counts.2.2.1, exShrink_counts.2.2.2]
  have hr : List.range (1 - 0) = [0] := rfl
  rw [hr]
  have hr1 : List.range 1 = [0] := rfl
  simp [hr1, exGetters, sample_covariance, gsl_stats_mean, stats_column, Dbl.ofGDouble, Dbl.add_fin,
    Dbl.sub_fin, Dbl.mul_fin, Dbl.div_fin_eq]
  norm_num

/-- The shrink factor of one coordinate for a catalog of several chains: the
square root of `(n - 1) / n + B_n / W` with `n` the count of the rows over the
number of chains. -/
theorem param_shrink_factor_eq (sqrt : α → α) (G : NcmStatsVecGetters α) (mcat : NcmMSetCatalog)
    (p : Nat) (w b : α) (hm : mcat.nchains ≠ 1)
    (hW : gsl_stats_mean ((chain_pstats_list mcat).map (fun pstats => G.get_var pstats p))
      = Dbl.fin w)
    (hB : gsl_stats_variance ((chain_pstats_list mcat).map (fun pstats => G.get_mean pstats p))
      = Dbl.fin b)
    (hw : w ≠ 0) (hn : mcat.pstats.nitens / mcat.nchains ≠ 0)
    (hpos : 0 ≤ (((mcat.pstats.nitens / mcat.nchains : Nat) : α) - 1)
      / ((mcat.pstats.nitens / mcat.nchains : Nat) : α) + b / w) :
    ncm_mset_catalog_get_param_shrink_factor sqrt G mcat p
      = Dbl.fin (sqrt ((((mcat.pstats.nitens / mcat.nchains : Nat) : α) - 1)
          / ((mcat.pstats.nitens / mcat.nchains : Nat) : α) + b / w)) := by
  have hn0 : ((mcat.pstats.nitens / mcat.nchains : Nat) : α) ≠ 0 := Nat.cast_ne_zero.mpr hn
  unfold ncm_mset_catalog_get_param_shrink_factor
  simp only []
  rw [if_neg hm, hW, hB, Dbl.sub_fin, Dbl.mul_fin, one_mul, Dbl.div_fin _ _ hn0,
    Dbl.div_fin _ _ hw, Dbl.add_fin, Dbl.sqrt_fin _ _ hpos]

theorem exShrink_factor_value :
    ncm_mset_catalog_get_shrink_factor Real.sqrt (exGetters Real.sqrt) (exLinAlg Real.sqrt)
        exShrink
      = .ok (Dbl.fin (Real.sqrt ((4 - 1) / 4 + ((2 + 1) / 2) * 1))) := by
  · rw [shrink_factor_eq Real.sqrt (exGetters Real.sqrt) (exLinAlg Real.sqrt) exShrink
      [[Dbl.fin 2]] [[Dbl.fin 2]] (by rw [exShrink_counts.1]; decide) exShrink_W exShrink_cov rfl
      (by simp [exLinAlg]) (by simp [exLinAlg])]
    rw [exShrink_counts.1, exShrink_counts.2.1, exShrink_counts.2.2.1, exShrink_counts.2.2.2]
    have hr1 : List.range 1 = [0] := rfl
    have hlev : shrink_lev ((exLinAlg Real.sqrt).eigen_nonsymm ((exLinAlg Real.sqrt).dsymm
        ((exLinAlg Real.sqrt).cholesky_inverse
          ((exLinAlg Real.sqrt).cholesky_decomp [[Dbl.fin 2]]).2).2 [[Dbl.fin 2]])) (1 - 0)
        = Dbl.fin (1 : ℝ) := by
      have h2 : Real.sqrt 2 * Real.sqrt 2 = 2 := Real.mul_self_sqrt (by norm_num)
      have hv : (Real.sqrt 2)⁻¹ * (Real.sqrt 2)⁻¹ * 2 = 1 := by
        rw [← mul_inv, h2]
        norm_num
      simp [exLinAlg, shrink_lev, hr1, ncm_matrix_get, Dbl.GSL_MAX, Dbl.gt, Dbl.lt, Dbl.mul_fin, hv]
    rw [hlev]
    simp only [Dbl.sub_fin, Dbl.mul_fin, Dbl.add_fin, Nat.cast_ofNat]
    rw [Dbl.div_fin _ _ (by norm_num), Dbl.div_fin _ _ (by norm_num), Dbl.add_fin,
      Dbl.sqrt_fin _ _ (by norm_num)]
    norm_num

/-- C11 (the code at the failing input): for the catalog of two chains with the rows 0, 2
and 2, 4 the averaged within-chain variance and the variance of the chain means
are both 2, so that `lambda1 = 1`; the code returns
`sqrt ((4 - 1) / 4 + ((2 + 1) / 2) * 1)`, with the count 4 of all the rows, which
is not the `sqrt ((2 - 1) / 2 + ((2 + 1) / 2) * 1)` of the claim. -/
theorem shrink_factor_counts_all_rows :
    exShrink.nchains = 2 ∧ exShrink.pstats.nitens = 4 ∧
    ncm_mset_catalog_get_shrink_factor Real.sqrt (exGetters Real.sqrt) (exLinAlg Real.sqrt)
        exShrink
      = .ok (Dbl.fin (Real.sqrt ((4 - 1) / 4 + ((2 + 1) / 2) * 1))) ∧
    Real.sqrt ((4 - 1) / 4 + ((2 + 1) / 2) * 1) ≠ Real.sqrt ((2 - 1) / 2 + ((2 + 1) / 2) * 1) := by
  refine ⟨exShrink_counts.1, exShrink_counts.2.1, exShrink_factor_value, ?_⟩
  rw [Ne, Real.sqrt_inj (by norm_num) (by norm_num)]
  norm_num

theorem exShrink_param_W :
    gsl_stats_mean ((chain_pstats_list exShrink).map
      (fun pstats => (exGetters Real.sqrt).get_var pstats 0)) = Dbl.fin 2 := by
  rw [exShrink_vars]
  simp [gsl_stats_mean, Dbl.add_fin, Dbl.div_fin_eq]

theorem exShrink_param_B :
    gsl_stats_variance ((chain_pstats_list exShrink).map
      (fun pstats => (exGetters Real.sqrt).get_mean pstats 0)) = Dbl.fin 2 := by
  rw [exShrink_means]
  simp [gsl_stats_variance, gsl_stats_mean, Dbl.add_fin, Dbl.sub_fin, Dbl.mul_fin, Dbl.div_fin_eq]
  norm_num

theorem exShrink_param_value :
    ncm_mset_catalog_get_param_shrink_factor Real.sqrt (exGetters Real.sqrt) exShrink 0
      = Dbl.fin (Real.sqrt (3 / 2)) := by
  rw [param_shrink_factor_eq Real.sqrt (exGetters Real.sqrt) exShrink 0 2 2
    (by rw [exShrink_counts.1]; decide) exShrink_param_W exShrink_param_B (by norm_num)
    (by rw [exShrink_counts.1, exShrink_counts.2.1]; decide)
    (by rw [exShrink_counts.1, exShrink_counts.2.1]; norm_num)]
  rw [exShrink_counts.1, exShrink_counts.2.1]
  norm_num

/-- C13 (counterexample): for the catalog of two chains with the rows 0, 2 and
2, 4, where `n = 2`, `m = 2`, `W = 2` and `B / n = 2`, the code does not return
`sqrt ((n - 1) / n + ((m + 1) / m) * (B / n) / W)`, and on this catalog of a single
coordinate it does not return the value of `ncm_mset_catalog_get_shrink_factor`
either. -/
theorem param_shrink_factor_counterexample :
    exShrink.nchains = 2 ∧ exShrink.pstats.nitens = 4 ∧
    gsl_stats_mean ((chain_pstats_list exShrink).map
      (fun pstats => (exGetters Real.sqrt).get_var pstats 0)) = Dbl.fin 2 ∧
    gsl_stats_variance ((chain_pstats_list exShrink).map
      (fun pstats => (exGetters Real.sqrt).get_mean pstats 0)) = Dbl.fin 2 ∧
    ncm_mset_catalog_get_param_shrink_factor Real.sqrt (exGetters Real.sqrt) exShrink 0
      ≠ Dbl.fin (Real.sqrt ((2 - 1) / 2 + ((2 + 1) / 2) * (2 / 2))) ∧
    ncm_mset_catalog_get_shrink_factor Real.sqrt (exGetters Real.sqrt) (exLinAlg Real.sqrt)
        exShrink
      ≠ .ok (ncm_mset_catalog_get_param_shrink_factor Real.sqrt (exGetters Real.sqrt)
          exShrink 0) := by
  refine ⟨exShrink_counts.1, exShrink_counts.2.1, exShrink_param_W, exShrink_param_B, ?_, ?_⟩
  · rw [exShrink_param_value]
    intro h
    have h1 := Dbl.fin.inj h
    rw [Real.sqrt_inj (by norm_num) (by norm_num)] at h1
    norm_num at h1
  · rw [exShrink_param_value, exShrink_factor_value]
    intro h
    have h1 := Dbl.fin.inj (Except.ok.inj h)
    rw [Real.sqrt_inj (by norm_num) (by norm_num)] at h1
    norm_num at h1

/-- C13 (amended): for `nchains > 1` the shrink factor of coordinate `p` is
`sqrt ((n - 1) / n + (B / n) / W)`, where `n` is the count of the rows over the
number of chains, `W` (finite and not zero) is the mean over the chains of the
variance of coordinate `p` and `B / n` (finite) is the sample variance of the
chain means; `n` is not zero and the sum under the root is not negative. -/
theorem param_shrink_factor_univariate (sqrt : α → α) (G : NcmStatsVecGetters α)
    (mcat : NcmMSetCatalog) (p : Nat) (w b : α) (hm : 1 < mcat.nchains)
    (hW : gsl_stats_mean ((chain_pstats_list mcat).map (fun pstats => G.get_var pstats p))
      = Dbl.fin w)
    (hB : gsl_stats_variance ((chain_pstats_list mcat).map (fun pstats => G.get_mean pstats p))
      = Dbl.fin b)
    (hw : w ≠ 0) (hn : mcat.pstats.nitens / mcat.nchains ≠ 0)
    (hpos : 0 ≤ (((mcat.pstats.nitens / mcat.nchains : Nat) : α) - 1)
      / ((mcat.pstats.nitens / mcat.nchains : Nat) : α) + b / w) :
    ncm_mset_catalog_get_param_shrink_factor sqrt G mcat p
      = Dbl.fin (sqrt ((((mcat.pstats.nitens / mcat.nchains : Nat) : α) - 1)
          / ((mcat.pstats.nitens / mcat.nchains : Nat) : α) + b / w)) :=
  param_shrink_factor_eq sqrt G mcat p w b (by omega) hW hB hw hn hpos

/-- C13 (amended) on the catalog of two chains with the rows 0, 2 and 2, 4. -/
theorem param_shrink_factor_univariate_witness :
    1 < exShrink.nchains ∧ exShrink.pstats.nitens / exShrink.nchains = 2 ∧
    ncm_mset_catalog_get_param_shrink_factor Real.sqrt (exGetters Real.sqrt) exShrink 0
      = Dbl.fin (Real.sqrt ((((exShrink.pstats.nitens / exShrink.nchains : Nat) : ℝ) - 1)
          / ((exShrink.pstats.nitens / exShrink.nchains : Nat) : ℝ) + 2 / 2)) :=
  ⟨by decide, by decide,
    param_shrink_factor_univariate Real.sqrt (exGetters Real.sqrt) exShrink 0 2 2 (by decide)
      exShrink_param_W exShrink_param_B (by norm_num)
      (by rw [exShrink_counts.1, exShrink_counts.2.1]; decide)
      (by rw [exShrink_counts.1, exShrink_counts.2.1]; norm_num)⟩

/-- C12: for a catalog with `nchains = 1`, whatever its rows,
`ncm_mset_catalog_get_shrink_factor` returns exactly 1, and so does
`ncm_mset_catalog_get_param_shrink_factor` for every index. -/
theorem shrink_factor_single_chain (sqrt : α → α) (G : NcmStatsVecGetters α) (LA : NcmLinAlg α)
    (mcat : NcmMSetCatalog) (h : mcat.nchains = 1) :
    ncm_mset_catalog_get_shrink_factor sqrt G LA mcat = .ok (Dbl.fin 1) ∧
    ∀ p, ncm_mset_catalog_get_param_shrink_factor sqrt G mcat p = Dbl.fin 1 := by
  constructor
  · unfold ncm_mset_catalog_get_shrink_factor
    simp only []
    rw [if_pos h]
  · intro p
    unfold ncm_mset_catalog_get_param_shrink_factor
    simp only []
    rw [if_pos h]

/-- C12 on a single chain with ten rows and on a single chain without rows. -/
theorem shrink_factor_single_chain_witness :
    exTenRows.nchains = 1 ∧ exTenRows.pstats.nitens = 10 ∧
    ncm_mset_catalog_get_shrink_factor Real.sqrt (exGetters Real.sqrt) (exLinAlg Real.sqrt)
        exTenRows = .ok (Dbl.fin 1) ∧
    ncm_mset_catalog_get_param_shrink_factor Real.sqrt (exGetters Real.sqrt) exTenRows 0
      = Dbl.fin 1 ∧
    ncm_mset_catalog_get_shrink_factor Real.sqrt (exGetters Real.sqrt) (exLinAlg Real.sqrt)
        (ncm_mset_catalog_new 1 0 1 false) = .ok (Dbl.fin 1) :=
  ⟨by decide, by decide,
    (shrink_factor_single_chain Real.sqrt (exGetters Real.sqrt) (exLinAlg Real.sqrt) exTenRows
      (by decide)).1,
    (shrink_factor_single_chain Real.sqrt (exGetters Real.sqrt) (exLinAlg Real.sqrt) exTenRows
      (by decide)).2 0,
    (shrink_factor_single_chain Real.sqrt (exGetters Real.sqrt) (exLinAlg Real.sqrt)
      (ncm_mset_catalog_new 1 0 1 false) (by decide)).1⟩

end Shrink

/-! ## The largest error -/

section LargestError

variable {α : Type} [LinearOrderedField α]

theorem Dbl.GSL_MAX_mem (a b : Dbl α) : Dbl.GSL_MAX a b = a ∨ Dbl.GSL_MAX a b = b := by
  unfold Dbl.GSL_MAX
  split
  · exact Or.inl rfl
  · exact Or.inr rfl

theorem Dbl.le_refl_of_ne_nan (a : Dbl α) (ha : a ≠ .nan) : a.le a = true := by
  cases a <;> simp [Dbl.le] at ha ⊢

theorem Dbl.le_trans_of_ne_nan (a b c : Dbl α) (hab : a.le b = true) (hbc : b.le c = true) :
    a.le c = true := by
  cases a <;> cases b <;> cases c <;> simp [Dbl.le] at hab hbc ⊢
  exact le_trans hab hbc

theorem Dbl.le_antisymm_of_le (a b : Dbl α) (hab : a.le b = true) (hba : b.le a = true) :
    a = b := by
  cases a <;> cases b <;> simp [Dbl.le] at hab hba ⊢
  exact le_antisymm hab hba

/-- The macro `GSL_MAX` on two doubles that are not NaN gives one that is not NaN
and bounds both. -/
theorem Dbl.GSL_MAX_bounds (a b : Dbl α) (ha : a ≠ .nan) (hb : b ≠ .nan) :
    Dbl.GSL_MAX a b ≠ .nan ∧ a.le (Dbl.GSL_MAX a b) = true ∧ b.le (Dbl.GSL_MAX a b) = true := by
  cases a <;> cases b <;> simp [Dbl.GSL_MAX, Dbl.gt, Dbl.lt, Dbl.le] at ha hb ⊢
  rename_i x y
  by_cases h : y < x
  · simp [h, Dbl.le, le_of_lt h]
  · simp [h, Dbl.le, not_lt.mp h]

/-- The loop `lerror = GSL_MAX (lerror, t)` over terms that are not NaN ends on a
bound of the start and of every term, which is the start or one of the terms. -/
theorem foldl_GSL_MAX_bounds (ts : List (Dbl α)) :
    ∀ a : Dbl α, a ≠ .nan → (∀ t ∈ ts, t ≠ .nan) →
      ts.foldl Dbl.GSL_MAX a ≠ .nan ∧ a.le (ts.foldl Dbl.GSL_MAX a) = true ∧
      (∀ t ∈ ts, t.le (ts.foldl Dbl.GSL_MAX a) = true) ∧
      (ts.foldl Dbl.GSL_MAX a = a ∨ ts.foldl Dbl.GSL_MAX a ∈ ts) := by
  induction ts with
  | nil =>
    intro a ha _
    exact ⟨ha, Dbl.le_refl_of_ne_nan a ha, by simp, Or.inl rfl⟩
  | cons t ts ih =>
    intro a ha hts
    have ht : t ≠ .nan := hts t (List.mem_cons_self _ _)
    obtain ⟨m1, m2, m3⟩ := Dbl.GSL_MAX_bounds a t ha ht
    obtain ⟨k1, k2, k3, k4⟩ := ih (Dbl.GSL_MAX a t) m1
      (fun u hu => hts u (List.mem_cons_of_mem _ hu))
    simp only [List.foldl_cons]
    refine ⟨k1, Dbl.le_trans_of_ne_nan _ _ _ m2 k2, ?_, ?_⟩
    · intro u hu
      rcases List.mem_cons.mp hu with h | h
      · rw [h]; exact Dbl.le_trans_of_ne_nan _ _ _ m3 k2
      · exact k3 u h
    · rcases k4 with h | h
      · rcases Dbl.GSL_MAX_mem a t with g | g
        · exact Or.inl (by rw [h, g])
        · exact Or.inr (by rw [h, g]; exact List.mem_cons_self _ _)
      · exact Or.inr (List.mem_cons_of_mem _ h)

/-- The loop `lerror = GSL_MAX (lerror, t)` ends on its start or on one of the
terms, whatever they are. -/
theorem foldl_GSL_MAX_mem (ts : List (Dbl α)) :
    ∀ a : Dbl α, ts.foldl Dbl.GSL_MAX a = a ∨ ts.foldl Dbl.GSL_MAX a ∈ ts := by
  induction ts with
  | nil => intro a; exact Or.inl rfl
  | cons t ts ih =>
    intro a
    simp only [List.foldl_cons]
    rcases ih (Dbl.GSL_MAX a t) with h | h
    · rcases Dbl.GSL_MAX_mem a t with g | g
      · exact Or.inl (by rw [h, g])
      · exact Or.inr (by rw [h, g]; exact List.mem_cons_self _ _)
    · exact Or.inr (List.mem_cons_of_mem _ h)

/-- An absolute value times a square root is NaN or not negative, for a square
root function that is not negative. -/
theorem fabs_mul_sqrt_sign (sqrt : α → α) (hsqrt : ∀ x, 0 ≤ x → 0 ≤ sqrt x) (x y : Dbl α) :
    Dbl.fabs x * Dbl.sqrt sqrt y = .nan ∨ (Dbl.fin 0).le (Dbl.fabs x * Dbl.sqrt sqrt y) = true := by
  have hs : Dbl.sqrt sqrt y = .nan ∨ Dbl.sqrt sqrt y = .pinf
      ∨ ∃ s, 0 ≤ s ∧ Dbl.sqrt sqrt y = .fin s := by
    cases y with
    | nan => exact Or.inl rfl
    | ninf => exact Or.inl rfl
    | pinf => exact Or.inr (Or.inl rfl)
    | fin v =>
      by_cases hv : v < 0
      · exact Or.inl (by simp [Dbl.sqrt, hv])
      · exact Or.inr (Or.inr ⟨sqrt v, hsqrt v (not_lt.mp hv), by simp [Dbl.sqrt, hv]⟩)
  have hf : Dbl.fabs x = .nan ∨ Dbl.fabs x = .pinf ∨ ∃ a, 0 ≤ a ∧ Dbl.fabs x = .fin a := by
    cases x with
    | nan => exact Or.inl rfl
    | ninf => exact Or.inr (Or.inl rfl)
    | pinf => exact Or.inr (Or.inl rfl)
    | fin v => exact Or.inr (Or.inr ⟨_, abs_nonneg v, rfl⟩)
  have hinf : ∀ s : α, 0 ≤ s →
      (Dbl.inf_mul true s = .nan ∨ (Dbl.fin (0 : α)).le (Dbl.inf_mul true s) = true) := by
    intro s hs0
    unfold Dbl.inf_mul
    by_cases h0 : s = 0
    · exact Or.inl (by simp [h0])
    · have hpos : 0 < s := lt_of_le_of_ne hs0 (Ne.symm h0)
      exact Or.inr (by simp [h0, hpos, Dbl.le])
  rcases hf with hf | hf | ⟨a, ha, hf⟩ <;> rcases hs with hs | hs | ⟨s, hs0, hs⟩ <;> rw [hf, hs]
  · exact Or.inl rfl
  · exact Or.inl rfl
  · exact Or.inl rfl
  · exact Or.inl rfl
  · exact Or.inr rfl
  · exact hinf s hs0
  · exact Or.inl rfl
  · exact hinf a ha
  · exact Or.inr (by
      show (Dbl.fin (0 : α)).le (Dbl.fin (a * s)) = true
      simp [Dbl.le, mul_nonneg ha hs0])

theorem foldl_congr_mem {β γ : Type} (f g : β → γ → β) (l : List γ) :
    ∀ a : β, (∀ i ∈ l, ∀ b, f b i = g b i) → l.foldl f a = l.foldl g a := by
  induction l with
  | nil => intro a _; rfl
  | cons x xs ih =>
    intro a h
    simp only [List.foldl_cons]
    rw [h x (List.mem_cons_self _ _) a]
    exact ih _ (fun i hi b => h i (List.mem_cons_of_mem _ hi) b)

/-- The term that column `i` brings to the maximum when nothing is replaced: the
relative error times the square root of the autocorrelation time. -/
theorem largest_error_step_small_eq (sqrt : α → α) (G : NcmStatsVecGetters α)
    (mcat : NcmMSetCatalog) (tau : List (Dbl α)) (l : Dbl α) (i : Nat) :
    largest_error_step_small sqrt G mcat tau l i
      = Dbl.GSL_MAX l (largest_error_rel sqrt G mcat i
          * Dbl.sqrt sqrt (tau.getD (i - mcat.nadd_vals) .nan)) := rfl

theorem largest_error_step_eq [FloorRing α] (sqrt : α → α) (G : NcmStatsVecGetters α)
    (mcat : NcmMSetCatalog) (tau : List (Dbl α)) (l : Dbl α) (i : Nat) :
    largest_error_step sqrt G mcat tau l i
      = Dbl.GSL_MAX l ((if Dbl.to_guint (largest_error_rel sqrt G mcat i) = some 1 then
            Dbl.fabs (G.get_sd mcat.pstats i / Dbl.sqrt sqrt (G.get_weight mcat.pstats))
          else largest_error_rel sqrt G mcat i)
          * Dbl.sqrt sqrt (tau.getD (i - mcat.nadd_vals) .nan)) := rfl

/-- When no relative error truncates to 1 the two branches of
`ncm_mset_catalog_largest_error` run the same loop. -/
theorem largest_error_eq_fold [FloorRing α] (sqrt : α → α) (G : NcmStatsVecGetters α)
    (mcat : NcmMSetCatalog) (tau : List (Dbl α))
    (htrunc : ∀ i ∈ List.range' mcat.nadd_vals mcat.fparams_len,
      Dbl.to_guint (largest_error_rel sqrt G mcat i) ≠ some 1) :
    ncm_mset_catalog_largest_error sqrt G mcat tau
      = ((List.range' mcat.nadd_vals mcat.fparams_len).map (fun i =>
          largest_error_rel sqrt G mcat i
            * Dbl.sqrt sqrt (tau.getD (i - mcat.nadd_vals) .nan))).foldl Dbl.GSL_MAX (.fin 0) := by
  have hsmall : (List.range' mcat.nadd_vals mcat.fparams_len).foldl
      (largest_error_step_small sqrt G mcat tau) (.fin 0)
      = ((List.range' mcat.nadd_vals mcat.fparams_len).map (fun i =>
          largest_error_rel sqrt G mcat i
            * Dbl.sqrt sqrt (tau.getD (i - mcat.nadd_vals) .nan))).foldl Dbl.GSL_MAX (.fin 0) := by
    rw [List.foldl_map]
    rfl
  unfold ncm_mset_catalog_largest_error
  simp only []
  split
  · exact hsmall
  · rw [← hsmall]
    apply foldl_congr_mem
    intro i hi b
    rw [largest_error_step_eq, largest_error_step_small_eq, if_neg (htrunc i hi)]

theorem Dbl.not_lt_zero_of_sign (t : Dbl α)
    (h : t = .nan ∨ (Dbl.fin 0).le t = true) : t.lt (.fin 0) = false := by
  cases t <;> simp [Dbl.le, Dbl.lt] at h ⊢
  exact h

theorem largest_error_rel_congr (sqrt : α → α) (G G1 : NcmStatsVecGetters α)
    (mcat : NcmMSetCatalog) (i : Nat)
    (hw : G1.get_weight mcat.pstats = G.get_weight mcat.pstats)
    (hmu : G1.get_mean mcat.pstats i = G.get_mean mcat.pstats i)
    (hsd : G1.get_sd mcat.pstats i = G.get_sd mcat.pstats i) :
    largest_error_rel sqrt G1 mcat i = largest_error_rel sqrt G mcat i := by
  unfold largest_error_rel
  simp only [hw, hmu, hsd]

/-- The result of `ncm_mset_catalog_largest_error` is not negative. -/
theorem largest_error_not_negative [FloorRing α] (sqrt : α → α) (G : NcmStatsVecGetters α)
    (mcat : NcmMSetCatalog) (tau : List (Dbl α)) (hsqrt : ∀ x, 0 ≤ x → 0 ≤ sqrt x) :
    (ncm_mset_catalog_largest_error sqrt G mcat tau).lt (.fin 0) = false := by
  have key : ∀ (term : Nat → Dbl α),
      (∀ i, term i = .nan ∨ (Dbl.fin 0).le (term i) = true) →
      (((List.range' mcat.nadd_vals mcat.fparams_len).map term).foldl Dbl.GSL_MAX
        (.fin 0)).lt (.fin 0) = false := by
    intro term hterm
    rcases foldl_GSL_MAX_mem ((List.range' mcat.nadd_vals mcat.fparams_len).map term) (.fin 0)
      with h | h
    · rw [h]; simp [Dbl.lt]
    · obtain ⟨i, _, hi⟩ := List.mem_map.mp h
      rw [← hi]
      exact Dbl.not_lt_zero_of_sign _ (hterm i)
  unfold ncm_mset_catalog_largest_error
  simp only []
  split
  · have h := key (fun i => largest_error_rel sqrt G mcat i
        * Dbl.sqrt sqrt (tau.getD (i - mcat.nadd_vals) .nan))
      (fun i => fabs_mul_sqrt_sign sqrt hsqrt _ _)
    rw [List.foldl_map] at h
    exact h
  · have h := key (fun i => (if Dbl.to_guint (largest_error_rel sqrt G mcat i) = some 1 then
            Dbl.fabs (G.get_sd mcat.pstats i / Dbl.sqrt sqrt (G.get_weight mcat.pstats))
          else largest_error_rel sqrt G mcat i)
          * Dbl.sqrt sqrt (tau.getD (i - mcat.nadd_vals) .nan))
      (fun i => by
        by_cases hc : Dbl.to_guint (largest_error_rel sqrt G mcat i) = some 1
        · beta_reduce
          rw [if_pos hc]
          exact fabs_mul_sqrt_sign sqrt hsqrt _ _
        · beta_reduce
          rw [if_neg hc]
          exact fabs_mul_sqrt_sign sqrt hsqrt _ _)
    rw [List.foldl_map] at h
    exact h

/-- The result of `ncm_mset_catalog_largest_error` reads the accumulator through
its weight and through the mean and the standard deviation of the columns of the
free parameters only. -/
theorem largest_error_free_columns [FloorRing α] (sqrt : α → α) (G G1 : NcmStatsVecGetters α)
    (mcat : NcmMSetCatalog) (tau : List (Dbl α))
    (hw : G1.get_weight mcat.pstats = G.get_weight mcat.pstats)
    (hcol : ∀ i ∈ List.range' mcat.nadd_vals mcat.fparams_len,
      G1.get_mean mcat.pstats i = G.get_mean mcat.pstats i ∧
      G1.get_sd mcat.pstats i = G.get_sd mcat.pstats i) :
    ncm_mset_catalog_largest_error sqrt G1 mcat tau
      = ncm_mset_catalog_largest_error sqrt G mcat tau := by
  unfold ncm_mset_catalog_largest_error
  simp only [hw]
  split
  · apply foldl_congr_mem
    intro i hi b
    rw [largest_error_step_small_eq, largest_error_step_small_eq,
      largest_error_rel_congr sqrt G G1 mcat i hw (hcol i hi).1 (hcol i hi).2]
  · apply foldl_congr_mem
    intro i hi b
    rw [largest_error_step_eq, largest_error_step_eq,
      largest_error_rel_congr sqrt G G1 mcat i hw (hcol i hi).1 (hcol i hi).2, hw,
      (hcol i hi).2]

/-- The relative error of a column with finite statistics. -/
theorem largest_error_rel_fin (sqrt : α → α) (G : NcmStatsVecGetters α) (mcat : NcmMSetCatalog)
    (i : Nat) (n mu s : α) (hn : G.get_weight mcat.pstats = .fin n) (hn0 : 0 ≤ n)
    (hs : sqrt n ≠ 0) (hmu : G.get_mean mcat.pstats i = .fin mu) (hmu0 : mu ≠ 0)
    (hsd : G.get_sd mcat.pstats i = .fin s) :
    largest_error_rel sqrt G mcat i = .fin (abs (s / (mu * sqrt n))) := by
  unfold largest_error_rel
  simp only [hn, hmu, hsd]
  rw [Dbl.sqrt_fin _ _ hn0, Dbl.mul_fin, Dbl.div_fin _ _ (mul_ne_zero hmu0 hs)]
  rfl

/-- C14: `ncm_mset_catalog_largest_error` reads the statistics of the columns of
the free parameters only (from `nadd_vals` on), and its result is never
negative.  When no relative error `|sd / (mean * sqrt (n))|` of a free parameter
truncates to 1 and every term `|sd / (mean * sqrt (n))| * sqrt (tau)` is a number,
the result is the maximum of these terms: it bounds every term, it is one of
them when there are free parameters, and it is 0 when there are none.  For finite
statistics with a weight `n > 0` and a mean that is not zero the term is the
finite value of that formula. -/
theorem largest_error_is_maximum [FloorRing α] (sqrt : α → α) (G : NcmStatsVecGetters α)
    (mcat : NcmMSetCatalog) (tau : List (Dbl α)) (hsqrt : ∀ x, 0 ≤ x → 0 ≤ sqrt x) :
    (ncm_mset_catalog_largest_error sqrt G mcat tau).lt (.fin 0) = false ∧
    (∀ G1 : NcmStatsVecGetters α, G1.get_weight mcat.pstats = G.get_weight mcat.pstats →
      (∀ i ∈ List.range' mcat.nadd_vals mcat.fparams_len,
        G1.get_mean mcat.pstats i = G.get_mean mcat.pstats i ∧
        G1.get_sd mcat.pstats i = G.get_sd mcat.pstats i) →
      ncm_mset_catalog_largest_error sqrt G1 mcat tau
        = ncm_mset_catalog_largest_error sqrt G mcat tau) ∧
    ((∀ i ∈ List.range' mcat.nadd_vals mcat.fparams_len,
        Dbl.to_guint (largest_error_rel sqrt G mcat i) ≠ some 1) →
      (∀ i ∈ List.range' mcat.nadd_vals mcat.fparams_len,
        largest_error_rel sqrt G mcat i * Dbl.sqrt sqrt (tau.getD (i - mcat.nadd_vals) .nan)
          ≠ .nan) →
      (∀ i ∈ List.range' mcat.nadd_vals mcat.fparams_len,
        (largest_error_rel sqrt G mcat i
          * Dbl.sqrt sqrt (tau.getD (i - mcat.nadd_vals) .nan)).le
            (ncm_mset_catalog_largest_error sqrt G mcat tau) = true) ∧
      (0 < mcat.fparams_len → ∃ i ∈ List.range' mcat.nadd_vals mcat.fparams_len,
        ncm_mset_catalog_largest_error sqrt G mcat tau
          = largest_error_rel sqrt G mcat i
            * Dbl.sqrt sqrt (tau.getD (i - mcat.nadd_vals) .nan)) ∧
      (mcat.fparams_len = 0 → ncm_mset_catalog_largest_error sqrt G mcat tau = .fin 0)) ∧
    (∀ (i : Nat) (n mu s t : α), G.get_weight mcat.pstats = .fin n → 0 < n → sqrt n ≠ 0 →
      G.get_mean mcat.pstats i = .fin mu → mu ≠ 0 → G.get_sd mcat.pstats i = .fin s →
      tau.getD (i - mcat.nadd_vals) .nan = .fin t → 0 ≤ t →
      largest_error_rel sqrt G mcat i * Dbl.sqrt sqrt (tau.getD (i - mcat.nadd_vals) .nan)
        = .fin (abs (s / (mu * sqrt n)) * sqrt t)) := by
  refine ⟨largest_error_not_negative sqrt G mcat tau hsqrt,
    fun G1 hw hcol => largest_error_free_columns sqrt G G1 mcat tau hw hcol, ?_, ?_⟩
  · intro htrunc hnan
    rw [largest_error_eq_fold sqrt G mcat tau htrunc]
    obtain ⟨_, _, k3, k4⟩ := foldl_GSL_MAX_bounds
      ((List.range' mcat.nadd_vals mcat.fparams_len).map (fun i =>
        largest_error_rel sqrt G mcat i * Dbl.sqrt sqrt (tau.getD (i - mcat.nadd_vals) .nan)))
      (.fin 0) (by simp)
      (fun t ht => by
        obtain ⟨i, hi, hit⟩ := List.mem_map.mp ht
        rw [← hit]; exact hnan i hi)
    refine ⟨fun i hi => k3 _ (List.mem_map.mpr ⟨i, hi, rfl⟩), fun hpos => ?_, fun h0 => ?_⟩
    · rcases k4 with h | h
      · have hmem : mcat.nadd_vals ∈ List.range' mcat.nadd_vals mcat.fparams_len :=
          List.mem_range'_1.mpr ⟨le_refl _, by omega⟩
        refine ⟨mcat.nadd_vals, hmem, ?_⟩
        have hle := k3 _ (List.mem_map.mpr ⟨mcat.nadd_vals, hmem, rfl⟩)
        rw [h] at hle ⊢
        have hsign := fabs_mul_sqrt_sign sqrt hsqrt
          (G.get_sd mcat.pstats mcat.nadd_vals
            / (G.get_mean mcat.pstats mcat.nadd_vals
              * Dbl.sqrt sqrt (G.get_weight mcat.pstats)))
          (tau.getD (mcat.nadd_vals - mcat.nadd_vals) .nan)
        rcases hsign with hs | hs
        · exact absurd hs (hnan _ hmem)
        · exact Dbl.le_antisymm_of_le _ _ hs hle
      · obtain ⟨i, hi, hit⟩ := List.mem_map.mp h
        exact ⟨i, hi, hit.symm⟩
    · rw [h0]
      rfl
  · intro i n mu s t hn hn0 hs hmu hmu0 hsd ht ht0
    rw [largest_error_rel_fin sqrt G mcat i n mu s hn (le_of_lt hn0) hs hmu hmu0 hsd, ht,
      Dbl.sqrt_fin _ _ ht0, Dbl.mul_fin]

end LargestError

/-! ## The largest error on the example catalogs -/

section LargestErrorExamples

theorem exShrink_pstats : exShrink.pstats =
    { save_x := true, x := [.fin 4], saved_x := [[.fin 0], [.fin 2], [.fin 2], [.fin 4]],
      wts := [.fin 1, .fin 1, .fin 1, .fin 1],
      absorbed := [[.fin 0], [.fin 2], [.fin 2], [.fin 4]] } ∧
    exShrink.nadd_vals = 0 ∧ exShrink.fparams_len = 1 := by
  decide

theorem exTenRows_pstats : exTenRows.pstats =
    { save_x := true, x := [.fin (-7)],
      saved_x := [[.fin 11], [.fin (-7)], [.fin 11], [.fin (-7)], [.fin 11], [.fin (-7)],
        [.fin 11], [.fin (-7)], [.fin 11], [.fin (-7)]],
      wts := [.fin 1, .fin 1, .fin 1, .fin 1, .fin 1, .fin 1, .fin 1, .fin 1, .fin 1, .fin 1],
      absorbed := [[.fin 11], [.fin (-7)], [.fin 11], [.fin (-7)], [.fin 11], [.fin (-7)],
        [.fin 11], [.fin (-7)], [.fin 11], [.fin (-7)]] } ∧
    exTenRows.nadd_vals = 0 ∧ exTenRows.fparams_len = 1 := by
  decide

theorem exShrink_stats :
    (exGetters Real.sqrt).get_weight exShrink.pstats = Dbl.fin 4 ∧
    (exGetters Real.sqrt).get_mean exShrink.pstats 0 = Dbl.fin 2 ∧
    (exGetters Real.sqrt).get_sd exShrink.pstats 0 = Dbl.fin (Real.sqrt (8 / 3)) := by
  rw [exShrink_pstats.1]
  refine ⟨?_, ?_, ?_⟩
  · simp [exGetters, NcmStatsVec.nitens]
  · simp [exGetters, gsl_stats_mean, stats_column, Dbl.ofGDouble, Dbl.add_fin, Dbl.div_fin_eq]
    norm_num
  · have hv : gsl_stats_variance (stats_column
        ({ save_x := true, x := [.fin 4], saved_x := [[.fin 0], [.fin 2], [.fin 2], [.fin 4]],
           wts := [.fin 1, .fin 1, .fin 1, .fin 1],
           absorbed := [[.fin 0], [.fin 2], [.fin 2], [.fin 4]] } : NcmStatsVec) 0)
        = Dbl.fin ((8 : ℝ) / 3) := by
      simp [gsl_stats_variance, gsl_stats_mean, stats_column, Dbl.ofGDouble, Dbl.add_fin,
        Dbl.sub_fin, Dbl.mul_fin, Dbl.div_fin_eq]
      norm_num
    show Dbl.sqrt Real.sqrt (gsl_stats_variance _) = _
    rw [hv, Dbl.sqrt_fin _ _ (by norm_num)]

theorem exTenRows_stats :
    (exGetters Real.sqrt).get_weight exTenRows.pstats = Dbl.fin 10 ∧
    (exGetters Real.sqrt).get_mean exTenRows.pstats 0 = Dbl.fin 2 ∧
    (exGetters Real.sqrt).get_sd exTenRows.pstats 0 = Dbl.fin (Real.sqrt 90) := by
  rw [exTenRows_pstats.1]
  refine ⟨?_, ?_, ?_⟩
  · simp [exGetters, NcmStatsVec.nitens]
  · simp [exGetters, gsl_stats_mean, stats_column, Dbl.ofGDouble, Dbl.add_fin, Dbl.div_fin_eq]
    norm_num
  · have hv : gsl_stats_variance (stats_column
        ({ save_x := true, x := [.fin (-7)],
           saved_x := [[.fin 11], [.fin (-7)], [.fin 11], [.fin (-7)], [.fin 11], [.fin (-7)],
             [.fin 11], [.fin (-7)], [.fin 11], [.fin (-7)]],
           wts := [.fin 1, .fin 1, .fin 1, .fin 1, .fin 1, .fin 1, .fin 1, .fin 1, .fin 1,
             .fin 1],
           absorbed := [[.fin 11], [.fin (-7)], [.fin 11], [.fin (-7)], [.fin 11], [.fin (-7)],
             [.fin 11], [.fin (-7)], [.fin 11], [.fin (-7)]] } : NcmStatsVec) 0)
        = Dbl.fin (90 : ℝ) := by
      simp [gsl_stats_variance, gsl_stats_mean, stats_column, Dbl.ofGDouble, Dbl.add_fin,
        Dbl.sub_fin, Dbl.mul_fin, Dbl.div_fin_eq]
      norm_num
    show Dbl.sqrt Real.sqrt (gsl_stats_variance _) = _
    rw [hv, Dbl.sqrt_fin _ _ (by norm_num)]

theorem Dbl.sqrt_one : Dbl.sqrt Real.sqrt (Dbl.fin (1 : ℝ)) = Dbl.fin 1 := by
  rw [Dbl.sqrt_fin _ _ (by norm_num), Real.sqrt_one]

theorem sqrt_ninety : Real.sqrt 90 = 3 * Real.sqrt 10 := by
  have h : (90 : ℝ) = 3 ^ 2 * 10 := by norm_num
  rw [h, Real.sqrt_mul (by norm_num), Real.sqrt_sq (by norm_num)]

theorem exShrink_rel :
    largest_error_rel Real.sqrt (exGetters Real.sqrt) exShrink 0
      = Dbl.fin (abs (Real.sqrt (8 / 3) / (2 * Real.sqrt 4))) :=
  largest_error_rel_fin Real.sqrt (exGetters Real.sqrt) exShrink 0 4 2 (Real.sqrt (8 / 3))
    exShrink_stats.1 (by norm_num) (by simp) exShrink_stats.2.1 (by norm_num) exShrink_stats.2.2

theorem exShrink_rel_lt_one : abs (Real.sqrt (8 / 3) / (2 * Real.sqrt 4)) < 1 := by
  have h4 : 0 < Real.sqrt 4 := Real.sqrt_pos.mpr (by norm_num)
  have h1 : Real.sqrt (8 / 3) ≤ Real.sqrt 4 := Real.sqrt_le_sqrt (by norm_num)
  rw [abs_of_nonneg (div_nonneg (Real.sqrt_nonneg _) (by linarith)), div_lt_one (by linarith)]
  linarith

theorem exTenRows_rel :
    largest_error_rel Real.sqrt (exGetters Real.sqrt) exTenRows 0 = Dbl.fin (3 / 2) := by
  rw [largest_error_rel_fin Real.sqrt (exGetters Real.sqrt) exTenRows 0 10 2 (Real.sqrt 90)
    exTenRows_stats.1 (by norm_num) (by simp) exTenRows_stats.2.1 (by norm_num)
    exTenRows_stats.2.2]
  have h10 : 0 < Real.sqrt 10 := Real.sqrt_pos.mpr (by norm_num)
  have hq : Real.sqrt 90 / (2 * Real.sqrt 10) = 3 / 2 := by
    rw [sqrt_ninety]
    field_simp
    ring
  rw [hq, abs_of_nonneg (by norm_num)]

/-- C14 on the catalog of four rows with the autocorrelation time 1: the relative
error of its free parameter is below 1, and the result is the term of that
parameter. -/
theorem largest_error_is_maximum_witness :
    ∃ i ∈ List.range' exShrink.nadd_vals exShrink.fparams_len,
      ncm_mset_catalog_largest_error Real.sqrt (exGetters Real.sqrt) exShrink [Dbl.fin 1]
        = largest_error_rel Real.sqrt (exGetters Real.sqrt) exShrink i
          * Dbl.sqrt Real.sqrt (([Dbl.fin 1] : List (Dbl ℝ)).getD (i - exShrink.nadd_vals) .nan) := by
  have hrange : List.range' exShrink.nadd_vals exShrink.fparams_len = [0] := by
    rw [exShrink_pstats.2.1, exShrink_pstats.2.2]
    rfl
  refine ((largest_error_is_maximum Real.sqrt (exGetters Real.sqrt) exShrink [Dbl.fin 1]
    (fun x _ => Real.sqrt_nonneg x)).2.2.1 ?_ ?_).2.1 (by rw [exShrink_pstats.2.2]; decide)
  · intro i hi
    rw [hrange] at hi
    rw [List.mem_singleton.mp hi, exShrink_rel]
    simp only [Dbl.to_guint]
    split
    · rw [Nat.floor_eq_zero.mpr exShrink_rel_lt_one]
      decide
    · exact fun h => Option.noConfusion h
  · intro i hi
    rw [hrange] at hi
    rw [List.mem_singleton.mp hi, exShrink_rel, exShrink_pstats.2.1]
    simp [Dbl.sqrt_one, Dbl.mul_fin]

/-- C15 (the code at the failing input): the catalog of one chain with the ten rows 11 and
-7, five times each, and the autocorrelation time 1.  The weight is exactly 10 and
the relative error of the free parameter is `3 / 2`, which truncates to 1; the
code replaces it by `|sd / sqrt (n)| = 3` and returns 3, where the claim, which
replaces for `n > 10` only, has the relative error `3 / 2` returned. -/
theorem largest_error_replaces_at_ten :
    (exGetters Real.sqrt).get_weight exTenRows.pstats = Dbl.fin 10 ∧
    largest_error_rel Real.sqrt (exGetters Real.sqrt) exTenRows 0 = Dbl.fin (3 / 2) ∧
    Dbl.to_guint (Dbl.fin (3 / 2 : ℝ)) = some 1 ∧
    ncm_mset_catalog_largest_error Real.sqrt (exGetters Real.sqrt) exTenRows [Dbl.fin 1]
      = Dbl.fin 3 ∧
    largest_error_rel Real.sqrt (exGetters Real.sqrt) exTenRows 0
        * Dbl.sqrt Real.sqrt (Dbl.fin 1) = Dbl.fin (3 / 2) := by
  have htr : Dbl.to_guint (Dbl.fin (3 / 2 : ℝ)) = some 1 := by
    simp only [Dbl.to_guint]
    rw [if_pos (by norm_num)]
    congr 1
    rw [Nat.floor_eq_iff (by norm_num)]
    norm_num
  refine ⟨exTenRows_stats.1, exTenRows_rel, htr, ?_, ?_⟩
  · unfold ncm_mset_catalog_largest_error
    simp only []
    rw [exTenRows_stats.1, exTenRows_pstats.2.1, exTenRows_pstats.2.2]
    have hlt : (Dbl.fin (10 : ℝ)).lt (Dbl.fin 10) = false := by simp [Dbl.lt]
    rw [hlt]
    have hrange : List.range' 0 1 = [0] := rfl
    simp only [hrange, List.foldl_cons, List.foldl_nil, Bool.false_eq_true, if_false]
    rw [largest_error_step_eq, exTenRows_rel, htr, if_pos rfl, exTenRows_stats.1,
      exTenRows_stats.2.2, exTenRows_pstats.2.1]
    have h10 : 0 < Real.sqrt 10 := Real.sqrt_pos.mpr (by norm_num)
    have hq : Real.sqrt 90 / Real.sqrt 10 = 3 := by
      rw [sqrt_ninety]
      field_simp
    rw [Dbl.sqrt_fin _ _ (by norm_num), Dbl.div_fin _ _ (ne_of_gt h10), hq]
    simp [Dbl.fabs, Dbl.sqrt_one, Dbl.mul_fin, Dbl.GSL_MAX, Dbl.gt, Dbl.lt]
  · rw [exTenRows_rel]
    simp [Dbl.sqrt_one, Dbl.mul_fin]

end LargestErrorExamples

/-! ## Claim C30: the rows of the reachable states -/

theorem toGuint_of_pos (d : Int) (hd : 0 ≤ d) :
    ∃ q : Nat, d = (toGuint d : Int) + 4294967296 * (q : Int) := by
  refine ⟨(d / 4294967296).toNat, ?_⟩
  unfold toGuint
  have h1 : 0 ≤ d % 4294967296 := Int.emod_nonneg _ (by decide)
  have h2 : 0 ≤ d / 4294967296 := Int.ediv_nonneg hd (by decide)
  rw [Int.toNat_of_nonneg h1, Int.toNat_of_nonneg h2]
  have := Int.emod_add_ediv d 4294967296
  omega

theorem sync_first_counted (m m1 : NcmMSetCatalog) (t t1 : FitsTable)
    (h : sync_first m t = .ok (m1, t1)) (hc : RowsCounted m) : RowsCounted m1 := by
  obtain ⟨hsv, hw, k, hk⟩ := hc
  rcases lt_trichotomy m.file_first_id m.first_id with hlt | heq | hgt
  · rw [sync_first_eq_lt m t hlt] at h
    cases hr : sync_read_loop t 0 (toGuint (m.first_id - m.file_first_id)) 0 with
    | error e => simp [hr] at h
    | ok rows =>
      simp only [hr, Except.ok.injEq, Prod.mk.injEq] at h
      obtain ⟨h1, _⟩ := h
      subst h1
      have hl := sync_read_loop_ok _ _ _ _ _ hr
      obtain ⟨q, hq⟩ := toGuint_of_pos (m.first_id - m.file_first_id) (by omega)
      refine ⟨hsv, ?_, k + q, ?_⟩
      · simp [ncm_stats_vec_prepend_data, hw, hsv]
      · simp only [ncm_stats_vec_prepend_data, hsv, if_true, List.length_append, hl]
        push_cast
        omega
  · rw [sync_first_eq_same m t heq] at h
    simp only [Except.ok.injEq, Prod.mk.injEq] at h
    obtain ⟨h1, _⟩ := h
    subst h1
    exact ⟨hsv, hw, k, hk⟩
  · rw [sync_first_eq_gt m t hgt] at h
    cases hr : sync_write_loop m.pstats 0 (toGuint (m.file_first_id - m.first_id)) 0
        (fits_insert_rows_head t (toGuint (m.file_first_id - m.first_id))) with
    | error e => simp [hr] at h
    | ok t2 =>
      simp only [hr, Except.ok.injEq, Prod.mk.injEq] at h
      obtain ⟨h1, _⟩ := h
      subst h1
      exact ⟨hsv, hw, k, hk⟩

theorem sync_cur_counted (m m1 : NcmMSetCatalog) (t t1 : FitsTable)
    (h : sync_cur m t = .ok (m1, t1)) (hc : RowsCounted m) : RowsCounted m1 := by
  obtain ⟨hsv, hw, k, hk⟩ := hc
  rcases lt_trichotomy m.file_cur_id m.cur_id with hlt | heq | hgt
  · rw [sync_cur_eq_lt m t hlt] at h
    cases hr : sync_write_loop m.pstats (toGuint (m.file_cur_id + 1 - m.file_first_id))
        (toGuint (m.cur_id - m.file_cur_id)) 0 t with
    | error e => simp [hr] at h
    | ok t2 =>
      simp only [hr, Except.ok.injEq, Prod.mk.injEq] at h
      obtain ⟨h1, _⟩ := h
      subst h1
      exact ⟨hsv, hw, k, hk⟩
  · rw [sync_cur_eq_same m t heq] at h
    simp only [Except.ok.injEq, Prod.mk.injEq] at h
    obtain ⟨h1, _⟩ := h
    subst h1
    exact ⟨hsv, hw, k, hk⟩
  · rw [sync_cur_eq_gt m t hgt] at h
    cases hr : sync_read_loop t (toGuint (m.cur_id + 1 - m.first_id))
        (toGuint (m.file_cur_id - m.cur_id)) 0 with
    | error e => simp [hr] at h
    | ok rows =>
      simp only [hr, Except.ok.injEq, Prod.mk.injEq] at h
      obtain ⟨h1, _⟩ := h
      subst h1
      have hl := sync_read_loop_ok _ _ _ _ _ hr
      obtain ⟨q, hq⟩ := toGuint_of_pos (m.file_cur_id - m.cur_id) (by omega)
      refine ⟨hsv, ?_, k + q, ?_⟩
      · simp [ncm_stats_vec_append_data, hw, hsv]
      · simp only [ncm_stats_vec_append_data, hsv, if_true, List.length_append, hl]
        push_cast
        omega

/-- A synchronisation that completes keeps the rows of the accumulator counted. -/
theorem sync_counted (m m1 : NcmMSetCatalog) (check : Bool)
    (h : ncm_mset_catalog_sync m check = .ok m1) (hc : RowsCounted m) : RowsCounted m1 := by
  unfold ncm_mset_catalog_sync at h
  cases hfile : m.file with
  | none =>
    simp only [hfile] at h
    cases h
    exact hc
  | some file =>
    simp only [hfile] at h
    cases hf : m.fptr with
    | none => simp [hf] at h
    | some t =>
      simp only [hf] at h
      split at h
      · cases h
      · split at h
        · cases h
        · rename_i ma ta ha
          split at h
          · cases h
          · rename_i mb tb hb
            split at h
            · cases h
            · cases h
              have h1 := sync_first_counted _ _ _ _ ha hc
              have h2 := sync_cur_counted _ _ _ _ hb h1
              exact h2

theorem add_counted (m m1 : NcmMSetCatalog) (vals : NcmVector)
    (h : ncm_mset_catalog_add_from_vector m vals = .ok m1) (hc : RowsCounted m) :
    RowsCounted m1 := by
  obtain ⟨hsv, hw, k, hk⟩ := hc
  unfold ncm_mset_catalog_add_from_vector _ncm_mset_catalog_post_update at h
  refine sync_counted _ _ _ h ⟨?_, ?_, k, ?_⟩
  · simp only []
    split <;> simp [ncm_stats_vec_update, ncm_stats_vec_update_weight, hsv]
  · simp only []
    split <;> simp [ncm_stats_vec_update, ncm_stats_vec_update_weight, hw, hsv]
  · simp only []
    split <;>
      (simp only [ncm_stats_vec_update, ncm_stats_vec_update_weight, hsv, if_true,
        List.length_append, List.length_singleton]
       push_cast
       omega)

theorem reset_rows (m m1 : NcmMSetCatalog) (h : ncm_mset_catalog_reset m = .ok m1) :
    m1.pstats.saved_x = [] ∧ m1.pstats.wts = [] ∧ m1.pstats.save_x = m.pstats.save_x := by
  unfold ncm_mset_catalog_reset at h
  split at h
  · cases h
  · rename_i ma ha
    cases h
    rw [close_file_eq]
    have hp : ma.pstats = m.pstats := (erase_data_ok _ _ ha).2.2.2.2.2.2.2.2.2.2.1
    simp [ncm_stats_vec_reset, hp]

theorem reset_counted (m m1 : NcmMSetCatalog) (h : ncm_mset_catalog_reset m = .ok m1)
    (hc : RowsCounted m) : RowsCounted m1 := by
  obtain ⟨r1, r2, _⟩ := reset_ok _ _ h
  obtain ⟨p1, p2, p3⟩ := reset_rows _ _ h
  refine ⟨by rw [p3]; exact hc.1, by simp [p1, p2], 0, ?_⟩
  rw [p1, r1, r2]
  simp

theorem open_create_ids_pstats (m : NcmMSetCatalog) (t : FitsTable) :
    (open_create_ids m t).pstats = m.pstats := by
  simp only [open_create_ids]
  split
  · split
    · rfl
    · split <;> rfl
  · rfl

theorem open_create_file_pstats (m m1 : NcmMSetCatalog) (l : Bool) (file : String)
    (disk : Option FitsTable)
    (h : _ncm_mset_catalog_open_create_file m l file disk = .ok m1) :
    m1.pstats = m.pstats := by
  unfold _ncm_mset_catalog_open_create_file at h
  cases disk with
  | none =>
    simp only at h
    cases h
    rfl
  | some t =>
    simp only at h
    split at h
    · cases h
    · rename_i ma ha
      cases h
      obtain ⟨_, _, _, _, _, _, a7⟩ := open_create_cards_ok _ _ _ _ ha
      simp only at a7
      simp only [open_create_ids_pstats]
      exact a7

theorem counted_of_empty (m : NcmMSetCatalog) (h1 : m.cur_id = m.first_id - 1)
    (h2 : m.pstats.saved_x = []) (h3 : m.pstats.wts = []) (h4 : m.pstats.save_x = true) :
    RowsCounted m := by
  refine ⟨h4, by simp [h2, h3], 0, ?_⟩
  rw [h2, h1]
  simp

theorem fresh_counted (m : NcmMSetCatalog) (h : Fresh m) : RowsCounted m := by
  cases h with
  | new fp na nc w =>
    obtain ⟨h1, h2, _, _, _, _, _, h8⟩ := new_ids fp na nc w
    refine counted_of_empty _ (by rw [h1, h2]; rfl) h8 ?_ (new_save_x fp na nc w)
    cases w <;>
      simp [ncm_mset_catalog_new, _ncm_mset_catalog_constructed_mset,
        _ncm_mset_catalog_constructed_alloc_chains, ncm_mset_catalog_init, ncm_stats_vec_new]
  | new_file fp na nc w filename disk m hs =>
    obtain ⟨h1, h2, _, _, h5, _, _, h8⟩ := new_ids fp na nc w
    have h9 : (ncm_mset_catalog_new fp na nc w).pstats.wts = [] := by
      cases w <;>
        simp [ncm_mset_catalog_new, _ncm_mset_catalog_constructed_mset,
          _ncm_mset_catalog_constructed_alloc_chains, ncm_mset_catalog_init, ncm_stats_vec_new]
    have h10 := new_save_x fp na nc w
    generalize ncm_mset_catalog_new fp na nc w = n at hs h1 h2 h5 h8 h9 h10
    unfold ncm_mset_catalog_set_file at hs
    rw [if_neg (by rw [h5]; simp), close_file_eq] at hs
    split at hs
    · cases hs
    · rename_i ma ha
      split at hs
      · cases hs
      · rename_i mb hb
        cases hs
        obtain ⟨a1, _, _⟩ := open_create_file_ok _ _ _ _ _ ha (by simp only; rw [h1, h2]; rfl)
        have a2 := open_create_file_pstats _ _ _ _ _ ha
        simp only at a2
        have hc := sync_counted _ _ _ hb
          (counted_of_empty ma a1 (by rw [a2]; exact h8) (by rw [a2]; exact h9)
            (by rw [a2]; exact h10))
        exact hc
  | from_file filename fp disk m hs =>
    unfold ncm_mset_catalog_new_from_file at hs
    cases disk with
    | none => simp at hs
    | some t =>
      simp only at hs
      split at hs
      · cases hs
      · rename_i ma ha
        split at hs
        · cases hs
        · rename_i mb hb
          cases hs
          obtain ⟨a1, _, _⟩ := open_create_file_ok _ _ _ _ _ ha rfl
          have hc := sync_counted _ _ _ hb
            (counted_of_empty (_ncm_mset_catalog_constructed_alloc_chains ma) a1 rfl rfl rfl)
          exact hc

/-- In every reachable state the rows of the global accumulator are counted. -/
theorem reachable_counted (m : NcmMSetCatalog) (h : Reachable m) : RowsCounted m := by
  induction h with
  | fresh m hf => exact fresh_counted m hf
  | step m m1 op _ hrun ih =>
    cases op with
    | add vals => exact add_counted m m1 vals hrun ih
    | sync check => exact sync_counted m m1 check hrun ih
    | reset => exact reset_counted m m1 hrun ih

theorem peek_row_some (m : NcmMSetCatalog) (i : Nat) (h : i < m.pstats.saved_x.length) :
    ncm_mset_catalog_peek_row m i = .ok (some (m.pstats.saved_x.get ⟨i, h⟩)) := by
  unfold ncm_mset_catalog_peek_row ncm_stats_vec_nrows
  simp only []
  rw [if_neg (by omega), peek_row_in_buffer _ _ h]
  rfl

theorem peek_row_none (m : NcmMSetCatalog) (i : Nat) (h : m.pstats.saved_x.length ≤ i) :
    ncm_mset_catalog_peek_row m i = .ok none := by
  unfold ncm_mset_catalog_peek_row ncm_stats_vec_nrows
  simp only []
  rw [if_pos h]

/-- C30: in every state reached from a freshly constructed catalog by `add`, `sync`
and `reset` calls, with an in-memory range whose count of identifiers is a
`guint` (as the length is), the catalog length is `cur_id - first_id + 1`;
`peek_row (i)` returns a row exactly for `0 <= i <= cur_id - first_id` and
`NULL` for any other index; and in a catalog that is not empty
`peek_current_row` returns the row at position `cur_id - first_id`, which is the
row of the identifier `cur_id`. -/
theorem reachable_len_and_peek (m : NcmMSetCatalog) (h : Reachable m)
    (hfit : m.cur_id - m.first_id + 1 < 4294967296) :
    (ncm_mset_catalog_len m : Int) = m.cur_id - m.first_id + 1 ∧
    (∀ i : Nat, (∃ row, ncm_mset_catalog_peek_row m i = .ok (some row)) ↔
      (i : Int) ≤ m.cur_id - m.first_id) ∧
    (∀ i : Nat, ¬ ((i : Int) ≤ m.cur_id - m.first_id) →
      ncm_mset_catalog_peek_row m i = .ok none) ∧
    (m.first_id ≤ m.cur_id →
      ncm_mset_catalog_peek_current_row m =
        ncm_mset_catalog_peek_row m (m.cur_id - m.first_id).toNat ∧
      ∃ row, ncm_mset_catalog_peek_current_row m = .ok (some row)) := by
  obtain ⟨_, hw, k, hk⟩ := reachable_counted m h
  have hk0 : k = 0 := by omega
  subst hk0
  have hlen : (m.pstats.saved_x.length : Int) = m.cur_id - m.first_id + 1 := by omega
  refine ⟨?_, ?_, ?_, ?_⟩
  · unfold ncm_mset_catalog_len NcmStatsVec.nitens
    rw [hw]; exact hlen
  · intro i
    constructor
    · rintro ⟨row, hrow⟩
      by_contra hc
      rw [peek_row_none m i (by omega)] at hrow
      cases hrow
    · intro hi
      exact ⟨_, peek_row_some m i (by omega)⟩
  · intro i hi
    exact peek_row_none m i (by omega)
  · intro hne
    have hpos : (m.cur_id - m.first_id).toNat < m.pstats.saved_x.length := by omega
    have hidx : m.pstats.nitens - 1 = (m.cur_id - m.first_id).toNat := by
      unfold NcmStatsVec.nitens
      omega
    have hcur : ncm_mset_catalog_peek_current_row m =
        .ok (some (m.pstats.saved_x.get ⟨(m.cur_id - m.first_id).toNat, hpos⟩)) := by
      unfold ncm_mset_catalog_peek_current_row
      rw [if_neg (by unfold NcmStatsVec.nitens; omega), hidx, peek_row_in_buffer _ _ hpos]
      rfl
    rw [hcur, peek_row_some m _ hpos]
    exact ⟨rfl, _, rfl⟩

theorem reachable_len_and_peek_witness :
    Reachable exAdded ∧ exAdded.cur_id - exAdded.first_id + 1 < 4294967296 ∧
    (ncm_mset_catalog_len exAdded : Int) = exAdded.cur_id - exAdded.first_id + 1 ∧
    (∀ i : Nat, (∃ row, ncm_mset_catalog_peek_row exAdded i = .ok (some row)) ↔
      (i : Int) ≤ exAdded.cur_id - exAdded.first_id) ∧
    (∀ i : Nat, ¬ ((i : Int) ≤ exAdded.cur_id - exAdded.first_id) →
      ncm_mset_catalog_peek_row exAdded i = .ok none) ∧
    (exAdded.first_id ≤ exAdded.cur_id →
      ncm_mset_catalog_peek_current_row exAdded =
        ncm_mset_catalog_peek_row exAdded (exAdded.cur_id - exAdded.first_id).toNat ∧
      ∃ row, ncm_mset_catalog_peek_current_row exAdded = .ok (some row)) :=
  ⟨exAdded_reachable, by decide,
    reachable_len_and_peek exAdded exAdded_reachable (by decide)⟩

/-! ## Claim C26: a call after `reset` -/

/-- C26 (the code at the failing input): `reset` closes the handle of a catalog
that has a file and leaves the file name set, so the assertion
`g_assert (mcat->fptr != NULL)` that opens `sync` fails in the state it leaves:
the next `add`, and the next `sync`, end in that fatal exit. -/
theorem reset_then_add_aborts (m m1 : NcmMSetCatalog) (vals : NcmVector) (check : Bool)
    (hfile : m.file ≠ none) (h : ncm_mset_catalog_reset m = .ok m1) :
    ncm_mset_catalog_add_from_vector m1 vals = .error .sync_fptr_null ∧
    ncm_mset_catalog_sync m1 check = .error .sync_fptr_null := by
  obtain ⟨_, _, _, r4, r5, _⟩ := reset_ok _ _ h
  have hs : ∀ (m0 : NcmMSetCatalog) (c : Bool), m0.file = m1.file → m0.fptr = m1.fptr →
      ncm_mset_catalog_sync m0 c = .error .sync_fptr_null := by
    intro m0 c e1 e2
    unfold ncm_mset_catalog_sync
    cases hf : m0.file with
    | none => rw [e1, r4] at hf; exact absurd hf hfile
    | some file =>
      simp only []
      rw [e2, r5]
  refine ⟨?_, hs m1 check rfl rfl⟩
  obtain ⟨m0, e, _, _, _, _, a5, a6⟩ := add_eq_sync m1 vals
  rw [e]
  exact hs m0 false a5 a6

theorem reset_then_add_aborts_witness :
    Reachable exAfterReset ∧ exTwoRows.file ≠ none ∧
    ncm_mset_catalog_reset exTwoRows = .ok exAfterReset ∧
    ncm_mset_catalog_add_from_vector exAfterReset (exRow 2) = .error .sync_fptr_null ∧
    ncm_mset_catalog_sync exAfterReset false = .error .sync_fptr_null :=
  ⟨exAfterReset_reachable, by decide, rfl,
    reset_then_add_aborts exTwoRows exAfterReset (exRow 2) false (by decide) rfl⟩

/-! ## Claim C29: the rows pulled from the file into the chains -/

theorem sync_chain_prepend_nil (nchains : Nat) (base : Int) (i : Nat)
    (chains : List NcmStatsVec) : sync_chain_prepend nchains base [] i chains = chains := by
  simp [sync_chain_prepend]

theorem sync_chain_prepend_length (nchains : Nat) (base : Int) :
    ∀ (rows : List NcmVector) (i : Nat) (chains : List NcmStatsVec),
      (sync_chain_prepend nchains base rows i chains).length = chains.length := by
  intro rows
  induction rows with
  | nil => intro i chains; simp [sync_chain_prepend]
  | cons x rest ih =>
    intro i chains
    unfold sync_chain_prepend
    rw [ih, List.length_modify]

theorem sync_chain_append_length (nchains : Nat) (base : Int) :
    ∀ (rows : List NcmVector) (i : Nat) (chains : List NcmStatsVec),
      (sync_chain_append nchains base rows i chains).length = chains.length := by
  intro rows
  induction rows with
  | nil => intro i chains; simp [sync_chain_append]
  | cons x rest ih =>
    intro i chains
    unfold sync_chain_append
    rw [ih, List.length_modify]

theorem modify_unsaved (f : NcmStatsVec → NcmStatsVec) (k : Nat) (chains : List NcmStatsVec)
    (hf : ∀ sv, sv.save_x = false ∧ sv.saved_x = [] →
      (f sv).save_x = false ∧ (f sv).saved_x = [])
    (hc : ∀ sv ∈ chains, sv.save_x = false ∧ sv.saved_x = []) :
    ∀ sv ∈ chains.modify f k, sv.save_x = false ∧ sv.saved_x = [] := by
  intro sv hmem
  obtain ⟨n, hn⟩ := List.mem_iff_getElem?.mp hmem
  rw [List.getElem?_modify] at hn
  cases ho : chains[n]? with
  | none => simp [ho] at hn
  | some sv0 =>
    have h0 := hc sv0 (List.getElem?_mem ho)
    simp only [ho, Option.map_eq_map, Option.map_some', Option.some.injEq] at hn
    subst hn
    split
    · exact hf sv0 h0
    · exact h0

theorem sync_chain_prepend_unsaved (nchains : Nat) (base : Int) :
    ∀ (rows : List NcmVector) (i : Nat) (chains : List NcmStatsVec),
      (∀ sv ∈ chains, sv.save_x = false ∧ sv.saved_x = []) →
      ∀ sv ∈ sync_chain_prepend nchains base rows i chains,
        sv.save_x = false ∧ sv.saved_x = [] := by
  intro rows
  induction rows with
  | nil => intro i chains hc; simpa [sync_chain_prepend] using hc
  | cons x rest ih =>
    intro i chains hc
    unfold sync_chain_prepend
    exact ih _ _ (modify_unsaved _ _ _
      (fun sv h => by simp [ncm_stats_vec_prepend, h.1, h.2]) hc)

theorem sync_chain_append_unsaved (nchains : Nat) (base : Int) :
    ∀ (rows : List NcmVector) (i : Nat) (chains : List NcmStatsVec),
      (∀ sv ∈ chains, sv.save_x = false ∧ sv.saved_x = []) →
      ∀ sv ∈ sync_chain_append nchains base rows i chains,
        sv.save_x = false ∧ sv.saved_x = [] := by
  intro rows
  induction rows with
  | nil => intro i chains hc; simpa [sync_chain_append] using hc
  | cons x rest ih =>
    intro i chains hc
    unfold sync_chain_append
    exact ih _ _ (modify_unsaved _ _ _
      (fun sv h => by simp [ncm_stats_vec_append, h.1, h.2]) hc)

theorem sync_first_chains (m m1 : NcmMSetCatalog) (t t1 : FitsTable)
    (h : sync_first m t = .ok (m1, t1)) (hc : ChainsUnsaved m) : ChainsUnsaved m1 := by
  obtain ⟨hl, hu⟩ := hc
  rcases lt_trichotomy m.file_first_id m.first_id with hlt | heq | hgt
  · rw [sync_first_eq_lt m t hlt] at h
    cases hr : sync_read_loop t 0 (toGuint (m.first_id - m.file_first_id)) 0 with
    | error e => simp [hr] at h
    | ok rows =>
      simp only [hr, Except.ok.injEq, Prod.mk.injEq] at h
      obtain ⟨h1, _⟩ := h
      subst h1
      unfold ChainsUnsaved
      simp only
      split
      · exact ⟨by rw [sync_chain_prepend_length]; exact hl,
          sync_chain_prepend_unsaved _ _ _ _ _ hu⟩
      · exact ⟨hl, hu⟩
  · rw [sync_first_eq_same m t heq] at h
    simp only [Except.ok.injEq, Prod.mk.injEq] at h
    obtain ⟨h1, _⟩ := h
    subst h1
    exact ⟨hl, hu⟩
  · rw [sync_first_eq_gt m t hgt] at h
    cases hr : sync_write_loop m.pstats 0 (toGuint (m.file_first_id - m.first_id)) 0
        (fits_insert_rows_head t (toGuint (m.file_first_id - m.first_id))) with
    | error e => simp [hr] at h
    | ok t2 =>
      simp only [hr, Except.ok.injEq, Prod.mk.injEq] at h
      obtain ⟨h1, _⟩ := h
      subst h1
      exact ⟨hl, hu⟩

theorem sync_cur_chains (m m1 : NcmMSetCatalog) (t t1 : FitsTable)
    (h : sync_cur m t = .ok (m1, t1)) (hc : ChainsUnsaved m) : ChainsUnsaved m1 := by
  obtain ⟨hl, hu⟩ := hc
  rcases lt_trichotomy m.file_cur_id m.cur_id with hlt | heq | hgt
  · rw [sync_cur_eq_lt m t hlt] at h
    cases hr : sync_write_loop m.pstats (toGuint (m.file_cur_id + 1 - m.file_first_id))
        (toGuint (m.cur_id - m.file_cur_id)) 0 t with
    | error e => simp [hr] at h
    | ok t2 =>
      simp only [hr, Except.ok.injEq, Prod.mk.injEq] at h
      obtain ⟨h1, _⟩ := h
      subst h1
      exact ⟨hl, hu⟩
  · rw [sync_cur_eq_same m t heq] at h
    simp only [Except.ok.injEq, Prod.mk.injEq] at h
    obtain ⟨h1, _⟩ := h
    subst h1
    exact ⟨hl, hu⟩
  · rw [sync_cur_eq_gt m t hgt] at h
    cases hr : sync_read_loop t (toGuint (m.cur_id + 1 - m.first_id))
        (toGuint (m.file_cur_id - m.cur_id)) 0 with
    | error e => simp [hr] at h
    | ok rows =>
      simp only [hr, Except.ok.injEq, Prod.mk.injEq] at h
      obtain ⟨h1, _⟩ := h
      subst h1
      unfold ChainsUnsaved
      simp only
      split
      · exact ⟨by rw [sync_chain_append_length]; exact hl,
          sync_chain_append_unsaved _ _ _ _ _ hu⟩
      · exact ⟨hl, hu⟩

theorem sync_chains (m m1 : NcmMSetCatalog) (check : Bool)
    (h : ncm_mset_catalog_sync m check = .ok m1) (hc : ChainsUnsaved m) : ChainsUnsaved m1 := by
  unfold ncm_mset_catalog_sync at h
  cases hfile : m.file with
  | none =>
    simp only [hfile] at h
    cases h
    exact hc
  | some file =>
    simp only [hfile] at h
    cases hf : m.fptr with
    | none => simp [hf] at h
    | some t =>
      simp only [hf] at h
      split at h
      · cases h
      · split at h
        · cases h
        · rename_i ma ta ha
          split at h
          · cases h
          · rename_i mb tb hb
            split at h
            · cases h
            · cases h
              have h1 := sync_first_chains _ _ _ _ ha hc
              have h2 := sync_cur_chains _ _ _ _ hb h1
              exact h2

/-- A new catalog of two chains or more has one accumulator per chain, each
created without `save_x`. -/
theorem new_chains (fparams_len nadd_vals nchains : Nat) (weighted : Bool)
    (hn : 1 < nchains) :
    ChainsUnsaved (ncm_mset_catalog_new fparams_len nadd_vals nchains weighted) := by
  unfold ChainsUnsaved
  cases weighted <;>
    simp [ncm_mset_catalog_new, _ncm_mset_catalog_constructed_mset,
      _ncm_mset_catalog_constructed_alloc_chains, ncm_mset_catalog_init, ncm_stats_vec_new, hn]

/-- The calls `add`, `sync` and `reset` leave the chain accumulators without rows:
none of them gives an accumulator a buffer that it was created without. -/
theorem step_chains (m m1 : NcmMSetCatalog) (op : CatalogOp) (h : op.run m = .ok m1)
    (hc : ChainsUnsaved m) : ChainsUnsaved m1 := by
  cases op with
  | add vals =>
    have h : ncm_mset_catalog_add_from_vector m vals = .ok m1 := h
    unfold ncm_mset_catalog_add_from_vector _ncm_mset_catalog_post_update at h
    refine sync_chains _ _ _ h ?_
    obtain ⟨hl, hu⟩ := hc
    unfold ChainsUnsaved
    simp only
    split
    · refine ⟨by rw [List.length_modify]; exact hl, modify_unsaved _ _ _ ?_ hu⟩
      intro sv hsv
      split <;> simp [ncm_stats_vec_update, ncm_stats_vec_update_weight, hsv.1, hsv.2]
    · exact ⟨hl, hu⟩
  | sync check => exact sync_chains m m1 check h hc
  | reset =>
    have h : ncm_mset_catalog_reset m = .ok m1 := h
    unfold ncm_mset_catalog_reset at h
    split at h
    · cases h
    · rename_i ma ha
      cases h
      obtain ⟨_, _, _, _, _, _, e1, _, _, _, _, e2, _⟩ := erase_data_ok _ _ ha
      obtain ⟨hl, hu⟩ := hc
      rw [close_file_eq]
      unfold ChainsUnsaved
      simp only [e1, e2]
      split
      · refine ⟨by rw [List.length_map]; exact hl, ?_⟩
        intro sv hsv
        obtain ⟨sv0, h0, rfl⟩ := List.mem_map.mp hsv
        simp [ncm_stats_vec_reset, (hu sv0 h0).1]
      · exact ⟨hl, hu⟩

/-- The example at hand: the pull gives the global accumulator the rows 0 to 5 in
this order, and the chain accumulators take in the rows 4, 0, 2 (chain 0) and
5, 1, 3 (chain 1): the rows added before the pull, then the pulled rows of the
chain in increasing order of identifier. -/
theorem exPulled_absorbed :
    exLateOpened.first_id = 4 ∧ exLateOpened.file_first_id = 0 ∧
    exLateOpened.chain_pstats.map (fun sv => sv.absorbed) = [[exRow 4], [exRow 5]] ∧
    exPulled.chain_pstats.map (fun sv => sv.absorbed) =
      [[exRow 4, exRow 0, exRow 2], [exRow 5, exRow 1, exRow 3]] ∧
    chain_rows 2 0 0 [exRow 0, exRow 1, exRow 2, exRow 3] 0 = [exRow 0, exRow 2] ∧
    chain_rows 2 0 1 [exRow 0, exRow 1, exRow 2, exRow 3] 0 = [exRow 1, exRow 3] := by
  refine ⟨by decide, by decide, by decide, by decide, by decide, by decide⟩

/-! ## Claim C24: a vector set from a variant -/

theorem set_from_variant_loop_length (children : List GDouble) :
    ∀ (k i : Nat) (cv : NcmVector), (set_from_variant_loop children k i cv).length = cv.length := by
  intro k
  induction k with
  | zero => intro i cv; rfl
  | succ k ih =>
    intro i cv
    simp only [set_from_variant_loop]
    rw [ih]
    simp

theorem set_from_variant_loop_get (children : List GDouble) :
    ∀ (k i : Nat) (cv : NcmVector) (j : Nat), i + k ≤ cv.length →
      (set_from_variant_loop children k i cv)[j]? =
        if i ≤ j ∧ j < i + k then some (children.getD j (.fin 0)) else cv[j]? := by
  intro k
  induction k with
  | zero =>
    intro i cv j _
    simp only [set_from_variant_loop]
    rw [if_neg (by omega)]
  | succ k ih =>
    intro i cv j h
    simp only [set_from_variant_loop]
    rw [ih (i + 1) _ j (by simp; omega)]
    by_cases h1 : i + 1 ≤ j ∧ j < i + 1 + k
    · rw [if_pos h1, if_pos (by omega)]
    · rw [if_neg h1]
      by_cases h2 : i = j
      · subst h2
        rw [if_pos (by omega)]
        simp [List.getElem?_set]
        omega
      · rw [if_neg (by omega)]
        simp [List.getElem?_set, h2]

/-- The loop run over a vector as long as the variant leaves the children of the
variant. -/
theorem set_from_variant_loop_all (children : List GDouble) (cv : NcmVector)
    (h : cv.length = children.length) :
    set_from_variant_loop children children.length 0 cv = children := by
  apply List.ext_getElem?
  intro j
  rw [set_from_variant_loop_get children _ 0 cv j (by omega)]
  by_cases hj : j < children.length
  · rw [if_pos (by omega)]
    simp [List.getD, hj]
  · rw [if_neg (by omega)]
    rw [List.getElem?_eq_none (by omega), List.getElem?_eq_none (by omega)]

/-- C24 (counterexample): an empty vector and a variant of two doubles differ in
size, and the call succeeds; the vector has two components afterwards. -/
theorem set_from_variant_empty_counterexample :
    ([] : NcmVector).length ≠ [GDouble.fin 1, GDouble.fin 2].length ∧
    ncm_vector_set_from_variant [] (.ad [.fin 1, .fin 2]) = .ok [.fin 1, .fin 2] :=
  ⟨by decide, rfl⟩

/-- C24 (amended): `ncm_vector_set_from_variant` fails if and only if the variant
is not an array of doubles, or the vector is not empty and differs from the
variant in size; an empty vector takes the size of the variant.  When the call
succeeds the vector has as many components as the variant has children (its
length is unchanged when it was not empty), and component `i` equals child `i`
for every `i`. -/
theorem set_from_variant_spec (cv : NcmVector) (var : GVariant) :
    ((∃ e, ncm_vector_set_from_variant cv var = .error e) ↔
      ((∀ ch, var ≠ .ad ch) ∨ (∃ ch, var = .ad ch ∧ cv.length ≠ 0 ∧ ch.length ≠ cv.length))) ∧
    (∀ ch, var = .ad ch → (cv.length = 0 ∨ ch.length = cv.length) →
      ∃ cv1, ncm_vector_set_from_variant cv var = .ok cv1 ∧ cv1.length = ch.length ∧
        (cv.length ≠ 0 → cv1.length = cv.length) ∧ ∀ i, i < ch.length → cv1[i]? = ch[i]?) := by
  cases var with
  | other ty =>
    refine ⟨⟨fun _ => Or.inl (fun ch hc => by cases hc), fun _ => ⟨_, rfl⟩⟩, ?_⟩
    intro ch hc
    cases hc
  | ad children =>
    by_cases h0 : cv.length = 0
    · have hr : ncm_vector_set_from_variant cv (.ad children) = .ok children := by
        unfold ncm_vector_set_from_variant
        simp only []
        rw [if_pos h0, set_from_variant_loop_all children _ (by simp)]
      refine ⟨⟨?_, ?_⟩, ?_⟩
      · rintro ⟨e, he⟩
        rw [hr] at he
        cases he
      · rintro (h | ⟨ch, _, h, _⟩)
        · exact absurd rfl (h children)
        · exact absurd h0 h
      · intro ch hc _
        cases hc
        exact ⟨_, hr, rfl, fun h => absurd h0 h, fun _ _ => rfl⟩
    · by_cases hn : children.length = cv.length
      · have hr : ncm_vector_set_from_variant cv (.ad children) = .ok children := by
          unfold ncm_vector_set_from_variant
          simp only []
          rw [if_neg h0, if_neg (by simp [hn]), set_from_variant_loop_all children _ hn.symm]
        refine ⟨⟨?_, ?_⟩, ?_⟩
        · rintro ⟨e, he⟩
          rw [hr] at he
          cases he
        · rintro (h | ⟨ch, hc, _, h⟩)
          · exact absurd rfl (h children)
          · cases hc
            exact absurd hn h
        · intro ch hc _
          cases hc
          exact ⟨_, hr, rfl, fun _ => hn, fun _ _ => rfl⟩
      · have hr : ncm_vector_set_from_variant cv (.ad children) = .error .vector_variant_size := by
          unfold ncm_vector_set_from_variant
          simp only []
          rw [if_neg h0, if_pos (by simpa using hn)]
        refine ⟨⟨fun _ => Or.inr ⟨children, rfl, h0, hn⟩, fun _ => ⟨_, hr⟩⟩, ?_⟩
        intro ch hc h
        cases hc
        rcases h with h | h
        · exact absurd h h0
        · exact absurd h hn

theorem set_from_variant_spec_witness :
    ∃ cv1, ncm_vector_set_from_variant [.fin 0, .fin 0] (.ad [.fin 1, .fin 2]) = .ok cv1 ∧
      cv1.length = [GDouble.fin 1, GDouble.fin 2].length ∧
      (([.fin 0, .fin 0] : NcmVector).length ≠ 0 →
        cv1.length = ([.fin 0, .fin 0] : NcmVector).length) ∧
      ∀ i, i < [GDouble.fin 1, GDouble.fin 2].length →
        cv1[i]? = [GDouble.fin 1, GDouble.fin 2][i]? :=
  (set_from_variant_spec [.fin 0, .fin 0] (.ad [.fin 1, .fin 2])).2 _ rfl (Or.inr rfl)

/-! ## Claim C25: the free parameters of a parameter set -/

theorem mem_fparam_map_of_mid (mset : NcmMSet) (mid : Nat) (pi : NcmMSetPIndex)
    (h : pi ∈ fparam_map_of_mid mset mid) :
    pi.mid = mid ∧ ∃ o model, mset.model_of.getD mid none = some o ∧
      mset.models[o]? = some model ∧ pi.pid < model.params.length := by
  unfold fparam_map_of_mid at h
  cases ho : mset.model_of.getD mid none with
  | none => simp only [ho] at h; cases h
  | some o =>
    simp only [ho] at h
    split at h
    · cases h
    · cases hm : mset.models[o]? with
      | none => simp only [hm] at h; cases h
      | some model =>
        simp only [hm, List.mem_map, List.mem_filter, List.mem_range] at h
        obtain ⟨pid, ⟨h1, _⟩, h2⟩ := h
        subst h2
        exact ⟨rfl, o, model, rfl, hm, h1⟩

/-- Every address of the free-parameter map leads to a parameter of a model of the
set. -/
theorem mem_fparam_map (mset : NcmMSet) (pi : NcmMSetPIndex)
    (h : pi ∈ ncm_mset_prepare_fparam_map mset) :
    ∃ o model, mset.model_of.getD pi.mid none = some o ∧
      mset.models[o]? = some model ∧ pi.pid < model.params.length := by
  unfold ncm_mset_prepare_fparam_map at h
  rw [List.mem_flatMap] at h
  obtain ⟨mid, _, hm⟩ := h
  obtain ⟨e, r⟩ := mem_fparam_map_of_mid mset mid pi hm
  rw [e]
  exact r

/-- Writing a parameter leaves the free-parameter map as it was. -/
theorem param_set_map (mset mset1 : NcmMSet) (mid pid : Nat) (x : GDouble)
    (h : ncm_mset_param_set mset mid pid x = .ok mset1) :
    ncm_mset_prepare_fparam_map mset1 = ncm_mset_prepare_fparam_map mset := by
  unfold ncm_mset_param_set at h
  cases ho : mset.model_of.getD mid none with
  | none => simp only [ho] at h; cases h
  | some o =>
    simp only [ho] at h
    cases hm : mset.models[o]? with
    | none => simp only [hm] at h; cases h
    | some model =>
      simp only [hm] at h
      split at h
      · cases h
        unfold ncm_mset_prepare_fparam_map
        simp only []
        congr 1
        funext mid1
        unfold fparam_map_of_mid
        simp only []
        cases ho1 : mset.model_of.getD mid1 none with
        | none => rfl
        | some o1 =>
          simp only []
          split
          · rfl
          · by_cases e : o = o1
            · subst e
              have hlt : o < mset.models.length := by
                by_contra hc
                rw [List.getElem?_eq_none (by omega)] at hm
                cases hm
              simp [hm, List.getElem?_set, hlt]
            · simp [List.getElem?_set, e]
      · cases h

theorem param_set_get (mset mset1 : NcmMSet) (mid pid : Nat) (x : GDouble)
    (h : ncm_mset_param_set mset mid pid x = .ok mset1) :
    ncm_mset_param_get mset1 mid pid = .ok x := by
  unfold ncm_mset_param_set at h
  cases ho : mset.model_of.getD mid none with
  | none => simp only [ho] at h; cases h
  | some o =>
    simp only [ho] at h
    cases hm : mset.models[o]? with
    | none => simp only [hm] at h; cases h
    | some model =>
      simp only [hm] at h
      split at h
      · rename_i hp
        cases h
        have hlt : o < mset.models.length := by
          by_contra hc
          rw [List.getElem?_eq_none (by omega)] at hm
          cases hm
        unfold ncm_mset_param_get ncm_mset_peek
        simp only [ho]
        simp [List.getElem?_set, hlt, hp]
      · cases h

/-- C25: for every parameter set, every free-parameter index `i` below the
free-parameter count and every value `v`, setting free parameter `i` to `v`
succeeds, reading free parameter `i` then returns `v`, index `i` maps to the
same (model-id, parameter-id) pair before and after, and reading the parameter
through that pair returns `v` as well. -/
theorem fparam_set_then_get (mset : NcmMSet) (i : Nat) (v : GDouble)
    (hi : i < ncm_mset_fparam_len mset) :
    ∃ mset1 pi, ncm_mset_fparam_set mset i v = .ok mset1 ∧
      ncm_mset_fparam_get mset1 i = .ok v ∧
      ncm_mset_fparam_get_pi mset i = some pi ∧
      ncm_mset_fparam_get_pi mset1 i = some pi ∧
      ncm_mset_param_get mset1 pi.mid pi.pid = .ok v := by
  unfold ncm_mset_fparam_len at hi
  have hpi : ncm_mset_fparam_get_pi mset i = some ((ncm_mset_prepare_fparam_map mset).get ⟨i, hi⟩) := by
    unfold ncm_mset_fparam_get_pi
    exact List.getElem?_eq_getElem hi
  obtain ⟨o, model, h1, h2, h3⟩ := mem_fparam_map mset _ (List.get_mem _ i hi)
  generalize (ncm_mset_prepare_fparam_map mset).get ⟨i, hi⟩ = pi at hpi h1 h2 h3
  have hset : ncm_mset_param_set mset pi.mid pi.pid v =
      .ok { mset with models := mset.models.set o { model with params := model.params.set pi.pid v } } := by
    unfold ncm_mset_param_set
    simp only [h1, h2]
    rw [if_pos h3]
  have hmap := param_set_map _ _ _ _ _ hset
  have hget := param_set_get _ _ _ _ _ hset
  have hpi1 : ncm_mset_fparam_get_pi
      { mset with models := mset.models.set o { model with params := model.params.set pi.pid v } } i
        = some pi := by
    unfold ncm_mset_fparam_get_pi
    rw [hmap]
    exact hpi
  refine ⟨_, pi, ?_, ?_, hpi, hpi1, hget⟩
  · unfold ncm_mset_fparam_set
    rw [hpi]
    exact hset
  · unfold ncm_mset_fparam_get
    rw [hpi1]
    exact hget

theorem fparam_set_then_get_witness :
    0 < ncm_mset_fparam_len exMSet ∧
    ∃ mset1 pi, ncm_mset_fparam_set exMSet 0 (.fin 123) = .ok mset1 ∧
      ncm_mset_fparam_get mset1 0 = .ok (.fin 123) ∧
      ncm_mset_fparam_get_pi exMSet 0 = some pi ∧
      ncm_mset_fparam_get_pi mset1 0 = some pi ∧
      ncm_mset_param_get mset1 pi.mid pi.pid = .ok (.fin 123) :=
  ⟨by decide, fparam_set_then_get exMSet 0 (.fin 123) (by decide)⟩

/-- The example of the test: the parameter set has one free parameter, of address
(1, 0); the value written to it is read back through the ids 1, 2, 4 and 10. -/
theorem exMSet_shared :
    ncm_mset_fparam_len exMSet = 1 ∧ ncm_mset_fparam_get_pi exMSet 0 = some ⟨1, 0⟩ ∧
    ∃ mset1, ncm_mset_fparam_set exMSet 0 (.fin 123) = .ok mset1 ∧
      ncm_mset_param_get mset1 1 0 = .ok (.fin 123) ∧
      ncm_mset_param_get mset1 2 0 = .ok (.fin 123) ∧
      ncm_mset_param_get mset1 4 0 = .ok (.fin 123) ∧
      ncm_mset_param_get mset1 10 0 = .ok (.fin 123) :=
  ⟨by decide, by decide, _, rfl, rfl, rfl, rfl, rfl⟩

/-! ## The loops of the estimators -/

theorem eval_direct_store_spec {α : Type} {M : Type} (func : NcmMSetFunc α M) (mset : M) (x : List (Dbl α))
    (base : Nat) :
    ∀ (n j : Nat) (ws : List (Dbl α)), base + j + n ≤ ws.length →
      ∃ ws1, eval_direct_store func mset x base n j ws = .ok ws1 ∧ ws1.length = ws.length ∧
        ∀ p, ws1[p]? =
          if base + j ≤ p ∧ p < base + j + n then some (func.eval mset x (p - base))
          else ws[p]? := by
  intro n
  induction n with
  | zero =>
    intro j ws _
    exact ⟨ws, rfl, rfl, fun p => by rw [if_neg (by omega)]⟩
  | succ n ih =>
    intro j ws h
    obtain ⟨ws1, e1, l1, g1⟩ :=
      ih (j + 1) (ws.set (base + j) (func.eval mset x j)) (by simp; omega)
    refine ⟨ws1, ?_, by simpa using l1, ?_⟩
    · simp only [eval_direct_store]
      rw [if_pos (by omega)]
      exact e1
    · intro p
      rw [g1 p, List.getElem?_set]
      by_cases h1 : base + (j + 1) ≤ p ∧ p < base + (j + 1) + n
      · rw [if_pos h1, if_pos (by omega)]
      · rw [if_neg h1]
        by_cases h2 : base + j = p
        · rw [if_pos h2, if_pos (by omega), if_pos (by omega)]
          subst h2
          simp
        · rw [if_neg h2, if_neg (by omega)]

theorem eval_direct_store_fail {α : Type} {M : Type} (func : NcmMSetFunc α M) (mset : M) (x : List (Dbl α))
    (base n : Nat) (ws : List (Dbl α)) (h : ws.length ≤ base) :
    eval_direct_store func mset x base (n + 1) 0 ws = .error .quantile_ws_offset := by
  simp only [eval_direct_store]
  rw [if_neg (by omega)]

section EstimatorLoops

variable {α : Type} [LinearOrderedField α] {M : Type}

theorem peek_row_getD (m : NcmMSetCatalog) (i : Nat) (h : i < m.pstats.saved_x.length) :
    ncm_mset_catalog_peek_row m i = .ok (some (m.pstats.saved_x.getD i [])) := by
  rw [peek_row_some m i h, List.getD_eq_getElem _ _ h]
  rfl

theorem calc_progress_mark_zero (cat_len i : Nat) (h : cat_len < 100) :
    calc_progress_mark cat_len i = .error .calc_progress_zero := by
  unfold calc_progress_mark
  rw [if_pos (by omega)]

theorem calc_progress_mark_ok (cat_len i : Nat) (h : 100 ≤ cat_len) :
    calc_progress_mark cat_len i = .ok (decide (i % (cat_len / 100) = 0)) := by
  unfold calc_progress_mark
  rw [if_neg (by omega)]

theorem calc_burnin_marks_ok (cat_len : Nat) (h : 100 ≤ cat_len) :
    ∀ n i, calc_burnin_marks cat_len n i = .ok () := by
  intro n
  induction n with
  | zero => intro i; rfl
  | succ n ih =>
    intro i
    simp only [calc_burnin_marks, calc_progress_mark_ok cat_len i h]
    exact ih _

theorem calc_burnin_marks_zero (cat_len n i : Nat) (h : cat_len < 100) :
    calc_burnin_marks cat_len (n + 1) i = .error .calc_progress_zero := by
  simp only [calc_burnin_marks, calc_progress_mark_zero cat_len i h]

theorem calc_rows_zero {S : Type} (mcat : NcmMSetCatalog) (cat_len : Nat)
    (body : NcmVector → S → S) (n i : Nat) (s : S) (h : cat_len < 100)
    (hi : i < mcat.pstats.saved_x.length) :
    calc_rows mcat cat_len body (n + 1) i s = .error .calc_progress_zero := by
  simp only [calc_rows, peek_row_getD mcat i hi, calc_progress_mark_zero cat_len i h]

theorem calc_rows_ok {S : Type} (mcat : NcmMSetCatalog) (cat_len : Nat)
    (body : NcmVector → S → S) (h : 100 ≤ cat_len) :
    ∀ (n i : Nat) (s : S), i + n ≤ mcat.pstats.saved_x.length →
      ∃ s1, calc_rows mcat cat_len body n i s = .ok s1 := by
  intro n
  induction n with
  | zero => intro i s _; exact ⟨s, rfl⟩
  | succ n ih =>
    intro i s hi
    simp only [calc_rows, peek_row_getD mcat i (by omega), calc_progress_mark_ok cat_len i h]
    exact ih _ _ (by omega)

/-- With fewer than a hundred rows the loops of the progress display end in the
remainder by zero, whatever the message level. -/
theorem calc_with_progress_zero {S : Type} (mcat : NcmMSetCatalog) (burnin : Nat) (msgs : Bool)
    (body : NcmVector → S → S) (s0 : S) (h : ncm_mset_catalog_len mcat < 100)
    (hb : burnin < ncm_mset_catalog_len mcat)
    (hrows : ncm_mset_catalog_len mcat ≤ mcat.pstats.saved_x.length) :
    calc_with_progress mcat burnin msgs body s0 = .error .calc_progress_zero := by
  unfold calc_with_progress
  simp only []
  obtain ⟨n, hn⟩ : ∃ n, ncm_mset_catalog_len mcat - burnin = n + 1 :=
    ⟨ncm_mset_catalog_len mcat - burnin - 1, by omega⟩
  rw [hn, calc_rows_zero _ _ _ _ _ _ h (by omega)]
  cases msgs
  · rfl
  · cases burnin with
    | zero => rfl
    | succ b => simp only [if_true, calc_burnin_marks_zero _ _ _ h]

/-- With a hundred rows or more, all of them in the buffer, the loops of the
progress display complete. -/
theorem calc_with_progress_ok {S : Type} (mcat : NcmMSetCatalog) (burnin : Nat) (msgs : Bool)
    (body : NcmVector → S → S) (s0 : S) (h : 100 ≤ ncm_mset_catalog_len mcat)
    (hb : burnin < ncm_mset_catalog_len mcat)
    (hrows : ncm_mset_catalog_len mcat ≤ mcat.pstats.saved_x.length) :
    ∃ s1, calc_with_progress mcat burnin msgs body s0 = .ok s1 := by
  unfold calc_with_progress
  simp only []
  obtain ⟨s1, hs⟩ := calc_rows_ok mcat (ncm_mset_catalog_len mcat) body h
    (ncm_mset_catalog_len mcat - burnin) burnin s0 (by omega)
  refine ⟨s1, ?_⟩
  rw [hs, calc_burnin_marks_ok _ h, calc_progress_mark_ok _ _ h]
  cases msgs <;> rfl

theorem calc_check_p_ok (p_val : List (Dbl α))
    (h : ∀ p ∈ p_val, p.gt (.fin 0) = true ∧ p.lt (.fin 1) = true) :
    calc_check_p p_val = .ok () := by
  induction p_val with
  | nil => rfl
  | cons p rest ih =>
    obtain ⟨h1, h2⟩ := h p (List.mem_cons_self _ _)
    simp only [calc_check_p, h1, h2, Bool.not_true, Bool.false_eq_true, if_false]
    exact ih (fun q hq => h q (List.mem_cons_of_mem _ hq))

theorem calc_load_rows_succ (P : NcmMSetCalls M) (mcat : NcmMSetCatalog) (m : M) (i n : Nat) :
    calc_load_rows P mcat m i (n + 1) =
      calc_load_rows P mcat
        (P.fparams_set_vector_offset m (mcat.pstats.saved_x.getD i []) mcat.nadd_vals) (i + 1) n := by
  simp [calc_load_rows, List.range'_succ]

theorem calc_load_rows_one (P : NcmMSetCalls M) (mcat : NcmMSetCatalog) (m : M) (i : Nat) :
    calc_load_rows P mcat m i 1 =
      P.fparams_set_vector_offset m (mcat.pstats.saved_x.getD i []) mcat.nadd_vals := by
  simp [calc_load_rows]

/-- The row loop of `ncm_mset_catalog_calc_ci_direct` on a workspace that reaches
to the end of the last row: it completes, the entries before the first row
stay, and entry `k * dim + j` holds component `j` of the value of row `k`. -/
theorem ci_direct_rows_spec (P : NcmMSetCalls M) (func : NcmMSetFunc α M) (mcat : NcmMSetCatalog)
    (x : List (Dbl α)) :
    ∀ (n i : Nat) (m : M) (ws : List (Dbl α)),
      (i + n) * func.dim ≤ ws.length → (i + n) * func.dim < 4294967296 →
      i + n ≤ mcat.pstats.saved_x.length →
      ∃ m1 ws1, ci_direct_rows P func mcat x n i (m, ws) = .ok (m1, ws1) ∧
        ws1.length = ws.length ∧
        (∀ p, p < i * func.dim → ws1[p]? = ws[p]?) ∧
        (∀ k j, i ≤ k → k < i + n → j < func.dim →
          ws1[k * func.dim + j]? =
            some (func.eval (calc_load_rows P mcat m i (k + 1 - i)) x j)) := by
  intro n
  induction n with
  | zero =>
    intro i m ws _ _ _
    exact ⟨m, ws, rfl, rfl, fun _ _ => rfl, fun k j h1 h2 _ => by omega⟩
  | succ n ih =>
    intro i m ws hl hf hr
    have hi : i < mcat.pstats.saved_x.length := by omega
    have e1 : (i + (n + 1)) * func.dim = i * func.dim + func.dim + n * func.dim := by ring
    have e2 : (i + 1 + n) * func.dim = i * func.dim + func.dim + n * func.dim := by ring
    have e3 : (i + 1) * func.dim = i * func.dim + func.dim := by ring
    rw [e1] at hl hf
    have hbase : (i * func.dim) % 4294967296 = i * func.dim := Nat.mod_eq_of_lt (by omega)
    obtain ⟨wsa, ea, la, ga⟩ := eval_direct_store_spec func
      (P.fparams_set_vector_offset m (mcat.pstats.saved_x.getD i []) mcat.nadd_vals) x
      (i * func.dim) func.dim 0 ws (by omega)
    obtain ⟨m2, ws2, e, l2, p2, g2⟩ := ih (i + 1)
      (P.fparams_set_vector_offset m (mcat.pstats.saved_x.getD i []) mcat.nadd_vals) wsa
      (by rw [la, e2]; exact hl) (by rw [e2]; exact hf) (by omega)
    refine ⟨m2, ws2, ?_, by rw [l2, la], ?_, ?_⟩
    · simp only [ci_direct_rows, peek_row_getD mcat i hi, hbase, ea]
      exact e
    · intro p hp
      rw [p2 p (by rw [e3]; omega), ga p, if_neg (by omega)]
    · intro k j hk1 hk2 hj
      by_cases hk : k = i
      · subst hk
        rw [p2 (k * func.dim + j) (by rw [e3]; omega), ga, if_pos ⟨by omega, by omega⟩]
        have e4 : k + 1 - k = 1 := by omega
        have e5 : k * func.dim + j - k * func.dim = j := by omega
        rw [e4, e5, calc_load_rows_one]
      · rw [g2 k j (by omega) (by omega) hj]
        have e4 : k + 1 - i = (k + 1 - (i + 1)) + 1 := by omega
        rw [e4, calc_load_rows_succ]

end EstimatorLoops

/-- The row loop of `ncm_mset_catalog_calc_ci_direct` on a workspace of
`acat_len * dim` entries, for a function of dimension 1 or more: when the last
row has an index of `acat_len` or more, the loop ends in a store past the end of
the workspace. -/
theorem ci_direct_rows_fail {α : Type} {M : Type} (P : NcmMSetCalls M) (func : NcmMSetFunc α M) (mcat : NcmMSetCatalog)
    (x : List (Dbl α)) (acat_len : Nat) (hd : 1 ≤ func.dim) :
    ∀ (n i : Nat) (m : M) (ws : List (Dbl α)),
      ws.length = acat_len * func.dim → acat_len ≤ i + n →
      (i + (n + 1)) * func.dim < 4294967296 → i + (n + 1) ≤ mcat.pstats.saved_x.length →
      ci_direct_rows P func mcat x (n + 1) i (m, ws) = .error .quantile_ws_offset := by
  obtain ⟨d, hd1⟩ : ∃ d, func.dim = d + 1 := ⟨func.dim - 1, by omega⟩
  intro n
  induction n with
  | zero =>
    intro i m ws hl ha hf hr
    have hle : acat_len * func.dim ≤ i * func.dim := Nat.mul_le_mul_right _ (by omega)
    have e1 : (i + (0 + 1)) * func.dim = i * func.dim + func.dim := by ring
    rw [e1] at hf
    have hbase : (i * func.dim) % 4294967296 = i * func.dim := Nat.mod_eq_of_lt (by omega)
    have hfail := eval_direct_store_fail func
      (P.fparams_set_vector_offset m (mcat.pstats.saved_x.getD i []) mcat.nadd_vals) x
      (i * func.dim) d ws (by rw [hl]; exact hle)
    rw [← hd1] at hfail
    simp only [ci_direct_rows, peek_row_getD mcat i (by omega), hbase, hfail]
  | succ n ih =>
    intro i m ws hl ha hf hr
    have e1 : (i + (n + 1 + 1)) * func.dim = i * func.dim + func.dim + (n + 1) * func.dim := by
      ring
    have e2 : (i + 1 + (n + 1)) * func.dim = i * func.dim + func.dim + (n + 1) * func.dim := by
      ring
    rw [e1] at hf
    have hbase : (i * func.dim) % 4294967296 = i * func.dim := Nat.mod_eq_of_lt (by omega)
    by_cases hia : acat_len ≤ i
    · have hle : acat_len * func.dim ≤ i * func.dim := Nat.mul_le_mul_right _ hia
      have hfail := eval_direct_store_fail func
        (P.fparams_set_vector_offset m (mcat.pstats.saved_x.getD i []) mcat.nadd_vals) x
        (i * func.dim) d ws (by rw [hl]; exact hle)
      rw [← hd1] at hfail
      simp only [ci_direct_rows, peek_row_getD mcat i (by omega), hbase, hfail]
    · have hle : (i + 1) * func.dim ≤ acat_len * func.dim := Nat.mul_le_mul_right _ (by omega)
      have e3 : (i + 1) * func.dim = i * func.dim + func.dim := by ring
      obtain ⟨wsa, ea, la, _⟩ := eval_direct_store_spec func
        (P.fparams_set_vector_offset m (mcat.pstats.saved_x.getD i []) mcat.nadd_vals) x
        (i * func.dim) func.dim 0 ws (by rw [hl]; omega)
      have hrec := ih (i + 1)
        (P.fparams_set_vector_offset m (mcat.pstats.saved_x.getD i []) mcat.nadd_vals) wsa
        (by rw [la, hl]) (by omega) (by rw [e2]; exact hf) (by omega)
      rw [ci_direct_rows]
      simp only [peek_row_getD mcat i (by omega), hbase, ea]
      exact hrec

/-! ## The estimators: what they return and what they leave -/

theorem flatMap_pair_length {β γ : Type} (l : List β) (f g : β → γ) :
    (l.flatMap (fun p => [f p, g p])).length = 2 * l.length := by
  induction l with
  | nil => rfl
  | cons a l ih =>
    simp only [List.flatMap_cons, List.length_append, List.length_cons, List.length_nil, ih]
    omega

theorem flatMap_pair_getD {β γ : Type} (l : List β) (f g : β → γ) (d : γ) (b0 : β) :
    ∀ j, j < l.length →
      (l.flatMap (fun p => [f p, g p])).getD (2 * j) d = f (l.getD j b0) ∧
      (l.flatMap (fun p => [f p, g p])).getD (2 * j + 1) d = g (l.getD j b0) := by
  induction l with
  | nil => intro j hj; cases hj
  | cons a l ih =>
    intro j hj
    cases j with
    | zero => exact ⟨rfl, rfl⟩
    | succ j =>
      have e1 : 2 * (j + 1) = (2 * j) + 1 + 1 := by omega
      have e2 : 2 * (j + 1) + 1 = (2 * j + 1) + 1 + 1 := by omega
      obtain ⟨h1, h2⟩ := ih j (by simpa using hj)
      refine ⟨?_, ?_⟩
      · rw [e1]
        simpa [List.flatMap_cons] using h1
      · rw [e2]
        simpa [List.flatMap_cons] using h2

section EstimatorProps

variable {α : Type} [LinearOrderedField α] {M : Type}

theorem Dbl.add_add_swap (s a b : Dbl α) : s + a + b = s + b + a := by
  show Dbl.add (Dbl.add s a) b = Dbl.add (Dbl.add s b) a
  cases s <;> cases a <;> cases b <;>
    first
    | rfl
    | exact congrArg Dbl.fin (add_right_comm _ _ _)

theorem gsl_stats_mean_perm (l1 l2 : List (Dbl α)) (h : l1.Perm l2) :
    gsl_stats_mean l1 = gsl_stats_mean l2 := by
  unfold gsl_stats_mean
  rw [List.Perm.foldl_eq' h (fun x _ y _ z => Dbl.add_add_swap z x y), h.length_eq]

/-- The mean of sorted data is the mean of the data. -/
theorem gsl_stats_mean_sort (l : List (Dbl α)) : gsl_stats_mean (gsl_sort l) = gsl_stats_mean l :=
  gsl_stats_mean_perm _ _ (List.perm_insertionSort _ l)

/-- The function `ncm_mset_catalog_calc_ci_direct` without burn-in: it returns, row
`c` of the matrix being made from the sorted values of component `c` of the
function over all rows, and the last thing it does to the parameter set is to
write back the vector it saved. -/
theorem ci_direct_eq [FloorRing α] (P : NcmMSetCalls M) (mcat : NcmMSetCatalog) (mset : M)
    (func : NcmMSetFunc α M) (x : List (Dbl α)) (p_val : List (Dbl α))
    (hp : 1 < p_val.length)
    (hpv : ∀ p ∈ p_val, p.gt (.fin 0) = true ∧ p.lt (.fin 1) = true)
    (hlen : 0 < ncm_mset_catalog_len mcat)
    (hrows : ncm_mset_catalog_len mcat ≤ mcat.pstats.saved_x.length)
    (hfit : ncm_mset_catalog_len mcat * func.dim < 4294967296) :
    ∃ m1, ncm_mset_catalog_calc_ci_direct P mcat mset 0 func x p_val =
      .ok ((List.range func.dim).map (fun c =>
          calc_ci_direct_row (gsl_sort (calc_func_values P mcat mset func x 0 c)) p_val),
        P.fparams_set_vector m1 (P.fparams_get_vector mset)) := by
  have hmod : (ncm_mset_catalog_len mcat * func.dim) % 4294967296 =
      ncm_mset_catalog_len mcat * func.dim := Nat.mod_eq_of_lt hfit
  obtain ⟨m1, ws1, e, _, _, g⟩ := ci_direct_rows_spec P func mcat x (ncm_mset_catalog_len mcat) 0
    mset (List.replicate (ncm_mset_catalog_len mcat * func.dim) Dbl.nan)
    (by simp) (by simpa using hfit) (by simpa using hrows)
  refine ⟨m1, ?_⟩
  unfold ncm_mset_catalog_calc_ci_direct
  simp only [Nat.sub_zero, hmod]
  rw [if_neg (by omega), if_neg (by omega), e]
  simp only [calc_check_p_ok p_val hpv]
  congr 2
  apply List.map_congr_left
  intro c hc
  rw [List.mem_range] at hc
  congr 2
  unfold quantile_ws_strided calc_func_values
  rw [List.range_eq_range', Nat.sub_zero]
  apply List.map_congr_left
  intro k hk
  rw [List.mem_range'_1] at hk
  have hg := g k c (by omega) (by omega) hc
  rw [List.getD_eq_getElem?_getD, Nat.add_comm c, hg]
  rfl

/-- The function `ncm_mset_catalog_calc_ci_direct` with a burn-in of one row or
more, on a function of dimension 1 or more: the row loop ends in a store past
the end of the workspace. -/
theorem ci_direct_burnin_fails [FloorRing α] (P : NcmMSetCalls M) (mcat : NcmMSetCatalog)
    (mset : M) (burnin : Nat) (func : NcmMSetFunc α M) (x : List (Dbl α))
    (p_val : List (Dbl α)) (hp : 1 < p_val.length) (hb0 : 0 < burnin)
    (hb : burnin < ncm_mset_catalog_len mcat) (hd : 1 ≤ func.dim)
    (hrows : ncm_mset_catalog_len mcat ≤ mcat.pstats.saved_x.length)
    (hfit : ncm_mset_catalog_len mcat * func.dim < 4294967296) :
    ncm_mset_catalog_calc_ci_direct P mcat mset burnin func x p_val =
      .error .quantile_ws_offset := by
  obtain ⟨n, hn⟩ : ∃ n, ncm_mset_catalog_len mcat - burnin = n + 1 :=
    ⟨ncm_mset_catalog_len mcat - burnin - 1, by omega⟩
  have hle : (n + 1) * func.dim ≤ ncm_mset_catalog_len mcat * func.dim :=
    Nat.mul_le_mul_right _ (by omega)
  have hmod : ((n + 1) * func.dim) % 4294967296 = (n + 1) * func.dim :=
    Nat.mod_eq_of_lt (by omega)
  have e := ci_direct_rows_fail P func mcat x (n + 1) hd n burnin mset
    (List.replicate ((n + 1) * func.dim) Dbl.nan) (by simp) (by omega)
    (by rw [show burnin + (n + 1) = ncm_mset_catalog_len mcat by omega]; exact hfit)
    (by omega)
  unfold ncm_mset_catalog_calc_ci_direct
  simp only []
  rw [if_neg (by omega), if_neg (by omega), hn, hmod, e]

theorem ci_direct_restores [FloorRing α] (P : NcmMSetCalls M) (mcat : NcmMSetCatalog)
    (mset : M) (burnin : Nat) (func : NcmMSetFunc α M) (x : List (Dbl α))
    (p_val : List (Dbl α)) (res : NcmMatrix α) (m1 : M)
    (h : ncm_mset_catalog_calc_ci_direct P mcat mset burnin func x p_val = .ok (res, m1)) :
    ∃ m, m1 = P.fparams_set_vector m (P.fparams_get_vector mset) := by
  unfold ncm_mset_catalog_calc_ci_direct at h
  simp only [] at h
  split at h
  · cases h
  · split at h
    · cases h
    · split at h
      · cases h
      · split at h
        · cases h
        · cases h
          exact ⟨_, rfl⟩

theorem ci_interp_restores (P : NcmMSetCalls M) (E : NcmStatsDist1dEPDFCalls α)
    (mcat : NcmMSetCatalog) (mset : M) (burnin : Nat) (func : NcmMSetFunc α M)
    (x : List (Dbl α)) (p_val : List (Dbl α)) (msgs : Bool) (res : NcmMatrix α) (m1 : M)
    (h : ncm_mset_catalog_calc_ci_interp P E mcat mset burnin func x p_val msgs = .ok (res, m1)) :
    ∃ m, m1 = P.fparams_set_vector m (P.fparams_get_vector mset) := by
  unfold ncm_mset_catalog_calc_ci_interp at h
  simp only [] at h
  split at h
  · cases h
  · split at h
    · cases h
    · split at h
      · cases h
      · split at h
        · cases h
        · cases h
          exact ⟨_, rfl⟩


theorem param_distrib_restores (P : NcmMSetCalls M) (mcat : NcmMSetCatalog) (mset : M)
    (burnin : Nat) (pi : NcmMSetPIndex) (msgs : Bool) (d : List (Dbl α)) (m1 : M)
    (h : ncm_mset_catalog_calc_param_distrib P mcat mset burnin pi msgs = .ok (d, m1)) :
    m1 = P.fparams_set_vector mset (P.fparams_get_vector mset) := by
  unfold ncm_mset_catalog_calc_param_distrib at h
  simp only [] at h
  split at h
  · cases h
  · split at h
    · cases h
    · split at h
      · cases h
      · cases h
        rfl

theorem ci_interp_returns (P : NcmMSetCalls M) (E : NcmStatsDist1dEPDFCalls α)
    (mcat : NcmMSetCatalog) (mset : M) (burnin : Nat) (func : NcmMSetFunc α M)
    (x : List (Dbl α)) (p_val : List (Dbl α)) (msgs : Bool)
    (hp : 1 < p_val.length)
    (hpv : ∀ p ∈ p_val, p.gt (.fin 0) = true ∧ p.lt (.fin 1) = true)
    (h : 100 ≤ ncm_mset_catalog_len mcat) (hb : burnin < ncm_mset_catalog_len mcat)
    (hrows : ncm_mset_catalog_len mcat ≤ mcat.pstats.saved_x.length) :
    ∃ res m1, ncm_mset_catalog_calc_ci_interp P E mcat mset burnin func x p_val msgs =
      .ok (res, m1) := by
  unfold ncm_mset_catalog_calc_ci_interp
  simp only []
  rw [if_neg (by omega), if_neg (by omega)]
  obtain ⟨⟨ma, ea⟩, hs⟩ := calc_with_progress_ok mcat burnin msgs
    (fun row (s : M × List (List (Dbl α))) =>
      (P.fparams_set_vector_offset s.1 row mcat.nadd_vals,
        (List.range func.dim).map (fun j => s.2.getD j [] ++
          [func.eval (P.fparams_set_vector_offset s.1 row mcat.nadd_vals) x j])))
    (mset, List.replicate func.dim []) h hb hrows
  rw [hs]
  by_cases hd : func.dim = 0
  · simp only [hd, if_true]
    exact ⟨_, _, rfl⟩
  · simp only [hd, if_false, calc_check_p_ok p_val hpv]
    exact ⟨_, _, rfl⟩


theorem param_distrib_returns (P : NcmMSetCalls M) (mcat : NcmMSetCatalog) (mset : M)
    (burnin : Nat) (pi : NcmMSetPIndex) (msgs : Bool)
    (hfree : P.param_get_ftype mset pi.mid pi.pid = .FREE)
    (h : 100 ≤ ncm_mset_catalog_len mcat) (hb : burnin < ncm_mset_catalog_len mcat)
    (hrows : ncm_mset_catalog_len mcat ≤ mcat.pstats.saved_x.length) :
    ∃ (d : List (Dbl α)) (m1 : M),
      ncm_mset_catalog_calc_param_distrib P mcat mset burnin pi msgs = .ok (d, m1) := by
  unfold ncm_mset_catalog_calc_param_distrib
  simp only []
  rw [if_neg (by omega), if_neg (by simp [hfree])]
  obtain ⟨s1, hs⟩ := calc_with_progress_ok mcat burnin msgs
    (fun row (s : List (Dbl α)) =>
      s ++ [Dbl.ofGDouble (row.getD (mcat.nadd_vals + P.fparam_get_fpi mset pi.mid pi.pid) (.fin 0))])
    [] h hb hrows
  rw [hs]
  exact ⟨_, _, rfl⟩

end EstimatorProps

theorem distrib_restores {α : Type} {M : Type} (P : NcmMSetCalls M) (mcat : NcmMSetCatalog) (mset : M)
    (burnin : Nat) (func : NcmMSetFunc α M) (msgs : Bool) (d : List (Dbl α)) (m1 : M)
    (h : ncm_mset_catalog_calc_distrib P mcat mset burnin func msgs = .ok (d, m1)) :
    ∃ m, m1 = P.fparams_set_vector m (P.fparams_get_vector mset) := by
  unfold ncm_mset_catalog_calc_distrib at h
  simp only [] at h
  split at h
  · cases h
  · split at h
    · cases h
    · split at h
      · cases h
      · cases h
        exact ⟨_, rfl⟩

theorem distrib_returns {α : Type} {M : Type} (P : NcmMSetCalls M) (mcat : NcmMSetCatalog) (mset : M)
    (burnin : Nat) (func : NcmMSetFunc α M) (msgs : Bool) (hdim : func.dim = 1)
    (h : 100 ≤ ncm_mset_catalog_len mcat) (hb : burnin < ncm_mset_catalog_len mcat)
    (hrows : ncm_mset_catalog_len mcat ≤ mcat.pstats.saved_x.length) :
    ∃ d m1, ncm_mset_catalog_calc_distrib P mcat mset burnin func msgs = .ok (d, m1) := by
  unfold ncm_mset_catalog_calc_distrib
  simp only []
  rw [if_neg (by simp [hdim]), if_neg (by omega)]
  obtain ⟨⟨ma, ea⟩, hs⟩ := calc_with_progress_ok mcat burnin msgs
    (fun row (s : M × List (Dbl α)) =>
      (P.fparams_set_vector_offset s.1 row mcat.nadd_vals,
        s.2 ++ [ncm_mset_func_eval0 func (P.fparams_set_vector_offset s.1 row mcat.nadd_vals)]))
    (mset, []) h hb hrows
  rw [hs]
  exact ⟨_, _, rfl⟩

/-! ## Claims C22, C23, C27 and C28: the estimators -/

/-- The two p-values of the examples lie between 0 and 1. -/
theorem exPVal_ok : ∀ p ∈ [Dbl.fin (1 / 2 : ℚ), Dbl.fin (9 / 10)],
    p.gt (.fin 0) = true ∧ p.lt (.fin 1) = true := by
  intro p hp
  simp only [List.mem_cons, List.mem_singleton, List.not_mem_nil, or_false] at hp
  rcases hp with rfl | rfl <;> simp [Dbl.gt, Dbl.lt] <;> norm_num

section EstimatorClaims

variable {α : Type} [LinearOrderedField α] {M : Type}

/-- C28 (the code at the failing inputs): on a catalog of fewer than a hundred
rows the progress divisor `cat_len / 100` is zero, and the row loops of
`ncm_mset_catalog_calc_ci_interp`, `ncm_mset_catalog_calc_distrib`,
`ncm_mset_catalog_calc_param_distrib` and
`ncm_mset_catalog_calc_add_param_distrib` take the remainder by it, whatever the
message level: each of the four calls ends there. -/
theorem calc_progress_remainder_by_zero (P : NcmMSetCalls M) (E : NcmStatsDist1dEPDFCalls α)
    (mcat : NcmMSetCatalog) (mset : M) (burnin : Nat) (func : NcmMSetFunc α M)
    (x : List (Dbl α)) (p_val : List (Dbl α)) (pi : NcmMSetPIndex) (add_param : Nat)
    (msgs : Bool)
    (hlen : ncm_mset_catalog_len mcat < 100) (hb : burnin < ncm_mset_catalog_len mcat)
    (hrows : ncm_mset_catalog_len mcat ≤ mcat.pstats.saved_x.length)
    (hp : 1 < p_val.length) (hdim : func.dim = 1)
    (hfree : P.param_get_ftype mset pi.mid pi.pid = .FREE) (hadd : add_param < mcat.nadd_vals) :
    ncm_mset_catalog_len mcat / 100 = 0 ∧
    ncm_mset_catalog_calc_ci_interp P E mcat mset burnin func x p_val msgs =
      .error .calc_progress_zero ∧
    ncm_mset_catalog_calc_distrib P mcat mset burnin func msgs = .error .calc_progress_zero ∧
    (ncm_mset_catalog_calc_param_distrib P mcat mset burnin pi msgs :
      Except Fatal (List (Dbl α) × M)) = .error .calc_progress_zero ∧
    (ncm_mset_catalog_calc_add_param_distrib P mcat mset burnin add_param msgs :
      Except Fatal (List (Dbl α) × M)) = .error .calc_progress_zero := by
  refine ⟨by omega, ?_, ?_, ?_, ?_⟩
  · unfold ncm_mset_catalog_calc_ci_interp
    simp only []
    rw [if_neg (by omega), if_neg (by omega), calc_with_progress_zero _ _ _ _ _ hlen hb hrows]
  · unfold ncm_mset_catalog_calc_distrib
    simp only []
    rw [if_neg (by simp [hdim]), if_neg (by omega),
      calc_with_progress_zero _ _ _ _ _ hlen hb hrows]
  · unfold ncm_mset_catalog_calc_param_distrib
    simp only []
    rw [if_neg (by omega), if_neg (by simp [hfree]),
      calc_with_progress_zero _ _ _ _ _ hlen hb hrows]
  · unfold ncm_mset_catalog_calc_add_param_distrib
    simp only []
    rw [if_neg (by omega), if_neg (by omega), calc_with_progress_zero _ _ _ _ _ hlen hb hrows]

/-- C27 (the code at the failing inputs): with a burn-in of one row or more and a
function of dimension 1 or more, the value of the last row is stored from entry
`(cat_len - 1) * dim` on, which is not below the size `(cat_len - burnin) * dim`
of the workspace, and `ncm_mset_catalog_calc_ci_direct` ends in a store past the
end of the workspace. -/
theorem ci_direct_store_past_workspace [FloorRing α] (P : NcmMSetCalls M)
    (mcat : NcmMSetCatalog) (mset : M) (burnin : Nat) (func : NcmMSetFunc α M)
    (x : List (Dbl α)) (p_val : List (Dbl α)) (hp : 1 < p_val.length) (hb0 : 0 < burnin)
    (hb : burnin < ncm_mset_catalog_len mcat) (hd : 1 ≤ func.dim)
    (hrows : ncm_mset_catalog_len mcat ≤ mcat.pstats.saved_x.length)
    (hfit : ncm_mset_catalog_len mcat * func.dim < 4294967296) :
    (ncm_mset_catalog_len mcat - burnin) * func.dim ≤
      (ncm_mset_catalog_len mcat - 1) * func.dim ∧
    ncm_mset_catalog_calc_ci_direct P mcat mset burnin func x p_val =
      .error .quantile_ws_offset :=
  ⟨Nat.mul_le_mul_right _ (by omega),
    ci_direct_burnin_fails P mcat mset burnin func x p_val hp hb0 hb hd hrows hfit⟩

/-- C23 (amended): for every list `p_val` of two or more probabilities in (0, 1),
without burn-in, on a catalog of one row or more (all rows in the buffer, and
`cat_len * dim` a `guint`), `ncm_mset_catalog_calc_ci_direct` returns a matrix
with one row per function component and `2 * len (p_val) + 1` columns, in which
column 0 is the mean of the function over the rows and, for the `j`-th p-value
`p`, the columns `1 + 2 j` and `2 + 2 j` are the quantiles of those values at the
probabilities `(1 - p) / 2` and `(1 + p) / 2`, the lower bound first. -/
theorem ci_direct_matrix [FloorRing α] (P : NcmMSetCalls M) (mcat : NcmMSetCatalog) (mset : M)
    (func : NcmMSetFunc α M) (x : List (Dbl α)) (p_val : List (Dbl α))
    (hp : 2 ≤ p_val.length)
    (hpv : ∀ p ∈ p_val, p.gt (.fin 0) = true ∧ p.lt (.fin 1) = true)
    (hlen : 0 < ncm_mset_catalog_len mcat)
    (hrows : ncm_mset_catalog_len mcat ≤ mcat.pstats.saved_x.length)
    (hfit : ncm_mset_catalog_len mcat * func.dim < 4294967296) :
    ∃ res m1, ncm_mset_catalog_calc_ci_direct P mcat mset 0 func x p_val = .ok (res, m1) ∧
      res.length = func.dim ∧
      ∀ c, c < func.dim →
        (res.getD c []).length = 2 * p_val.length + 1 ∧
        ncm_matrix_get res c 0 = gsl_stats_mean (calc_func_values P mcat mset func x 0 c) ∧
        ∀ j, j < p_val.length →
          ncm_matrix_get res c (1 + 2 * j) =
            gsl_stats_quantile_from_sorted_data
              (gsl_sort (calc_func_values P mcat mset func x 0 c))
              ((Dbl.fin 1 - p_val.getD j .nan) / Dbl.fin 2) ∧
          ncm_matrix_get res c (2 + 2 * j) =
            gsl_stats_quantile_from_sorted_data
              (gsl_sort (calc_func_values P mcat mset func x 0 c))
              ((Dbl.fin 1 + p_val.getD j .nan) / Dbl.fin 2) := by
  obtain ⟨m1, e⟩ := ci_direct_eq P mcat mset func x p_val (by omega) hpv hlen hrows hfit
  refine ⟨_, _, e, by simp, ?_⟩
  intro c hc
  have hrow : ((List.range func.dim).map (fun c =>
      calc_ci_direct_row (gsl_sort (calc_func_values P mcat mset func x 0 c)) p_val)).getD c [] =
      calc_ci_direct_row (gsl_sort (calc_func_values P mcat mset func x 0 c)) p_val := by
    simp [List.getD_eq_getElem?_getD, hc]
  unfold ncm_matrix_get
  rw [hrow]
  unfold calc_ci_direct_row
  refine ⟨?_, ?_, ?_⟩
  · rw [List.length_cons, flatMap_pair_length]
  · rw [List.getD_cons_zero, gsl_stats_mean_sort]
  · intro j hj
    obtain ⟨h1, h2⟩ := flatMap_pair_getD p_val
      (fun p => gsl_stats_quantile_from_sorted_data
        (gsl_sort (calc_func_values P mcat mset func x 0 c)) ((Dbl.fin 1 - p) / Dbl.fin 2))
      (fun p => gsl_stats_quantile_from_sorted_data
        (gsl_sort (calc_func_values P mcat mset func x 0 c)) ((Dbl.fin 1 + p) / Dbl.fin 2))
      Dbl.nan Dbl.nan j hj
    have e1 : 1 + 2 * j = 2 * j + 1 := by omega
    have e2 : 2 + 2 * j = (2 * j + 1) + 1 := by omega
    rw [e1, e2, List.getD_cons_succ, List.getD_cons_succ]
    exact ⟨h1, h2⟩

/-- C22: whatever the catalog, the burn-in, the function and the message level,
when `ncm_mset_catalog_calc_ci_direct`, `ncm_mset_catalog_calc_ci_interp`,
`ncm_mset_catalog_calc_distrib` or `ncm_mset_catalog_calc_param_distrib`
returns, the free-parameter vector of the parameter set is what it was before
the call; the parameter set is one that gives back the vector it had at the call
when this vector is written to it.  Each of the four calls does return when its
assertions hold, all rows counted are in the buffer and its row loop completes:
without burn-in for the first, on a hundred rows or more for the other three. -/
theorem calc_restores_fparams [FloorRing α] (P : NcmMSetCalls M)
    (E : NcmStatsDist1dEPDFCalls α) (mcat : NcmMSetCatalog) (mset : M) (burnin : Nat)
    (func : NcmMSetFunc α M) (x : List (Dbl α)) (p_val : List (Dbl α)) (pi : NcmMSetPIndex)
    (msgs : Bool)
    (hrestore : ∀ m, P.fparams_get_vector (P.fparams_set_vector m (P.fparams_get_vector mset)) =
      P.fparams_get_vector mset) :
    ((∀ res m1, ncm_mset_catalog_calc_ci_direct P mcat mset burnin func x p_val = .ok (res, m1) →
        P.fparams_get_vector m1 = P.fparams_get_vector mset) ∧
      (∀ res m1,
        ncm_mset_catalog_calc_ci_interp P E mcat mset burnin func x p_val msgs = .ok (res, m1) →
        P.fparams_get_vector m1 = P.fparams_get_vector mset) ∧
      (∀ d m1, ncm_mset_catalog_calc_distrib P mcat mset burnin func msgs = .ok (d, m1) →
        P.fparams_get_vector m1 = P.fparams_get_vector mset) ∧
      (∀ (d : List (Dbl α)) m1,
        ncm_mset_catalog_calc_param_distrib P mcat mset burnin pi msgs = .ok (d, m1) →
        P.fparams_get_vector m1 = P.fparams_get_vector mset)) ∧
    (burnin < ncm_mset_catalog_len mcat →
      ncm_mset_catalog_len mcat ≤ mcat.pstats.saved_x.length →
      ((burnin = 0 → 1 < p_val.length →
          (∀ p ∈ p_val, p.gt (.fin 0) = true ∧ p.lt (.fin 1) = true) →
          ncm_mset_catalog_len mcat * func.dim < 4294967296 →
          ∃ res m1,
            ncm_mset_catalog_calc_ci_direct P mcat mset burnin func x p_val = .ok (res, m1)) ∧
        (100 ≤ ncm_mset_catalog_len mcat → 1 < p_val.length →
          (∀ p ∈ p_val, p.gt (.fin 0) = true ∧ p.lt (.fin 1) = true) →
          ∃ res m1, ncm_mset_catalog_calc_ci_interp P E mcat mset burnin func x p_val msgs =
            .ok (res, m1)) ∧
        (100 ≤ ncm_mset_catalog_len mcat → func.dim = 1 →
          ∃ d m1, ncm_mset_catalog_calc_distrib P mcat mset burnin func msgs = .ok (d, m1)) ∧
        (100 ≤ ncm_mset_catalog_len mcat → P.param_get_ftype mset pi.mid pi.pid = .FREE →
          ∃ (d : List (Dbl α)) (m1 : M),
            ncm_mset_catalog_calc_param_distrib P mcat mset burnin pi msgs = .ok (d, m1)))) := by
  refine ⟨⟨?_, ?_, ?_, ?_⟩, ?_⟩
  · intro res m1 h
    obtain ⟨m, e⟩ := ci_direct_restores P mcat mset burnin func x p_val res m1 h
    rw [e]
    exact hrestore m
  · intro res m1 h
    obtain ⟨m, e⟩ := ci_interp_restores P E mcat mset burnin func x p_val msgs res m1 h
    rw [e]
    exact hrestore m
  · intro d m1 h
    obtain ⟨m, e⟩ := distrib_restores P mcat mset burnin func msgs d m1 h
    rw [e]
    exact hrestore m
  · intro d m1 h
    rw [param_distrib_restores P mcat mset burnin pi msgs d m1 h]
    exact hrestore mset
  · intro hb hrows
    refine ⟨?_, ?_, ?_, ?_⟩
    · intro h0 hp hpv hfit
      subst h0
      obtain ⟨m1, e⟩ := ci_direct_eq P mcat mset func x p_val hp hpv hb hrows hfit
      exact ⟨_, _, e⟩
    · intro h100 hp hpv
      exact ci_interp_returns P E mcat mset burnin func x p_val msgs hp hpv h100 hb hrows
    · intro h100 hdim
      exact distrib_returns P mcat mset burnin func msgs hdim h100 hb hrows
    · intro h100 hfree
      exact param_distrib_returns P mcat mset burnin pi msgs hfree h100 hb hrows

end EstimatorClaims

theorem calc_progress_remainder_by_zero_witness :
    ncm_mset_catalog_len exFourRows = 4 ∧ 4 / 100 = 0 ∧
    ncm_mset_catalog_calc_ci_interp exMSetCalls (exEPDFCalls : NcmStatsDist1dEPDFCalls ℚ)
      exFourRows [.fin 5] 1 exFunc [] [.fin (1 / 2), .fin (9 / 10)] false =
      .error .calc_progress_zero ∧
    ncm_mset_catalog_calc_distrib exMSetCalls exFourRows [.fin 5] 1
      (exFunc : NcmMSetFunc ℚ NcmVector) false = .error .calc_progress_zero ∧
    (ncm_mset_catalog_calc_param_distrib exMSetCalls exFourRows [.fin 5] 1 ⟨0, 0⟩ false :
      Except Fatal (List (Dbl ℚ) × NcmVector)) = .error .calc_progress_zero ∧
    (ncm_mset_catalog_calc_add_param_distrib exMSetCalls exFourRows [.fin 5] 1 0 false :
      Except Fatal (List (Dbl ℚ) × NcmVector)) = .error .calc_progress_zero :=
  ⟨by decide, by decide,
    (calc_progress_remainder_by_zero exMSetCalls exEPDFCalls exFourRows [.fin 5] 1 exFunc []
      [.fin (1 / 2), .fin (9 / 10)] ⟨0, 0⟩ 0 false (by decide) (by decide) (by decide)
      (by decide) rfl rfl (by decide)).2⟩

theorem ci_direct_store_past_workspace_witness :
    ncm_mset_catalog_len exFourRows = 4 ∧ (exFunc : NcmMSetFunc ℚ NcmVector).dim = 1 ∧
    (4 - 1) * 1 ≤ (4 - 1) * 1 ∧
    ncm_mset_catalog_calc_ci_direct exMSetCalls exFourRows [.fin 5] 1
      (exFunc : NcmMSetFunc ℚ NcmVector) [] [.fin (1 / 2), .fin (9 / 10)] =
      .error .quantile_ws_offset :=
  ⟨by decide, rfl, by decide,
    (ci_direct_store_past_workspace exMSetCalls exFourRows [.fin 5] 1 exFunc []
      [.fin (1 / 2), .fin (9 / 10)] (by decide) (by decide) (by decide) (by decide)
      (by decide) (by decide)).2⟩

/-- C23 (counterexample): a list of one p-value, which lies in (0, 1), and no
burn-in, on a catalog of four rows: `ncm_mset_catalog_calc_ci_direct` ends in
its assertion `g_assert_cmpuint (p_val->len, >, 1)`. -/
theorem ci_direct_single_p_counterexample :
    ([Dbl.fin (1 / 2 : ℚ)] ≠ []) ∧
    ((Dbl.fin (1 / 2 : ℚ)).gt (.fin 0) = true ∧ (Dbl.fin (1 / 2 : ℚ)).lt (.fin 1) = true) ∧
    0 < ncm_mset_catalog_len exFourRows ∧
    ncm_mset_catalog_calc_ci_direct exMSetCalls exFourRows [.fin 5] 0
      (exFunc : NcmMSetFunc ℚ NcmVector) [] [.fin (1 / 2)] = .error .calc_p_val_len :=
  ⟨by simp, (exPVal_ok _ (List.mem_cons_self _ _)), by decide, rfl⟩

theorem ci_direct_matrix_witness :
    ∃ res m1, ncm_mset_catalog_calc_ci_direct exMSetCalls exFourRows [.fin 5] 0
        (exFunc : NcmMSetFunc ℚ NcmVector) [] [.fin (1 / 2), .fin (9 / 10)] = .ok (res, m1) ∧
      res.length = (exFunc : NcmMSetFunc ℚ NcmVector).dim ∧
      ∀ c, c < (exFunc : NcmMSetFunc ℚ NcmVector).dim →
        (res.getD c []).length = 2 * [Dbl.fin (1 / 2 : ℚ), .fin (9 / 10)].length + 1 ∧
        ncm_matrix_get res c 0 =
          gsl_stats_mean (calc_func_values exMSetCalls exFourRows [.fin 5] exFunc [] 0 c) ∧
        ∀ j, j < [Dbl.fin (1 / 2 : ℚ), .fin (9 / 10)].length →
          ncm_matrix_get res c (1 + 2 * j) =
            gsl_stats_quantile_from_sorted_data
              (gsl_sort (calc_func_values exMSetCalls exFourRows [.fin 5] exFunc [] 0 c))
              ((Dbl.fin 1 - [Dbl.fin (1 / 2 : ℚ), .fin (9 / 10)].getD j .nan) / Dbl.fin 2) ∧
          ncm_matrix_get res c (2 + 2 * j) =
            gsl_stats_quantile_from_sorted_data
              (gsl_sort (calc_func_values exMSetCalls exFourRows [.fin 5] exFunc [] 0 c))
              ((Dbl.fin 1 + [Dbl.fin (1 / 2 : ℚ), .fin (9 / 10)].getD j .nan) / Dbl.fin 2) :=
  ci_direct_matrix exMSetCalls exFourRows [.fin 5] exFunc [] [.fin (1 / 2), .fin (9 / 10)]
    (by decide) exPVal_ok (by decide) (by decide) (by decide)

theorem calc_restores_fparams_witness :
    (∀ m, exMSetCalls.fparams_get_vector
        (exMSetCalls.fparams_set_vector m (exMSetCalls.fparams_get_vector [.fin 5])) =
      exMSetCalls.fparams_get_vector [.fin 5]) ∧
    (∃ res m1, ncm_mset_catalog_calc_ci_direct exMSetCalls exHundredRows [.fin 5] 0
        (exFunc : NcmMSetFunc ℚ NcmVector) [] [.fin (1 / 2), .fin (9 / 10)] = .ok (res, m1) ∧
      exMSetCalls.fparams_get_vector m1 = [.fin 5]) ∧
    (∃ res m1, ncm_mset_catalog_calc_ci_interp exMSetCalls
        (exEPDFCalls : NcmStatsDist1dEPDFCalls ℚ) exHundredRows [.fin 5] 0 exFunc []
        [.fin (1 / 2), .fin (9 / 10)] true = .ok (res, m1) ∧
      exMSetCalls.fparams_get_vector m1 = [.fin 5]) ∧
    (∃ d m1, ncm_mset_catalog_calc_distrib exMSetCalls exHundredRows [.fin 5] 0
        (exFunc : NcmMSetFunc ℚ NcmVector) true = .ok (d, m1) ∧
      exMSetCalls.fparams_get_vector m1 = [.fin 5]) ∧
    (∃ (d : List (Dbl ℚ)) (m1 : NcmVector), ncm_mset_catalog_calc_param_distrib exMSetCalls
        exHundredRows [.fin 5] 0 ⟨0, 0⟩ true = .ok (d, m1) ∧
      exMSetCalls.fparams_get_vector m1 = [.fin 5]) := by
  obtain ⟨⟨T1, T2, T3, T4⟩, R⟩ := calc_restores_fparams exMSetCalls
    (exEPDFCalls : NcmStatsDist1dEPDFCalls ℚ) exHundredRows [.fin 5] 0 exFunc []
    [.fin (1 / 2), .fin (9 / 10)] ⟨0, 0⟩ true (fun _ => rfl)
  obtain ⟨R1, R2, R3, R4⟩ := R (by decide) (by decide)
  obtain ⟨r1, m1, h1⟩ := R1 rfl (by decide) exPVal_ok (by decide)
  obtain ⟨r2, m2, h2⟩ := R2 (by decide) (by decide) exPVal_ok
  obtain ⟨r3, m3, h3⟩ := R3 (by decide) rfl
  obtain ⟨r4, m4, h4⟩ := R4 (by decide) rfl
  exact ⟨fun _ => rfl, ⟨_, _, h1, T1 _ _ h1⟩, ⟨_, _, h2, T2 _ _ h2⟩,
    ⟨_, _, h3, T3 _ _ h3⟩, ⟨_, _, h4, T4 _ _ h4⟩⟩

/-! ## Claim C21: the check before an evaluation -/

section PrepareCheck

variable {α : Type} [LinearOrderedField α]

theorem prepare_if_needed_prepared_for (N : NcDistanceNumerics α) (dist : NcDistance α)
    (cosmo : NcHICosmo α) :
    (nc_distance_prepare_if_needed N dist cosmo).prepared_for = some cosmo.pkey := by
  unfold nc_distance_prepare_if_needed
  cases hp : dist.prepared with
  | none => rfl
  | some p =>
    obtain ⟨key, s⟩ := p
    simp only []
    by_cases hk : key = cosmo.pkey
    · rw [if_pos hk]
      unfold NcDistance.prepared_for
      rw [hp, hk]
      rfl
    · rw [if_neg hk]
      rfl

/-- The comoving distance runs the check: it leaves the object prepared for the
cosmology it was asked about. -/
theorem comoving_prepared_for (N : NcDistanceNumerics α) (dist : NcDistance α)
    (cosmo : NcHICosmo α) (z : Dbl α) :
    (nc_distance_comoving N dist cosmo z).2.prepared_for = some cosmo.pkey := by
  have h := prepare_if_needed_prepared_for N dist cosmo
  unfold nc_distance_comoving
  simp only []
  split
  · exact h
  · split
    · split
      · rename_i hs
        unfold NcDistance.prepared_for at h ⊢
        simp only [hs] at h ⊢
        exact h
      · exact h
    · split
      · exact h
      · exact h

/-- The sound horizon and the three time functions leave the object as prepared
as it was: none of them runs the check. -/
theorem evaluators_keep_prepared (N : NcDistanceNumerics α) (T : NcDistanceTimeNumerics α)
    (dist : NcDistance α) (cosmo : NcHICosmo α) (z : Dbl α) :
    (∀ r d1, nc_distance_sound_horizon N dist cosmo z = .ok (r, d1) →
      d1.prepared_for = dist.prepared_for) ∧
    (nc_distance_cosmic_time N dist cosmo z).2.prepared_for = dist.prepared_for ∧
    (nc_distance_lookback_time N dist cosmo z).2.prepared_for = dist.prepared_for ∧
    (nc_distance_conformal_time N T dist cosmo z).2.prepared_for = dist.prepared_for := by
  refine ⟨?_, ?_, ?_, ?_⟩
  · intro r d1 h
    unfold nc_distance_sound_horizon at h
    split at h
    · cases h
    · split at h <;> (cases h; rfl)
  · unfold nc_distance_cosmic_time
    split <;> rfl
  · unfold nc_distance_lookback_time
    split <;> rfl
  · unfold nc_distance_conformal_time
    split <;> rfl

end PrepareCheck

/-- C21 (the code at the failing input): a distance object with caching on was
prepared for a cosmology of stamp 1 and is asked about the cosmology with
changed parameters, of stamp 2.  `nc_distance_sound_horizon`,
`nc_distance_cosmic_time`, `nc_distance_lookback_time` and
`nc_distance_conformal_time` go to their caches and leave the object prepared
for stamp 1, with no call of `nc_distance_prepare` made; `nc_distance_comoving`
runs the check, prepares the object anew and leaves it prepared for stamp 2. -/
theorem evaluators_skip_prepare_check :
    (exStaleDist (Libm.mk Real.sqrt Real.sin Real.sinh (Real.logb 10) Real.pi)).prepared_for
      = some 1 ∧
    (exStaleDist (Libm.mk Real.sqrt Real.sin Real.sinh (Real.logb 10) Real.pi)).use_cache
      = true ∧
    (exChangedCosmo : NcHICosmo ℝ).pkey = 2 ∧
    (∃ r d1, nc_distance_sound_horizon
        (exNumerics (Libm.mk Real.sqrt Real.sin Real.sinh (Real.logb 10) Real.pi))
        (exStaleDist (Libm.mk Real.sqrt Real.sin Real.sinh (Real.logb 10) Real.pi))
        exChangedCosmo (.fin 1) = .ok (r, d1) ∧
      d1.prepared_for = some 1 ∧
      d1.calls = [.ode_spline_prepare, .sound_horizon_cached_x_inf]) ∧
    ((nc_distance_cosmic_time
        (exNumerics (Libm.mk Real.sqrt Real.sin Real.sinh (Real.logb 10) Real.pi))
        (exStaleDist (Libm.mk Real.sqrt Real.sin Real.sinh (Real.logb 10) Real.pi))
        exChangedCosmo (.fin 1)).2.prepared_for = some 1 ∧
      (nc_distance_cosmic_time
        (exNumerics (Libm.mk Real.sqrt Real.sin Real.sinh (Real.logb 10) Real.pi))
        (exStaleDist (Libm.mk Real.sqrt Real.sin Real.sinh (Real.logb 10) Real.pi))
        exChangedCosmo (.fin 1)).2.calls = [.ode_spline_prepare, .time_cached_x_inf]) ∧
    ((nc_distance_lookback_time
        (exNumerics (Libm.mk Real.sqrt Real.sin Real.sinh (Real.logb 10) Real.pi))
        (exStaleDist (Libm.mk Real.sqrt Real.sin Real.sinh (Real.logb 10) Real.pi))
        exChangedCosmo (.fin 1)).2.prepared_for = some 1 ∧
      (nc_distance_lookback_time
        (exNumerics (Libm.mk Real.sqrt Real.sin Real.sinh (Real.logb 10) Real.pi))
        (exStaleDist (Libm.mk Real.sqrt Real.sin Real.sinh (Real.logb 10) Real.pi))
        exChangedCosmo (.fin 1)).2.calls = [.ode_spline_prepare, .lookback_time_cached_0_x]) ∧
    ((nc_distance_conformal_time
        (exNumerics (Libm.mk Real.sqrt Real.sin Real.sinh (Real.logb 10) Real.pi)) exTimeNumerics
        (exStaleDist (Libm.mk Real.sqrt Real.sin Real.sinh (Real.logb 10) Real.pi))
        exChangedCosmo (.fin 1)).2.prepared_for = some 1 ∧
      (nc_distance_conformal_time
        (exNumerics (Libm.mk Real.sqrt Real.sin Real.sinh (Real.logb 10) Real.pi)) exTimeNumerics
        (exStaleDist (Libm.mk Real.sqrt Real.sin Real.sinh (Real.logb 10) Real.pi))
        exChangedCosmo (.fin 1)).2.calls =
          [.ode_spline_prepare, .conformal_time_cached_x_inf]) ∧
    ((nc_distance_comoving
        (exNumerics (Libm.mk Real.sqrt Real.sin Real.sinh (Real.logb 10) Real.pi))
        (exStaleDist (Libm.mk Real.sqrt Real.sin Real.sinh (Real.logb 10) Real.pi))
        exChangedCosmo (.fin 1)).2.prepared_for = some 2 ∧
      (nc_distance_comoving
        (exNumerics (Libm.mk Real.sqrt Real.sin Real.sinh (Real.logb 10) Real.pi))
        (exStaleDist (Libm.mk Real.sqrt Real.sin Real.sinh (Real.logb 10) Real.pi))
        exChangedCosmo (.fin 1)).2.calls = [.ode_spline_prepare, .ode_spline_prepare]) :=
  ⟨rfl, rfl, rfl, ⟨_, _, rfl, rfl, rfl⟩, ⟨rfl, rfl⟩, ⟨rfl, rfl⟩, ⟨rfl, rfl⟩, ⟨rfl, rfl⟩⟩

end NumCosmo
